import Mathlib

/-!
# bmalloc: the heap and the per-thread deallocator

A shallow embedding of `Source/bmalloc/bmalloc/Heap.cpp` and
`Source/bmalloc/bmalloc/Deallocator.cpp`.

Addresses and `size_t` values are natural numbers below `wordSize`; the
arithmetic of the extra-large and large paths on them is the wrapping
arithmetic of the machine word (`wadd`, `wsub`), and object counts of type
`unsigned short` wrap at `shortSize`.  Helpers, constants and records that the
two files use but that are declared in other headers of bmalloc
(`Algorithm.h`, `Sizes.h`, `Range.h`, `XLargeRange.h`, `XLargeMap.h`,
`LargeObject.h`, `SmallPage.h`, `BumpAllocator.h`, `List.h`, `VMAllocate.h`,
`FixedVector.h`, `Deallocator.h`) are parameters of the embedded functions or
are modelled from the specification, and say so in their doc comment.
-/

set_option autoImplicit false

namespace bmalloc

/-! ## Machine words -/

/-- Number of values of a `size_t` / `uintptr_t` (64-bit target). -/
def wordSize : Nat := 2 ^ 64

/-- Wrapping addition of two machine words. -/
def wadd (a b : Nat) : Nat := (a + b) % wordSize

/-- Wrapping subtraction of two machine words: `a - b` on `size_t`. -/
def wsub (a b : Nat) : Nat := (a % wordSize + (wordSize - b % wordSize)) % wordSize

/-- Modelled from the spec: `test(value, mask)` of `Algorithm.h` (not among the
sources), which tells whether `value` has a bit of `mask` set; the heap calls
it with `mask = alignment - 1` to ask whether an address is misaligned. -/
def test (value mask : Nat) : Bool := (value &&& mask) != 0

/-- Modelled from the spec: `roundUpToMultipleOf(divisor, x)` of `Algorithm.h`
(not among the sources): `x` rounded up to the next multiple of the power of
two `divisor`, computed in machine words (the sum `x + (divisor - 1)` wraps). -/
def roundUpToMultipleOf (divisor x : Nat) : Nat :=
  ((x + (divisor - 1)) % wordSize) / divisor * divisor

/-! ## Extra-large ranges -/

/-- Modelled from the spec: `VMState` as carried by an `XLargeRange`, which is
`Virtual` (reserved address space only) or `Physical` (committed pages). -/
inductive VMState where
  | Virtual
  | Physical
  deriving DecidableEq, Repr

/-- The query `VMState::hasVirtual()`. -/
def VMState.hasVirtual : VMState → Bool
  | .Virtual => true
  | .Physical => false

/-- Modelled from the spec: `XLargeRange`, the triple `(begin, size, vmState)`. -/
structure XLargeRange where
  begin : Nat
  size : Nat
  vmState : VMState
  deriving DecidableEq, Repr

namespace XLargeRange

/-- The default-constructed (null) range `XLargeRange()`. -/
def null : XLargeRange := ⟨0, 0, .Virtual⟩

/-- The conversion `operator bool` of a range: it is non-empty. -/
def toBool (r : XLargeRange) : Bool := r.size != 0

/-- One past the last byte of the range. -/
def «end» (r : XLargeRange) : Nat := wadd r.begin r.size

/-- Modelled from the spec: `XLargeRange::split(size)`, the left part of
`size` bytes and the right part holding the rest, both in the VM state of the
whole. -/
def split (r : XLargeRange) (size : Nat) : XLargeRange × XLargeRange :=
  let left : XLargeRange := ⟨r.begin, size, r.vmState⟩
  let right : XLargeRange := ⟨left.end, wsub r.size size, r.vmState⟩
  (left, right)

/-- The effect of `setVMState`. -/
def setVMState (r : XLargeRange) (s : VMState) : XLargeRange := ⟨r.begin, r.size, s⟩

end XLargeRange

/-- One call `m_xLargeMap.addAllocated(prev, allocated, next)`. -/
structure AddAllocated where
  prev : XLargeRange
  allocated : XLargeRange × XLargeRange
  next : XLargeRange
  deriving DecidableEq, Repr

/-- The part of the `Heap` that the extra-large path reads and writes.  The
`XLargeMap` and the VM primitives are outside the sources; the heap records
the calls it makes on them, oldest first. -/
structure XLargeHeap where
  m_vmPageSizePhysical : Nat
  m_isAllocatingPages : Bool
  /-- Calls of `m_xLargeMap.addAllocated`. -/
  addAllocatedCalls : List AddAllocated
  /-- Calls of `vmAllocatePhysicalPagesSloppy(begin, size)`. -/
  commitCalls : List (Nat × Nat)
  /-- Number of calls of `m_scavenger.run()`. -/
  scavengerRuns : Nat
  deriving DecidableEq, Repr

/-- `Heap::splitAndAllocate(XLargeRange&, size_t alignment, size_t size)`.
`xLargeAlignment` is the constant of `Sizes.h`.  Returns the allocated range
and the heap after the call. -/
def splitAndAllocateXLarge (xLargeAlignment : Nat) (h : XLargeHeap)
    (range : XLargeRange) (alignment size : Nat) : XLargeRange × XLargeHeap :=
  let alignmentMask := wsub alignment 1
  let pair :=
    if test range.begin alignmentMask then
      let prefixSize := wsub (roundUpToMultipleOf alignment range.begin) range.begin
      range.split prefixSize
    else (XLargeRange.null, range)
  let prev := pair.1
  let range := pair.2
  let pair :=
    if wsub range.size size ≥ xLargeAlignment then
      let alignedSize := roundUpToMultipleOf xLargeAlignment size
      range.split alignedSize
    else (range, XLargeRange.null)
  let range := pair.1
  let next := pair.2
  let allocated := range.split (roundUpToMultipleOf h.m_vmPageSizePhysical size)
  let committed :=
    if allocated.1.vmState.hasVirtual then
      (allocated.1.setVMState .Physical,
        { h with commitCalls := h.commitCalls ++ [(allocated.1.begin, allocated.1.size)] })
    else (allocated.1, h)
  let allocated := (committed.1, allocated.2)
  let h := committed.2
  (allocated.1,
    { h with addAllocatedCalls := h.addAllocatedCalls ++ [⟨prev, allocated, next⟩] })

/-- `Heap::tryAllocateXLarge(lock, alignment, size)`.  `takeFree` is the answer
of `m_xLargeMap.takeFree` and `tryVMAllocate` the answer of the VM primitive,
both as functions of their arguments; the null pointer is `0`. -/
def tryAllocateXLarge (xLargeAlignment : Nat) (takeFree : Nat → Nat → XLargeRange)
    (tryVMAllocate : Nat → Nat → Nat) (h : XLargeHeap) (alignment size : Nat) :
    Nat × XLargeHeap :=
  let h := { h with m_isAllocatingPages := true }
  let size := max h.m_vmPageSizePhysical size
  let alignment := roundUpToMultipleOf xLargeAlignment alignment
  let range := takeFree alignment size
  if range.toBool then
    let r := splitAndAllocateXLarge xLargeAlignment h range alignment size
    (r.1.begin, r.2)
  else
    let alignedSize := roundUpToMultipleOf xLargeAlignment size
    let begin := tryVMAllocate alignment alignedSize
    if begin = 0 then (0, h)
    else
      let range : XLargeRange := ⟨begin, alignedSize, .Virtual⟩
      let r := splitAndAllocateXLarge xLargeAlignment h range alignment size
      (r.1.begin, r.2)

/-- `Heap::allocateXLarge(lock, alignment, size)`: the result of
`tryAllocateXLarge`, or no result when `RELEASE_BASSERT(result)` aborts. -/
def allocateXLarge (xLargeAlignment : Nat) (takeFree : Nat → Nat → XLargeRange)
    (tryVMAllocate : Nat → Nat → Nat) (h : XLargeHeap) (alignment size : Nat) :
    Option (Nat × XLargeHeap) :=
  let result := tryAllocateXLarge xLargeAlignment takeFree tryVMAllocate h alignment size
  if result.1 = 0 then none else some result

/-- `Heap::shrinkXLarge(lock, object, newSize)`, with the object given by its
begin and size.  `takeAllocated` is the answer of `m_xLargeMap.takeAllocated`
as a function of its argument.  Returns the heap after the call and the
arguments of the calls of `takeAllocated`, oldest first.  The debug assertion
`BASSERT(object.size() > newSize)` is compiled out. -/
def shrinkXLarge (xLargeAlignment : Nat) (takeAllocated : Nat → XLargeRange) (h : XLargeHeap)
    (objectBegin objectSize newSize : Nat) : XLargeHeap × List Nat :=
  if wsub objectSize newSize < h.m_vmPageSizePhysical then (h, [])
  else
    let range := takeAllocated objectBegin
    let r := splitAndAllocateXLarge xLargeAlignment h range xLargeAlignment newSize
    ({ r.2 with scavengerRuns := r.2.scavengerRuns + 1 }, [objectBegin])

/-! ## Constants, records and the heap -/

/-- The constants of `Sizes.h` (not among the sources) that the heap uses. -/
structure Sizes where
  smallLineSize : Nat
  smallPageSize : Nat
  largeAlignment : Nat
  largeMin : Nat
  largeMax : Nat
  chunkSize : Nat
  xLargeAlignment : Nat
  xLargeMax : Nat
  sizeClassCount : Nat
  /-- The function `objectSize(sizeClass)`. -/
  objectSize : Nat → Nat

/-- The tag `ObjectType` of a page. -/
inductive ObjectType where
  | Small
  | Large
  deriving DecidableEq, Repr

/-- Modelled from the spec: `LargeObject`, a free or allocated mid-size range
identified by its begin address and size, with its free flag and VM state. -/
structure LargeObject where
  begin : Nat
  size : Nat
  isFree : Bool
  vmState : VMState
  deriving DecidableEq, Repr

namespace LargeObject

/-- The default-constructed (null) object `LargeObject()`. -/
def null : LargeObject := ⟨0, 0, false, .Virtual⟩

/-- The conversion `operator bool`: the object is not the null object. -/
def toBool (o : LargeObject) : Bool := o.begin != 0

/-- Modelled from the spec: `LargeObject::split(size)`, the first `size` bytes
and the leftover, each with the flags of the whole. -/
def split (o : LargeObject) (size : Nat) : LargeObject × LargeObject :=
  (⟨o.begin, size, o.isFree, o.vmState⟩,
    ⟨wadd o.begin size, wsub o.size size, o.isFree, o.vmState⟩)

/-- The effect of `setFree`. -/
def setFree (o : LargeObject) (b : Bool) : LargeObject := { o with isFree := b }

/-- The effect of `setVMState`. -/
def setVMState (o : LargeObject) (s : VMState) : LargeObject := { o with vmState := s }

end LargeObject

/-- Modelled from the spec: the per-page record `SmallPage`. -/
structure SmallPage where
  refCount : Nat
  sizeClass : Nat
  objectType : ObjectType
  hasFreeLines : Bool
  smallPageCount : Nat
  slide : Nat
  deriving DecidableEq, Repr

/-- An entry `(startOffset, objectCount)` of the line metadata table. -/
structure LineMetadata where
  startOffset : Nat
  objectCount : Nat
  deriving DecidableEq, Repr

/-- The `Heap` without its extra-large map.  Page records are keyed by the
address of the page they describe and line reference counts by the address of
the line; the intrusive lists hold page addresses.  Calls on the VM primitives
and on the scavenger are recorded. -/
structure Heap where
  m_vmPageSizePhysical : Nat
  /-- The table `m_smallLineMetadata`, `sizeClassCount * smallLineCount` entries. -/
  m_smallLineMetadata : List LineMetadata
  m_smallPagesWithFreeLines : Nat → List Nat
  m_smallPages : List Nat
  /-- The free large objects, in the order of their insertion. -/
  m_largeObjects : List LargeObject
  m_isAllocatingPages : Bool
  /-- The record `SmallPage` of the page at an address. -/
  pages : Nat → SmallPage
  /-- The reference count `SmallLine::refCount` of the line at an address. -/
  lines : Nat → Nat
  /-- Calls of `vmAllocatePhysicalPagesSloppy(begin, size)`. -/
  commitCalls : List (Nat × Nat)
  /-- Number of calls of `m_scavenger.run()`. -/
  scavengerRuns : Nat

namespace Heap

/-- The line `Object(p).line()`, as the address at which it begins. -/
def lineOf (S : Sizes) (p : Nat) : Nat := p / S.smallLineSize * S.smallLineSize

/-- The page `Object(p).page()`: the record of the small page holding `p`,
moved back by its slide to the record that stands for the physical page. -/
def pageOf (S : Sizes) (h : Heap) (p : Nat) : Nat :=
  let record := p / S.smallPageSize * S.smallPageSize
  record - (h.pages record).slide * S.smallPageSize

/-- The effect of `SmallLine::ref(lock, count)` on the line at `line`. -/
def refLine (h : Heap) (line count : Nat) : Heap :=
  { h with lines := Function.update h.lines line (h.lines line + count) }

/-- The effect of `SmallLine::deref(lock)` on the line at `line`. -/
def derefLine (h : Heap) (line : Nat) : Heap :=
  { h with lines := Function.update h.lines line (h.lines line - 1) }

/-- A write to the record of the page at `page`. -/
def setPage (h : Heap) (page : Nat) (r : SmallPage) : Heap :=
  { h with pages := Function.update h.pages page r }

/-- The effect of `m_largeObjects.insert(largeObject)`. -/
def insertLarge (h : Heap) (o : LargeObject) : Heap :=
  { h with m_largeObjects := h.m_largeObjects ++ [o] }

end Heap

/-! ## The large path -/

/-- The answers of the components of the large path that are outside the
sources (`LargeObject.h`, `SegregatedFreeList`, `VMHeap`), as functions of the
heap they are asked in. -/
structure LargeEnv where
  /-- The object `LargeObject::merge()` returns, and the free map once the free
  neighbours that the object has absorbed are no longer members of it. -/
  merge : Heap → LargeObject → LargeObject × List LargeObject
  /-- The object `LargeObject(void*)` reads from the boundary tags at an address. -/
  largeObjectAt : Heap → Nat → LargeObject
  /-- The object `m_largeObjects.take(alignment, size, unalignedSize)` returns
  (null when the map has none) and the free map it leaves. -/
  take : Heap → Nat → Nat → Nat → LargeObject × List LargeObject
  /-- The object `m_vmHeap.allocateLargeObject(lock, alignment, size, unalignedSize)` returns. -/
  allocateLargeObject : Heap → Nat → Nat → Nat → LargeObject
  /-- The object `m_largeObjects.take(size)` returns (null when the map has
  none) and the free map it leaves. -/
  takeSize : Heap → Nat → LargeObject × List LargeObject
  /-- The object `m_vmHeap.allocateLargeObject(lock, size)` returns. -/
  allocateLargeObjectSize : Heap → Nat → LargeObject

/-- The pair of statements `LargeObject merged = largeObject.merge();
m_largeObjects.insert(merged);`. -/
def Heap.mergeAndInsert (E : LargeEnv) (h : Heap) (largeObject : LargeObject) : Heap :=
  let merged := E.merge h largeObject
  let h := { h with m_largeObjects := merged.2 }
  h.insertLarge merged.1

/-- `Heap::splitAndAllocate(lock, LargeObject&, size_t alignment, size_t size)`. -/
def splitAndAllocateAligned (S : Sizes) (E : LargeEnv) (h : Heap)
    (largeObject : LargeObject) (alignment size : Nat) : LargeObject × Heap :=
  let alignmentMask := wsub alignment 1
  let pair :=
    if test largeObject.begin alignmentMask then
      let prefixSize :=
        wsub (roundUpToMultipleOf alignment (wadd largeObject.begin S.largeMin)) largeObject.begin
      largeObject.split prefixSize
    else (LargeObject.null, largeObject)
  let prevLargeObject := pair.1
  let largeObject := pair.2
  let pair :=
    if wsub largeObject.size size ≥ S.largeMin then largeObject.split size
    else (largeObject, LargeObject.null)
  let largeObject := pair.1
  let nextLargeObject := pair.2
  let largeObject := largeObject.setFree false
  let h := h.refLine (Heap.lineOf S largeObject.begin) 1
  let h := if prevLargeObject.toBool then h.mergeAndInsert E prevLargeObject else h
  let h := if nextLargeObject.toBool then h.mergeAndInsert E nextLargeObject else h
  (largeObject, h)

/-- `Heap::deallocateLarge(lock, largeObject)`. -/
def deallocateLarge (E : LargeEnv) (h : Heap) (largeObject : LargeObject) : Heap :=
  let largeObject := largeObject.setFree true
  let h := h.mergeAndInsert E largeObject
  { h with scavengerRuns := h.scavengerRuns + 1 }

/-- `Heap::scavengeSmallPage(lock)`; `m_smallPages.pop()` unlinks the tail of
the list. -/
def scavengeSmallPage (S : Sizes) (E : LargeEnv) (h : Heap) : Heap :=
  let page := h.m_smallPages.getLastD 0
  let h := { h with m_smallPages := h.m_smallPages.dropLast }
  let h := (List.range ((h.pages page).smallPageCount - 1)).foldl
    (fun h i =>
      h.setPage (page + (i + 1) * S.smallPageSize)
        { h.pages (page + (i + 1) * S.smallPageSize) with slide := 0 }) h
  let h := h.setPage page { h.pages page with objectType := .Large }
  deallocateLarge E h (E.largeObjectAt h page)

/-- The loop of `Heap::scavengeSmallPages`, run for at most `fuel` rounds. -/
def scavengeSmallPagesLoop (S : Sizes) (E : LargeEnv) : Nat → Heap → Heap
  | 0, h => h
  | fuel + 1, h =>
    if h.m_smallPages.isEmpty then h
    else scavengeSmallPagesLoop S E fuel (scavengeSmallPage S E h)

/-- `Heap::scavengeSmallPages(lock)`: every round unlinks one page, so the
length of the list is fuel enough. -/
def scavengeSmallPages (S : Sizes) (E : LargeEnv) (h : Heap) : Heap :=
  scavengeSmallPagesLoop S E h.m_smallPages.length h

/-- `Heap::allocateLarge(lock, alignment, size, unalignedSize)`: the pointer it
returns and the heap after the call. -/
def allocateLargeAligned (S : Sizes) (E : LargeEnv) (h : Heap)
    (alignment size unalignedSize : Nat) : Nat × Heap :=
  let h := if size ≤ h.m_vmPageSizePhysical then scavengeSmallPages S E h else h
  let taken := E.take h alignment size unalignedSize
  let largeObject := taken.1
  let h := { h with m_largeObjects := taken.2 }
  let largeObject :=
    if largeObject.toBool then largeObject
    else E.allocateLargeObject h alignment size unalignedSize
  let committed :=
    if largeObject.vmState.hasVirtual then
      (largeObject.setVMState .Physical,
        { h with
          m_isAllocatingPages := true
          commitCalls := h.commitCalls ++ [(largeObject.begin, largeObject.size)] })
    else (largeObject, h)
  let r := splitAndAllocateAligned S E committed.2 committed.1 alignment size
  (r.1.begin, r.2)

/-- `Heap::splitAndAllocate(lock, LargeObject&, size_t size)`, the variant
without alignment. -/
def splitAndAllocate (S : Sizes) (h : Heap) (largeObject : LargeObject) (size : Nat) :
    LargeObject × Heap :=
  let pair :=
    if wsub largeObject.size size ≥ S.largeMin then largeObject.split size
    else (largeObject, LargeObject.null)
  let largeObject := pair.1
  let nextLargeObject := pair.2
  let largeObject := largeObject.setFree false
  let h := h.refLine (Heap.lineOf S largeObject.begin) 1
  let h := if nextLargeObject.toBool then h.insertLarge nextLargeObject else h
  (largeObject, h)

/-- `Heap::allocateLarge(lock, size)`: the pointer it returns and the heap
after the call. -/
def allocateLarge (S : Sizes) (E : LargeEnv) (h : Heap) (size : Nat) : Nat × Heap :=
  let h := if size ≤ h.m_vmPageSizePhysical then scavengeSmallPages S E h else h
  let taken := E.takeSize h size
  let largeObject := taken.1
  let h := { h with m_largeObjects := taken.2 }
  let largeObject :=
    if largeObject.toBool then largeObject
    else E.allocateLargeObjectSize h size
  let committed :=
    if largeObject.vmState.hasVirtual then
      (largeObject.setVMState .Physical,
        { h with
          m_isAllocatingPages := true
          commitCalls := h.commitCalls ++ [(largeObject.begin, largeObject.size)] })
    else (largeObject, h)
  let r := splitAndAllocate S committed.2 committed.1 size
  (r.1.begin, r.2)

/-- `Heap::shrinkLarge(lock, largeObject, newSize)`. -/
def shrinkLarge (E : LargeEnv) (h : Heap) (largeObject : LargeObject) (newSize : Nat) : Heap :=
  let split := largeObject.split newSize
  deallocateLarge E h split.2

/-! ## The small path -/

/-- Number of values of an `unsigned short`, the type of the object counts. -/
def shortSize : Nat := 2 ^ 16

/-- A `BumpRange`: `objectCount` objects back to back from `begin`. -/
structure BumpRange where
  begin : Nat
  objectCount : Nat
  deriving DecidableEq, Repr

/-- Modelled from the spec: the per-thread `BumpAllocator` of one size class,
which owns one bump range and peels objects off it until it is exhausted. -/
structure BumpAllocator where
  m_ptr : Nat
  m_size : Nat
  m_remaining : Nat
  deriving DecidableEq, Repr

namespace BumpAllocator

/-- The query `canAllocate()`: objects remain. -/
def canAllocate (a : BumpAllocator) : Bool := a.m_remaining != 0

/-- The effect of `refill(bumpRange)`. -/
def refill (a : BumpAllocator) (r : BumpRange) : BumpAllocator :=
  { a with m_ptr := r.begin, m_remaining := r.objectCount }

end BumpAllocator

/-- Modelled from the spec: the `BumpRangeCache`, a vector of bump ranges of
fixed capacity. -/
structure BumpRangeCache where
  ranges : List BumpRange
  capacity : Nat
  deriving DecidableEq, Repr

namespace BumpRangeCache

/-- The query `size()`. -/
def size (c : BumpRangeCache) : Nat := c.ranges.length

/-- The effect of `push(bumpRange)`. -/
def push (c : BumpRangeCache) (r : BumpRange) : BumpRangeCache :=
  { c with ranges := c.ranges ++ [r] }

end BumpRangeCache

namespace Heap

/-- The entry `pageMetadata[lineNumber]` of the table for a size class, where
`pageMetadata = &m_smallLineMetadata[sizeClass * smallLineCount]`. -/
def lineMetadata (S : Sizes) (h : Heap) (sizeClass lineNumber : Nat) : LineMetadata :=
  h.m_smallLineMetadata.getD
    (sizeClass * (h.m_vmPageSizePhysical / S.smallLineSize) + lineNumber) ⟨0, 0⟩

/-- The address of `lines[lineNumber]` for `lines = page->begin()`. -/
def lineAt (S : Sizes) (page lineNumber : Nat) : Nat := page + lineNumber * S.smallLineSize

/-- The effect of `page->ref(lock)`. -/
def refPage (h : Heap) (page : Nat) : Heap :=
  h.setPage page { h.pages page with refCount := (h.pages page).refCount + 1 }

end Heap

/-- `Heap::allocateSmallPage(lock, sizeClass)`: the page and the heap after the
call.  `popFront` unlinks the head of a list and `pop` its tail. -/
def allocateSmallPage (S : Sizes) (E : LargeEnv) (h : Heap) (sizeClass : Nat) : Nat × Heap :=
  if !(h.m_smallPagesWithFreeLines sizeClass).isEmpty then
    ((h.m_smallPagesWithFreeLines sizeClass).headD 0,
      { h with m_smallPagesWithFreeLines :=
          (Function.update h.m_smallPagesWithFreeLines sizeClass
            (h.m_smallPagesWithFreeLines sizeClass).tail) })
  else if !h.m_smallPages.isEmpty then
    let page := h.m_smallPages.getLastD 0
    let h := { h with m_smallPages := h.m_smallPages.dropLast }
    (page, h.setPage page { h.pages page with sizeClass := sizeClass })
  else
    let unalignedSize :=
      wadd (wsub (wadd S.largeMin h.m_vmPageSizePhysical) S.largeAlignment)
        h.m_vmPageSizePhysical
    let r := allocateLargeAligned S E h h.m_vmPageSizePhysical h.m_vmPageSizePhysical
      unalignedSize
    let object := r.1
    let h := r.2
    let h := h.derefLine (Heap.lineOf S object)
    let h := h.setPage (Heap.pageOf S h object)
      { h.pages (Heap.pageOf S h object) with objectType := .Small }
    let page := Heap.pageOf S h object
    let h := h.setPage page { h.pages page with sizeClass := sizeClass }
    let h := h.setPage page
      { h.pages page with smallPageCount := h.m_vmPageSizePhysical / S.smallPageSize }
    let h := (List.range ((h.pages page).smallPageCount - 1)).foldl
      (fun h i =>
        h.setPage (page + (i + 1) * S.smallPageSize)
          { h.pages (page + (i + 1) * S.smallPageSize) with slide := i + 1 }) h
    (Heap.pageOf S h object, h)

/-- Modelled from the spec: `divideRoundingUp(numerator, denominator, quotient,
remainder)` of `Algorithm.h` (not among the sources): the quotient rounded up
and the remainder of the division. -/
def divideRoundingUp (numerator denominator : Nat) : Nat × Nat :=
  let quotient := numerator / denominator
  let remainder := numerator % denominator
  (if remainder ≠ 0 then quotient + 1 else quotient, remainder)

/-- The loop `while (object < m_vmPageSizePhysical)` of
`Heap::initializeLineMetadata` for one size class, whose slice of the table
starts at index `base`, run for at most `fuel` rounds: the final `object`, the
final `line` and the table, or nothing when the fuel runs out.  The sums stay
far below the machine word; the two casts to `unsigned short` are kept. -/
def lineMetadataLoop (S : Sizes) (vmPageSizePhysical size base : Nat) :
    Nat → Nat → Nat → List LineMetadata → Option (Nat × Nat × List LineMetadata)
  | 0, _, _, _ => none
  | fuel + 1, object, line, table =>
    if object < vmPageSizePhysical then
      let line := object / S.smallLineSize
      let leftover := object % S.smallLineSize
      let objectCount := (divideRoundingUp (S.smallLineSize - leftover) size).1
      let table := table.set (base + line) ⟨leftover % shortSize, objectCount % shortSize⟩
      let object := object + objectCount * size
      lineMetadataLoop S vmPageSizePhysical size base fuel object line table
    else some (object, line, table)

/-- The writes `pageMetadata[line] = { leftover, objectCount }` of the loop
`while (object < m_vmPageSizePhysical)` of `Heap::initializeLineMetadata`, from
`object` on and for at most `fuel` rounds, oldest first: the `line`, the
`leftover` and the `objectCount` of each round, before the casts. -/
def lineMetadataWrites (S : Sizes) (vmPageSizePhysical size : Nat) :
    Nat → Nat → List (Nat × Nat × Nat)
  | 0, _ => []
  | fuel + 1, object =>
    if object < vmPageSizePhysical then
      let line := object / S.smallLineSize
      let leftover := object % S.smallLineSize
      let objectCount := (divideRoundingUp (S.smallLineSize - leftover) size).1
      (line, leftover, objectCount) ::
        lineMetadataWrites S vmPageSizePhysical size fuel (object + objectCount * size)
    else []

/-- The table after a list of writes to the slice that starts at `base`, with
the two casts to `unsigned short`. -/
def writeLineMetadata (base : Nat) (table : List LineMetadata)
    (writes : List (Nat × Nat × Nat)) : List LineMetadata :=
  writes.foldl (fun table w => table.set (base + w.1) ⟨w.2.1 % shortSize, w.2.2 % shortSize⟩)
    table

/-- The body of the loop over the size classes of
`Heap::initializeLineMetadata`: the table after the lines of `sizeClass` are
written.  Every round of the inner loop moves `object` on by at least one
byte, so `vmPageSizePhysical + 1` rounds are fuel enough. -/
def initializeSizeClass (S : Sizes) (vmPageSizePhysical : Nat)
    (table : List LineMetadata) (sizeClass : Nat) : Option (List LineMetadata) :=
  let smallLineCount := vmPageSizePhysical / S.smallLineSize
  let size := S.objectSize sizeClass
  let base := sizeClass * smallLineCount
  match lineMetadataLoop S vmPageSizePhysical size base (vmPageSizePhysical + 1) 0 0 table with
  | none => none
  | some (object, line, table) =>
    if object > vmPageSizePhysical then
      some (table.set (base + line)
        { table.getD (base + line) ⟨0, 0⟩ with
          objectCount :=
            ((table.getD (base + line) ⟨0, 0⟩).objectCount + (shortSize - 1)) % shortSize })
    else some table

/-- The loop `for (sizeClass = 0; sizeClass < sizeClassCount; ++sizeClass)` of
`Heap::initializeLineMetadata` over the classes still to do. -/
def initializeSizeClasses (S : Sizes) (vmPageSizePhysical : Nat) :
    List Nat → List LineMetadata → Option (List LineMetadata)
  | [], table => some table
  | sizeClass :: rest, table =>
    match initializeSizeClass S vmPageSizePhysical table sizeClass with
    | none => none
    | some table => initializeSizeClasses S vmPageSizePhysical rest table

/-- `Heap::initializeLineMetadata()`: the table `m_smallLineMetadata` it leaves
in a heap under construction, where the vector is empty and grows zero-filled. -/
def initializeLineMetadata (S : Sizes) (vmPageSizePhysical : Nat) :
    Option (List LineMetadata) :=
  let smallLineCount := vmPageSizePhysical / S.smallLineSize
  initializeSizeClasses S vmPageSizePhysical (List.range S.sizeClassCount)
    (List.replicate (S.sizeClassCount * smallLineCount) ⟨0, 0⟩)

/-- The loop `while (++lineNumber < smallLineCount)` of
`Heap::allocateSmallBumpRanges` that merges a run with the free lines after it,
run for at most `fuel` rounds: the line at which it stops, the object count of
the run and the heap, or nothing when the fuel runs out. -/
def mergeLines (S : Sizes) (sizeClass page smallLineCount : Nat) :
    Nat → Nat → Nat → Heap → Option (Nat × Nat × Heap)
  | 0, _, _, _ => none
  | fuel + 1, lineNumber, objectCount, h =>
    let lineNumber := lineNumber + 1
    if lineNumber < smallLineCount then
      if h.lines (Heap.lineAt S page lineNumber) ≠ 0 then some (lineNumber, objectCount, h)
      else
        let lineMetadata := h.lineMetadata S sizeClass lineNumber
        if lineMetadata.objectCount = 0 then
          mergeLines S sizeClass page smallLineCount fuel lineNumber objectCount h
        else
          let objectCount := (objectCount + lineMetadata.objectCount) % shortSize
          let h := h.refLine (Heap.lineAt S page lineNumber) lineMetadata.objectCount
          let h := h.refPage page
          mergeLines S sizeClass page smallLineCount fuel lineNumber objectCount h
    else some (lineNumber, objectCount, h)

/-- The loop `for (lineNumber = 0; lineNumber < smallLineCount; ++lineNumber)`
of `Heap::allocateSmallBumpRanges` from `lineNumber` on, with its two exits,
run for at most `fuel` rounds. -/
def scanLines (S : Sizes) (sizeClass page smallLineCount : Nat) :
    Nat → Nat → Heap → BumpAllocator → BumpRangeCache →
      Option (Heap × BumpAllocator × BumpRangeCache)
  | 0, _, _, _, _ => none
  | fuel + 1, lineNumber, h, allocator, rangeCache =>
    if lineNumber < smallLineCount then
      if h.lines (Heap.lineAt S page lineNumber) ≠ 0 then
        scanLines S sizeClass page smallLineCount fuel (lineNumber + 1) h allocator rangeCache
      else
        let lineMetadata := h.lineMetadata S sizeClass lineNumber
        if lineMetadata.objectCount = 0 then
          scanLines S sizeClass page smallLineCount fuel (lineNumber + 1) h allocator rangeCache
        else if rangeCache.size = rangeCache.capacity then
          some ({ h with m_smallPagesWithFreeLines :=
                    (Function.update h.m_smallPagesWithFreeLines sizeClass
                      (h.m_smallPagesWithFreeLines sizeClass ++ [page])) },
            allocator, rangeCache)
        else
          let begin := wadd (Heap.lineAt S page lineNumber) lineMetadata.startOffset
          let objectCount := lineMetadata.objectCount
          let h := h.refLine (Heap.lineAt S page lineNumber) lineMetadata.objectCount
          let h := h.refPage page
          match mergeLines S sizeClass page smallLineCount smallLineCount lineNumber
              objectCount h with
          | none => none
          | some (lineNumber, objectCount, h) =>
            if !allocator.canAllocate then
              scanLines S sizeClass page smallLineCount fuel (lineNumber + 1) h
                (allocator.refill ⟨begin, objectCount⟩) rangeCache
            else
              scanLines S sizeClass page smallLineCount fuel (lineNumber + 1) h allocator
                (rangeCache.push ⟨begin, objectCount⟩)
    else
      some (h.setPage page { h.pages page with hasFreeLines := false }, allocator, rangeCache)

/-- `Heap::allocateSmallBumpRanges(lock, sizeClass, allocator, rangeCache)`:
the heap, the allocator and the range cache after the call.  Every round of the
scan moves at least one line on, so `smallLineCount + 1` rounds are fuel
enough. -/
def allocateSmallBumpRanges (S : Sizes) (E : LargeEnv) (h : Heap) (sizeClass : Nat)
    (allocator : BumpAllocator) (rangeCache : BumpRangeCache) :
    Option (Heap × BumpAllocator × BumpRangeCache) :=
  let r := allocateSmallPage S E h sizeClass
  let page := r.1
  let h := r.2
  let smallLineCount := h.m_vmPageSizePhysical / S.smallLineSize
  scanLines S sizeClass page smallLineCount (smallLineCount + 1) 0 h allocator rangeCache

/-- `Heap::deallocateSmallLine(lock, object)`, for the address of the object.
`remove` unlinks the page from the list it is linked in. -/
def deallocateSmallLine (S : Sizes) (E : LargeEnv) (h : Heap) (object : Nat) : Heap :=
  let page := Heap.pageOf S h object
  if (h.pages page).objectType = .Large then
    deallocateLarge E h (E.largeObjectAt h object)
  else
    let h := h.setPage page { h.pages page with refCount := (h.pages page).refCount - 1 }
    if !(h.pages page).hasFreeLines then
      let h := h.setPage page { h.pages page with hasFreeLines := true }
      { h with m_smallPagesWithFreeLines :=
          (Function.update h.m_smallPagesWithFreeLines (h.pages page).sizeClass
            (h.m_smallPagesWithFreeLines (h.pages page).sizeClass ++ [page])) }
    else if (h.pages page).refCount ≠ 0 then h
    else
      let h := { h with m_smallPagesWithFreeLines :=
          (Function.update h.m_smallPagesWithFreeLines (h.pages page).sizeClass
            ((h.m_smallPagesWithFreeLines (h.pages page).sizeClass).erase page)) }
      let h := { h with m_smallPages := h.m_smallPages ++ [page] }
      { h with scavengerRuns := h.scavengerRuns + 1 }

/-- One visit of the scan of `Heap::allocateSmallBumpRanges` to a line that
it can absorb: a line of the page whose reference count is zero and whose
metadata has a non-zero `objectCount` gets `lines[lineNumber].ref(lock,
lineMetadata.objectCount)` and the page gets `page->ref(lock)`; any other line
is passed over. -/
def absorbLine (S : Sizes) (sizeClass page smallLineCount : Nat) (h : Heap)
    (lineNumber : Nat) : Heap :=
  if lineNumber < smallLineCount ∧ h.lines (Heap.lineAt S page lineNumber) = 0 ∧
      (h.lineMetadata S sizeClass lineNumber).objectCount ≠ 0 then
    (h.refLine (Heap.lineAt S page lineNumber)
      (h.lineMetadata S sizeClass lineNumber).objectCount).refPage page
  else h

/-- The heap once the lines `0, ..., lineNumber - 1` have been visited. -/
def absorbLines (S : Sizes) (sizeClass page smallLineCount : Nat) (h : Heap) : Nat → Heap
  | 0 => h
  | lineNumber + 1 =>
    absorbLine S sizeClass page smallLineCount
      (absorbLines S sizeClass page smallLineCount h lineNumber) lineNumber

/-- The line `lineNumber` of the page is one the scan absorbs when it finds the
heap as `h`: inside the page, with reference count zero and a non-zero
`objectCount` in the metadata of the size class. -/
def isAbsorbed (S : Sizes) (sizeClass page smallLineCount : Nat) (h : Heap)
    (lineNumber : Nat) : Prop :=
  lineNumber < smallLineCount ∧ h.lines (Heap.lineAt S page lineNumber) = 0 ∧
    (h.lineMetadata S sizeClass lineNumber).objectCount ≠ 0

instance (S : Sizes) (sizeClass page smallLineCount : Nat) (h : Heap) (lineNumber : Nat) :
    Decidable (isAbsorbed S sizeClass page smallLineCount h lineNumber) := by
  unfold isAbsorbed
  exact inferInstance

/-- The reference count the scan adds to the line `lineNumber` when it finds
the heap as `h`: the metadata `objectCount` of an absorbed line, and nothing
for any other line. -/
def absorbedCount (S : Sizes) (sizeClass page smallLineCount : Nat) (h : Heap)
    (lineNumber : Nat) : Nat :=
  if isAbsorbed S sizeClass page smallLineCount h lineNumber then
    (h.lineMetadata S sizeClass lineNumber).objectCount
  else 0

/-- The fields of a page record that decide where the page is linked. -/
def SmallPage.linkFields (p : SmallPage) : ObjectType × Nat × Bool × Nat :=
  (p.objectType, p.sizeClass, p.hasFreeLines, p.refCount)

/-- A page record that belongs in the list of pages with free lines of a size
class: a `Small` page of that class whose `hasFreeLines` flag is set and whose
reference count is positive. -/
def SmallPage.linkable (p : SmallPage) (sizeClass : Nat) : Prop :=
  p.objectType = .Small ∧ p.sizeClass = sizeClass ∧ p.hasFreeLines = true ∧ 0 < p.refCount

/-- The list invariant of the small path: no list of pages with free lines
holds a page twice, and a page is linked in the list of a size class exactly
when its record belongs there. -/
def Heap.freeLinesLinked (h : Heap) : Prop :=
  (∀ c, (h.m_smallPagesWithFreeLines c).Nodup) ∧
  ∀ c x, x ∈ h.m_smallPagesWithFreeLines c ↔ (h.pages x).linkable c

/-! ## The free map of the large path -/

namespace LargeObject

/-- The address one past the last byte of the object. -/
def «end» (o : LargeObject) : Nat := o.begin + o.size

/-- The two ranges neither overlap nor share a boundary. -/
def apart (a b : LargeObject) : Prop := a.«end» < b.begin ∨ b.«end» < a.begin

instance (a b : LargeObject) : Decidable (a.apart b) := by
  unfold apart
  exact inferInstance

/-- The two ranges do not overlap; they may share a boundary. -/
def disjoint (a b : LargeObject) : Prop := a.«end» ≤ b.begin ∨ b.«end» ≤ a.begin

instance (a b : LargeObject) : Decidable (a.disjoint b) := by
  unfold disjoint
  exact inferInstance

end LargeObject

/-- The predicate of the large free map: no two of its members overlap or
share a boundary. -/
def Heap.largeCoalesced (h : Heap) : Prop := h.m_largeObjects.Pairwise LargeObject.apart

instance (h : Heap) : Decidable h.largeCoalesced := by
  unfold Heap.largeCoalesced
  exact inferInstance

/-- Modelled from the spec: `LargeObject::merge()` of `LargeObject.h` (not
among the sources), read on the free map ("merge with both neighbors"): the
object grown over the free neighbour that ends where it begins and over the
free neighbour that begins where it ends, marked free, and the free map without
these neighbours. -/
def mergeNeighbours (map : List LargeObject) (o : LargeObject) :
    LargeObject × List LargeObject :=
  let prev := map.find? (fun m => m.«end» == o.begin)
  let next := map.find? (fun m => m.begin == o.«end»)
  let begin := (prev.map LargeObject.begin).getD o.begin
  let stop := (next.map LargeObject.«end»).getD o.«end»
  (⟨begin, stop - begin, true, o.vmState⟩,
    map.filter (fun m => !(m.«end» == o.begin) && !(m.begin == o.«end»)))

/-- The heap in which `Heap::scavengeSmallPage` hands the page it popped over
to `deallocateLarge`: the page unlinked, the slides of its follower records
reset and its type back to `Large`. -/
def scavengedHeap (S : Sizes) (h : Heap) : Heap :=
  let page := h.m_smallPages.getLastD 0
  let h := { h with m_smallPages := h.m_smallPages.dropLast }
  let h := (List.range ((h.pages page).smallPageCount - 1)).foldl
    (fun h i =>
      h.setPage (page + (i + 1) * S.smallPageSize)
        { h.pages (page + (i + 1) * S.smallPageSize) with slide := 0 }) h
  h.setPage page { h.pages page with objectType := .Large }

/-- The object that `Heap::scavengeSmallPage` hands over to `deallocateLarge`. -/
def scavengedObject (S : Sizes) (E : LargeEnv) (h : Heap) : LargeObject :=
  E.largeObjectAt (scavengedHeap S h) (h.m_smallPages.getLastD 0)

/-- A page that a full scan for the size class has left without free lines: its
`hasFreeLines` flag is clear, it holds one page reference for every line of it
that has references, and every line in which an object of the class begins has
references. -/
def Heap.noFreeLines (S : Sizes) (h : Heap) (sizeClass page : Nat) : Prop :=
  (h.pages page).hasFreeLines = false ∧
  (h.pages page).refCount
    = ((Finset.range (h.m_vmPageSizePhysical / S.smallLineSize)).filter
        (fun L => h.lines (Heap.lineAt S page L) ≠ 0)).card ∧
  ∀ L, L < h.m_vmPageSizePhysical / S.smallLineSize →
    (h.lineMetadata S sizeClass L).objectCount ≠ 0 → h.lines (Heap.lineAt S page L) ≠ 0

instance (S : Sizes) (h : Heap) (sizeClass page : Nat) :
    Decidable (h.noFreeLines S sizeClass page) := by
  unfold Heap.noFreeLines
  exact inferInstance

/-- The number of lines of a page in which an object of the size class
begins. -/
def Heap.objectLines (S : Sizes) (h : Heap) (sizeClass : Nat) : Nat :=
  ((Finset.range (h.m_vmPageSizePhysical / S.smallLineSize)).filter
    (fun L => (h.lineMetadata S sizeClass L).objectCount ≠ 0)).card

/-- The page has a line that a scan for the size class can absorb: a line with
reference count zero whose metadata has a non-zero `objectCount`. -/
def Heap.hasFreeLine (S : Sizes) (h : Heap) (sizeClass page : Nat) : Prop :=
  ∃ L, L < h.m_vmPageSizePhysical / S.smallLineSize ∧
    h.lines (Heap.lineAt S page L) = 0 ∧ (h.lineMetadata S sizeClass L).objectCount ≠ 0

instance (S : Sizes) (h : Heap) (sizeClass page : Nat) :
    Decidable (h.hasFreeLine S sizeClass page) := by
  unfold Heap.hasFreeLine
  exact inferInstance

/-- Every page linked in a list of pages with free lines has a free line of
the size class of the list. -/
def Heap.freeLinesAvailable (S : Sizes) (h : Heap) : Prop :=
  ∀ c page, page ∈ h.m_smallPagesWithFreeLines c → h.hasFreeLine S c page

/-! ## The reference layout of a small page

Objects of one size class are packed back to back from offset 0 of the page. -/

/-- Index of the first object that begins at or after the start of line `line`,
for objects of `size` bytes. -/
def firstObject (S : Sizes) (size line : Nat) : Nat :=
  (line * S.smallLineSize + (size - 1)) / size

/-- Index of the first object that begins at or after the start of line `line`
among the objects that lie inside the page, or the number of those objects when
there is none. -/
def firstObjectInPage (S : Sizes) (vmPageSizePhysical size line : Nat) : Nat :=
  min (firstObject S size line) (vmPageSizePhysical / size)

/-- The bytes `[begin, begin + objectCount * size)` of a bump range hold `x`. -/
def BumpRange.covers (r : BumpRange) (size x : Nat) : Prop :=
  r.begin ≤ x ∧ x < r.begin + r.objectCount * size

instance (r : BumpRange) (size x : Nat) : Decidable (r.covers size x) := by
  unfold BumpRange.covers
  exact inferInstance

/-- The bump ranges a call of `allocateSmallBumpRanges` hands out, for the
allocator it was given and the result it returns with an empty cache at entry:
the range refilled into the allocator, when the allocator was empty, and the
ranges pushed into the cache. -/
def emittedRanges (allocator : BumpAllocator)
    (r : Heap × BumpAllocator × BumpRangeCache) : List BumpRange :=
  if allocator.canAllocate then r.2.2.ranges
  else ⟨r.2.1.m_ptr, r.2.1.m_remaining⟩ :: r.2.2.ranges

/-- The ranges are runs of the reference layout over free lines, one after the
other from line `lineNumber` on: each holds the objects inside the page that
begin in the lines `a, ..., b - 1`, all of which have reference count zero in
`lines`, and the next run starts at line `b` or later. -/
def RunsFrom (S : Sizes) (vmPageSizePhysical size page : Nat) (lines : Nat → Nat) :
    Nat → List BumpRange → Prop
  | _, [] => True
  | lineNumber, r :: rest =>
    ∃ a b, lineNumber ≤ a ∧ a < b ∧ b ≤ vmPageSizePhysical / S.smallLineSize ∧
      r.begin = page + firstObjectInPage S vmPageSizePhysical size a * size ∧
      r.objectCount = firstObjectInPage S vmPageSizePhysical size b
        - firstObjectInPage S vmPageSizePhysical size a ∧
      firstObjectInPage S vmPageSizePhysical size a
        < firstObjectInPage S vmPageSizePhysical size b ∧
      (∀ l, a ≤ l → l < b → lines (Heap.lineAt S page l) = 0) ∧
      RunsFrom S vmPageSizePhysical size page lines b rest

/-! ## The deallocator -/

/-- A call the deallocator makes on the `Heap`. -/
inductive HeapCall where
  | derefSmallLine (object : Nat)
  | deallocateXLarge (object : Nat)
  deriving DecidableEq, Repr

/-- The per-thread `Deallocator`: its object log (a `FixedVector` of fixed
`capacity`), its flag, and what it has done to the outside so far: the calls
on the heap, the acquisitions of the heap mutex and the pointers handed to the
system `free`, each oldest first. -/
structure Deallocator where
  m_objectLog : List Nat
  capacity : Nat
  m_isBmallocEnabled : Bool
  heapCalls : List HeapCall
  lockCount : Nat
  freed : List Nat
  deriving DecidableEq, Repr

namespace Deallocator

/-- The effect of `m_objectLog.push(object)`. -/
def push (d : Deallocator) (object : Nat) : Deallocator :=
  { d with m_objectLog := d.m_objectLog ++ [object] }

/-- The loop `while (m_objectLog.size() != m_objectLog.capacity())
m_objectLog.push(nullptr)` of the constructor, run for at most `fuel` rounds. -/
def fillObjectLog : Nat → Deallocator → Deallocator
  | 0, d => d
  | fuel + 1, d =>
    if d.m_objectLog.length ≠ d.capacity then fillObjectLog fuel (d.push 0) else d

/-- `Deallocator::Deallocator(Heap*)`, for a log of the given capacity and the
answer of `heap->environment().isBmallocEnabled()`; the fill loop pushes one
entry a round, so `capacity` rounds are fuel enough. -/
def create (capacity : Nat) (isBmallocEnabled : Bool) : Deallocator :=
  let d : Deallocator := ⟨[], capacity, isBmallocEnabled, [], 0, []⟩
  if !d.m_isBmallocEnabled then fillObjectLog capacity d else d

/-- The loop `for (Object object : m_objectLog) heap->derefSmallLine(lock, object)`
over the entries of the log still to visit. -/
def processObjectLogLoop : List Nat → List HeapCall → List HeapCall
  | [], calls => calls
  | object :: rest, calls => processObjectLogLoop rest (calls ++ [.derefSmallLine object])

/-- `Deallocator::processObjectLog(lock)`. -/
def processObjectLogLocked (d : Deallocator) : Deallocator :=
  let d := { d with heapCalls := processObjectLogLoop d.m_objectLog d.heapCalls }
  { d with m_objectLog := [] }

/-- `Deallocator::processObjectLog()`: takes the heap mutex and drains. -/
def processObjectLog (d : Deallocator) : Deallocator :=
  processObjectLogLocked { d with lockCount := d.lockCount + 1 }

/-- `Deallocator::scavenge()`. -/
def scavenge (d : Deallocator) : Deallocator :=
  if d.m_isBmallocEnabled then d.processObjectLog else d

/-- `Deallocator::~Deallocator()`. -/
def destroy (d : Deallocator) : Deallocator := d.scavenge

/-- `Deallocator::deallocateXLarge(object)`. -/
def deallocateXLarge (d : Deallocator) (object : Nat) : Deallocator :=
  { d with
    lockCount := d.lockCount + 1
    heapCalls := d.heapCalls ++ [.deallocateXLarge object] }

/-- `Deallocator::deallocateSlowCase(object)`; `isXLarge` is the predicate of
that name, which is outside the sources. -/
def deallocateSlowCase (isXLarge : Nat → Bool) (d : Deallocator) (object : Nat) :
    Deallocator :=
  if !d.m_isBmallocEnabled then { d with freed := d.freed ++ [object] }
  else if object = 0 then d
  else if isXLarge object then d.deallocateXLarge object
  else (d.processObjectLog).push object

/-- Modelled from the spec: the fast path `deallocateFastCase` of
`Deallocator.h` (not among the sources): if the object log is not full, push
the pointer.  Pointers for which `isXLarge` holds are left to the slow case. -/
def deallocateFastCase (isXLarge : Nat → Bool) (d : Deallocator) (object : Nat) :
    Bool × Deallocator :=
  if isXLarge object then (false, d)
  else if d.m_objectLog.length = d.capacity then (false, d)
  else (true, d.push object)

/-- Modelled from the spec: `Deallocator::deallocate(object)` of
`Deallocator.h`: the fast path, and the slow case when it declines. -/
def deallocate (isXLarge : Nat → Bool) (d : Deallocator) (object : Nat) : Deallocator :=
  let r := deallocateFastCase isXLarge d object
  if r.1 then r.2 else deallocateSlowCase isXLarge d object

/-- An operation a thread performs on its deallocator after construction. -/
inductive Op where
  | deallocate (object : Nat)
  | deallocateSlowCase (object : Nat)
  | scavenge
  | destroy
  deriving DecidableEq, Repr

/-- The effect of one operation. -/
def step (isXLarge : Nat → Bool) (d : Deallocator) : Op → Deallocator
  | .deallocate object => deallocate isXLarge d object
  | .deallocateSlowCase object => deallocateSlowCase isXLarge d object
  | .scavenge => d.scavenge
  | .destroy => d.destroy

/-- The deallocator after a sequence of operations. -/
def run (isXLarge : Nat → Bool) (d : Deallocator) (ops : List Op) : Deallocator :=
  ops.foldl (step isXLarge) d

end Deallocator

/-! ## Concrete inputs -/

/-- A fresh heap with 4 KiB physical pages. -/
def exampleXLargeHeap : XLargeHeap := ⟨4096, false, [], [], 0⟩

/-- An `XLargeMap` whose free side holds one physical range of 16 MiB that
begins one page above address zero. -/
def exampleTakeFree : Nat → Nat → XLargeRange := fun _ _ => ⟨4096, 2 ^ 24, .Physical⟩

/-- An `XLargeMap` whose free side is empty. -/
def emptyTakeFree : Nat → Nat → XLargeRange := fun _ _ => XLargeRange.null

/-- A VM primitive that answers with the third multiple of the alignment. -/
def exampleVMAllocate : Nat → Nat → Nat := fun alignment _ => 3 * alignment

/-- A VM primitive that is out of address space. -/
def failingVMAllocate : Nat → Nat → Nat := fun _ _ => 0

/-- Constants of the scenario of the specification: 4 KiB pages of 256-byte
lines, `largeMin` of 1 KiB, chunks of 2 MiB, and object sizes `8, 16, 24, ...`. -/
def exampleSizes : Sizes where
  smallLineSize := 256
  smallPageSize := 4096
  largeAlignment := 64
  largeMin := 1024
  largeMax := 2 ^ 20
  chunkSize := 2 ^ 21
  xLargeAlignment := 2 ^ 21
  xLargeMax := 2 ^ 64 - 2 ^ 21
  sizeClassCount := 4
  objectSize := fun sizeClass => (sizeClass + 1) * 8

/-- A large path whose free map is empty, whose objects never merge and whose
VM heap answers with a physical chunk placed 64 bytes above `4 * chunkSize`. -/
def exampleLargeEnv : LargeEnv where
  merge := fun h o => (o, h.m_largeObjects)
  largeObjectAt := fun _ p => ⟨p, 4096, false, .Physical⟩
  take := fun h _ _ _ => (LargeObject.null, h.m_largeObjects)
  allocateLargeObject := fun _ _ _ _ => ⟨2 ^ 23 + 64, 2 ^ 20, true, .Physical⟩
  takeSize := fun h _ => (LargeObject.null, h.m_largeObjects)
  allocateLargeObjectSize := fun _ _ => ⟨2 ^ 23 + 64, 2 ^ 20, true, .Physical⟩

/-- A heap with 4 KiB pages that holds nothing yet. -/
def exampleHeap : Heap where
  m_vmPageSizePhysical := 4096
  m_smallLineMetadata := []
  m_smallPagesWithFreeLines := fun _ => []
  m_smallPages := []
  m_largeObjects := []
  m_isAllocatingPages := false
  pages := fun _ => ⟨0, 0, .Large, false, 0, 0⟩
  lines := fun _ => 0
  commitCalls := []
  scavengerRuns := 0

/-- The line metadata table of `exampleSizes` on 4 KiB pages. -/
def exampleLineMetadata : List LineMetadata :=
  (initializeLineMetadata exampleSizes 4096).getD []

/-- A heap whose free-lines list of size class 2 (objects of 24 bytes) holds
the page at 8 MiB, of which the lines 1, 2 and 5 hold live objects. -/
def exampleSmallHeap : Heap where
  m_vmPageSizePhysical := 4096
  m_smallLineMetadata := exampleLineMetadata
  m_smallPagesWithFreeLines := fun sizeClass => if sizeClass = 2 then [2 ^ 23] else []
  m_smallPages := []
  m_largeObjects := []
  m_isAllocatingPages := false
  pages := fun page =>
    if page = 2 ^ 23 then ⟨3, 2, .Small, true, 1, 0⟩ else ⟨0, 0, .Large, false, 0, 0⟩
  lines := fun line =>
    if line = 2 ^ 23 + 256 then 11
    else if line = 2 ^ 23 + 512 then 10
    else if line = 2 ^ 23 + 1280 then 4
    else 0
  commitCalls := []
  scavengerRuns := 0

/-- A large path whose free map hands out its first member, whose objects never
merge and whose VM heap answers with a virtual chunk at `4 * chunkSize`. -/
def exampleTakeEnv : LargeEnv where
  merge := fun h o => (o, h.m_largeObjects)
  largeObjectAt := fun _ p => ⟨p, 4096, false, .Physical⟩
  take := fun h _ _ _ => (h.m_largeObjects.headD LargeObject.null, h.m_largeObjects.tail)
  allocateLargeObject := fun _ _ _ _ => ⟨2 ^ 23, 2 ^ 20, true, .Virtual⟩
  takeSize := fun h _ => (h.m_largeObjects.headD LargeObject.null, h.m_largeObjects.tail)
  allocateLargeObjectSize := fun _ _ => ⟨2 ^ 23, 2 ^ 20, true, .Virtual⟩

/-- A heap with 4 KiB pages whose free map holds one physical object of 1 MiB at
`6 * chunkSize`, and in which no pages are being allocated. -/
def examplePhysicalHeap : Heap where
  m_vmPageSizePhysical := 4096
  m_smallLineMetadata := exampleLineMetadata
  m_smallPagesWithFreeLines := fun _ => []
  m_smallPages := []
  m_largeObjects := [⟨3 * 2 ^ 22, 2 ^ 20, true, .Physical⟩]
  m_isAllocatingPages := false
  pages := fun _ => ⟨0, 0, .Large, false, 0, 0⟩
  lines := fun _ => 0
  commitCalls := []
  scavengerRuns := 0

/-- Constants with one size class, of objects of 3 KiB: on 4 KiB pages one
object fits a page, so that line 0 is the only line in which an object begins. -/
def exampleWideSizes : Sizes where
  smallLineSize := 256
  smallPageSize := 4096
  largeAlignment := 64
  largeMin := 4096
  largeMax := 2 ^ 20
  chunkSize := 2 ^ 21
  xLargeAlignment := 2 ^ 21
  xLargeMax := 2 ^ 64 - 2 ^ 21
  sizeClassCount := 1
  objectSize := fun _ => 3072

/-- A heap for `exampleWideSizes` whose small-page free list holds the page at
8 MiB, with no reference and its `hasFreeLines` flag set. -/
def exampleWideHeap : Heap where
  m_vmPageSizePhysical := 4096
  m_smallLineMetadata := (initializeLineMetadata exampleWideSizes 4096).getD []
  m_smallPagesWithFreeLines := fun _ => []
  m_smallPages := [2 ^ 23]
  m_largeObjects := []
  m_isAllocatingPages := false
  pages := fun page =>
    if page = 2 ^ 23 then ⟨0, 0, .Small, true, 1, 0⟩ else ⟨0, 0, .Large, false, 0, 0⟩
  lines := fun _ => 0
  commitCalls := []
  scavengerRuns := 0

/-- A large path whose objects merge with their free neighbours, whose free map
hands out its first member and whose VM heap answers with a virtual chunk at
`4 * chunkSize`. -/
def exampleMergeEnv : LargeEnv where
  merge := fun h o => mergeNeighbours h.m_largeObjects o
  largeObjectAt := fun _ p => ⟨p, 4096, false, .Physical⟩
  take := fun h _ _ _ => (h.m_largeObjects.headD LargeObject.null, h.m_largeObjects.tail)
  allocateLargeObject := fun _ _ _ _ => ⟨2 ^ 23, 2 ^ 20, true, .Virtual⟩
  takeSize := fun h _ => (h.m_largeObjects.headD LargeObject.null, h.m_largeObjects.tail)
  allocateLargeObjectSize := fun _ _ => ⟨2 ^ 23, 2 ^ 20, true, .Virtual⟩

/-- A heap with 4 KiB pages whose free map holds two physical objects of 1 MiB,
at `6 * chunkSize` and at `10 * chunkSize`, and whose small-page free list
holds the page at 16 MiB. -/
def exampleFreeHeap : Heap where
  m_vmPageSizePhysical := 4096
  m_smallLineMetadata := exampleLineMetadata
  m_smallPagesWithFreeLines := fun _ => []
  m_smallPages := [2 ^ 24]
  m_largeObjects := [⟨3 * 2 ^ 22, 2 ^ 20, true, .Physical⟩, ⟨5 * 2 ^ 22, 2 ^ 20, true, .Physical⟩]
  m_isAllocatingPages := false
  pages := fun page =>
    if page = 2 ^ 24 then ⟨0, 2, .Small, true, 1, 0⟩ else ⟨0, 0, .Large, false, 0, 0⟩
  lines := fun _ => 0
  commitCalls := []
  scavengerRuns := 0

/-- A heap whose page at 8 MiB is full of objects of size class 2: every line
holds one live object and the `hasFreeLines` flag is clear. -/
def exampleFullHeap : Heap where
  m_vmPageSizePhysical := 4096
  m_smallLineMetadata := exampleLineMetadata
  m_smallPagesWithFreeLines := fun _ => []
  m_smallPages := []
  m_largeObjects := []
  m_isAllocatingPages := false
  pages := fun page =>
    if page = 2 ^ 23 then ⟨16, 2, .Small, false, 1, 0⟩ else ⟨0, 0, .Large, false, 0, 0⟩
  lines := fun line => if 2 ^ 23 ≤ line ∧ line < 2 ^ 23 + 4096 then 1 else 0
  commitCalls := []
  scavengerRuns := 0

/-- A heap with 16 KiB physical pages, four small pages each, that holds
nothing yet. -/
def exampleBigPageHeap : Heap where
  m_vmPageSizePhysical := 16384
  m_smallLineMetadata := []
  m_smallPagesWithFreeLines := fun _ => []
  m_smallPages := []
  m_largeObjects := []
  m_isAllocatingPages := false
  pages := fun _ => ⟨0, 0, .Large, false, 0, 0⟩
  lines := fun _ => 0
  commitCalls := []
  scavengerRuns := 0

end bmalloc

/-! # Theorems -/

namespace bmalloc

/-! ## Machine-word and rounding lemmas -/

theorem wordSize_eq : wordSize = 18446744073709551616 := by
  unfold wordSize; norm_num

theorem wadd_wsub_cancel (a r : Nat) : wadd a (wsub r a) = r % wordSize := by
  unfold wadd wsub
  rw [wordSize_eq]
  omega

theorem roundUpToMultipleOf_mod (d x : Nat) : roundUpToMultipleOf d x % d = 0 := by
  unfold roundUpToMultipleOf
  exact Nat.mul_mod_left _ _

theorem roundUpToMultipleOf_lt (d x : Nat) : roundUpToMultipleOf d x < wordSize := by
  unfold roundUpToMultipleOf
  have h1 : (x + (d - 1)) % wordSize < wordSize := Nat.mod_lt _ (by rw [wordSize_eq]; norm_num)
  exact lt_of_le_of_lt (Nat.div_mul_le_self _ _) h1

theorem two_pow_lt_wordSize {m : Nat} (hm : m < 64) : 2 ^ m < wordSize := by
  unfold wordSize
  exact Nat.pow_lt_pow_right (by norm_num) hm

theorem two_pow_le_half {m : Nat} (hm : m < 64) : 2 ^ m ≤ 2 ^ 63 :=
  Nat.pow_le_pow_right (by norm_num) (by omega)

theorem wsub_one_two_pow {m : Nat} (hm : m < 64) : wsub (2 ^ m) 1 = 2 ^ m - 1 := by
  have h1 := two_pow_lt_wordSize hm
  have h2 : 0 < 2 ^ m := Nat.pow_pos (by norm_num)
  unfold wsub
  rw [wordSize_eq] at *
  omega

theorem test_two_pow_false {m x : Nat} (hm : m < 64) (h : test x (wsub (2 ^ m) 1) = false) :
    x % 2 ^ m = 0 := by
  rw [wsub_one_two_pow hm] at h
  unfold test at h
  simpa [Nat.and_pow_two_sub_one_eq_mod] using h

/-- Rounding a power of two up to a multiple of a power of two gives the larger
of the two. -/
theorem roundUpToMultipleOf_two_pow {k j : Nat} (hk : k < 64) (hj : j < 64) :
    roundUpToMultipleOf (2 ^ k) (2 ^ j) = 2 ^ max j k := by
  have h1 := two_pow_le_half hk
  have h2 := two_pow_le_half hj
  have hk0 : 0 < 2 ^ k := Nat.pow_pos (by norm_num)
  unfold roundUpToMultipleOf
  have hlt : 2 ^ j + (2 ^ k - 1) < wordSize := by
    rw [wordSize_eq]; norm_num at h1 h2 ⊢; omega
  rw [Nat.mod_eq_of_lt hlt]
  rcases le_total j k with hjk | hkj
  · rw [max_eq_right hjk]
    have hle : 2 ^ j ≤ 2 ^ k := Nat.pow_le_pow_right (by norm_num) hjk
    have hj0 : 0 < 2 ^ j := Nat.pow_pos (by norm_num)
    have : (2 ^ j + (2 ^ k - 1)) / 2 ^ k = 1 := by
      apply Nat.div_eq_of_lt_le <;> omega
    rw [this, one_mul]
  · rw [max_eq_left hkj]
    obtain ⟨d, rfl⟩ := Nat.exists_eq_add_of_le hkj
    have : (2 ^ (k + d) + (2 ^ k - 1)) / 2 ^ k = 2 ^ d := by
      rw [pow_add]
      have hring : (2 ^ d + 1) * 2 ^ k = 2 ^ k * 2 ^ d + 2 ^ k := by ring
      have hcomm : 2 ^ d * 2 ^ k = 2 ^ k * 2 ^ d := Nat.mul_comm _ _
      apply Nat.div_eq_of_lt_le
      · rw [hcomm]; exact Nat.le_add_right _ _
      · rw [hring]
        generalize 2 ^ k * 2 ^ d = c
        omega
    rw [this, pow_add, mul_comm]

/-! ## The extra-large split -/

/-- Where the allocated range of the extra-large split begins. -/
theorem splitAndAllocateXLarge_begin (xa : Nat) (h : XLargeHeap) (range : XLargeRange)
    (alignment size : Nat) :
    (splitAndAllocateXLarge xa h range alignment size).1.begin =
      if test range.begin (wsub alignment 1)
      then roundUpToMultipleOf alignment range.begin else range.begin := by
  have hb : (range.split (wsub (roundUpToMultipleOf alignment range.begin) range.begin)).2.begin
      = roundUpToMultipleOf alignment range.begin := by
    simp only [XLargeRange.split, XLargeRange.end]
    rw [wadd_wsub_cancel]
    exact Nat.mod_eq_of_lt (roundUpToMultipleOf_lt _ _)
  simp only [splitAndAllocateXLarge]
  split_ifs <;> simp only [XLargeRange.split, XLargeRange.setVMState] at hb ⊢ <;>
    first | rfl | exact hb

/-- The allocated range of the extra-large split begins at a multiple of a
power-of-two alignment. -/
theorem splitAndAllocateXLarge_begin_mod (xa : Nat) (h : XLargeHeap) (range : XLargeRange)
    (m size : Nat) (hm : m < 64) :
    (splitAndAllocateXLarge xa h range (2 ^ m) size).1.begin % 2 ^ m = 0 := by
  rw [splitAndAllocateXLarge_begin]
  by_cases ht : test range.begin (wsub (2 ^ m) 1) = true
  · rw [if_pos ht]; exact roundUpToMultipleOf_mod _ _
  · rw [if_neg ht]
    exact test_two_pow_false hm (by simpa using ht)

/-- The pointer of `tryAllocateXLarge` is a multiple of the rounded alignment. -/
theorem tryAllocateXLarge_mod_rounded (k j : Nat) (hk : k < 64) (hj : j < 64)
    (takeFree : Nat → Nat → XLargeRange) (tryVMAllocate : Nat → Nat → Nat)
    (h : XLargeHeap) (size : Nat) :
    (tryAllocateXLarge (2 ^ k) takeFree tryVMAllocate h (2 ^ j) size).1 % 2 ^ max j k = 0 := by
  have hm : max j k < 64 := max_lt hj hk
  simp only [tryAllocateXLarge, roundUpToMultipleOf_two_pow hk hj]
  split_ifs
  · exact splitAndAllocateXLarge_begin_mod _ _ _ _ _ hm
  · exact Nat.zero_mod _
  · exact splitAndAllocateXLarge_begin_mod _ _ _ _ _ hm

/-! ## C1 -/

/-- C1: for every power-of-two alignment below `xLargeMax` and every size, a
non-null pointer returned by `Heap::tryAllocateXLarge(alignment, size)` is a
multiple of the alignment, whatever `takeFree` and `tryVMAllocate` answer. -/
theorem tryAllocateXLarge_pointer_aligned (k j xLargeMax : Nat) (hk : k < 64)
    (hmax : xLargeMax ≤ wordSize)
    (takeFree : Nat → Nat → XLargeRange) (tryVMAllocate : Nat → Nat → Nat)
    (h : XLargeHeap) (alignment size : Nat)
    (hpow : alignment = 2 ^ j) (hlt : alignment < xLargeMax)
    (_hnn : (tryAllocateXLarge (2 ^ k) takeFree tryVMAllocate h alignment size).1 ≠ 0) :
    (tryAllocateXLarge (2 ^ k) takeFree tryVMAllocate h alignment size).1 % alignment = 0 := by
  subst hpow
  have hj : j < 64 := by
    have h2 : 2 ^ j < 2 ^ 64 := lt_of_lt_of_le hlt hmax
    exact (Nat.pow_lt_pow_iff_right (by norm_num)).1 h2
  have hr := tryAllocateXLarge_mod_rounded k j hk hj takeFree tryVMAllocate h size
  have hdvd : 2 ^ j ∣ 2 ^ max j k := pow_dvd_pow 2 (le_max_left j k)
  exact Nat.mod_eq_zero_of_dvd (dvd_trans hdvd (Nat.dvd_of_mod_eq_zero hr))

/-- C1 at a concrete input: 5 MiB + 1 byte at alignment 8 out of a free range
that begins at 4096 is handed out at 2 MiB. -/
theorem tryAllocateXLarge_pointer_aligned_witness :
    (tryAllocateXLarge (2 ^ 21) exampleTakeFree exampleVMAllocate exampleXLargeHeap 8
        (5 * 2 ^ 20 + 1)).1 = 2 ^ 21 ∧
    (tryAllocateXLarge (2 ^ 21) exampleTakeFree exampleVMAllocate exampleXLargeHeap 8
        (5 * 2 ^ 20 + 1)).1 % 8 = 0 :=
  ⟨by decide,
    tryAllocateXLarge_pointer_aligned 21 3 (2 ^ 64 - 2 ^ 21) (by decide) (by decide)
      exampleTakeFree exampleVMAllocate exampleXLargeHeap 8 (5 * 2 ^ 20 + 1)
      (by decide) (by decide) (by decide)⟩

/-! ## C4 -/

theorem roundUpToMultipleOf_ge {d x : Nat} (hd : 0 < d) (hx : x + (d - 1) < wordSize) :
    x ≤ roundUpToMultipleOf d x := by
  unfold roundUpToMultipleOf
  rw [Nat.mod_eq_of_lt hx]
  have h1 := Nat.div_add_mod (x + (d - 1)) d
  have h2 := Nat.mod_lt (x + (d - 1)) hd
  rw [Nat.mul_comm] at h1
  generalize (x + (d - 1)) / d * d = q at h1 ⊢
  omega

theorem splitAndAllocateXLarge_calls (xa : Nat) (h : XLargeHeap) (range : XLargeRange)
    (alignment size : Nat) :
    ∃ c : AddAllocated,
      (splitAndAllocateXLarge xa h range alignment size).2.addAllocatedCalls
        = h.addAllocatedCalls ++ [c] ∧
      c.allocated.1 = (splitAndAllocateXLarge xa h range alignment size).1 := by
  simp only [splitAndAllocateXLarge]
  split_ifs <;> exact ⟨_, rfl, rfl⟩

/-- The extra-large split of a range at a real address that holds an aligned
address returns a non-null begin. -/
theorem splitAndAllocateXLarge_begin_ne_zero (xa : Nat) (h : XLargeHeap)
    (range : XLargeRange) (m size : Nat) (hb : range.begin ≠ 0)
    (hfit : range.begin + (2 ^ m - 1) < wordSize) :
    (splitAndAllocateXLarge xa h range (2 ^ m) size).1.begin ≠ 0 := by
  rw [splitAndAllocateXLarge_begin]
  split_ifs
  · have := roundUpToMultipleOf_ge (Nat.pow_pos (by norm_num)) hfit
    omega
  · exact hb

/-- C4: `Heap::tryAllocateXLarge` returns null exactly when `takeFree` finds no
range and `tryVMAllocate` returns null, and then nothing is registered in the
`XLargeMap`; `Heap::allocateXLarge` returns the non-null pointer of
`tryAllocateXLarge` and aborts otherwise.  `takeFree` is taken to hand out
ranges at non-null addresses that hold an aligned address, and `tryVMAllocate`
to answer with aligned pointers. -/
theorem tryAllocateXLarge_null_iff (k j : Nat) (hk : k < 64) (hj : j < 64)
    (takeFree : Nat → Nat → XLargeRange) (tryVMAllocate : Nat → Nat → Nat)
    (h : XLargeHeap) (size : Nat)
    (hTake : (takeFree (roundUpToMultipleOf (2 ^ k) (2 ^ j))
        (max h.m_vmPageSizePhysical size)).toBool = true →
      (takeFree (roundUpToMultipleOf (2 ^ k) (2 ^ j))
        (max h.m_vmPageSizePhysical size)).begin ≠ 0 ∧
      (takeFree (roundUpToMultipleOf (2 ^ k) (2 ^ j))
        (max h.m_vmPageSizePhysical size)).begin
          + (roundUpToMultipleOf (2 ^ k) (2 ^ j) - 1) < wordSize)
    (hVM : tryVMAllocate (roundUpToMultipleOf (2 ^ k) (2 ^ j))
        (roundUpToMultipleOf (2 ^ k) (max h.m_vmPageSizePhysical size))
          % roundUpToMultipleOf (2 ^ k) (2 ^ j) = 0) :
    ((tryAllocateXLarge (2 ^ k) takeFree tryVMAllocate h (2 ^ j) size).1 = 0 ↔
      ((takeFree (roundUpToMultipleOf (2 ^ k) (2 ^ j))
          (max h.m_vmPageSizePhysical size)).toBool = false ∧
        tryVMAllocate (roundUpToMultipleOf (2 ^ k) (2 ^ j))
          (roundUpToMultipleOf (2 ^ k) (max h.m_vmPageSizePhysical size)) = 0)) ∧
    ((tryAllocateXLarge (2 ^ k) takeFree tryVMAllocate h (2 ^ j) size).1 = 0 →
      (tryAllocateXLarge (2 ^ k) takeFree tryVMAllocate h (2 ^ j) size).2.addAllocatedCalls
        = h.addAllocatedCalls) ∧
    (∀ r, allocateXLarge (2 ^ k) takeFree tryVMAllocate h (2 ^ j) size = some r →
      r.1 ≠ 0 ∧ r = tryAllocateXLarge (2 ^ k) takeFree tryVMAllocate h (2 ^ j) size) ∧
    (allocateXLarge (2 ^ k) takeFree tryVMAllocate h (2 ^ j) size = none ↔
      (tryAllocateXLarge (2 ^ k) takeFree tryVMAllocate h (2 ^ j) size).1 = 0) := by
  have hm : max j k < 64 := max_lt hj hk
  rw [roundUpToMultipleOf_two_pow hk hj] at hTake hVM
  have hiff : (tryAllocateXLarge (2 ^ k) takeFree tryVMAllocate h (2 ^ j) size).1 = 0 ↔
      ((takeFree (roundUpToMultipleOf (2 ^ k) (2 ^ j))
          (max h.m_vmPageSizePhysical size)).toBool = false ∧
        tryVMAllocate (roundUpToMultipleOf (2 ^ k) (2 ^ j))
          (roundUpToMultipleOf (2 ^ k) (max h.m_vmPageSizePhysical size)) = 0) := by
    simp only [tryAllocateXLarge, roundUpToMultipleOf_two_pow hk hj]
    split_ifs with h1 h2
    · have := hTake h1
      have hne := splitAndAllocateXLarge_begin_ne_zero (2 ^ k)
        { h with m_isAllocatingPages := true } _ (max j k)
        (max h.m_vmPageSizePhysical size) this.1 this.2
      simp [h1, hne]
    · simp [h1, h2]
    · have hne : (splitAndAllocateXLarge (2 ^ k) { h with m_isAllocatingPages := true }
          ⟨tryVMAllocate (2 ^ max j k)
              (roundUpToMultipleOf (2 ^ k) (max h.m_vmPageSizePhysical size)),
            roundUpToMultipleOf (2 ^ k) (max h.m_vmPageSizePhysical size), .Virtual⟩
          (2 ^ max j k) (max h.m_vmPageSizePhysical size)).1.begin ≠ 0 := by
        rw [splitAndAllocateXLarge_begin]
        have hal := hVM
        have hnt : test (tryVMAllocate (2 ^ max j k)
            (roundUpToMultipleOf (2 ^ k) (max h.m_vmPageSizePhysical size)))
            (wsub (2 ^ max j k) 1) = false := by
          rw [wsub_one_two_pow hm]
          simp [test, Nat.and_pow_two_sub_one_eq_mod, hal]
        simp only [hnt]
        simpa using h2
      simp [h2, hne]
  refine ⟨hiff, ?_, ?_, ?_⟩
  · intro h0
    have hcase := hiff.1 h0
    simp only [tryAllocateXLarge]
    rw [if_neg (by simp [hcase.1]), if_pos hcase.2]
  · intro r hr
    simp only [allocateXLarge] at hr
    split_ifs at hr with hz
    exact ⟨by
      have := Option.some.inj hr
      rw [← this]; exact hz, (Option.some.inj hr).symm⟩
  · simp only [allocateXLarge]
    split_ifs with hz <;> simp [hz]

/-- C4 at a concrete input: the free range at 4096 serves the request of
5 MiB + 1 byte at 2 MiB, which is not null. -/
theorem tryAllocateXLarge_null_iff_witness :
    (tryAllocateXLarge (2 ^ 21) exampleTakeFree exampleVMAllocate exampleXLargeHeap (2 ^ 3)
        (5 * 2 ^ 20 + 1)).1 = 2 ^ 21 ∧
    ((tryAllocateXLarge (2 ^ 21) exampleTakeFree exampleVMAllocate exampleXLargeHeap (2 ^ 3)
        (5 * 2 ^ 20 + 1)).1 = 0 ↔
      ((exampleTakeFree (roundUpToMultipleOf (2 ^ 21) (2 ^ 3))
          (max exampleXLargeHeap.m_vmPageSizePhysical (5 * 2 ^ 20 + 1))).toBool = false ∧
        exampleVMAllocate (roundUpToMultipleOf (2 ^ 21) (2 ^ 3))
          (roundUpToMultipleOf (2 ^ 21)
            (max exampleXLargeHeap.m_vmPageSizePhysical (5 * 2 ^ 20 + 1))) = 0)) :=
  ⟨by decide,
    (tryAllocateXLarge_null_iff 21 3 (by decide) (by decide) exampleTakeFree exampleVMAllocate
      exampleXLargeHeap (5 * 2 ^ 20 + 1) (by decide) (by decide)).1⟩

/-- With nothing free and a VM primitive out of address space, the request
fails with null and registers nothing. -/
theorem tryAllocateXLarge_null_example :
    tryAllocateXLarge (2 ^ 21) emptyTakeFree failingVMAllocate exampleXLargeHeap 8 (5 * 2 ^ 20)
      = (0, { exampleXLargeHeap with m_isAllocatingPages := true }) ∧
    allocateXLarge (2 ^ 21) emptyTakeFree failingVMAllocate exampleXLargeHeap 8 (5 * 2 ^ 20)
      = none := by
  constructor <;> decide

/-! ## C6 -/

theorem splitAndAllocateXLarge_size (xa : Nat) (h : XLargeHeap) (range : XLargeRange)
    (alignment size : Nat) :
    (splitAndAllocateXLarge xa h range alignment size).1.size
      = roundUpToMultipleOf h.m_vmPageSizePhysical size := by
  simp only [splitAndAllocateXLarge]
  split_ifs <;> rfl

/-- C6: the range allocated by the extra-large `splitAndAllocate`, called from
`tryAllocateXLarge` with the size `max(physicalPageSize, size)`, has size
exactly `roundUpToMultipleOf(physicalPageSize, max(physicalPageSize, size))`,
for every range and alignment; a successful `tryAllocateXLarge` registers an
allocation of that size at the pointer it returns; that size is a multiple of
the physical page size and, when the rounding stays inside the machine word,
at least the requested size. -/
theorem tryAllocateXLarge_allocated_size (xa : Nat)
    (takeFree : Nat → Nat → XLargeRange) (tryVMAllocate : Nat → Nat → Nat)
    (h : XLargeHeap) (alignment size : Nat) :
    (∀ (range : XLargeRange) (a : Nat),
      (splitAndAllocateXLarge xa { h with m_isAllocatingPages := true } range a
        (max h.m_vmPageSizePhysical size)).1.size
        = roundUpToMultipleOf h.m_vmPageSizePhysical (max h.m_vmPageSizePhysical size)) ∧
    ((tryAllocateXLarge xa takeFree tryVMAllocate h alignment size).1 ≠ 0 →
      ∃ c : AddAllocated,
        (tryAllocateXLarge xa takeFree tryVMAllocate h alignment size).2.addAllocatedCalls
          = h.addAllocatedCalls ++ [c] ∧
        c.allocated.1.begin = (tryAllocateXLarge xa takeFree tryVMAllocate h alignment size).1 ∧
        c.allocated.1.size
          = roundUpToMultipleOf h.m_vmPageSizePhysical (max h.m_vmPageSizePhysical size)) ∧
    h.m_vmPageSizePhysical ∣
      roundUpToMultipleOf h.m_vmPageSizePhysical (max h.m_vmPageSizePhysical size) ∧
    (0 < h.m_vmPageSizePhysical →
      max h.m_vmPageSizePhysical size + (h.m_vmPageSizePhysical - 1) < wordSize →
      size ≤ roundUpToMultipleOf h.m_vmPageSizePhysical (max h.m_vmPageSizePhysical size)) := by
  refine ⟨fun range a => splitAndAllocateXLarge_size _ _ _ _ _, ?_, ?_, ?_⟩
  · intro hne
    simp only [tryAllocateXLarge] at hne ⊢
    split_ifs at hne ⊢ with h1 h2
    · obtain ⟨c, hc1, hc2⟩ := splitAndAllocateXLarge_calls xa
        { h with m_isAllocatingPages := true }
        (takeFree (roundUpToMultipleOf xa alignment) (max h.m_vmPageSizePhysical size))
        (roundUpToMultipleOf xa alignment) (max h.m_vmPageSizePhysical size)
      exact ⟨c, hc1, by rw [hc2], by rw [hc2]; exact splitAndAllocateXLarge_size _ _ _ _ _⟩
    · exact absurd rfl hne
    · obtain ⟨c, hc1, hc2⟩ := splitAndAllocateXLarge_calls xa
        { h with m_isAllocatingPages := true }
        ⟨tryVMAllocate (roundUpToMultipleOf xa alignment)
            (roundUpToMultipleOf xa (max h.m_vmPageSizePhysical size)),
          roundUpToMultipleOf xa (max h.m_vmPageSizePhysical size), .Virtual⟩
        (roundUpToMultipleOf xa alignment) (max h.m_vmPageSizePhysical size)
      exact ⟨c, hc1, by rw [hc2], by rw [hc2]; exact splitAndAllocateXLarge_size _ _ _ _ _⟩
  · exact Nat.dvd_of_mod_eq_zero (roundUpToMultipleOf_mod _ _)
  · intro hP hfit
    exact le_trans (le_max_right _ _) (roundUpToMultipleOf_ge hP hfit)

/-- C6 at a concrete input: 5 MiB + 1 byte on 4 KiB pages is allocated as
5 MiB + 4 KiB, registered at the pointer returned. -/
theorem tryAllocateXLarge_allocated_size_witness :
    roundUpToMultipleOf exampleXLargeHeap.m_vmPageSizePhysical
      (max exampleXLargeHeap.m_vmPageSizePhysical (5 * 2 ^ 20 + 1)) = 5 * 2 ^ 20 + 4096 ∧
    (∃ c : AddAllocated,
      (tryAllocateXLarge (2 ^ 21) exampleTakeFree exampleVMAllocate exampleXLargeHeap 8
        (5 * 2 ^ 20 + 1)).2.addAllocatedCalls = exampleXLargeHeap.addAllocatedCalls ++ [c] ∧
      c.allocated.1.begin = (tryAllocateXLarge (2 ^ 21) exampleTakeFree exampleVMAllocate
        exampleXLargeHeap 8 (5 * 2 ^ 20 + 1)).1 ∧
      c.allocated.1.size = roundUpToMultipleOf exampleXLargeHeap.m_vmPageSizePhysical
        (max exampleXLargeHeap.m_vmPageSizePhysical (5 * 2 ^ 20 + 1))) ∧
    5 * 2 ^ 20 + 1 ≤ roundUpToMultipleOf exampleXLargeHeap.m_vmPageSizePhysical
      (max exampleXLargeHeap.m_vmPageSizePhysical (5 * 2 ^ 20 + 1)) :=
  ⟨by decide,
    (tryAllocateXLarge_allocated_size (2 ^ 21) exampleTakeFree exampleVMAllocate
      exampleXLargeHeap 8 (5 * 2 ^ 20 + 1)).2.1 (by decide),
    (tryAllocateXLarge_allocated_size (2 ^ 21) exampleTakeFree exampleVMAllocate
      exampleXLargeHeap 8 (5 * 2 ^ 20 + 1)).2.2.2 (by decide) (by decide)⟩

/-! ## C2 -/

/-- Where the object allocated by the aligned large split begins. -/
theorem splitAndAllocateAligned_begin (S : Sizes) (E : LargeEnv) (h : Heap)
    (o : LargeObject) (alignment size : Nat) :
    (splitAndAllocateAligned S E h o alignment size).1.begin =
      if test o.begin (wsub alignment 1)
      then roundUpToMultipleOf alignment (wadd o.begin S.largeMin) else o.begin := by
  have hb : (o.split (wsub (roundUpToMultipleOf alignment (wadd o.begin S.largeMin))
      o.begin)).2.begin = roundUpToMultipleOf alignment (wadd o.begin S.largeMin) := by
    simp only [LargeObject.split]
    rw [wadd_wsub_cancel]
    exact Nat.mod_eq_of_lt (roundUpToMultipleOf_lt _ _)
  simp only [splitAndAllocateAligned]
  split_ifs <;> simp only [LargeObject.split, LargeObject.setFree] at hb ⊢ <;>
    first | rfl | exact hb

theorem splitAndAllocateAligned_begin_mod (S : Sizes) (E : LargeEnv) (h : Heap)
    (o : LargeObject) (m size : Nat) (hm : m < 64) :
    (splitAndAllocateAligned S E h o (2 ^ m) size).1.begin % 2 ^ m = 0 := by
  rw [splitAndAllocateAligned_begin]
  by_cases ht : test o.begin (wsub (2 ^ m) 1) = true
  · rw [if_pos ht]; exact roundUpToMultipleOf_mod _ _
  · rw [if_neg ht]
    exact test_two_pow_false hm (by simpa using ht)

/-- C2: for every free `LargeObject` and every power-of-two alignment with
`largeAlignment <= alignment <= chunkSize / 2`, the object returned by the
aligned `Heap::splitAndAllocate` begins at a multiple of the alignment, and so
does the pointer returned by `Heap::allocateLarge(alignment, size,
unalignedSize)`, whatever object the free map or the VM heap hands over. -/
theorem splitAndAllocateAligned_aligned (S : Sizes) (E : LargeEnv) (h : Heap)
    (o : LargeObject) (m alignment size unalignedSize : Nat)
    (_hfree : o.isFree = true) (hpow : alignment = 2 ^ m)
    (_hlo : S.largeAlignment ≤ alignment) (hhi : alignment ≤ S.chunkSize / 2)
    (hchunk : S.chunkSize ≤ wordSize) :
    (splitAndAllocateAligned S E h o alignment size).1.begin % alignment = 0 ∧
    (allocateLargeAligned S E h alignment size unalignedSize).1 % alignment = 0 := by
  subst hpow
  have hm : m < 64 := by
    have h1 : 2 ^ m ≤ wordSize / 2 := le_trans hhi (Nat.div_le_div_right hchunk)
    have h2 : 2 ^ m < 2 ^ 64 := by
      rw [wordSize_eq] at h1
      norm_num at h1 ⊢
      omega
    exact (Nat.pow_lt_pow_iff_right (by norm_num)).1 h2
  refine ⟨splitAndAllocateAligned_begin_mod S E h o m size hm, ?_⟩
  simp only [allocateLargeAligned]
  exact splitAndAllocateAligned_begin_mod _ _ _ _ _ _ hm

/-- C2 at a concrete input: a free object at `8 MiB + 64` of 1 MiB, asked for
4 KiB at alignment 4 KiB, is handed out at `8 MiB + 4 KiB`. -/
theorem splitAndAllocateAligned_aligned_witness :
    (splitAndAllocateAligned exampleSizes exampleLargeEnv exampleHeap
      ⟨2 ^ 23 + 64, 2 ^ 20, true, .Physical⟩ 4096 4096).1.begin = 2 ^ 23 + 4096 ∧
    (splitAndAllocateAligned exampleSizes exampleLargeEnv exampleHeap
      ⟨2 ^ 23 + 64, 2 ^ 20, true, .Physical⟩ 4096 4096).1.begin % 4096 = 0 :=
  ⟨by decide,
    (splitAndAllocateAligned_aligned exampleSizes exampleLargeEnv exampleHeap
      ⟨2 ^ 23 + 64, 2 ^ 20, true, .Physical⟩ 12 4096 4096 9152
      rfl (by decide) (by decide) (by decide) (by decide)).1⟩

/-! ## The scan of a small page: C5 -/

@[simp] theorem Heap.lineMetadata_refLine (S : Sizes) (h : Heap) (line count c l : Nat) :
    (h.refLine line count).lineMetadata S c l = h.lineMetadata S c l := rfl

@[simp] theorem Heap.lineMetadata_refPage (S : Sizes) (h : Heap) (page c l : Nat) :
    (h.refPage page).lineMetadata S c l = h.lineMetadata S c l := rfl

/-- The object counts of the lines `a, ..., n - 1` of a size class. -/
theorem sum_Ico_split (f : Nat → Nat) {a n : Nat} (h : a < n) :
    ∑ i in Finset.Ico a n, f i = f a + ∑ i in Finset.Ico (a + 1) n, f i :=
  Finset.sum_eq_sum_Ico_succ_bot h f

theorem list_sum_range_eq (f : Nat → Nat) (n : Nat) :
    ((List.range n).map f).sum = ∑ i in Finset.Ico 0 n, f i := by
  induction n with
  | zero => simp
  | succ n ih =>
    rw [List.range_succ, List.map_append, List.sum_append, ih]
    simp [Finset.sum_range_succ]

/-- The merge loop returns, given one round of fuel for every line left; the
table and the page size are as before, and the count of the run stays
positive when the counts of the lines left do not wrap an `unsigned short`. -/
theorem mergeLines_some (S : Sizes) (c page n : Nat) (fuel ln oc : Nat) (h : Heap)
    (hln : ln < n) (hfuel : n - ln ≤ fuel) :
    ∃ ln' oc' h', mergeLines S c page n fuel ln oc h = some (ln', oc', h') ∧
      ln < ln' ∧
      (∀ l, h'.lineMetadata S c l = h.lineMetadata S c l) ∧
      (0 < oc →
        oc + ∑ i in Finset.Ico (ln + 1) n, (h.lineMetadata S c i).objectCount < shortSize →
        0 < oc') := by
  induction fuel generalizing ln oc h with
  | zero => omega
  | succ fuel ih =>
    simp only [mergeLines]
    split_ifs with h1 h2 h3
    · exact ⟨_, _, _, rfl, by omega, fun _ => rfl, fun hoc _ => hoc⟩
    · obtain ⟨ln', oc', h', he, hlt, hmd, hpos⟩ := ih (ln + 1) oc h h1 (by omega)
      refine ⟨ln', oc', h', he, by omega, hmd, ?_⟩
      intro hoc hsum
      apply hpos hoc
      rw [sum_Ico_split _ h1] at hsum
      omega
    · obtain ⟨ln', oc', h', he, hlt, hmd, hpos⟩ := ih (ln + 1)
        ((oc + (h.lineMetadata S c (ln + 1)).objectCount) % shortSize)
        ((h.refLine (Heap.lineAt S page (ln + 1))
          (h.lineMetadata S c (ln + 1)).objectCount).refPage page) h1 (by omega)
      refine ⟨ln', oc', h', he, by omega, ?_, ?_⟩
      · intro l; rw [hmd l]; rfl
      · intro hoc hsum
        rw [sum_Ico_split _ h1] at hsum
        have hmod : (oc + (h.lineMetadata S c (ln + 1)).objectCount) % shortSize
            = oc + (h.lineMetadata S c (ln + 1)).objectCount :=
          Nat.mod_eq_of_lt (by omega)
        apply hpos
        · rw [hmod]; omega
        · rw [hmod]
          simp only [Heap.lineMetadata_refLine, Heap.lineMetadata_refPage]
          omega
    · exact ⟨_, _, _, rfl, by omega, fun _ => rfl, fun hoc _ => hoc⟩

/-- The scan returns, given one round of fuel for every line left and one
more; an allocator that can allocate still can on return; and an allocator
that cannot is refilled when the cache has room, a free line that holds objects
is still to come, and the counts of the lines left do not wrap. -/
theorem scanLines_some (S : Sizes) (c page n : Nat) (fuel ln : Nat) (h : Heap)
    (a : BumpAllocator) (cache : BumpRangeCache)
    (hfuel : n + 1 - ln ≤ fuel) (hln : ln ≤ n) :
    ∃ r, scanLines S c page n fuel ln h a cache = some r ∧
      (a.canAllocate = true → r.2.1.canAllocate = true) ∧
      (cache.size < cache.capacity →
        (∃ l, ln ≤ l ∧ l < n ∧ h.lines (Heap.lineAt S page l) = 0 ∧
          (h.lineMetadata S c l).objectCount ≠ 0) →
        ∑ i in Finset.Ico ln n, (h.lineMetadata S c i).objectCount < shortSize →
        r.2.1.canAllocate = true) := by
  induction fuel generalizing ln h a cache with
  | zero => omega
  | succ fuel ih =>
    simp only [scanLines]
    by_cases h1 : ln < n
    · rw [if_pos h1]
      by_cases h2 : h.lines (Heap.lineAt S page ln) ≠ 0
      · rw [if_pos h2]
        obtain ⟨r, hr, hmono, hfirst⟩ := ih (ln + 1) h a cache (by omega) (by omega)
        refine ⟨r, hr, hmono, ?_⟩
        rintro hroom ⟨l, hl1, hl2, hl3, hl4⟩ hsum
        have hne : l ≠ ln := by rintro rfl; exact h2 hl3
        apply hfirst hroom ⟨l, by omega, hl2, hl3, hl4⟩
        rw [sum_Ico_split _ h1] at hsum
        omega
      · rw [if_neg h2]
        by_cases h3 : (h.lineMetadata S c ln).objectCount = 0
        · rw [if_pos h3]
          obtain ⟨r, hr, hmono, hfirst⟩ := ih (ln + 1) h a cache (by omega) (by omega)
          refine ⟨r, hr, hmono, ?_⟩
          rintro hroom ⟨l, hl1, hl2, hl3, hl4⟩ hsum
          have hne : l ≠ ln := by rintro rfl; exact hl4 h3
          apply hfirst hroom ⟨l, by omega, hl2, hl3, hl4⟩
          rw [sum_Ico_split _ h1] at hsum
          omega
        · rw [if_neg h3]
          by_cases h4 : cache.size = cache.capacity
          · rw [if_pos h4]
            exact ⟨_, rfl, fun ha => ha, fun hroom => by omega⟩
          · rw [if_neg h4]
            obtain ⟨ln', oc', h', he, hlt, -, hpos⟩ := mergeLines_some S c page n n ln
              (h.lineMetadata S c ln).objectCount
              ((h.refLine (Heap.lineAt S page ln)
                (h.lineMetadata S c ln).objectCount).refPage page) h1 (by omega)
            rw [he]
            simp only
            have hrest : ∀ (a' : BumpAllocator) (cache' : BumpRangeCache),
                ∃ r, scanLines S c page n fuel (ln' + 1) h' a' cache' = some r ∧
                  (a'.canAllocate = true → r.2.1.canAllocate = true) := by
              intro a' cache'
              by_cases hle : ln' + 1 ≤ n
              · obtain ⟨r, hr, hmono, -⟩ := ih (ln' + 1) h' a' cache' (by omega) hle
                exact ⟨r, hr, hmono⟩
              · cases fuel with
                | zero => omega
                | succ fuel =>
                  refine ⟨(h'.setPage page { h'.pages page with hasFreeLines := false },
                    a', cache'), ?_, fun ha => ha⟩
                  simp only [scanLines]
                  rw [if_neg (by omega)]
            by_cases hca : a.canAllocate = true
            · rw [if_neg (by simp [hca])]
              obtain ⟨r, hr, hmono⟩ := hrest a (cache.push ⟨_, oc'⟩)
              exact ⟨r, hr, hmono, fun _ _ _ => hmono hca⟩
            · rw [if_pos (by simpa using hca)]
              obtain ⟨r, hr, hmono⟩ := hrest (a.refill ⟨_, oc'⟩) cache
              refine ⟨r, hr, fun ha => absurd ha hca, ?_⟩
              intro _ _ hsum
              apply hmono
              have hoc : 0 < oc' := by
                apply hpos (Nat.pos_of_ne_zero h3)
                rw [sum_Ico_split _ h1] at hsum
                simpa using hsum
              simp only [BumpAllocator.canAllocate, BumpAllocator.refill]
              simpa using Nat.ne_of_gt hoc
    · rw [if_neg h1]
      refine ⟨_, rfl, fun ha => ha, ?_⟩
      rintro - ⟨l, hl1, hl2, -, -⟩ -
      omega

/-! ## The reference layout -/

theorem firstObject_mul_ge (S : Sizes) {s : Nat} (hs : 0 < s) (L : Nat) :
    L * S.smallLineSize ≤ firstObject S s L * s := by
  unfold firstObject
  have h1 := Nat.div_add_mod (L * S.smallLineSize + (s - 1)) s
  have h2 := Nat.mod_lt (L * S.smallLineSize + (s - 1)) hs
  rw [Nat.mul_comm] at h1
  omega

theorem firstObject_mul_lt (S : Sizes) {s : Nat} (hs : 0 < s) (L : Nat) :
    firstObject S s L * s < L * S.smallLineSize + s := by
  unfold firstObject
  have := Nat.div_mul_le_self (L * S.smallLineSize + (s - 1)) s
  omega

/-- The index `firstObject` is the only one whose object begins in the `size`
bytes from the start of the line on. -/
theorem firstObject_unique (S : Sizes) {s : Nat} (hs : 0 < s) (L j : Nat)
    (h1 : L * S.smallLineSize ≤ j * s) (h2 : j * s < L * S.smallLineSize + s) :
    j = firstObject S s L := by
  unfold firstObject
  symm
  apply Nat.div_eq_of_lt_le
  · omega
  · rw [Nat.succ_mul]; omega

theorem firstObject_le_of_le (S : Sizes) {s : Nat} (hs : 0 < s) (L k : Nat)
    (h : L * S.smallLineSize ≤ k * s) : firstObject S s L ≤ k := by
  by_contra hlt
  have h1 : (k + 1) * s ≤ firstObject S s L * s := Nat.mul_le_mul_right s (by omega)
  have h2 := firstObject_mul_lt S hs L
  rw [Nat.succ_mul] at h1
  omega

theorem firstObject_mono (S : Sizes) {s : Nat} (hs : 0 < s) {L M : Nat} (h : L ≤ M) :
    firstObject S s L ≤ firstObject S s M := by
  apply firstObject_le_of_le S hs
  have h1 := firstObject_mul_ge S hs M
  have h2 : L * S.smallLineSize ≤ M * S.smallLineSize := Nat.mul_le_mul_right _ h
  omega

theorem firstObjectInPage_mono (S : Sizes) (P : Nat) {s : Nat} (hs : 0 < s) {L M : Nat}
    (h : L ≤ M) : firstObjectInPage S P s L ≤ firstObjectInPage S P s M := by
  unfold firstObjectInPage
  exact min_le_min (firstObject_mono S hs h) le_rfl

/-! ## The line metadata table -/

theorem divideRoundingUp_spec {d s : Nat} (hs : 0 < s) (hd : 0 < d) :
    d ≤ (divideRoundingUp d s).1 * s ∧ (divideRoundingUp d s).1 * s < d + s ∧
    1 ≤ (divideRoundingUp d s).1 ∧ (divideRoundingUp d s).1 ≤ d := by
  have h1 := Nat.div_add_mod d s
  have h2 := Nat.mod_lt d hs
  have h3 : d / s ≤ d / s * s := Nat.le_mul_of_pos_right _ hs
  rw [Nat.mul_comm] at h1
  simp only [divideRoundingUp]
  generalize d / s = q at h1 h3 ⊢
  generalize d % s = r at h1 h2 ⊢
  split_ifs with hr
  · rw [Nat.add_mul]
    omega
  · have h4 : 0 < q := by
      rcases Nat.eq_zero_or_pos q with h | h
      · rw [h] at h1; omega
      · exact h
    omega

/-- One round of the loop of `initializeLineMetadata`: from the first object at
or after line `m`, which begins inside line `object / smallLineSize`, to the
first object at or after the next line. -/
theorem lineMetadata_round (S : Sizes) {s : Nat} (hs : 0 < s) (hls : 0 < S.smallLineSize)
    (m object : Nat) (hobj : object = firstObject S s m * s)
    (hm : m * S.smallLineSize ≤ object) :
    m ≤ object / S.smallLineSize ∧
    (∀ L, m ≤ L → L ≤ object / S.smallLineSize → firstObject S s L = firstObject S s m) ∧
    firstObject S s (object / S.smallLineSize + 1)
      = firstObject S s m + (divideRoundingUp (S.smallLineSize - object % S.smallLineSize) s).1 ∧
    object % S.smallLineSize + object / S.smallLineSize * S.smallLineSize = object ∧
    1 ≤ (divideRoundingUp (S.smallLineSize - object % S.smallLineSize) s).1 ∧
    (divideRoundingUp (S.smallLineSize - object % S.smallLineSize) s).1 ≤ S.smallLineSize := by
  have hdm := Nat.div_add_mod object S.smallLineSize
  have hml := Nat.mod_lt object hls
  rw [Nat.mul_comm] at hdm
  have hlt := firstObject_mul_lt S hs m
  have hd := divideRoundingUp_spec hs (show 0 < S.smallLineSize - object % S.smallLineSize by omega)
  have hmle : m ≤ object / S.smallLineSize := (Nat.le_div_iff_mul_le hls).2 hm
  refine ⟨hmle, ?_, ?_, by omega, hd.2.2.1, by omega⟩
  · intro L hL1 hL2
    symm
    apply firstObject_unique S hs
    · have : L * S.smallLineSize ≤ object / S.smallLineSize * S.smallLineSize :=
        Nat.mul_le_mul_right _ hL2
      omega
    · have : m * S.smallLineSize ≤ L * S.smallLineSize := Nat.mul_le_mul_right _ hL1
      omega
  · symm
    apply firstObject_unique S hs
    · rw [Nat.add_mul, Nat.add_mul, ← hobj]; omega
    · rw [Nat.add_mul, Nat.add_mul, ← hobj]; omega

theorem getD_set_eq {α : Type} (l : List α) (i : Nat) (a z : α) (h : i < l.length) :
    (l.set i a).getD i z = a := by
  simp [List.getD_eq_getElem?_getD, h]

theorem getD_set_ne {α : Type} (l : List α) (i j : Nat) (a z : α) (h : i ≠ j) :
    (l.set i a).getD j z = l.getD j z := by
  simp [List.getD_eq_getElem?_getD, List.getElem?_set_ne h]

/-- What the loop of `initializeLineMetadata` leaves when it starts at the
first object at or after line `m`: the entry of every line from `m` on in which
an object begins holds the offset of its first object and the number of objects
that begin in it, and nothing else is written. -/
theorem lineMetadataLoop_spec (S : Sizes) (P s base : Nat) (hs : 0 < s)
    (hls : 0 < S.smallLineSize) (hdiv : S.smallLineSize ∣ P)
    (hshort : S.smallLineSize < shortSize)
    (fuel object line : Nat) (table : List LineMetadata) (m : Nat)
    (hobj : object = firstObject S s m * s) (hm : m * S.smallLineSize ≤ object)
    (hlen : base + P / S.smallLineSize ≤ table.length)
    (object' line' : Nat) (table' : List LineMetadata)
    (hrun : lineMetadataLoop S P s base fuel object line table = some (object', line', table')) :
    ∃ m', m ≤ m' ∧ object' = firstObject S s m' * s ∧ P ≤ object' ∧
      table'.length = table.length ∧
      ((m' = m ∧ line' = line) ∨
        (line' + 1 = m' ∧ m ≤ line' ∧ line' < P / S.smallLineSize ∧
          firstObject S s line' * s < P ∧
          firstObject S s line' < firstObject S s (line' + 1))) ∧
      (∀ L, m ≤ L → L < m' → firstObject S s L < firstObject S s (L + 1) →
        table'.getD (base + L) ⟨0, 0⟩
          = ⟨firstObject S s L * s - L * S.smallLineSize,
              firstObject S s (L + 1) - firstObject S s L⟩) ∧
      (∀ i, (∀ L, m ≤ L → L < m' → firstObject S s L < firstObject S s (L + 1) →
          i ≠ base + L) →
        table'.getD i ⟨0, 0⟩ = table.getD i ⟨0, 0⟩) := by
  induction fuel generalizing object line table m with
  | zero => simp [lineMetadataLoop] at hrun
  | succ fuel ih =>
    simp only [lineMetadataLoop] at hrun
    by_cases hlt : object < P
    · rw [if_pos hlt] at hrun
      obtain ⟨hmle, hsame, hnext, hsplit, hc1, hc2⟩ := lineMetadata_round S hs hls m object hobj hm
      have hline : object / S.smallLineSize < P / S.smallLineSize := by
        obtain ⟨q, hq⟩ := hdiv
        rw [hq, Nat.mul_div_cancel_left _ hls]
        exact Nat.div_lt_of_lt_mul (by rw [← hq]; exact hlt)
      have hKline := hsame (object / S.smallLineSize) hmle le_rfl
      have hobj1 : object + (divideRoundingUp (S.smallLineSize - object % S.smallLineSize) s).1 * s
          = firstObject S s (object / S.smallLineSize + 1) * s := by
        rw [hnext, Nat.add_mul, ← hobj]
      have hm1 : (object / S.smallLineSize + 1) * S.smallLineSize
          ≤ object + (divideRoundingUp (S.smallLineSize - object % S.smallLineSize) s).1 * s := by
        rw [hobj1]; exact firstObject_mul_ge S hs _
      obtain ⟨m', hmm', hobj', hP, hlen', hlast, hE1, hE2⟩ :=
        ih _ (object / S.smallLineSize) _ (object / S.smallLineSize + 1) hobj1 hm1
          (by rw [List.length_set]; exact hlen) hrun
      have hcntlt : firstObject S s (object / S.smallLineSize)
          < firstObject S s (object / S.smallLineSize + 1) := by
        rw [hnext, hKline]; omega
      refine ⟨m', by omega, hobj', hP, by rw [hlen', List.length_set], ?_, ?_, ?_⟩
      · right
        rcases hlast with ⟨h1, h2⟩ | ⟨h1, h2, h3, h4, h5⟩
        · exact ⟨by omega, by omega, by omega, by rw [h2, hKline, ← hobj]; exact hlt,
            by rw [h2]; exact hcntlt⟩
        · exact ⟨h1, by omega, h3, h4, h5⟩
      · intro L hL1 hL2 hL3
        by_cases hLge : object / S.smallLineSize + 1 ≤ L
        · exact hE1 L hLge hL2 hL3
        · have hLeq : L = object / S.smallLineSize := by
            by_contra hne
            have h1 := hsame L hL1 (by omega)
            have h2 := hsame (L + 1) (by omega) (by omega)
            omega
          subst hLeq
          rw [hE2 _ (by intro L' hL'1 _ _; omega)]
          rw [getD_set_eq _ _ _ _ (by omega)]
          have hoff : object % S.smallLineSize % shortSize
              = firstObject S s (object / S.smallLineSize) * s
                - object / S.smallLineSize * S.smallLineSize := by
            rw [hKline, ← hobj, Nat.mod_eq_of_lt]
            · omega
            · have := Nat.mod_lt object hls
              omega
          have hcnt : (divideRoundingUp (S.smallLineSize - object % S.smallLineSize) s).1
              % shortSize = firstObject S s (object / S.smallLineSize + 1)
                - firstObject S s (object / S.smallLineSize) := by
            rw [Nat.mod_eq_of_lt (by omega), hnext, hKline]; omega
          rw [hoff, hcnt]
      · intro i hi
        rw [hE2 i (fun L hL1 hL2 hL3 => hi L (by omega) hL2 hL3)]
        apply getD_set_ne
        intro heq
        exact hi (object / S.smallLineSize) hmle (by omega) hcntlt heq.symm
    · rw [if_neg hlt] at hrun
      simp only [Option.some.injEq, Prod.mk.injEq] at hrun
      obtain ⟨rfl, rfl, rfl⟩ := hrun
      exact ⟨m, le_rfl, hobj, by omega, rfl, Or.inl ⟨rfl, rfl⟩,
        fun L h1 h2 _ => by omega, fun i _ => rfl⟩

theorem firstObject_zero (S : Sizes) {s : Nat} (hs : 0 < s) : firstObject S s 0 = 0 := by
  unfold firstObject
  rw [Nat.zero_mul, Nat.zero_add]
  exact Nat.div_eq_of_lt (by omega)

theorem firstObject_le_whole (S : Sizes) (P : Nat) {s : Nat} (hs : 0 < s) (L : Nat)
    (h : firstObject S s L * s ≤ P) : firstObject S s L ≤ P / s :=
  (Nat.le_div_iff_mul_le hs).2 h

theorem whole_le_firstObject (S : Sizes) (P : Nat) {s : Nat} (hs : 0 < s) (L : Nat)
    (h : P ≤ firstObject S s L * s) : P / s ≤ firstObject S s L := by
  have h1 := Nat.div_mul_le_self P s
  exact Nat.le_of_mul_le_mul_right (le_trans h1 h) hs

/-- The number of objects that begin in one line is at most the line size. -/
theorem firstObject_succ_sub_le (S : Sizes) {s : Nat} (hs : 0 < s) (L : Nat) :
    firstObject S s (L + 1) - firstObject S s L ≤ S.smallLineSize := by
  have h1 := firstObject_mul_lt S hs (L + 1)
  have h2 := firstObject_mul_ge S hs L
  have h3 := firstObject_mono S hs (Nat.le_succ L)
  by_contra hgt
  have h4 : firstObject S s L + (S.smallLineSize + 1) ≤ firstObject S s (L + 1) := by omega
  have h5 := Nat.mul_le_mul_right s h4
  rw [Nat.add_mul, Nat.add_mul, Nat.one_mul] at h5
  have h6 : S.smallLineSize ≤ S.smallLineSize * s := Nat.le_mul_of_pos_right _ hs
  rw [Nat.add_mul, Nat.one_mul] at h1
  omega

/-- The table after the lines of one size class are written: the class's
entries follow the reference layout and no other entry is touched. -/
theorem initializeSizeClass_spec (S : Sizes) (P c : Nat) (hs : 0 < S.objectSize c)
    (hls : 0 < S.smallLineSize) (hdiv : S.smallLineSize ∣ P)
    (hshort : S.smallLineSize < shortSize)
    (table table' : List LineMetadata)
    (hlen : c * (P / S.smallLineSize) + P / S.smallLineSize ≤ table.length)
    (hzero : ∀ L, L < P / S.smallLineSize →
      table.getD (c * (P / S.smallLineSize) + L) ⟨0, 0⟩ = ⟨0, 0⟩)
    (hrun : initializeSizeClass S P table c = some table') :
    table'.length = table.length ∧
    (∀ i, (∀ L, L < P / S.smallLineSize → i ≠ c * (P / S.smallLineSize) + L) →
      table'.getD i ⟨0, 0⟩ = table.getD i ⟨0, 0⟩) ∧
    (∀ L, L < P / S.smallLineSize →
      (table'.getD (c * (P / S.smallLineSize) + L) ⟨0, 0⟩).objectCount
        = firstObjectInPage S P (S.objectSize c) (L + 1)
          - firstObjectInPage S P (S.objectSize c) L ∧
      ((table'.getD (c * (P / S.smallLineSize) + L) ⟨0, 0⟩).objectCount ≠ 0 →
        L * S.smallLineSize + (table'.getD (c * (P / S.smallLineSize) + L) ⟨0, 0⟩).startOffset
          = firstObjectInPage S P (S.objectSize c) L * S.objectSize c)) := by
  simp only [initializeSizeClass] at hrun
  split at hrun
  · exact absurd hrun (by simp)
  · rename_i object line table₁ hloop
    obtain ⟨m', -, hobj', hP, hlen', hlast, hE1, hE2⟩ :=
      lineMetadataLoop_spec S P (S.objectSize c) (c * (P / S.smallLineSize)) hs hls hdiv hshort
        _ 0 0 table 0 (by rw [firstObject_zero S hs, Nat.zero_mul]) (by simp) hlen
        object line table₁ hloop
    have hn : P / S.smallLineSize * S.smallLineSize = P := Nat.div_mul_cancel hdiv
    rcases hlast with ⟨hm0, -⟩ | ⟨hline, -, hlineN, hKlt, hcnt⟩
    · -- no round was run: the page is empty
      subst hm0
      rw [firstObject_zero S hs, Nat.zero_mul] at hobj'
      have hP0 : P = 0 := by omega
      have hN0 : P / S.smallLineSize = 0 := by rw [hP0]; simp
      rw [if_neg (by omega)] at hrun
      obtain rfl := Option.some.inj hrun
      refine ⟨hlen', fun i _ => hE2 i (fun L _ hL _ => by omega), ?_⟩
      intro L hL; omega
    · subst hline
      have hge1 := firstObject_mul_ge S hs (line + 1)
      have hlt1 := firstObject_mul_lt S hs (line + 1)
      have hle1 : (line + 1) * S.smallLineSize ≤ P := by
        rw [← hn]; exact Nat.mul_le_mul_right _ hlineN
      have hentry := hE1 line (Nat.zero_le _) (Nat.lt_succ_self _) hcnt
      have hcntle := firstObject_succ_sub_le S hs line
      -- the entries of the final table, in terms of the table the loop leaves
      have hfinal : ∀ i, i ≠ c * (P / S.smallLineSize) + line →
          table'.getD i ⟨0, 0⟩ = table₁.getD i ⟨0, 0⟩ := by
        intro i hi
        split_ifs at hrun
        · obtain rfl := Option.some.inj hrun
          exact getD_set_ne _ _ _ _ _ (Ne.symm hi)
        · obtain rfl := Option.some.inj hrun
          rfl
      have hlenf : table'.length = table₁.length := by
        split_ifs at hrun
        · obtain rfl := Option.some.inj hrun
          rw [List.length_set]
        · obtain rfl := Option.some.inj hrun
          rfl
      -- the number of whole objects and the entry of the last line written
      have hlastline : (table'.getD (c * (P / S.smallLineSize) + line) ⟨0, 0⟩).startOffset
            = firstObject S (S.objectSize c) line * S.objectSize c - line * S.smallLineSize ∧
          (table'.getD (c * (P / S.smallLineSize) + line) ⟨0, 0⟩).objectCount
            = P / S.objectSize c - firstObject S (S.objectSize c) line := by
        split_ifs at hrun with hgt
        · obtain rfl := Option.some.inj hrun
          rw [getD_set_eq _ _ _ _ (by omega), hentry]
          have hN : P / S.objectSize c = firstObject S (S.objectSize c) (line + 1) - 1 := by
            apply Nat.div_eq_of_lt_le
            · rw [Nat.sub_mul, Nat.one_mul]; omega
            · rw [Nat.sub_add_cancel (by omega), ← hobj']; exact hgt
          refine ⟨rfl, ?_⟩
          simp only
          rw [hN]
          have hss : shortSize = 65536 := by unfold shortSize; norm_num
          rw [hss] at hshort ⊢
          omega
        · obtain rfl := Option.some.inj hrun
          rw [hentry]
          have hN : P / S.objectSize c = firstObject S (S.objectSize c) (line + 1) := by
            have hPe : P = firstObject S (S.objectSize c) (line + 1) * S.objectSize c := by omega
            rw [hPe, Nat.mul_div_cancel _ hs]
          exact ⟨rfl, by rw [hN]⟩
      have hNle : firstObject S (S.objectSize c) line ≤ P / S.objectSize c :=
        firstObject_le_whole S P hs line (le_of_lt hKlt)
      have hNge : P / S.objectSize c ≤ firstObject S (S.objectSize c) (line + 1) :=
        whole_le_firstObject S P hs (line + 1) (by omega)
      refine ⟨by rw [hlenf, hlen'], ?_, ?_⟩
      · intro i hi
        rw [hfinal i (hi line hlineN)]
        exact hE2 i (fun L _ hL _ => hi L (by omega))
      · intro L hL
        rcases Nat.lt_trichotomy L line with hLlt | hLeq | hLgt
        · -- a line before the last one written
          have hK1 := firstObject_mono S hs (show L + 1 ≤ line by omega)
          have hK0 := firstObject_mono S hs (show L ≤ L + 1 by omega)
          have hA0 : firstObjectInPage S P (S.objectSize c) L
              = firstObject S (S.objectSize c) L := by
            unfold firstObjectInPage; exact min_eq_left (by omega)
          have hA1 : firstObjectInPage S P (S.objectSize c) (L + 1)
              = firstObject S (S.objectSize c) (L + 1) := by
            unfold firstObjectInPage; exact min_eq_left (by omega)
          rw [hA0, hA1, hfinal _ (by omega)]
          by_cases hb : firstObject S (S.objectSize c) L < firstObject S (S.objectSize c) (L + 1)
          · rw [hE1 L (Nat.zero_le _) (by omega) hb]
            have := firstObject_mul_ge S hs L
            exact ⟨rfl, fun _ => by simp only; omega⟩
          · rw [hE2 _ (by
              intro L' _ _ hL'
              intro heq
              have : L' = L := by omega
              subst this
              exact hb hL'), hzero L hL]
            exact ⟨by simp only; omega, fun h0 => absurd rfl h0⟩
        · -- the last line written
          subst hLeq
          have hA0 : firstObjectInPage S P (S.objectSize c) L
              = firstObject S (S.objectSize c) L := by
            unfold firstObjectInPage; exact min_eq_left hNle
          have hA1 : firstObjectInPage S P (S.objectSize c) (L + 1) = P / S.objectSize c := by
            unfold firstObjectInPage; exact min_eq_right hNge
          rw [hA0, hA1, hlastline.1, hlastline.2]
          have := firstObject_mul_ge S hs L
          exact ⟨rfl, fun _ => by omega⟩
        · -- a line after the last one written
          have hK0 := firstObject_mono S hs (show line + 1 ≤ L by omega)
          have hK1 := firstObject_mono S hs (show line + 1 ≤ L + 1 by omega)
          have hA0 : firstObjectInPage S P (S.objectSize c) L = P / S.objectSize c := by
            unfold firstObjectInPage; exact min_eq_right (by omega)
          have hA1 : firstObjectInPage S P (S.objectSize c) (L + 1) = P / S.objectSize c := by
            unfold firstObjectInPage; exact min_eq_right (by omega)
          rw [hA0, hA1, hfinal _ (by omega), hE2 _ (by intro L' _ _ _; omega), hzero L hL]
          exact ⟨by simp, fun h0 => absurd rfl h0⟩

theorem slice_ne {n c c' L L' : Nat} (hc : c ≠ c') (hL : L < n) (hL' : L' < n) :
    c * n + L ≠ c' * n + L' := by
  rcases Nat.lt_or_gt_of_ne hc with h | h
  · have := Nat.mul_le_mul_right n (show c + 1 ≤ c' by omega)
    rw [Nat.add_mul, Nat.one_mul] at this
    omega
  · have := Nat.mul_le_mul_right n (show c' + 1 ≤ c by omega)
    rw [Nat.add_mul, Nat.one_mul] at this
    omega

/-- The table after the lines of a list of distinct size classes are written. -/
theorem initializeSizeClasses_spec (S : Sizes) (P : Nat)
    (hls : 0 < S.smallLineSize) (hdiv : S.smallLineSize ∣ P)
    (hshort : S.smallLineSize < shortSize)
    (hsize : ∀ c, c < S.sizeClassCount → 0 < S.objectSize c)
    (cs : List Nat) (hnd : cs.Nodup) (hcs : ∀ c ∈ cs, c < S.sizeClassCount)
    (table table' : List LineMetadata)
    (hlen : S.sizeClassCount * (P / S.smallLineSize) ≤ table.length)
    (hzero : ∀ c ∈ cs, ∀ L, L < P / S.smallLineSize →
      table.getD (c * (P / S.smallLineSize) + L) ⟨0, 0⟩ = ⟨0, 0⟩)
    (hrun : initializeSizeClasses S P cs table = some table') :
    table'.length = table.length ∧
    (∀ i, (∀ c ∈ cs, ∀ L, L < P / S.smallLineSize → i ≠ c * (P / S.smallLineSize) + L) →
      table'.getD i ⟨0, 0⟩ = table.getD i ⟨0, 0⟩) ∧
    (∀ c ∈ cs, ∀ L, L < P / S.smallLineSize →
      (table'.getD (c * (P / S.smallLineSize) + L) ⟨0, 0⟩).objectCount
        = firstObjectInPage S P (S.objectSize c) (L + 1)
          - firstObjectInPage S P (S.objectSize c) L ∧
      ((table'.getD (c * (P / S.smallLineSize) + L) ⟨0, 0⟩).objectCount ≠ 0 →
        L * S.smallLineSize + (table'.getD (c * (P / S.smallLineSize) + L) ⟨0, 0⟩).startOffset
          = firstObjectInPage S P (S.objectSize c) L * S.objectSize c)) := by
  induction cs generalizing table with
  | nil =>
    simp only [initializeSizeClasses] at hrun
    obtain rfl := Option.some.inj hrun
    exact ⟨rfl, fun _ _ => rfl, fun c hc => absurd hc (List.not_mem_nil c)⟩
  | cons c₀ rest ih =>
    simp only [initializeSizeClasses] at hrun
    split at hrun
    · exact absurd hrun (by simp)
    · rename_i table₁ hclass
      have hc₀ : c₀ < S.sizeClassCount := hcs c₀ (List.mem_cons_self _ _)
      have hlen₀ : c₀ * (P / S.smallLineSize) + P / S.smallLineSize ≤ table.length := by
        have := Nat.mul_le_mul_right (P / S.smallLineSize) (show c₀ + 1 ≤ S.sizeClassCount by omega)
        rw [Nat.add_mul, Nat.one_mul] at this
        omega
      obtain ⟨hl1, hframe1, hentry1⟩ := initializeSizeClass_spec S P c₀ (hsize c₀ hc₀) hls hdiv
        hshort table table₁ hlen₀ (hzero c₀ (List.mem_cons_self _ _)) hclass
      have hnd' := List.nodup_cons.1 hnd
      obtain ⟨hl2, hframe2, hentry2⟩ := ih hnd'.2
        (fun c hc => hcs c (List.mem_cons_of_mem _ hc)) table₁ (by rw [hl1]; exact hlen)
        (by
          intro c hc L hL
          rw [hframe1 _ (by
            intro L' hL'
            exact slice_ne (by rintro rfl; exact hnd'.1 hc) hL hL')]
          exact hzero c (List.mem_cons_of_mem _ hc) L hL) hrun
      refine ⟨by rw [hl2, hl1], ?_, ?_⟩
      · intro i hi
        rw [hframe2 i (fun c hc L hL => hi c (List.mem_cons_of_mem _ hc) L hL)]
        exact hframe1 i (fun L hL => hi c₀ (List.mem_cons_self _ _) L hL)
      · intro c hc L hL
        rcases List.mem_cons.1 hc with rfl | hc'
        · rw [hframe2 _ (by
            intro c' hc' L' hL'
            exact slice_ne (by rintro rfl; exact hnd'.1 hc') hL hL')]
          exact hentry1 L hL
        · exact hentry2 c hc' L hL

/-- The table of `initializeLineMetadata` follows the reference layout: the
entry of line `L` of a size class counts the objects inside the page that begin
in the line, and, when there is one, gives the offset of the first in the line. -/
theorem initializeLineMetadata_spec (S : Sizes) (P : Nat)
    (hls : 0 < S.smallLineSize) (hdiv : S.smallLineSize ∣ P)
    (hshort : S.smallLineSize < shortSize)
    (hsize : ∀ c, c < S.sizeClassCount → 0 < S.objectSize c)
    (table : List LineMetadata) (hrun : initializeLineMetadata S P = some table)
    (c L : Nat) (hc : c < S.sizeClassCount) (hL : L < P / S.smallLineSize) :
    (table.getD (c * (P / S.smallLineSize) + L) ⟨0, 0⟩).objectCount
      = firstObjectInPage S P (S.objectSize c) (L + 1)
        - firstObjectInPage S P (S.objectSize c) L ∧
    ((table.getD (c * (P / S.smallLineSize) + L) ⟨0, 0⟩).objectCount ≠ 0 →
      L * S.smallLineSize + (table.getD (c * (P / S.smallLineSize) + L) ⟨0, 0⟩).startOffset
        = firstObjectInPage S P (S.objectSize c) L * S.objectSize c) := by
  simp only [initializeLineMetadata] at hrun
  have h := initializeSizeClasses_spec S P hls hdiv hshort hsize (List.range S.sizeClassCount)
    (List.nodup_range _) (fun c hc => List.mem_range.1 hc) _ table (by simp)
    (by
      intro c _ L _
      simp only [List.getD_eq_getElem?_getD, List.getElem?_replicate]
      split_ifs <;> rfl) hrun
  exact h.2.2 c (List.mem_range.2 hc) L hL

/-! ## What the large path and `allocateSmallPage` leave alone -/

/-- A fold of steps that leave the page size, the line metadata table and the
line reference counts alone leaves them alone. -/
theorem foldl_tables {α : Type} (step : Heap → α → Heap)
    (hstep : ∀ h i, (step h i).m_vmPageSizePhysical = h.m_vmPageSizePhysical ∧
      (step h i).m_smallLineMetadata = h.m_smallLineMetadata ∧ (step h i).lines = h.lines)
    (l : List α) (h : Heap) :
    (l.foldl step h).m_vmPageSizePhysical = h.m_vmPageSizePhysical ∧
    (l.foldl step h).m_smallLineMetadata = h.m_smallLineMetadata ∧
    (l.foldl step h).lines = h.lines := by
  induction l generalizing h with
  | nil => exact ⟨rfl, rfl, rfl⟩
  | cons i rest ih =>
    simp only [List.foldl_cons]
    obtain ⟨h1, h2, h3⟩ := ih (step h i)
    obtain ⟨g1, g2, g3⟩ := hstep h i
    exact ⟨h1.trans g1, h2.trans g2, h3.trans g3⟩

theorem deallocateLarge_tables (E : LargeEnv) (h : Heap) (o : LargeObject) :
    (deallocateLarge E h o).m_vmPageSizePhysical = h.m_vmPageSizePhysical ∧
    (deallocateLarge E h o).m_smallLineMetadata = h.m_smallLineMetadata := ⟨rfl, rfl⟩

theorem scavengeSmallPage_tables (S : Sizes) (E : LargeEnv) (h : Heap) :
    (scavengeSmallPage S E h).m_vmPageSizePhysical = h.m_vmPageSizePhysical ∧
    (scavengeSmallPage S E h).m_smallLineMetadata = h.m_smallLineMetadata := by
  simp only [scavengeSmallPage]
  have hf := foldl_tables
    (fun (h' : Heap) (i : Nat) =>
      h'.setPage (h.m_smallPages.getLastD 0 + (i + 1) * S.smallPageSize)
        { h'.pages (h.m_smallPages.getLastD 0 + (i + 1) * S.smallPageSize) with slide := 0 })
    (fun _ _ => ⟨rfl, rfl, rfl⟩)
    (List.range ((h.pages (h.m_smallPages.getLastD 0)).smallPageCount - 1))
    { h with m_smallPages := h.m_smallPages.dropLast }
  exact ⟨hf.1, hf.2.1⟩

theorem scavengeSmallPagesLoop_tables (S : Sizes) (E : LargeEnv) (fuel : Nat) (h : Heap) :
    (scavengeSmallPagesLoop S E fuel h).m_vmPageSizePhysical = h.m_vmPageSizePhysical ∧
    (scavengeSmallPagesLoop S E fuel h).m_smallLineMetadata = h.m_smallLineMetadata := by
  induction fuel generalizing h with
  | zero => exact ⟨rfl, rfl⟩
  | succ fuel ih =>
    simp only [scavengeSmallPagesLoop]
    split_ifs
    · exact ⟨rfl, rfl⟩
    · have h1 := ih (scavengeSmallPage S E h)
      have h2 := scavengeSmallPage_tables S E h
      exact ⟨h1.1.trans h2.1, h1.2.trans h2.2⟩

theorem splitAndAllocateAligned_tables (S : Sizes) (E : LargeEnv) (h : Heap)
    (o : LargeObject) (alignment size : Nat) :
    (splitAndAllocateAligned S E h o alignment size).2.m_vmPageSizePhysical
      = h.m_vmPageSizePhysical ∧
    (splitAndAllocateAligned S E h o alignment size).2.m_smallLineMetadata
      = h.m_smallLineMetadata := by
  simp only [splitAndAllocateAligned]
  split_ifs <;> exact ⟨rfl, rfl⟩

theorem allocateLargeAligned_tables (S : Sizes) (E : LargeEnv) (h : Heap)
    (alignment size unalignedSize : Nat) :
    (allocateLargeAligned S E h alignment size unalignedSize).2.m_vmPageSizePhysical
      = h.m_vmPageSizePhysical ∧
    (allocateLargeAligned S E h alignment size unalignedSize).2.m_smallLineMetadata
      = h.m_smallLineMetadata := by
  simp only [allocateLargeAligned]
  have hs := scavengeSmallPagesLoop_tables S E h.m_smallPages.length h
  split_ifs <;>
    first
    | exact ⟨(splitAndAllocateAligned_tables _ _ _ _ _ _).1.trans hs.1,
        (splitAndAllocateAligned_tables _ _ _ _ _ _).2.trans hs.2⟩
    | exact splitAndAllocateAligned_tables _ _ _ _ _ _

theorem allocateSmallPage_tables (S : Sizes) (E : LargeEnv) (h : Heap) (c : Nat) :
    (allocateSmallPage S E h c).2.m_vmPageSizePhysical = h.m_vmPageSizePhysical ∧
    (allocateSmallPage S E h c).2.m_smallLineMetadata = h.m_smallLineMetadata := by
  unfold allocateSmallPage
  split_ifs
  · exact ⟨rfl, rfl⟩
  · exact ⟨rfl, rfl⟩
  · lift_lets
    extract_lets unalignedSize r object h1 h2 s3 h3 page s4 h4 s5 h5 h6
    have hl := allocateLargeAligned_tables S E h h.m_vmPageSizePhysical h.m_vmPageSizePhysical
      unalignedSize
    have hf := foldl_tables
      (fun (h : Heap) (i : Nat) =>
        h.setPage (page + (i + 1) * S.smallPageSize)
          { h.pages (page + (i + 1) * S.smallPageSize) with slide := i + 1 })
      (fun _ _ => ⟨rfl, rfl, rfl⟩)
      (List.range ((h5.pages page).smallPageCount - 1)) h5
    have h5P : h5.m_vmPageSizePhysical = r.2.m_vmPageSizePhysical ∧
        h5.m_smallLineMetadata = r.2.m_smallLineMetadata := by
      simp only [h5, h4, h3, h2, h1, Heap.setPage, Heap.derefLine, and_self]
    exact ⟨hf.1.trans (h5P.1.trans hl.1), hf.2.1.trans (h5P.2.trans hl.2)⟩

theorem scavengeSmallPagesLoop_lines (S : Sizes) (E : LargeEnv) (fuel : Nat) (h : Heap) :
    (scavengeSmallPagesLoop S E fuel h).lines = h.lines := by
  induction fuel generalizing h with
  | zero => rfl
  | succ fuel ih =>
    simp only [scavengeSmallPagesLoop]
    split_ifs
    · rfl
    · rw [ih (scavengeSmallPage S E h)]
      simp only [scavengeSmallPage, deallocateLarge, Heap.mergeAndInsert, Heap.insertLarge]
      exact (foldl_tables
        (fun (h' : Heap) (i : Nat) =>
          h'.setPage (h.m_smallPages.getLastD 0 + (i + 1) * S.smallPageSize)
            { h'.pages (h.m_smallPages.getLastD 0 + (i + 1) * S.smallPageSize) with slide := 0 })
        (fun _ _ => ⟨rfl, rfl, rfl⟩)
        (List.range ((h.pages (h.m_smallPages.getLastD 0)).smallPageCount - 1))
        { h with m_smallPages := h.m_smallPages.dropLast }).2.2

/-- The aligned large split takes one reference on the line in which the
allocated object begins and touches no other line. -/
theorem splitAndAllocateAligned_lines (S : Sizes) (E : LargeEnv) (h : Heap)
    (o : LargeObject) (alignment size : Nat) :
    (splitAndAllocateAligned S E h o alignment size).2.lines
      = Function.update h.lines
          (Heap.lineOf S (splitAndAllocateAligned S E h o alignment size).1.begin)
          (h.lines (Heap.lineOf S (splitAndAllocateAligned S E h o alignment size).1.begin) + 1) := by
  simp only [splitAndAllocateAligned]
  split_ifs <;> rfl

theorem allocateLargeAligned_lines (S : Sizes) (E : LargeEnv) (h : Heap)
    (alignment size unalignedSize : Nat) :
    (allocateLargeAligned S E h alignment size unalignedSize).2.lines
      = Function.update h.lines
          (Heap.lineOf S (allocateLargeAligned S E h alignment size unalignedSize).1)
          (h.lines (Heap.lineOf S (allocateLargeAligned S E h alignment size unalignedSize).1)
            + 1) := by
  have hs := scavengeSmallPagesLoop_lines S E h.m_smallPages.length h
  simp only [allocateLargeAligned]
  split_ifs <;> rw [splitAndAllocateAligned_lines] <;>
    first
    | rfl
    | (simp only [scavengeSmallPages, hs])

/-- The page `allocateSmallPage` hands over comes with the line reference
counts of the heap as they were: the fresh-page branch gives back the one
reference that the large split took. -/
theorem allocateSmallPage_lines (S : Sizes) (E : LargeEnv) (h : Heap) (c : Nat) :
    (allocateSmallPage S E h c).2.lines = h.lines := by
  unfold allocateSmallPage
  split_ifs
  · rfl
  · rfl
  · lift_lets
    extract_lets unalignedSize r object h1 h2 s3 h3 page s4 h4 s5 h5 h6
    have hl := allocateLargeAligned_lines S E h h.m_vmPageSizePhysical h.m_vmPageSizePhysical
      unalignedSize
    have hf := foldl_tables
      (fun (h : Heap) (i : Nat) =>
        h.setPage (page + (i + 1) * S.smallPageSize)
          { h.pages (page + (i + 1) * S.smallPageSize) with slide := i + 1 })
      (fun _ _ => ⟨rfl, rfl, rfl⟩)
      (List.range ((h5.pages page).smallPageCount - 1)) h5
    have h5l : h5.lines = h2.lines := by
      simp only [h5, h4, h3, Heap.setPage]
    have h2l : h2.lines = h.lines := by
      simp only [h2, h1, Heap.derefLine, object]
      rw [hl]
      funext x
      by_cases hx : x = Heap.lineOf S r.1
      · subst hx
        simp [Function.update]
      · simp [Function.update, hx]
    exact hf.2.2.trans (h5l.trans h2l)

/-! ## The scan of a small page: C3 -/

theorem lineAt_ne (S : Sizes) (hls : 0 < S.smallLineSize) (page : Nat) {l l' : Nat}
    (h : l ≠ l') : Heap.lineAt S page l ≠ Heap.lineAt S page l' := by
  unfold Heap.lineAt
  rcases Nat.lt_or_gt_of_ne h with h1 | h1
  · have := Nat.mul_lt_mul_of_pos_right h1 hls
    omega
  · have := Nat.mul_lt_mul_of_pos_right h1 hls
    omega

theorem lines_refLine_refPage_ne (h : Heap) (line count page x : Nat) (hx : x ≠ line) :
    ((h.refLine line count).refPage page).lines x = h.lines x := by
  simp [Heap.refLine, Heap.refPage, Heap.setPage, Function.update, hx]

theorem firstObjectInPage_le_whole (S : Sizes) (P s L : Nat) :
    firstObjectInPage S P s L ≤ P / s := by
  unfold firstObjectInPage
  exact min_le_right _ _

/-- The merge loop on a table that follows the reference layout: it stops at a
line `ln'` after absorbing the free lines between, the count of the run grows by
the objects that begin in them, and the lines from `ln'` on are untouched. -/
theorem mergeLines_run (S : Sizes) (c page n P s : Nat) (hs : 0 < s)
    (hls : 0 < S.smallLineSize) (hN : P / s < shortSize)
    (fuel ln oc : Nat) (h : Heap)
    (hlayout : ∀ L, L < n → (h.lineMetadata S c L).objectCount
      = firstObjectInPage S P s (L + 1) - firstObjectInPage S P s L)
    (hln : ln < n) (hfuel : n - ln ≤ fuel) (hoc : oc ≤ firstObjectInPage S P s (ln + 1)) :
    ∃ ln' oc' h', mergeLines S c page n fuel ln oc h = some (ln', oc', h') ∧
      ln < ln' ∧ ln' ≤ n ∧
      (∀ l, ln < l → l < ln' → h.lines (Heap.lineAt S page l) = 0) ∧
      oc' = oc + (firstObjectInPage S P s ln' - firstObjectInPage S P s (ln + 1)) ∧
      (∀ l, ln' ≤ l → h'.lines (Heap.lineAt S page l) = h.lines (Heap.lineAt S page l)) ∧
      (∀ l, h'.lineMetadata S c l = h.lineMetadata S c l) := by
  induction fuel generalizing ln oc h with
  | zero => omega
  | succ fuel ih =>
    simp only [mergeLines]
    by_cases h1 : ln + 1 < n
    · rw [if_pos h1]
      by_cases h2 : h.lines (Heap.lineAt S page (ln + 1)) ≠ 0
      · rw [if_pos h2]
        exact ⟨_, _, _, rfl, by omega, by omega, fun l _ _ => by omega, by omega,
          fun _ _ => rfl, fun _ => rfl⟩
      · rw [if_neg h2]
        have hfree : h.lines (Heap.lineAt S page (ln + 1)) = 0 := by
          by_contra hne; exact h2 hne
        have hmono := firstObjectInPage_mono S P hs (show ln + 1 ≤ ln + 1 + 1 by omega)
        have hcount := hlayout (ln + 1) h1
        by_cases h3 : (h.lineMetadata S c (ln + 1)).objectCount = 0
        · rw [if_pos h3]
          obtain ⟨ln', oc', h', he, hlt, hle, hz, hoc', hlines, hmd⟩ :=
            ih (ln + 1) oc h hlayout h1 (by omega) (by omega)
          refine ⟨ln', oc', h', he, by omega, hle, ?_, ?_, hlines, hmd⟩
          · intro l hl1 hl2
            by_cases hl : l = ln + 1
            · rw [hl]; exact hfree
            · exact hz l (by omega) hl2
          · have := firstObjectInPage_mono S P hs (show ln + 1 + 1 ≤ ln' by omega)
            omega
        · rw [if_neg h3]
          have hwhole := firstObjectInPage_le_whole S P s (ln + 1 + 1)
          have hmod : (oc + (h.lineMetadata S c (ln + 1)).objectCount) % shortSize
              = oc + (h.lineMetadata S c (ln + 1)).objectCount :=
            Nat.mod_eq_of_lt (by omega)
          rw [hmod]
          obtain ⟨ln', oc', h', he, hlt, hle, hz, hoc', hlines, hmd⟩ :=
            ih (ln + 1) (oc + (h.lineMetadata S c (ln + 1)).objectCount)
              ((h.refLine (Heap.lineAt S page (ln + 1))
                (h.lineMetadata S c (ln + 1)).objectCount).refPage page)
              hlayout h1 (by omega) (by omega)
          refine ⟨ln', oc', h', he, by omega, hle, ?_, ?_, ?_, ?_⟩
          · intro l hl1 hl2
            by_cases hl : l = ln + 1
            · rw [hl]; exact hfree
            · rw [← hz l (by omega) hl2]
              exact (lines_refLine_refPage_ne h _ _ _ _ (lineAt_ne S hls page hl)).symm
          · have := firstObjectInPage_mono S P hs (show ln + 1 + 1 ≤ ln' by omega)
            omega
          · intro l hl
            rw [hlines l hl]
            exact lines_refLine_refPage_ne h _ _ _ _ (lineAt_ne S hls page (by omega))
          · intro l; rw [hmd l]; rfl
    · rw [if_neg h1]
      have hn : ln + 1 = n := by omega
      exact ⟨_, _, _, rfl, by omega, by omega, fun l _ _ => by omega, by omega,
        fun _ _ => rfl, fun _ => rfl⟩

theorem RunsFrom_mono (S : Sizes) (P s page : Nat) (lines lines' : Nat → Nat)
    (runs : List BumpRange) (ln₁ ln₂ : Nat) (hle : ln₁ ≤ ln₂)
    (hlines : ∀ l, ln₂ ≤ l → lines' (Heap.lineAt S page l) = lines (Heap.lineAt S page l))
    (h : RunsFrom S P s page lines' ln₂ runs) : RunsFrom S P s page lines ln₁ runs := by
  induction runs generalizing ln₁ ln₂ with
  | nil => trivial
  | cons r rest ih =>
    obtain ⟨a, b, h1, h2, h3, h4, h5, h6, h7, h8⟩ := h
    refine ⟨a, b, by omega, h2, h3, h4, h5, h6, ?_, ?_⟩
    · intro l hl1 hl2
      rw [← hlines l (by omega)]
      exact h7 l hl1 hl2
    · exact ih b b le_rfl (fun l hl => hlines l (by omega)) h8

/-- The scan on a table that follows the reference layout: the ranges it hands
out are runs over free lines, one after the other; the first goes to the
allocator when the allocator is empty and the others to the cache. -/
theorem scanLines_runs (S : Sizes) (c page P s : Nat) (hs : 0 < s)
    (hls : 0 < S.smallLineSize) (hN : P / s < shortSize) (hpage : page + P ≤ wordSize)
    (fuel ln : Nat) (h : Heap) (a : BumpAllocator) (cache : BumpRangeCache)
    (hlayout : ∀ L, L < P / S.smallLineSize →
      (h.lineMetadata S c L).objectCount
        = firstObjectInPage S P s (L + 1) - firstObjectInPage S P s L ∧
      ((h.lineMetadata S c L).objectCount ≠ 0 →
        L * S.smallLineSize + (h.lineMetadata S c L).startOffset
          = firstObjectInPage S P s L * s))
    (hfuel : P / S.smallLineSize + 1 - ln ≤ fuel) (hln : ln ≤ P / S.smallLineSize) :
    ∃ r runs, scanLines S c page (P / S.smallLineSize) fuel ln h a cache = some r ∧
      RunsFrom S P s page h.lines ln runs ∧
      (a.canAllocate = true → r.2.1 = a ∧ r.2.2.ranges = cache.ranges ++ runs) ∧
      (a.canAllocate = false →
        (runs = [] ∧ r.2.1 = a ∧ r.2.2.ranges = cache.ranges) ∨
        (∃ ρ rest, runs = ρ :: rest ∧ r.2.1 = a.refill ρ ∧
          r.2.2.ranges = cache.ranges ++ rest)) := by
  induction fuel generalizing ln h a cache with
  | zero => omega
  | succ fuel ih =>
    simp only [scanLines]
    by_cases h1 : ln < P / S.smallLineSize
    · rw [if_pos h1]
      by_cases h2 : h.lines (Heap.lineAt S page ln) ≠ 0
      · rw [if_pos h2]
        obtain ⟨r, runs, hr, hruns, hem1, hem2⟩ :=
          ih (ln + 1) h a cache hlayout (by omega) (by omega)
        exact ⟨r, runs, hr,
          RunsFrom_mono S P s page _ _ runs ln (ln + 1) (by omega) (fun _ _ => rfl) hruns,
          hem1, hem2⟩
      · rw [if_neg h2]
        have hfree : h.lines (Heap.lineAt S page ln) = 0 := by
          by_contra hne; exact h2 hne
        by_cases h3 : (h.lineMetadata S c ln).objectCount = 0
        · rw [if_pos h3]
          obtain ⟨r, runs, hr, hruns, hem1, hem2⟩ :=
            ih (ln + 1) h a cache hlayout (by omega) (by omega)
          exact ⟨r, runs, hr,
            RunsFrom_mono S P s page _ _ runs ln (ln + 1) (by omega) (fun _ _ => rfl) hruns,
            hem1, hem2⟩
        · rw [if_neg h3]
          by_cases h4 : cache.size = cache.capacity
          · rw [if_pos h4]
            refine ⟨_, [], rfl, trivial, fun _ => ⟨rfl, by simp⟩, fun _ => Or.inl ⟨rfl, rfl, rfl⟩⟩
          · rw [if_neg h4]
            obtain ⟨hcount, hoff⟩ := hlayout ln h1
            have hoff' := hoff h3
            have hmono := firstObjectInPage_mono S P hs (show ln ≤ ln + 1 by omega)
            obtain ⟨ln', oc', h', he, hlt, hle, hz, hoc', hlines, hmd⟩ :=
              mergeLines_run S c page (P / S.smallLineSize) P s hs hls hN
                (P / S.smallLineSize) ln (h.lineMetadata S c ln).objectCount
                ((h.refLine (Heap.lineAt S page ln)
                  (h.lineMetadata S c ln).objectCount).refPage page)
                (fun L hL => (hlayout L hL).1) h1 (by omega) (by omega)
            rw [he]
            simp only
            have hmono' := firstObjectInPage_mono S P hs (show ln + 1 ≤ ln' by omega)
            have hwhole := firstObjectInPage_le_whole S P s ln'
            have hNs : P / s * s ≤ P := Nat.div_mul_le_self P s
            have hAs : firstObjectInPage S P s ln * s < P / s * s :=
              Nat.mul_lt_mul_of_pos_right (by omega) hs
            have hbegin : wadd (Heap.lineAt S page ln) (h.lineMetadata S c ln).startOffset
                = page + firstObjectInPage S P s ln * s := by
              unfold wadd Heap.lineAt
              rw [Nat.mod_eq_of_lt (by omega)]
              omega
            have hlayout' : ∀ L, L < P / S.smallLineSize →
                (h'.lineMetadata S c L).objectCount
                  = firstObjectInPage S P s (L + 1) - firstObjectInPage S P s L ∧
                ((h'.lineMetadata S c L).objectCount ≠ 0 →
                  L * S.smallLineSize + (h'.lineMetadata S c L).startOffset
                    = firstObjectInPage S P s L * s) := by
              intro L hL
              rw [hmd L]
              exact hlayout L hL
            have hlines' : ∀ l, ln' ≤ l →
                h'.lines (Heap.lineAt S page l) = h.lines (Heap.lineAt S page l) := by
              intro l hl
              rw [hlines l hl]
              exact lines_refLine_refPage_ne h _ _ _ _ (lineAt_ne S hls page (by omega))
            have hrun : ∀ rest, RunsFrom S P s page h'.lines (ln' + 1) rest →
                RunsFrom S P s page h.lines ln
                  (⟨wadd (Heap.lineAt S page ln) (h.lineMetadata S c ln).startOffset, oc'⟩
                    :: rest) := by
              intro rest hrest
              refine ⟨ln, ln', le_rfl, hlt, hle, hbegin, by simp only; omega, by omega, ?_,
                RunsFrom_mono S P s page _ _ rest ln' (ln' + 1) (by omega)
                  (fun l hl => hlines' l (by omega)) hrest⟩
              intro l hl1 hl2
              by_cases hl : l = ln
              · rw [hl]; exact hfree
              · rw [← hz l (by omega) hl2]
                exact (lines_refLine_refPage_ne h _ _ _ _ (lineAt_ne S hls page hl)).symm
            have hrest : ∀ (a' : BumpAllocator) (cache' : BumpRangeCache),
                ∃ r runs, scanLines S c page (P / S.smallLineSize) fuel (ln' + 1) h' a' cache'
                    = some r ∧
                  RunsFrom S P s page h'.lines (ln' + 1) runs ∧
                  (a'.canAllocate = true → r.2.1 = a' ∧ r.2.2.ranges = cache'.ranges ++ runs) := by
              intro a' cache'
              by_cases hle' : ln' + 1 ≤ P / S.smallLineSize
              · obtain ⟨r, runs, hr, hruns, hem1, -⟩ :=
                  ih (ln' + 1) h' a' cache' hlayout' (by omega) hle'
                exact ⟨r, runs, hr, hruns, hem1⟩
              · cases fuel with
                | zero => omega
                | succ fuel =>
                  refine ⟨(h'.setPage page { h'.pages page with hasFreeLines := false },
                    a', cache'), [], ?_, trivial, fun _ => ⟨rfl, by simp⟩⟩
                  simp only [scanLines]
                  rw [if_neg (by omega)]
            by_cases hca : a.canAllocate = true
            · rw [if_neg (by simp [hca])]
              obtain ⟨r, runs, hr, hruns, hem⟩ := hrest a (cache.push ⟨_, oc'⟩)
              refine ⟨r, _, hr, hrun runs hruns, ?_, fun hf => by rw [hca] at hf; cases hf⟩
              intro _
              obtain ⟨e1, e2⟩ := hem hca
              exact ⟨e1, by rw [e2]; simp [BumpRangeCache.push]⟩
            · rw [if_pos (by simpa using hca)]
              obtain ⟨r, runs, hr, hruns, hem⟩ := hrest (a.refill ⟨_, oc'⟩) cache
              refine ⟨r, _, hr, hrun runs hruns, fun ht => absurd ht hca, ?_⟩
              intro _
              right
              have hcan : (a.refill ⟨wadd (Heap.lineAt S page ln)
                  (h.lineMetadata S c ln).startOffset, oc'⟩).canAllocate = true := by
                simp only [BumpAllocator.canAllocate, BumpAllocator.refill]
                have : oc' ≠ 0 := by omega
                simpa using this
              obtain ⟨e1, e2⟩ := hem hcan
              exact ⟨_, runs, rfl, e1, e2⟩
    · rw [if_neg h1]
      exact ⟨_, [], rfl, trivial, fun _ => ⟨rfl, by simp⟩, fun _ => Or.inl ⟨rfl, rfl, rfl⟩⟩

/-- The bytes of a run that holds the objects from index `i` up to `j`. -/
theorem covers_run {r : BumpRange} {s page i j x : Nat} (hb : r.begin = page + i * s)
    (hc : r.objectCount = j - i) (hij : i ≤ j) :
    r.covers s x ↔ page + i * s ≤ x ∧ x < page + j * s := by
  unfold BumpRange.covers
  rw [hb, hc, Nat.sub_mul]
  have := Nat.mul_le_mul_right s hij
  constructor <;> intro h <;> constructor <;> omega

theorem RunsFrom_bounds (S : Sizes) (P s page : Nat) (hs : 0 < s) (lines : Nat → Nat)
    (runs : List BumpRange) (ln : Nat) (h : RunsFrom S P s page lines ln runs) :
    ∀ ρ ∈ runs, ∀ x, ρ.covers s x →
      page + firstObjectInPage S P s ln * s ≤ x ∧ x < page + P := by
  induction runs generalizing ln with
  | nil => intro ρ hρ; cases hρ
  | cons r rest ih =>
    obtain ⟨a, b, h1, h2, h3, h4, h5, h6, h7, h8⟩ := h
    intro ρ hρ x hx
    rcases List.mem_cons.1 hρ with rfl | hmem
    · rw [covers_run h4 h5 (le_of_lt h6)] at hx
      have hm := Nat.mul_le_mul_right s (firstObjectInPage_mono S P hs h1)
      have hw := Nat.mul_le_mul_right s (firstObjectInPage_le_whole S P s b)
      have hNs : P / s * s ≤ P := Nat.div_mul_le_self P s
      omega
    · have := ih b h8 ρ hmem x hx
      have hm := Nat.mul_le_mul_right s
        (firstObjectInPage_mono S P hs (show ln ≤ b by omega))
      omega

theorem RunsFrom_pairwise (S : Sizes) (P s page : Nat) (hs : 0 < s) (lines : Nat → Nat)
    (runs : List BumpRange) (ln : Nat) (h : RunsFrom S P s page lines ln runs) :
    List.Pairwise (fun ρ σ => ∀ x, ¬(ρ.covers s x ∧ σ.covers s x)) runs := by
  induction runs generalizing ln with
  | nil => exact List.Pairwise.nil
  | cons r rest ih =>
    obtain ⟨a, b, h1, h2, h3, h4, h5, h6, h7, h8⟩ := h
    refine List.Pairwise.cons ?_ (ih b h8)
    intro σ hσ x hx
    have hlow := (RunsFrom_bounds S P s page hs lines rest b h8 σ hσ x hx.2).1
    have hup := ((covers_run h4 h5 (le_of_lt h6)).1 hx.1).2
    omega

/-- A run holds no byte of an object that begins in a line that is not free. -/
theorem RunsFrom_avoid (S : Sizes) (P s page : Nat) (hs : 0 < s) (lines : Nat → Nat)
    (runs : List BumpRange) (ln : Nat) (h : RunsFrom S P s page lines ln runs) :
    ∀ ρ ∈ runs, ∀ L k x, lines (Heap.lineAt S page L) ≠ 0 →
      L * S.smallLineSize ≤ k * s → k * s < (L + 1) * S.smallLineSize →
      page + k * s ≤ x → x < page + (k + 1) * s → ¬ρ.covers s x := by
  induction runs generalizing ln with
  | nil => intro ρ hρ; cases hρ
  | cons r rest ih =>
    obtain ⟨a, b, h1, h2, h3, h4, h5, h6, h7, h8⟩ := h
    intro ρ hρ L k x hL hk1 hk2 hx1 hx2 hcov
    rcases List.mem_cons.1 hρ with rfl | hmem
    · rw [covers_run h4 h5 (le_of_lt h6)] at hcov
      by_cases hLa : L < a
      · -- the object ends before the run begins
        have hAa : firstObjectInPage S P s a = firstObject S s a := by
          have hw := firstObjectInPage_le_whole S P s b
          unfold firstObjectInPage at h6 ⊢
          apply min_eq_left
          by_contra hgt
          rw [min_eq_right (by omega)] at h6
          unfold firstObjectInPage at hw
          omega
        have hla : (L + 1) * S.smallLineSize ≤ a * S.smallLineSize :=
          Nat.mul_le_mul_right _ (by omega)
        have hKa := firstObject_mul_ge S hs a
        have hklt : k < firstObject S s a :=
          Nat.lt_of_mul_lt_mul_right (show k * s < firstObject S s a * s by omega)
        have := Nat.mul_le_mul_right s (show k + 1 ≤ firstObject S s a by omega)
        rw [hAa] at hcov
        omega
      · -- the object begins after the run ends
        have hLb : b ≤ L := by
          by_contra hlt
          exact hL (h7 L (by omega) (by omega))
        have hbl : b * S.smallLineSize ≤ L * S.smallLineSize := Nat.mul_le_mul_right _ hLb
        have hKb := firstObject_le_of_le S hs b k (by omega)
        have hAb : firstObjectInPage S P s b ≤ k := by
          unfold firstObjectInPage
          exact le_trans (min_le_left _ _) hKb
        have := Nat.mul_le_mul_right s hAb
        omega
    · exact ih b h8 ρ hmem L k x hL hk1 hk2 hx1 hx2 hcov

/-- C5: when `Heap::allocateSmallBumpRanges` is called with an empty range
cache (of positive capacity) and the page it obtains has a free line that holds
objects, it returns, on either exit, with `allocator.canAllocate()` true; the
object counts of the lines of the class are taken not to wrap the
`unsigned short` counter of a run. -/
theorem allocateSmallBumpRanges_canAllocate (S : Sizes) (E : LargeEnv) (h : Heap)
    (sizeClass : Nat) (allocator : BumpAllocator) (rangeCache : BumpRangeCache)
    (hempty : rangeCache.size = 0) (hcap : 0 < rangeCache.capacity)
    (hfree : ∃ l, l < h.m_vmPageSizePhysical / S.smallLineSize ∧
      h.lines (Heap.lineAt S (allocateSmallPage S E h sizeClass).1 l) = 0 ∧
      (h.lineMetadata S sizeClass l).objectCount ≠ 0)
    (hshort : ((List.range (h.m_vmPageSizePhysical / S.smallLineSize)).map
      (fun l => (h.lineMetadata S sizeClass l).objectCount)).sum < shortSize) :
    ∃ r, allocateSmallBumpRanges S E h sizeClass allocator rangeCache = some r ∧
      r.2.1.canAllocate = true := by
  obtain ⟨hP, hT⟩ := allocateSmallPage_tables S E h sizeClass
  have hL := allocateSmallPage_lines S E h sizeClass
  have hmd : ∀ l, (allocateSmallPage S E h sizeClass).2.lineMetadata S sizeClass l
      = h.lineMetadata S sizeClass l := by
    intro l
    simp only [Heap.lineMetadata, hP, hT]
  simp only [allocateSmallBumpRanges]
  obtain ⟨r, hr, -, hfirst⟩ := scanLines_some S sizeClass (allocateSmallPage S E h sizeClass).1
    ((allocateSmallPage S E h sizeClass).2.m_vmPageSizePhysical / S.smallLineSize)
    ((allocateSmallPage S E h sizeClass).2.m_vmPageSizePhysical / S.smallLineSize + 1) 0
    (allocateSmallPage S E h sizeClass).2 allocator rangeCache (by simp) (Nat.zero_le _)
  refine ⟨r, hr, hfirst (by omega) ?_ ?_⟩
  · obtain ⟨l, hl1, hl2, hl3⟩ := hfree
    exact ⟨l, Nat.zero_le _, by rw [hP]; exact hl1, by rw [hL]; exact hl2,
      by rw [hmd]; exact hl3⟩
  · rw [← list_sum_range_eq, hP]
    simp only [hmd]
    exact hshort

/-- C5 at a concrete input: an empty allocator of size class 2 is refilled from
the page at 8 MiB, whose line 0 is free. -/
theorem allocateSmallBumpRanges_canAllocate_witness :
    ∃ r, allocateSmallBumpRanges exampleSizes exampleLargeEnv exampleSmallHeap 2
        ⟨0, 24, 0⟩ ⟨[], 3⟩ = some r ∧ r.2.1.canAllocate = true :=
  allocateSmallBumpRanges_canAllocate exampleSizes exampleLargeEnv exampleSmallHeap 2
    ⟨0, 24, 0⟩ ⟨[], 3⟩ (by decide) (by decide) ⟨0, by decide, by decide, by decide⟩ (by decide)

/-- C3: for every size class and every page state, the bump ranges of one call
of `Heap::allocateSmallBumpRanges` (the one refilled into the allocator and
those pushed into the cache), read as the bytes `[begin, begin + objectCount *
objectSize(sizeClass))`, are pairwise disjoint, lie inside the physical page,
and hold no byte of an object slot that begins in a line whose reference count
is non-zero at entry.  The line metadata table is the
one `initializeLineMetadata` computes, for a page size that is a multiple of
the line size, and the page lies inside the address space. -/
theorem allocateSmallBumpRanges_ranges_disjoint (S : Sizes) (E : LargeEnv) (h : Heap)
    (c : Nat) (allocator : BumpAllocator) (rangeCache : BumpRangeCache)
    (hls : 0 < S.smallLineSize) (hdiv : S.smallLineSize ∣ h.m_vmPageSizePhysical)
    (hshort : S.smallLineSize < shortSize)
    (hsize : ∀ c, c < S.sizeClassCount → 0 < S.objectSize c) (hc : c < S.sizeClassCount)
    (hmeta : initializeLineMetadata S h.m_vmPageSizePhysical = some h.m_smallLineMetadata)
    (hN : h.m_vmPageSizePhysical / S.objectSize c < shortSize)
    (hempty : rangeCache.ranges = [])
    (hpage : (allocateSmallPage S E h c).1 + h.m_vmPageSizePhysical ≤ wordSize) :
    ∃ r, allocateSmallBumpRanges S E h c allocator rangeCache = some r ∧
      List.Pairwise (fun ρ σ => ∀ x, ¬(ρ.covers (S.objectSize c) x ∧ σ.covers (S.objectSize c) x))
        (emittedRanges allocator r) ∧
      (∀ ρ ∈ emittedRanges allocator r, ∀ x, ρ.covers (S.objectSize c) x →
        (allocateSmallPage S E h c).1 ≤ x ∧
        x < (allocateSmallPage S E h c).1 + h.m_vmPageSizePhysical) ∧
      (∀ ρ ∈ emittedRanges allocator r, ∀ L k x,
        h.lines (Heap.lineAt S (allocateSmallPage S E h c).1 L) ≠ 0 →
        L * S.smallLineSize ≤ k * S.objectSize c →
        k * S.objectSize c < (L + 1) * S.smallLineSize →
        (allocateSmallPage S E h c).1 + k * S.objectSize c ≤ x →
        x < (allocateSmallPage S E h c).1 + (k + 1) * S.objectSize c →
        ¬ρ.covers (S.objectSize c) x) := by
  have hs := hsize c hc
  obtain ⟨hP, hT⟩ := allocateSmallPage_tables S E h c
  have hlayout : ∀ L, L < h.m_vmPageSizePhysical / S.smallLineSize →
      ((allocateSmallPage S E h c).2.lineMetadata S c L).objectCount
        = firstObjectInPage S h.m_vmPageSizePhysical (S.objectSize c) (L + 1)
          - firstObjectInPage S h.m_vmPageSizePhysical (S.objectSize c) L ∧
      (((allocateSmallPage S E h c).2.lineMetadata S c L).objectCount ≠ 0 →
        L * S.smallLineSize + ((allocateSmallPage S E h c).2.lineMetadata S c L).startOffset
          = firstObjectInPage S h.m_vmPageSizePhysical (S.objectSize c) L * S.objectSize c) := by
    intro L hL
    simp only [Heap.lineMetadata, hP, hT]
    exact initializeLineMetadata_spec S h.m_vmPageSizePhysical hls hdiv hshort hsize
      h.m_smallLineMetadata hmeta c L hc hL
  obtain ⟨r, runs, hr, hruns, hem1, hem2⟩ := scanLines_runs S c (allocateSmallPage S E h c).1
    h.m_vmPageSizePhysical (S.objectSize c) hs hls hN hpage
    (h.m_vmPageSizePhysical / S.smallLineSize + 1) 0 (allocateSmallPage S E h c).2
    allocator rangeCache hlayout (by simp) (Nat.zero_le _)
  refine ⟨r, ?_, ?_⟩
  · simp only [allocateSmallBumpRanges, hP]
    exact hr
  have hb := RunsFrom_bounds S h.m_vmPageSizePhysical (S.objectSize c)
    (allocateSmallPage S E h c).1 hs _ runs 0 hruns
  have hp := RunsFrom_pairwise S h.m_vmPageSizePhysical (S.objectSize c)
    (allocateSmallPage S E h c).1 hs _ runs 0 hruns
  have hav := RunsFrom_avoid S h.m_vmPageSizePhysical (S.objectSize c)
    (allocateSmallPage S E h c).1 hs _ runs 0 hruns
  rw [allocateSmallPage_lines] at hav
  -- the ranges handed out are the runs, or one empty range when nothing is free
  have hcases : emittedRanges allocator r = runs ∨
      (∃ ρ, emittedRanges allocator r = [ρ] ∧ ρ.objectCount = 0) := by
    unfold emittedRanges
    by_cases hca : allocator.canAllocate = true
    · rw [if_pos hca]
      left
      rw [(hem1 hca).2, hempty, List.nil_append]
    · rw [if_neg hca]
      rcases hem2 (by simpa using hca) with ⟨h1, h2, h3⟩ | ⟨ρ, rest, h1, h2, h3⟩
      · right
        refine ⟨_, by rw [h3, hempty], ?_⟩
        rw [h2]
        simpa [BumpAllocator.canAllocate] using hca
      · left
        rw [h1, h2, h3, hempty]
        rfl
  rcases hcases with he | ⟨ρ, he, h0⟩
  · rw [he]
    exact ⟨hp, fun ρ hρ x hx => ⟨by have := (hb ρ hρ x hx).1; omega, (hb ρ hρ x hx).2⟩,
      fun ρ hρ L k x => hav ρ hρ L k x⟩
  · rw [he]
    have hno : ∀ x, ¬ρ.covers (S.objectSize c) x := by
      intro x hx
      unfold BumpRange.covers at hx
      rw [h0] at hx
      omega
    refine ⟨List.pairwise_singleton _ _, ?_, ?_⟩
    · intro σ hσ x hx
      rw [List.mem_singleton.1 hσ] at hx
      exact absurd hx (hno x)
    · intro σ hσ L k x _ _ _ _ _
      rw [List.mem_singleton.1 hσ]
      exact hno x

/-- C3 at a concrete input: the page at 8 MiB of size class 2 (24 bytes), with
the lines 1, 2 and 5 in use, yields ranges that are disjoint and inside the
page. -/
theorem allocateSmallBumpRanges_ranges_disjoint_witness :
    ∃ r, allocateSmallBumpRanges exampleSizes exampleLargeEnv exampleSmallHeap 2
        ⟨0, 24, 0⟩ ⟨[], 3⟩ = some r ∧
      List.Pairwise (fun ρ σ => ∀ x, ¬(ρ.covers 24 x ∧ σ.covers 24 x))
        (emittedRanges ⟨0, 24, 0⟩ r) ∧
      (∀ ρ ∈ emittedRanges ⟨0, 24, 0⟩ r, ∀ x, ρ.covers 24 x →
        2 ^ 23 ≤ x ∧ x < 2 ^ 23 + 4096) := by
  obtain ⟨r, h1, h2, h3, -⟩ := allocateSmallBumpRanges_ranges_disjoint exampleSizes
    exampleLargeEnv exampleSmallHeap 2 ⟨0, 24, 0⟩ ⟨[], 3⟩ (by decide) (by decide) (by decide)
    (by decide) (by decide) (by decide) (by decide) rfl (by decide)
  exact ⟨r, h1, h2, h3⟩

/-! ## The deallocator: C7, C8, C9, C10 -/

namespace Deallocator

theorem processObjectLogLoop_eq (log : List Nat) (calls : List HeapCall) :
    processObjectLogLoop log calls = calls ++ log.map HeapCall.derefSmallLine := by
  induction log generalizing calls with
  | nil => simp [processObjectLogLoop]
  | cons object rest ih => simp [processObjectLogLoop, ih]

theorem fillObjectLog_enabled (fuel : Nat) (d : Deallocator) :
    (fillObjectLog fuel d).m_isBmallocEnabled = d.m_isBmallocEnabled ∧
    (fillObjectLog fuel d).capacity = d.capacity ∧
    (fillObjectLog fuel d).heapCalls = d.heapCalls ∧
    (fillObjectLog fuel d).lockCount = d.lockCount ∧
    (fillObjectLog fuel d).freed = d.freed := by
  induction fuel generalizing d with
  | zero => simp [fillObjectLog]
  | succ n ih =>
    simp only [fillObjectLog]
    split_ifs
    · simpa [push] using ih (d.push 0)
    · simp

/-- The fill loop, given at least `capacity - size` rounds, appends null
entries up to the capacity. -/
theorem fillObjectLog_log (fuel : Nat) (d : Deallocator)
    (hlen : d.m_objectLog.length ≤ d.capacity)
    (hfuel : d.capacity - d.m_objectLog.length ≤ fuel) :
    (fillObjectLog fuel d).m_objectLog
      = d.m_objectLog ++ List.replicate (d.capacity - d.m_objectLog.length) 0 := by
  induction fuel generalizing d with
  | zero =>
    have : d.capacity - d.m_objectLog.length = 0 := by omega
    simp [fillObjectLog, this]
  | succ n ih =>
    simp only [fillObjectLog]
    split_ifs with hne
    · have hlen2 : (d.push 0).m_objectLog.length ≤ (d.push 0).capacity := by
        simp only [push, List.length_append, List.length_singleton]; omega
      have hfuel2 : (d.push 0).capacity - (d.push 0).m_objectLog.length ≤ n := by
        simp only [push, List.length_append, List.length_singleton]; omega
      rw [ih (d.push 0) hlen2 hfuel2]
      simp only [push, List.length_append, List.length_singleton, List.append_assoc]
      have : d.capacity - d.m_objectLog.length
          = (d.capacity - (d.m_objectLog.length + 1)) + 1 := by omega
      rw [this, List.replicate_succ]
      simp
    · have : d.capacity - d.m_objectLog.length = 0 := by omega
      simp [this]

theorem create_capacity (capacity : Nat) (enabled : Bool) :
    (create capacity enabled).capacity = capacity ∧
    (create capacity enabled).m_isBmallocEnabled = enabled := by
  simp only [create]
  split_ifs
  · have := fillObjectLog_enabled capacity ⟨[], capacity, enabled, [], 0, []⟩
    exact ⟨this.2.1, this.1⟩
  · exact ⟨rfl, rfl⟩

theorem create_disabled_log (capacity : Nat) :
    (create capacity false).m_objectLog = List.replicate capacity 0 := by
  simp only [create]
  have := fillObjectLog_log capacity ⟨[], capacity, false, [], 0, []⟩ (by simp) (by simp)
  simpa using this

/-- C7: with bmalloc enabled, `deallocateSlowCase(nullptr)` changes nothing:
the object log, the calls made on the heap, the count of lock acquisitions
(so no drain) and the pointers freed stay as they were. -/
theorem deallocateSlowCase_null (isXLarge : Nat → Bool) (d : Deallocator)
    (henabled : d.m_isBmallocEnabled = true) :
    deallocateSlowCase isXLarge d 0 = d := by
  simp [deallocateSlowCase, henabled]

/-- C7 at a concrete input: a full log of two entries is left as it is. -/
theorem deallocateSlowCase_null_witness :
    deallocateSlowCase (fun _ => false) ⟨[4096, 8192], 2, true, [], 0, []⟩ 0
      = ⟨[4096, 8192], 2, true, [], 0, []⟩ :=
  deallocateSlowCase_null (fun _ => false) ⟨[4096, 8192], 2, true, [], 0, []⟩ rfl

/-- The state of a deallocator built with bmalloc disabled. -/
theorem disabled_step (isXLarge : Nat → Bool) (d : Deallocator) (op : Op)
    (hd : d.m_isBmallocEnabled = false) (hlen : d.m_objectLog.length = d.capacity) :
    (step isXLarge d op).m_isBmallocEnabled = false ∧
    (step isXLarge d op).capacity = d.capacity ∧
    (step isXLarge d op).m_objectLog = d.m_objectLog ∧
    (step isXLarge d op).heapCalls = d.heapCalls ∧
    (step isXLarge d op).lockCount = d.lockCount := by
  cases op with
  | deallocate object =>
    simp only [step, deallocate, deallocateFastCase]
    split_ifs <;> simp_all [deallocateSlowCase]
  | deallocateSlowCase object => simp [step, deallocateSlowCase, hd]
  | scavenge => simp [step, scavenge, hd]
  | destroy => simp [step, destroy, scavenge, hd]

theorem disabled_run (isXLarge : Nat → Bool) (ops : List Op) (d : Deallocator)
    (hd : d.m_isBmallocEnabled = false) (hlen : d.m_objectLog.length = d.capacity) :
    (run isXLarge d ops).m_isBmallocEnabled = false ∧
    (run isXLarge d ops).capacity = d.capacity ∧
    (run isXLarge d ops).m_objectLog = d.m_objectLog ∧
    (run isXLarge d ops).heapCalls = d.heapCalls ∧
    (run isXLarge d ops).lockCount = d.lockCount := by
  induction ops generalizing d with
  | nil => simp [run, hd]
  | cons op rest ih =>
    have hs := disabled_step isXLarge d op hd hlen
    have hr := ih (step isXLarge d op) hs.1 (by rw [hs.2.2.1, hs.2.1]; exact hlen)
    simp only [run, List.foldl_cons] at hr ⊢
    refine ⟨hr.1, ?_, ?_, ?_, ?_⟩
    · rw [hr.2.1, hs.2.1]
    · rw [hr.2.2.1, hs.2.2.1]
    · rw [hr.2.2.2.1, hs.2.2.2.1]
    · rw [hr.2.2.2.2, hs.2.2.2.2]

/-- C8: when the environment reports bmalloc disabled, the constructor fills
the object log to capacity with null entries, and after every sequence of
later operations (deallocate, deallocateSlowCase, scavenge, the destructor) the
log is still that full log, no call has been made on the heap and no lock has
been taken; every `deallocate(p)` is declined by the fast path and does nothing
but hand `p` to the system `free`. -/
theorem disabled_deallocate_frees (isXLarge : Nat → Bool) (capacity : Nat)
    (ops : List Op) (p : Nat) :
    (create capacity false).m_objectLog = List.replicate capacity 0 ∧
    (run isXLarge (create capacity false) ops).m_objectLog = List.replicate capacity 0 ∧
    (run isXLarge (create capacity false) ops).m_objectLog.length
      = (run isXLarge (create capacity false) ops).capacity ∧
    (run isXLarge (create capacity false) ops).heapCalls = [] ∧
    (run isXLarge (create capacity false) ops).lockCount = 0 ∧
    (deallocateFastCase isXLarge (run isXLarge (create capacity false) ops) p).1 = false ∧
    deallocate isXLarge (run isXLarge (create capacity false) ops) p
      = { run isXLarge (create capacity false) ops with
          freed := (run isXLarge (create capacity false) ops).freed ++ [p] } := by
  have hc := create_capacity capacity false
  have hl := create_disabled_log capacity
  have hlen : (create capacity false).m_objectLog.length = (create capacity false).capacity := by
    rw [hl, hc.1]; simp
  have hf := fillObjectLog_enabled capacity ⟨[], capacity, false, [], 0, []⟩
  have hcalls : (create capacity false).heapCalls = [] ∧ (create capacity false).lockCount = 0 := by
    simp only [create]
    exact ⟨hf.2.2.1, hf.2.2.2.1⟩
  have hr := disabled_run isXLarge ops (create capacity false) hc.2 hlen
  have hlen2 : (run isXLarge (create capacity false) ops).m_objectLog.length
      = (run isXLarge (create capacity false) ops).capacity := by
    rw [hr.2.2.1, hr.2.1]; exact hlen
  have hfast : (deallocateFastCase isXLarge (run isXLarge (create capacity false) ops) p).1
      = false := by
    simp only [deallocateFastCase]
    split_ifs <;> simp_all
  refine ⟨hl, by rw [hr.2.2.1, hl], hlen2, by rw [hr.2.2.2.1, hcalls.1],
    by rw [hr.2.2.2.2, hcalls.2], hfast, ?_⟩
  simp only [deallocate, hfast]
  simp [deallocateSlowCase, hr.1]

theorem processObjectLog_fields (d : Deallocator) :
    (processObjectLog d).m_objectLog = [] ∧ (processObjectLog d).capacity = d.capacity ∧
    (processObjectLog d).m_isBmallocEnabled = d.m_isBmallocEnabled := by
  simp [processObjectLog, processObjectLogLocked]

/-- One operation keeps the log within its capacity. -/
theorem step_log_le (isXLarge : Nat → Bool) (d : Deallocator) (op : Op)
    (hcap : 0 < d.capacity) (hlen : d.m_objectLog.length ≤ d.capacity) :
    (step isXLarge d op).capacity = d.capacity ∧
    (step isXLarge d op).m_objectLog.length ≤ d.capacity := by
  have hslow : ∀ object, (deallocateSlowCase isXLarge d object).capacity = d.capacity ∧
      (deallocateSlowCase isXLarge d object).m_objectLog.length ≤ d.capacity := by
    intro object
    simp only [deallocateSlowCase]
    split_ifs
    · exact ⟨rfl, hlen⟩
    · exact ⟨rfl, hlen⟩
    · exact ⟨rfl, hlen⟩
    · have := processObjectLog_fields d
      simp only [push, this.1, this.2.1, List.nil_append, List.length_singleton]
      exact ⟨trivial, hcap⟩
  have hscav : (scavenge d).capacity = d.capacity ∧
      (scavenge d).m_objectLog.length ≤ d.capacity := by
    simp only [scavenge]
    split_ifs
    · have := processObjectLog_fields d
      simp [this.1, this.2.1]
    · exact ⟨rfl, hlen⟩
  cases op with
  | deallocate object =>
    simp only [step, deallocate]
    by_cases hfast : (deallocateFastCase isXLarge d object).1 = true
    · rw [if_pos hfast]
      simp only [deallocateFastCase] at hfast ⊢
      split_ifs at hfast ⊢ with h1 h2
      simp only [push, List.length_append, List.length_singleton]
      exact ⟨trivial, by omega⟩
    · rw [if_neg hfast]
      exact hslow object
  | deallocateSlowCase object => exact hslow object
  | scavenge => exact hscav
  | destroy => exact hscav

theorem run_log_le (isXLarge : Nat → Bool) (ops : List Op) (d : Deallocator)
    (hcap : 0 < d.capacity) (hlen : d.m_objectLog.length ≤ d.capacity) :
    (run isXLarge d ops).capacity = d.capacity ∧
    (run isXLarge d ops).m_objectLog.length ≤ d.capacity := by
  induction ops generalizing d with
  | nil => exact ⟨rfl, hlen⟩
  | cons op rest ih =>
    have hs := step_log_le isXLarge d op hcap hlen
    have hr := ih (step isXLarge d op) (by rw [hs.1]; exact hcap) (by rw [hs.1]; exact hs.2)
    simp only [run, List.foldl_cons] at hr ⊢
    exact ⟨by rw [hr.1, hs.1], by rw [← hs.1]; exact hr.2⟩

/-- C9: in every state a deallocator reaches from its constructor by a sequence
of operations, the length of the object log is at most its capacity (the
capacity being a positive constant). -/
theorem objectLog_length_le_capacity (isXLarge : Nat → Bool) (capacity : Nat)
    (enabled : Bool) (ops : List Op) (hcap : 0 < capacity) :
    (run isXLarge (create capacity enabled) ops).m_objectLog.length
      ≤ (run isXLarge (create capacity enabled) ops).capacity := by
  have hc := create_capacity capacity enabled
  have hlen : (create capacity enabled).m_objectLog.length ≤ (create capacity enabled).capacity := by
    cases enabled with
    | false => rw [create_disabled_log, hc.1]; simp
    | true => simp [create]
  have hr := run_log_le isXLarge ops (create capacity enabled) (by rw [hc.1]; exact hcap) hlen
  rw [hr.1]; exact hr.2

/-- C9 at a concrete input: with a log of capacity 2, three frees leave one
logged pointer. -/
theorem objectLog_length_le_capacity_witness :
    (run (fun _ => false) (create 2 true)
      [.deallocate 4096, .deallocate 8192, .deallocate 12288]).m_objectLog = [12288] ∧
    (run (fun _ => false) (create 2 true)
      [.deallocate 4096, .deallocate 8192, .deallocate 12288]).m_objectLog.length
      ≤ (run (fun _ => false) (create 2 true)
      [.deallocate 4096, .deallocate 8192, .deallocate 12288]).capacity :=
  ⟨by decide,
    objectLog_length_le_capacity (fun _ => false) 2 true
      [.deallocate 4096, .deallocate 8192, .deallocate 12288] (by decide)⟩

/-- C10: for every object log content, `Deallocator::processObjectLog` calls
`Heap::derefSmallLine` once on each logged pointer, in the order in which the
pointers were logged, after the calls made before, and leaves the log empty;
so does the variant that first takes the lock. -/
theorem processObjectLog_derefs_in_order (d : Deallocator) :
    (processObjectLogLocked d).heapCalls
      = d.heapCalls ++ d.m_objectLog.map HeapCall.derefSmallLine ∧
    (processObjectLogLocked d).m_objectLog = [] ∧
    (processObjectLog d).heapCalls
      = d.heapCalls ++ d.m_objectLog.map HeapCall.derefSmallLine ∧
    (processObjectLog d).m_objectLog = [] := by
  simp [processObjectLog, processObjectLogLocked, processObjectLogLoop_eq]

end Deallocator

/-! ## C15 -/

/-- C15: for every input range, the range that the extra-large
`Heap::splitAndAllocate` returns is tagged `Physical`; when the range was
virtual, one commit is issued, over exactly the begin and the size of the
allocated range, and when it was physical, none. -/
theorem splitAndAllocateXLarge_physical (xa : Nat) (h : XLargeHeap) (range : XLargeRange)
    (alignment size : Nat) :
    (splitAndAllocateXLarge xa h range alignment size).1.vmState = .Physical ∧
    (range.vmState = .Virtual →
      (splitAndAllocateXLarge xa h range alignment size).2.commitCalls
        = h.commitCalls ++ [((splitAndAllocateXLarge xa h range alignment size).1.begin,
            (splitAndAllocateXLarge xa h range alignment size).1.size)]) ∧
    (range.vmState = .Physical →
      (splitAndAllocateXLarge xa h range alignment size).2.commitCalls = h.commitCalls) := by
  cases hv : range.vmState <;>
    (simp only [splitAndAllocateXLarge]
     split_ifs <;>
       simp_all [XLargeRange.split, XLargeRange.setVMState, VMState.hasVirtual])

/-- C15 at a concrete input: a virtual range of 6 MiB at 2 MiB, asked for
5 MiB, is committed over `[2 MiB, 7 MiB)`; the same range, physical, is not. -/
theorem splitAndAllocateXLarge_physical_witness :
    (splitAndAllocateXLarge (2 ^ 21) exampleXLargeHeap ⟨2 ^ 21, 6 * 2 ^ 20, .Virtual⟩ (2 ^ 21)
      (5 * 2 ^ 20)).2.commitCalls = [(2 ^ 21, 5 * 2 ^ 20)] ∧
    (splitAndAllocateXLarge (2 ^ 21) exampleXLargeHeap ⟨2 ^ 21, 6 * 2 ^ 20, .Virtual⟩ (2 ^ 21)
      (5 * 2 ^ 20)).2.commitCalls
      = exampleXLargeHeap.commitCalls ++
        [((splitAndAllocateXLarge (2 ^ 21) exampleXLargeHeap ⟨2 ^ 21, 6 * 2 ^ 20, .Virtual⟩
            (2 ^ 21) (5 * 2 ^ 20)).1.begin,
          (splitAndAllocateXLarge (2 ^ 21) exampleXLargeHeap ⟨2 ^ 21, 6 * 2 ^ 20, .Virtual⟩
            (2 ^ 21) (5 * 2 ^ 20)).1.size)] ∧
    (splitAndAllocateXLarge (2 ^ 21) exampleXLargeHeap ⟨2 ^ 21, 6 * 2 ^ 20, .Physical⟩ (2 ^ 21)
      (5 * 2 ^ 20)).2.commitCalls = exampleXLargeHeap.commitCalls :=
  ⟨by decide,
    (splitAndAllocateXLarge_physical (2 ^ 21) exampleXLargeHeap
      ⟨2 ^ 21, 6 * 2 ^ 20, .Virtual⟩ (2 ^ 21) (5 * 2 ^ 20)).2.1 rfl,
    (splitAndAllocateXLarge_physical (2 ^ 21) exampleXLargeHeap
      ⟨2 ^ 21, 6 * 2 ^ 20, .Physical⟩ (2 ^ 21) (5 * 2 ^ 20)).2.2 rfl⟩

/-! ## C20 -/

theorem wsub_eq_sub {a b : Nat} (ha : a < wordSize) (hb : b ≤ a) : wsub a b = a - b := by
  unfold wsub
  rw [wordSize_eq] at *
  omega

/-- C20: for every free `LargeObject` `o` inside the address space and every
`size <= o.size`, the `Heap::splitAndAllocate` without alignment, when
`o.size - size >= largeMin`, returns the first `size` bytes of `o` and inserts
the tail of `o.size - size` bytes at `o.begin + size` into the free map;
otherwise it returns the whole of `o` and inserts nothing.  Either way the
sizes of what is returned and what is inserted add up to `o.size`. -/
theorem splitAndAllocate_sizes (S : Sizes) (h : Heap) (o : LargeObject) (size : Nat)
    (_hfree : o.isFree = true) (hle : size ≤ o.size) (hb : o.begin ≠ 0)
    (hspace : o.begin + o.size ≤ wordSize) (hmin : 0 < S.largeMin) :
    (S.largeMin ≤ o.size - size →
      (splitAndAllocate S h o size).1.begin = o.begin ∧
      (splitAndAllocate S h o size).1.size = size ∧
      (splitAndAllocate S h o size).2.m_largeObjects
        = h.m_largeObjects ++ [⟨o.begin + size, o.size - size, o.isFree, o.vmState⟩]) ∧
    (o.size - size < S.largeMin →
      (splitAndAllocate S h o size).1.begin = o.begin ∧
      (splitAndAllocate S h o size).1.size = o.size ∧
      (splitAndAllocate S h o size).2.m_largeObjects = h.m_largeObjects) ∧
    (splitAndAllocate S h o size).1.size
      + (((splitAndAllocate S h o size).2.m_largeObjects.drop h.m_largeObjects.length).map
          LargeObject.size).sum = o.size := by
  have hsub : wsub o.size size = o.size - size := wsub_eq_sub (by omega) hle
  have hcases : (S.largeMin ≤ o.size - size →
      (splitAndAllocate S h o size).1.begin = o.begin ∧
      (splitAndAllocate S h o size).1.size = size ∧
      (splitAndAllocate S h o size).2.m_largeObjects
        = h.m_largeObjects ++ [⟨o.begin + size, o.size - size, o.isFree, o.vmState⟩]) ∧
    (o.size - size < S.largeMin →
      (splitAndAllocate S h o size).1.begin = o.begin ∧
      (splitAndAllocate S h o size).1.size = o.size ∧
      (splitAndAllocate S h o size).2.m_largeObjects = h.m_largeObjects) := by
    constructor
    · intro hge
      have hadd : wadd o.begin size = o.begin + size := by
        unfold wadd
        exact Nat.mod_eq_of_lt (by omega)
      simp only [splitAndAllocate, hsub]
      rw [if_pos hge]
      simp only [LargeObject.split, LargeObject.setFree, LargeObject.toBool, hadd, hsub]
      rw [if_pos (by simp; omega)]
      simp [Heap.insertLarge, Heap.refLine]
    · intro hlt
      simp only [splitAndAllocate, hsub]
      rw [if_neg (by omega)]
      simp [LargeObject.setFree, LargeObject.toBool, LargeObject.null, Heap.refLine]
  refine ⟨hcases.1, hcases.2, ?_⟩
  by_cases hge : S.largeMin ≤ o.size - size
  · obtain ⟨-, h2, h3⟩ := hcases.1 hge
    rw [h2, h3]
    simp
    omega
  · obtain ⟨-, h2, h3⟩ := hcases.2 (by omega)
    rw [h2, h3]
    simp

/-- C20 at a concrete input: 4 KiB out of a free object of 1 MiB at 8 MiB leaves
a tail of 1 MiB - 4 KiB at `8 MiB + 4 KiB` in the free map. -/
theorem splitAndAllocate_sizes_witness :
    (splitAndAllocate exampleSizes exampleHeap ⟨2 ^ 23, 2 ^ 20, true, .Physical⟩ 4096).1.size
      = 4096 ∧
    (splitAndAllocate exampleSizes exampleHeap ⟨2 ^ 23, 2 ^ 20, true, .Physical⟩
      4096).2.m_largeObjects
      = exampleHeap.m_largeObjects ++ [⟨2 ^ 23 + 4096, 2 ^ 20 - 4096, true, .Physical⟩] ∧
    (splitAndAllocate exampleSizes exampleHeap ⟨2 ^ 23, 2 ^ 20, true, .Physical⟩
      (2 ^ 20 - 512)).1.size = 2 ^ 20 :=
  ⟨((splitAndAllocate_sizes exampleSizes exampleHeap ⟨2 ^ 23, 2 ^ 20, true, .Physical⟩ 4096
      rfl (by decide) (by decide) (by decide) (by decide)).1 (by decide)).2.1,
    ((splitAndAllocate_sizes exampleSizes exampleHeap ⟨2 ^ 23, 2 ^ 20, true, .Physical⟩ 4096
      rfl (by decide) (by decide) (by decide) (by decide)).1 (by decide)).2.2,
    ((splitAndAllocate_sizes exampleSizes exampleHeap ⟨2 ^ 23, 2 ^ 20, true, .Physical⟩
      (2 ^ 20 - 512) rfl (by decide) (by decide) (by decide) (by decide)).2.1 (by decide)).2.1⟩

/-! ## C16 -/

theorem scavengeSmallPagesLoop_isAllocatingPages (S : Sizes) (E : LargeEnv) (fuel : Nat)
    (h : Heap) :
    (scavengeSmallPagesLoop S E fuel h).m_isAllocatingPages = h.m_isAllocatingPages := by
  induction fuel generalizing h with
  | zero => rfl
  | succ fuel ih =>
    simp only [scavengeSmallPagesLoop]
    split_ifs
    · rfl
    · rw [ih (scavengeSmallPage S E h)]
      simp only [scavengeSmallPage, deallocateLarge, Heap.mergeAndInsert, Heap.insertLarge]
      have hfold : ∀ (l : List Nat) (h' : Heap),
          (l.foldl (fun (h' : Heap) (i : Nat) =>
            h'.setPage (h.m_smallPages.getLastD 0 + (i + 1) * S.smallPageSize)
              { h'.pages (h.m_smallPages.getLastD 0 + (i + 1) * S.smallPageSize)
                with slide := 0 }) h').m_isAllocatingPages = h'.m_isAllocatingPages := by
        intro l
        induction l with
        | nil => intro h'; rfl
        | cons i rest ihl => intro h'; simp only [List.foldl_cons]; rw [ihl]; rfl
      exact hfold _ _

theorem splitAndAllocate_isAllocatingPages (S : Sizes) (h : Heap) (o : LargeObject)
    (size : Nat) :
    (splitAndAllocate S h o size).2.m_isAllocatingPages = h.m_isAllocatingPages := by
  simp only [splitAndAllocate]
  split_ifs <;> rfl

theorem splitAndAllocateAligned_isAllocatingPages (S : Sizes) (E : LargeEnv) (h : Heap)
    (o : LargeObject) (alignment size : Nat) :
    (splitAndAllocateAligned S E h o alignment size).2.m_isAllocatingPages
      = h.m_isAllocatingPages := by
  simp only [splitAndAllocateAligned]
  split_ifs <;> rfl

/-- C16, as the code has it: `Heap::allocateLarge`, in both variants, sets
`m_isAllocatingPages` when the `LargeObject` it obtains has a virtual part,
which it then commits; when the object is physical already, the flag is left as
it was at entry. -/
theorem allocateLarge_isAllocatingPages (S : Sizes) (E : LargeEnv) (h : Heap)
    (alignment size unalignedSize : Nat) (h₁ h₂ : Heap) (o₁ o₂ : LargeObject)
    (hh₁ : h₁ = if size ≤ h.m_vmPageSizePhysical then scavengeSmallPages S E h else h)
    (ho₁ : o₁ = if (E.takeSize h₁ size).1.toBool then (E.takeSize h₁ size).1
      else E.allocateLargeObjectSize { h₁ with m_largeObjects := (E.takeSize h₁ size).2 } size)
    (hh₂ : h₂ = if size ≤ h.m_vmPageSizePhysical then scavengeSmallPages S E h else h)
    (ho₂ : o₂ = if (E.take h₂ alignment size unalignedSize).1.toBool
      then (E.take h₂ alignment size unalignedSize).1
      else E.allocateLargeObject
        { h₂ with m_largeObjects := (E.take h₂ alignment size unalignedSize).2 }
        alignment size unalignedSize) :
    (allocateLarge S E h size).2.m_isAllocatingPages
      = (o₁.vmState.hasVirtual || h.m_isAllocatingPages) ∧
    (allocateLargeAligned S E h alignment size unalignedSize).2.m_isAllocatingPages
      = (o₂.vmState.hasVirtual || h.m_isAllocatingPages) := by
  have hflag : (if size ≤ h.m_vmPageSizePhysical then scavengeSmallPages S E h
      else h).m_isAllocatingPages = h.m_isAllocatingPages := by
    split_ifs
    · exact scavengeSmallPagesLoop_isAllocatingPages S E _ h
    · rfl
  subst hh₁ hh₂ ho₁ ho₂
  constructor
  · simp only [allocateLarge]
    rw [splitAndAllocate_isAllocatingPages]
    split_ifs with h1 h2 h3 <;> simp_all
  · simp only [allocateLargeAligned]
    rw [splitAndAllocateAligned_isAllocatingPages]
    split_ifs with h1 h2 h3 <;> simp_all

/-- C16 at concrete inputs: a virtual object from the VM heap sets the flag, a
physical object from the free map leaves it clear. -/
theorem allocateLarge_isAllocatingPages_witness :
    (allocateLarge exampleSizes exampleTakeEnv exampleHeap 8192).2.m_isAllocatingPages = true ∧
    (allocateLargeAligned exampleSizes exampleTakeEnv examplePhysicalHeap 4096 8192
      13248).2.m_isAllocatingPages = false :=
  ⟨(allocateLarge_isAllocatingPages exampleSizes exampleTakeEnv exampleHeap 4096 8192 13248
      _ _ _ _ rfl rfl rfl rfl).1.trans (by decide),
    (allocateLarge_isAllocatingPages exampleSizes exampleTakeEnv examplePhysicalHeap 4096 8192
      13248 _ _ _ _ rfl rfl rfl rfl).2.trans (by decide)⟩

/-- C16 fails as stated: with no pages being allocated at entry, both variants
of `Heap::allocateLarge` hand out the physical object of the free map, at
`6 * chunkSize`, and return with `m_isAllocatingPages` still false. -/
theorem allocateLarge_isAllocatingPages_counterexample :
    (allocateLarge exampleSizes exampleTakeEnv examplePhysicalHeap 8192).1 = 3 * 2 ^ 22 ∧
    (allocateLarge exampleSizes exampleTakeEnv examplePhysicalHeap 8192).2.m_isAllocatingPages
      = false ∧
    (allocateLargeAligned exampleSizes exampleTakeEnv examplePhysicalHeap 4096 8192 13248).1
      = 3 * 2 ^ 22 ∧
    (allocateLargeAligned exampleSizes exampleTakeEnv examplePhysicalHeap 4096 8192
      13248).2.m_isAllocatingPages = false := by
  decide

/-! ## C11 -/

namespace Deallocator

/-- One free of a pointer that is neither null nor extra-large, on a deallocator
with bmalloc enabled: a push when the log has room, and otherwise one drain
under the lock followed by the push, which leaves a log of length 1. -/
theorem deallocate_small (isXLarge : Nat → Bool) (d : Deallocator) (p : Nat)
    (hen : d.m_isBmallocEnabled = true) (hp : p ≠ 0) (hx : isXLarge p = false) :
    (d.m_objectLog.length ≠ d.capacity →
      deallocate isXLarge d p = { d with m_objectLog := d.m_objectLog ++ [p] }) ∧
    (d.m_objectLog.length = d.capacity →
      deallocate isXLarge d p =
        { d with
          m_objectLog := [p]
          heapCalls := d.heapCalls ++ d.m_objectLog.map HeapCall.derefSmallLine
          lockCount := d.lockCount + 1 }) := by
  constructor
  · intro hne
    simp [deallocate, deallocateFastCase, hx, hne, push]
  · intro heq
    simp [deallocate, deallocateFastCase, deallocateSlowCase, hx, heq, hen, hp, push,
      processObjectLog, processObjectLogLocked, processObjectLogLoop_eq]

/-- The state after a sequence of frees, in terms of the number `k` of drains. -/
theorem run_frees (isXLarge : Nat → Bool) (capacity : Nat) (hcap : 0 < capacity)
    (ps : List Nat) (hps : ∀ p ∈ ps, p ≠ 0 ∧ isXLarge p = false) :
    ∃ k, (k * capacity < ps.length ∨ (ps = [] ∧ k = 0)) ∧ ps.length ≤ k * capacity + capacity ∧
      run isXLarge (create capacity true) (ps.map Op.deallocate) =
        ⟨ps.drop (k * capacity), capacity, true,
          (ps.take (k * capacity)).map HeapCall.derefSmallLine, k, []⟩ := by
  induction ps using List.reverseRecOn with
  | nil => exact ⟨0, Or.inr ⟨rfl, rfl⟩, by simp, by simp [run, create]⟩
  | append_singleton ps p ih =>
    obtain ⟨k, hk, hle, hrun⟩ := ih (fun q hq => hps q (List.mem_append_left _ hq))
    obtain ⟨hp, hx⟩ := hps p (List.mem_append_right _ (List.mem_singleton_self p))
    have hkle : k * capacity ≤ ps.length := by
      rcases hk with h | ⟨h1, h2⟩
      · omega
      · subst h2; simp
    have hstep : run isXLarge (create capacity true) ((ps ++ [p]).map Op.deallocate)
        = deallocate isXLarge (run isXLarge (create capacity true) (ps.map Op.deallocate)) p := by
      simp [run, List.foldl_append, step]
    rw [hstep, hrun]
    obtain ⟨hpush, hdrain⟩ := deallocate_small isXLarge
      ⟨ps.drop (k * capacity), capacity, true,
        (ps.take (k * capacity)).map HeapCall.derefSmallLine, k, []⟩ p rfl hp hx
    by_cases hfull : (ps.drop (k * capacity)).length = capacity
    · have hlen : ps.length = k * capacity + capacity := by
        rw [List.length_drop] at hfull; omega
      refine ⟨k + 1, Or.inl ?_, ?_, ?_⟩
      · rw [Nat.add_mul, Nat.one_mul, List.length_append, List.length_singleton]; omega
      · rw [Nat.add_mul, Nat.one_mul, List.length_append, List.length_singleton]; omega
      · rw [hdrain hfull]
        have hk1 : (k + 1) * capacity = ps.length := by
          rw [Nat.add_mul, Nat.one_mul]; omega
        simp only [hk1]
        rw [List.drop_left, List.take_left, ← List.map_append, List.take_append_drop]
    · refine ⟨k, Or.inl ?_, ?_, ?_⟩
      · rw [List.length_append, List.length_singleton]; omega
      · rw [List.length_append, List.length_singleton]
        have := List.length_drop (k * capacity) ps
        have hlt : (ps.drop (k * capacity)).length < capacity := by
          rw [List.length_drop] at hfull ⊢; omega
        rw [List.length_drop] at hlt
        omega
      · rw [hpush hfull]
        simp only
        rw [List.drop_append_of_le_length hkle, List.take_append_of_le_length hkle]

/-- C11: on one thread with bmalloc enabled, after any sequence `ps` of frees of
pointers that are neither null nor extra-large, the object log has been drained
`(length ps - 1) / capacity` times, the drained pointers being the first
`drains * capacity` of `ps` in order and the log holding the rest; the next free
drains exactly when `ps` is not empty and its length is a multiple of the
capacity, and then leaves a log of length 1.  So the drains happen at the
frees number `capacity + 1`, `2 * capacity + 1`, ..., one per `capacity`
frees. -/
theorem drain_once_per_capacity (isXLarge : Nat → Bool) (capacity : Nat)
    (ps : List Nat) (p : Nat) (hcap : 0 < capacity)
    (hps : ∀ q ∈ ps, q ≠ 0 ∧ isXLarge q = false) (hp : p ≠ 0 ∧ isXLarge p = false) :
    (run isXLarge (create capacity true) (ps.map Op.deallocate)).lockCount
      = (ps.length - 1) / capacity ∧
    (run isXLarge (create capacity true) (ps.map Op.deallocate)).m_objectLog
      = ps.drop ((ps.length - 1) / capacity * capacity) ∧
    (run isXLarge (create capacity true) (ps.map Op.deallocate)).heapCalls
      = (ps.take ((ps.length - 1) / capacity * capacity)).map HeapCall.derefSmallLine ∧
    ((run isXLarge (create capacity true) ((ps ++ [p]).map Op.deallocate)).lockCount
      = (run isXLarge (create capacity true) (ps.map Op.deallocate)).lockCount + 1 ↔
        ps ≠ [] ∧ capacity ∣ ps.length) ∧
    (ps ≠ [] → capacity ∣ ps.length →
      (run isXLarge (create capacity true) ((ps ++ [p]).map Op.deallocate)).m_objectLog = [p]) ∧
    (¬(ps ≠ [] ∧ capacity ∣ ps.length) →
      (run isXLarge (create capacity true) ((ps ++ [p]).map Op.deallocate)).lockCount
        = (run isXLarge (create capacity true) (ps.map Op.deallocate)).lockCount) := by
  obtain ⟨k, hk, hle, hrun⟩ := run_frees isXLarge capacity hcap ps hps
  have hkdiv : (ps.length - 1) / capacity = k := by
    rcases hk with h | ⟨h1, h2⟩
    · apply Nat.div_eq_of_lt_le
      · omega
      · rw [Nat.succ_mul]; omega
    · subst h1 h2; simp
  have hkle : k * capacity ≤ ps.length := by
    rcases hk with h | ⟨h1, h2⟩
    · omega
    · subst h2; simp
  have hstep : run isXLarge (create capacity true) ((ps ++ [p]).map Op.deallocate)
      = deallocate isXLarge (run isXLarge (create capacity true) (ps.map Op.deallocate)) p := by
    simp [run, List.foldl_append, step]
  obtain ⟨hpush, hdrain⟩ := deallocate_small isXLarge
    ⟨ps.drop (k * capacity), capacity, true,
      (ps.take (k * capacity)).map HeapCall.derefSmallLine, k, []⟩ p rfl hp.1 hp.2
  -- the log is full exactly when a positive multiple of the capacity has been freed
  have hfull : (ps.drop (k * capacity)).length = capacity ↔ (ps ≠ [] ∧ capacity ∣ ps.length) := by
    rw [List.length_drop]
    constructor
    · intro h
      refine ⟨?_, ⟨k + 1, ?_⟩⟩
      · intro he; subst he; simp at h; omega
      · rw [Nat.mul_add, Nat.mul_one, Nat.mul_comm]; omega
    · rintro ⟨hne, q, hq⟩
      have hlen : 0 < ps.length := List.length_pos.2 hne
      rcases hk with h | ⟨h1, -⟩
      · rw [hq, Nat.mul_comm capacity q] at h hle
        have h1 : k < q := Nat.lt_of_mul_lt_mul_right h
        have h2 : q ≤ k + 1 := by
          have : q * capacity ≤ (k + 1) * capacity := by rw [Nat.add_mul, Nat.one_mul]; exact hle
          exact Nat.le_of_mul_le_mul_right this hcap
        have h3 : q = k + 1 := by omega
        rw [hq, h3, Nat.mul_add, Nat.mul_one, Nat.mul_comm]; omega
      · exact absurd h1 hne
  rw [hstep, hrun, hkdiv]
  refine ⟨rfl, rfl, rfl, ?_, ?_, ?_⟩
  · rw [← hfull]
    constructor
    · intro h
      by_contra hne
      rw [hpush hne] at h
      simp at h
    · intro h
      rw [hdrain h]
  · intro hne hdvd
    rw [hdrain (hfull.2 ⟨hne, hdvd⟩)]
  · intro hnot
    rw [hpush (fun h => hnot (hfull.1 h))]

/-- C11 at a concrete input: with a log of capacity 2, five frees drain twice,
at the third and at the fifth free. -/
theorem drain_once_per_capacity_witness :
    (run (fun _ => false) (create 2 true)
      ([8, 16, 24, 32].map Op.deallocate)).lockCount = (4 - 1) / 2 ∧
    (run (fun _ => false) (create 2 true)
      (([8, 16, 24, 32] ++ [40]).map Op.deallocate)).m_objectLog = [40] ∧
    (run (fun _ => false) (create 2 true)
      (([8, 16, 24, 32] ++ [40]).map Op.deallocate)).lockCount = 2 :=
  ⟨(drain_once_per_capacity (fun _ => false) 2 [8, 16, 24, 32] 40 (by decide) (by decide)
      (by decide)).1,
    (drain_once_per_capacity (fun _ => false) 2 [8, 16, 24, 32] 40 (by decide) (by decide)
      (by decide)).2.2.2.2.1 (by decide) (by decide),
    by decide⟩

end Deallocator

/-! ## The line metadata table: C18, C19 -/

/-- The loop of `initializeLineMetadata` returns: every round moves `object` on. -/
theorem lineMetadataLoop_some (S : Sizes) (P s base : Nat) (hs : 0 < s)
    (hls : 0 < S.smallLineSize) (fuel object line : Nat) (table : List LineMetadata)
    (hfuel : P + 1 - object ≤ fuel) (hpos : 0 < fuel) :
    ∃ r, lineMetadataLoop S P s base fuel object line table = some r := by
  induction fuel generalizing object line table with
  | zero => omega
  | succ fuel ih =>
    simp only [lineMetadataLoop]
    by_cases hlt : object < P
    · rw [if_pos hlt]
      have hml := Nat.mod_lt object hls
      have hd := divideRoundingUp_spec hs
        (show 0 < S.smallLineSize - object % S.smallLineSize by omega)
      have hge : 1 ≤ (divideRoundingUp (S.smallLineSize - object % S.smallLineSize) s).1 * s :=
        Nat.le_trans hd.2.2.1 (Nat.le_mul_of_pos_right _ hs)
      exact ih _ _ _ (by omega) (by omega)
    · rw [if_neg hlt]
      exact ⟨_, rfl⟩

theorem initializeSizeClass_some (S : Sizes) (P c : Nat) (hs : 0 < S.objectSize c)
    (hls : 0 < S.smallLineSize) (table : List LineMetadata) :
    ∃ table', initializeSizeClass S P table c = some table' := by
  obtain ⟨r, hr⟩ := lineMetadataLoop_some S P (S.objectSize c) (c * (P / S.smallLineSize)) hs hls
    (P + 1) 0 0 table (by omega) (by omega)
  simp only [initializeSizeClass, hr]
  split_ifs <;> exact ⟨_, rfl⟩

theorem initializeSizeClasses_some (S : Sizes) (P : Nat) (hls : 0 < S.smallLineSize)
    (cs : List Nat) (hsize : ∀ c ∈ cs, 0 < S.objectSize c) (table : List LineMetadata) :
    ∃ table', initializeSizeClasses S P cs table = some table' := by
  induction cs generalizing table with
  | nil => exact ⟨table, rfl⟩
  | cons c rest ih =>
    obtain ⟨t₁, h₁⟩ := initializeSizeClass_some S P c (hsize c (List.mem_cons_self _ _)) hls table
    obtain ⟨t₂, h₂⟩ := ih (fun c' hc' => hsize c' (List.mem_cons_of_mem _ hc')) t₁
    exact ⟨t₂, by simp only [initializeSizeClasses, h₁, h₂]⟩

/-- `initializeLineMetadata` returns a table, for positive object sizes. -/
theorem initializeLineMetadata_some (S : Sizes) (P : Nat) (hls : 0 < S.smallLineSize)
    (hsize : ∀ c, c < S.sizeClassCount → 0 < S.objectSize c) :
    ∃ table, initializeLineMetadata S P = some table := by
  simp only [initializeLineMetadata]
  exact initializeSizeClasses_some S P hls _ (fun c hc => hsize c (List.mem_range.1 hc)) _

theorem firstObjectInPage_zero (S : Sizes) (P : Nat) {s : Nat} (hs : 0 < s) :
    firstObjectInPage S P s 0 = 0 := by
  unfold firstObjectInPage
  rw [firstObject_zero S hs]
  exact Nat.zero_min _

theorem firstObjectInPage_last (S : Sizes) (P : Nat) {s : Nat} (hs : 0 < s)
    (hdiv : S.smallLineSize ∣ P) :
    firstObjectInPage S P s (P / S.smallLineSize) = P / s := by
  unfold firstObjectInPage
  apply min_eq_right
  apply whole_le_firstObject S P hs
  have := firstObject_mul_ge S hs (P / S.smallLineSize)
  rw [Nat.div_mul_cancel hdiv] at this
  exact this

/-- C18: for every size class with object size `s > 0`, `initializeLineMetadata`
returns a table in which the object counts of the lines of the class sum to
`floor(P / s)`, and no entry describes an object that extends past the end of
the page (page size a multiple of the line size). -/
theorem initializeLineMetadata_counts_sum (S : Sizes) (P c : Nat)
    (hls : 0 < S.smallLineSize) (hdiv : S.smallLineSize ∣ P)
    (hshort : S.smallLineSize < shortSize)
    (hsize : ∀ c, c < S.sizeClassCount → 0 < S.objectSize c) (hc : c < S.sizeClassCount) :
    ∃ table, initializeLineMetadata S P = some table ∧
      ((List.range (P / S.smallLineSize)).map
        (fun L => (table.getD (c * (P / S.smallLineSize) + L) ⟨0, 0⟩).objectCount)).sum
        = P / S.objectSize c ∧
      (∀ L, L < P / S.smallLineSize →
        (table.getD (c * (P / S.smallLineSize) + L) ⟨0, 0⟩).objectCount ≠ 0 →
        L * S.smallLineSize + (table.getD (c * (P / S.smallLineSize) + L) ⟨0, 0⟩).startOffset
          + (table.getD (c * (P / S.smallLineSize) + L) ⟨0, 0⟩).objectCount * S.objectSize c
          ≤ P) := by
  obtain ⟨table, htable⟩ := initializeLineMetadata_some S P hls hsize
  have hs := hsize c hc
  have hspec := fun L hL => initializeLineMetadata_spec S P hls hdiv hshort hsize table htable
    c L hc hL
  refine ⟨table, htable, ?_, ?_⟩
  · rw [list_sum_range_eq, ← Finset.range_eq_Ico]
    have hsum : ∑ L in Finset.range (P / S.smallLineSize),
        (table.getD (c * (P / S.smallLineSize) + L) ⟨0, 0⟩).objectCount
        = ∑ L in Finset.range (P / S.smallLineSize),
          (firstObjectInPage S P (S.objectSize c) (L + 1)
            - firstObjectInPage S P (S.objectSize c) L) :=
      Finset.sum_congr rfl (fun L hL => (hspec L (Finset.mem_range.1 hL)).1)
    rw [hsum, Finset.sum_range_tsub (fun a b hab => firstObjectInPage_mono S P hs hab),
      firstObjectInPage_zero S P hs, firstObjectInPage_last S P hs hdiv, Nat.sub_zero]
  · intro L hL hne
    obtain ⟨hcount, hoff⟩ := hspec L hL
    rw [hoff hne, hcount, ← Nat.add_mul]
    have hmono := firstObjectInPage_mono S P hs (show L ≤ L + 1 by omega)
    rw [Nat.add_sub_cancel' hmono]
    have := Nat.mul_le_mul_right (S.objectSize c)
      (firstObjectInPage_le_whole S P (S.objectSize c) (L + 1))
    exact le_trans this (Nat.div_mul_le_self P _)

/-- C18 at a concrete input: on 4 KiB pages the counts of the 16 lines of the
class of 24-byte objects sum to 170. -/
theorem initializeLineMetadata_counts_sum_witness :
    ∃ table, initializeLineMetadata exampleSizes 4096 = some table ∧
      ((List.range (4096 / exampleSizes.smallLineSize)).map
        (fun L => (table.getD (2 * (4096 / exampleSizes.smallLineSize) + L) ⟨0, 0⟩).objectCount)).sum
        = 4096 / exampleSizes.objectSize 2 := by
  obtain ⟨table, h1, h2, -⟩ := initializeLineMetadata_counts_sum exampleSizes 4096 2
    (by decide) (by decide) (by decide) (by decide) (by decide)
  exact ⟨table, h1, h2⟩

/-- The start offsets after the lines of one size class are written: a line in
which an object begins holds the offset of the first one, and a line in which
none begins keeps the zero entry. -/
theorem initializeSizeClass_offsets (S : Sizes) (P c : Nat) (hs : 0 < S.objectSize c)
    (hls : 0 < S.smallLineSize) (hdiv : S.smallLineSize ∣ P)
    (hshort : S.smallLineSize < shortSize)
    (table table' : List LineMetadata)
    (hlen : c * (P / S.smallLineSize) + P / S.smallLineSize ≤ table.length)
    (hzero : ∀ L, L < P / S.smallLineSize →
      table.getD (c * (P / S.smallLineSize) + L) ⟨0, 0⟩ = ⟨0, 0⟩)
    (hrun : initializeSizeClass S P table c = some table') :
    ∀ L, L < P / S.smallLineSize →
      (firstObject S (S.objectSize c) L < firstObject S (S.objectSize c) (L + 1) →
        (table'.getD (c * (P / S.smallLineSize) + L) ⟨0, 0⟩).startOffset
          = firstObject S (S.objectSize c) L * S.objectSize c - L * S.smallLineSize) ∧
      (firstObject S (S.objectSize c) L = firstObject S (S.objectSize c) (L + 1) →
        table'.getD (c * (P / S.smallLineSize) + L) ⟨0, 0⟩ = ⟨0, 0⟩) := by
  simp only [initializeSizeClass] at hrun
  split at hrun
  · exact absurd hrun (by simp)
  · rename_i object line table₁ hloop
    obtain ⟨m', -, hobj', hP, hlen', hlast, hE1, hE2⟩ :=
      lineMetadataLoop_spec S P (S.objectSize c) (c * (P / S.smallLineSize)) hs hls hdiv hshort
        _ 0 0 table 0 (by rw [firstObject_zero S hs, Nat.zero_mul]) (by simp) hlen
        object line table₁ hloop
    have hn : P / S.smallLineSize * S.smallLineSize = P := Nat.div_mul_cancel hdiv
    intro L hL
    have hLle : (L + 1) * S.smallLineSize ≤ P := by
      rw [← hn]; exact Nat.mul_le_mul_right _ hL
    -- no object begins in a line after the last one written
    have hafter : m' ≤ L → firstObject S (S.objectSize c) L
        = firstObject S (S.objectSize c) (L + 1) := by
      intro hml
      have h1 := firstObject_mono S hs hml
      have h2 := firstObject_mono S hs (show L ≤ L + 1 by omega)
      have h3 := firstObject_le_of_le S hs (L + 1) (firstObject S (S.objectSize c) m')
        (by omega)
      omega
    -- the table returned differs from the one the loop leaves in one count only
    have hstart : ∀ i, (table'.getD i ⟨0, 0⟩).startOffset = (table₁.getD i ⟨0, 0⟩).startOffset := by
      intro i
      split_ifs at hrun
      · obtain rfl := Option.some.inj hrun
        by_cases hi : i = c * (P / S.smallLineSize) + line
        · subst hi
          by_cases hb : c * (P / S.smallLineSize) + line < table₁.length
          · rw [getD_set_eq _ _ _ _ hb]
          · rw [List.set_eq_of_length_le (Nat.le_of_not_lt hb)]
        · rw [getD_set_ne _ _ _ _ _ (Ne.symm hi)]
      · obtain rfl := Option.some.inj hrun
        rfl
    have hother : ∀ i, i ≠ c * (P / S.smallLineSize) + line →
        table'.getD i ⟨0, 0⟩ = table₁.getD i ⟨0, 0⟩ := by
      intro i hi
      split_ifs at hrun
      · obtain rfl := Option.some.inj hrun
        exact getD_set_ne _ _ _ _ _ (Ne.symm hi)
      · obtain rfl := Option.some.inj hrun
        rfl
    constructor
    · intro hlt
      have hLm : L < m' := by
        by_contra hge
        have := hafter (by omega)
        omega
      rw [hstart, hE1 L (Nat.zero_le _) hLm hlt]
    · intro heq
      have hne : L ≠ line ∨ m' = 0 := by
        rcases hlast with ⟨h0, -⟩ | ⟨-, -, -, -, hcnt⟩
        · right; exact h0
        · left; rintro rfl; omega
      have h1 : table₁.getD (c * (P / S.smallLineSize) + L) ⟨0, 0⟩ = ⟨0, 0⟩ := by
        rw [hE2 _ (by
          intro L' _ _ hL' he
          have : L' = L := by omega
          subst this
          omega)]
        exact hzero L hL
      rcases hne with hne | h0
      · rw [hother _ (by omega), h1]
      · -- no round was run: the page is empty
        subst h0
        rw [firstObject_zero S hs, Nat.zero_mul] at hobj'
        have hP0 : P = 0 := by omega
        rw [hP0, Nat.zero_div] at hL
        exact absurd hL (Nat.not_lt_zero _)

theorem initializeSizeClasses_offsets (S : Sizes) (P : Nat)
    (hls : 0 < S.smallLineSize) (hdiv : S.smallLineSize ∣ P)
    (hshort : S.smallLineSize < shortSize)
    (hsize : ∀ c, c < S.sizeClassCount → 0 < S.objectSize c)
    (cs : List Nat) (hnd : cs.Nodup) (hcs : ∀ c ∈ cs, c < S.sizeClassCount)
    (table table' : List LineMetadata)
    (hlen : S.sizeClassCount * (P / S.smallLineSize) ≤ table.length)
    (hzero : ∀ c ∈ cs, ∀ L, L < P / S.smallLineSize →
      table.getD (c * (P / S.smallLineSize) + L) ⟨0, 0⟩ = ⟨0, 0⟩)
    (hrun : initializeSizeClasses S P cs table = some table') :
    ∀ c ∈ cs, ∀ L, L < P / S.smallLineSize →
      (firstObject S (S.objectSize c) L < firstObject S (S.objectSize c) (L + 1) →
        (table'.getD (c * (P / S.smallLineSize) + L) ⟨0, 0⟩).startOffset
          = firstObject S (S.objectSize c) L * S.objectSize c - L * S.smallLineSize) ∧
      (firstObject S (S.objectSize c) L = firstObject S (S.objectSize c) (L + 1) →
        table'.getD (c * (P / S.smallLineSize) + L) ⟨0, 0⟩ = ⟨0, 0⟩) := by
  induction cs generalizing table with
  | nil => intro c hc; exact absurd hc (List.not_mem_nil c)
  | cons c₀ rest ih =>
    simp only [initializeSizeClasses] at hrun
    split at hrun
    · exact absurd hrun (by simp)
    · rename_i table₁ hclass
      have hc₀ : c₀ < S.sizeClassCount := hcs c₀ (List.mem_cons_self _ _)
      have hlen₀ : c₀ * (P / S.smallLineSize) + P / S.smallLineSize ≤ table.length := by
        have := Nat.mul_le_mul_right (P / S.smallLineSize) (show c₀ + 1 ≤ S.sizeClassCount by omega)
        rw [Nat.add_mul, Nat.one_mul] at this
        omega
      obtain ⟨hl1, hframe1, -⟩ := initializeSizeClass_spec S P c₀ (hsize c₀ hc₀) hls hdiv
        hshort table table₁ hlen₀ (hzero c₀ (List.mem_cons_self _ _)) hclass
      have hoff1 := initializeSizeClass_offsets S P c₀ (hsize c₀ hc₀) hls hdiv
        hshort table table₁ hlen₀ (hzero c₀ (List.mem_cons_self _ _)) hclass
      have hnd' := List.nodup_cons.1 hnd
      have hzero₁ : ∀ c ∈ rest, ∀ L, L < P / S.smallLineSize →
          table₁.getD (c * (P / S.smallLineSize) + L) ⟨0, 0⟩ = ⟨0, 0⟩ := by
        intro c hc L hL
        rw [hframe1 _ (by
          intro L' hL'
          exact slice_ne (by rintro rfl; exact hnd'.1 hc) hL hL')]
        exact hzero c (List.mem_cons_of_mem _ hc) L hL
      have hrest := initializeSizeClasses_spec S P hls hdiv hshort hsize rest hnd'.2
        (fun c hc => hcs c (List.mem_cons_of_mem _ hc)) table₁ table'
        (by rw [hl1]; exact hlen) hzero₁ hrun
      have ih' := ih hnd'.2 (fun c hc => hcs c (List.mem_cons_of_mem _ hc)) table₁
        (by rw [hl1]; exact hlen) hzero₁ hrun
      intro c hc L hL
      rcases List.mem_cons.1 hc with rfl | hc'
      · rw [hrest.2.1 _ (by
          intro c' hc' L' hL'
          exact slice_ne (by rintro rfl; exact hnd'.1 hc') hL hL')]
        exact hoff1 L hL
      · exact ih' c hc' L hL

/-- An object begins in line `L` exactly when the first object at or after the
line comes before the first object at or after the next line. -/
theorem begins_in_line_iff (S : Sizes) {s : Nat} (hs : 0 < s) (L : Nat) :
    (∃ k, L * S.smallLineSize ≤ k * s ∧ k * s < (L + 1) * S.smallLineSize) ↔
      firstObject S s L < firstObject S s (L + 1) := by
  constructor
  · rintro ⟨k, h1, h2⟩
    have h3 := firstObject_le_of_le S hs L k h1
    have h4 := firstObject_mul_ge S hs (L + 1)
    have h5 : k < firstObject S s (L + 1) :=
      Nat.lt_of_mul_lt_mul_right (show k * s < firstObject S s (L + 1) * s by omega)
    omega
  · intro hlt
    refine ⟨firstObject S s L, firstObject_mul_ge S hs L, ?_⟩
    by_contra hge
    have := firstObject_le_of_le S hs (L + 1) (firstObject S s L) (by omega)
    omega

/-- The objects inside the page that begin in line `L` are those with index
from `firstObjectInPage L` up to `firstObjectInPage (L + 1)`. -/
theorem objects_of_line (S : Sizes) (P : Nat) {s : Nat} (hs : 0 < s) (L : Nat) :
    (Finset.range (P + 1)).filter
      (fun k => L * S.smallLineSize ≤ k * s ∧ k * s < (L + 1) * S.smallLineSize ∧
        (k + 1) * s ≤ P)
      = Finset.Ico (firstObjectInPage S P s L) (firstObjectInPage S P s (L + 1)) := by
  ext k
  simp only [Finset.mem_filter, Finset.mem_range, Finset.mem_Ico, firstObjectInPage]
  have hNs : P / s * s ≤ P := Nat.div_mul_le_self P s
  constructor
  · rintro ⟨-, h1, h2, h3⟩
    have hK := firstObject_le_of_le S hs L k h1
    have hK1 := firstObject_mul_ge S hs (L + 1)
    have hk1 : k < firstObject S s (L + 1) :=
      Nat.lt_of_mul_lt_mul_right (show k * s < firstObject S s (L + 1) * s by omega)
    have hkN : k + 1 ≤ P / s := (Nat.le_div_iff_mul_le hs).2 h3
    exact ⟨le_trans (min_le_left _ _) hK, lt_min hk1 (by omega)⟩
  · rintro ⟨h1, h2⟩
    have hk1 : k < firstObject S s (L + 1) := lt_of_lt_of_le h2 (min_le_left _ _)
    have hkN : k < P / s := lt_of_lt_of_le h2 (min_le_right _ _)
    have hK : firstObject S s L ≤ k := by
      rcases min_le_iff.1 h1 with h | h
      · exact h
      · omega
    have hb := Nat.mul_le_mul_right s hK
    have hge := firstObject_mul_ge S hs L
    have hN1 := Nat.mul_le_mul_right s (show k + 1 ≤ P / s by omega)
    have hks : k ≤ k * s := Nat.le_mul_of_pos_right _ hs
    rw [Nat.add_mul, Nat.one_mul] at hN1
    refine ⟨by omega, by omega, ?_, by rw [Nat.add_mul, Nat.one_mul]; omega⟩
    by_contra hge2
    have := firstObject_le_of_le S hs (L + 1) k (by omega)
    omega

/-- C19: for every size class with object size `s` and every line `L` of the
page, the entry that `initializeLineMetadata` writes follows the layout in
which objects are packed back to back from offset 0: `objectCount` is the
number of `k` with `L * smallLineSize <= k * s < (L + 1) * smallLineSize` and
`(k + 1) * s <= P`; when an object begins in line `L`, `startOffset` is the
offset inside the line of the first one, below `smallLineSize`; and a line in
which no object begins keeps the zero entry. -/
theorem initializeLineMetadata_reference_layout (S : Sizes) (P c L : Nat)
    (hls : 0 < S.smallLineSize) (hdiv : S.smallLineSize ∣ P)
    (hshort : S.smallLineSize < shortSize)
    (hsize : ∀ c, c < S.sizeClassCount → 0 < S.objectSize c) (hc : c < S.sizeClassCount)
    (hL : L < P / S.smallLineSize) :
    ∃ table, initializeLineMetadata S P = some table ∧
      (table.getD (c * (P / S.smallLineSize) + L) ⟨0, 0⟩).objectCount
        = ((Finset.range (P + 1)).filter
            (fun k => L * S.smallLineSize ≤ k * S.objectSize c ∧
              k * S.objectSize c < (L + 1) * S.smallLineSize ∧
              (k + 1) * S.objectSize c ≤ P)).card ∧
      (∀ k, L * S.smallLineSize ≤ k * S.objectSize c →
        k * S.objectSize c < (L + 1) * S.smallLineSize →
        (∀ j, L * S.smallLineSize ≤ j * S.objectSize c → k ≤ j) →
        (table.getD (c * (P / S.smallLineSize) + L) ⟨0, 0⟩).startOffset
          = k * S.objectSize c - L * S.smallLineSize ∧
        (table.getD (c * (P / S.smallLineSize) + L) ⟨0, 0⟩).startOffset < S.smallLineSize) ∧
      ((¬∃ k, L * S.smallLineSize ≤ k * S.objectSize c ∧
          k * S.objectSize c < (L + 1) * S.smallLineSize) →
        table.getD (c * (P / S.smallLineSize) + L) ⟨0, 0⟩ = ⟨0, 0⟩) := by
  obtain ⟨table, htable⟩ := initializeLineMetadata_some S P hls hsize
  have hs := hsize c hc
  have hspec := initializeLineMetadata_spec S P hls hdiv hshort hsize table htable c L hc hL
  have hoff : (firstObject S (S.objectSize c) L < firstObject S (S.objectSize c) (L + 1) →
      (table.getD (c * (P / S.smallLineSize) + L) ⟨0, 0⟩).startOffset
        = firstObject S (S.objectSize c) L * S.objectSize c - L * S.smallLineSize) ∧
    (firstObject S (S.objectSize c) L = firstObject S (S.objectSize c) (L + 1) →
      table.getD (c * (P / S.smallLineSize) + L) ⟨0, 0⟩ = ⟨0, 0⟩) := by
    have hrun := htable
    simp only [initializeLineMetadata] at hrun
    exact initializeSizeClasses_offsets S P hls hdiv hshort hsize (List.range S.sizeClassCount)
      (List.nodup_range _) (fun c hc => List.mem_range.1 hc) _ table (by simp)
      (by
        intro c _ L _
        simp only [List.getD_eq_getElem?_getD, List.getElem?_replicate]
        split_ifs <;> rfl) hrun c (List.mem_range.2 hc) L hL
  refine ⟨table, htable, ?_, ?_, ?_⟩
  · rw [hspec.1, objects_of_line S P hs L, Nat.card_Ico]
  · intro k hk1 hk2 hmin
    have hlt := (begins_in_line_iff S hs L).1 ⟨k, hk1, hk2⟩
    have hkK : k = firstObject S (S.objectSize c) L :=
      le_antisymm (hmin _ (firstObject_mul_ge S hs L)) (firstObject_le_of_le S hs L k hk1)
    rw [hoff.1 hlt, ← hkK]
    exact ⟨rfl, by rw [Nat.add_mul, Nat.one_mul] at hk2; omega⟩
  · intro hnone
    apply hoff.2
    have hmono := firstObject_mono S hs (show L ≤ L + 1 by omega)
    by_contra hne
    exact hnone ((begins_in_line_iff S hs L).2 (by omega))

/-- C19 at a concrete input: on 4 KiB pages, line 1 of the class of 24-byte
objects holds 11 objects, the first at offset 8. -/
theorem initializeLineMetadata_reference_layout_witness :
    ∃ table, initializeLineMetadata exampleSizes 4096 = some table ∧
      (table.getD (2 * (4096 / exampleSizes.smallLineSize) + 1) ⟨0, 0⟩).objectCount
        = ((Finset.range (4096 + 1)).filter
            (fun k => 1 * exampleSizes.smallLineSize ≤ k * exampleSizes.objectSize 2 ∧
              k * exampleSizes.objectSize 2 < (1 + 1) * exampleSizes.smallLineSize ∧
              (k + 1) * exampleSizes.objectSize 2 ≤ 4096)).card ∧
      (table.getD (2 * (4096 / exampleSizes.smallLineSize) + 1) ⟨0, 0⟩).startOffset
        = 11 * exampleSizes.objectSize 2 - 1 * exampleSizes.smallLineSize := by
  obtain ⟨table, h1, h2, h3, -⟩ := initializeLineMetadata_reference_layout exampleSizes 4096 2 1
    (by decide) (by decide) (by decide) (by decide) (by decide) (by decide)
  refine ⟨table, h1, h2, (h3 11 (by decide) (by decide) ?_).1⟩
  intro j hj
  have : 1 * 256 ≤ j * 24 := hj
  omega

/-! ## The scan of a small page as a fold over its lines: C17 -/

/-- An invariant of the merge loop that its two kinds of round keep holds of
what the loop returns, and the loop returns given one round of fuel for every
line left; it stops after line `ln'`, at the end of the page or before a line
with a non-zero reference count. -/
theorem mergeLines_induct (S : Sizes) (c page n : Nat) (I : Nat → Nat → Heap → Prop)
    (hskip : ∀ ln oc h, I ln oc h → ln + 1 < n → h.lines (Heap.lineAt S page (ln + 1)) = 0 →
      (h.lineMetadata S c (ln + 1)).objectCount = 0 → I (ln + 1) oc h)
    (habsorb : ∀ ln oc h, I ln oc h → ln + 1 < n → h.lines (Heap.lineAt S page (ln + 1)) = 0 →
      (h.lineMetadata S c (ln + 1)).objectCount ≠ 0 →
      I (ln + 1) ((oc + (h.lineMetadata S c (ln + 1)).objectCount) % shortSize)
        ((h.refLine (Heap.lineAt S page (ln + 1))
          (h.lineMetadata S c (ln + 1)).objectCount).refPage page))
    (fuel ln oc : Nat) (h : Heap) (hI : I ln oc h) (hln : ln < n) (hfuel : n - ln ≤ fuel) :
    ∃ ln' oc' h', mergeLines S c page n fuel ln oc h = some (ln' + 1, oc', h') ∧
      I ln' oc' h' ∧ ln ≤ ln' ∧ ln' < n ∧
      (ln' + 1 < n → h'.lines (Heap.lineAt S page (ln' + 1)) ≠ 0) := by
  induction fuel generalizing ln oc h with
  | zero => omega
  | succ fuel ih =>
    simp only [mergeLines]
    by_cases h1 : ln + 1 < n
    · rw [if_pos h1]
      by_cases h2 : h.lines (Heap.lineAt S page (ln + 1)) ≠ 0
      · rw [if_pos h2]
        exact ⟨ln, oc, h, rfl, hI, le_rfl, hln, fun _ => h2⟩
      · rw [if_neg h2]
        have hfree : h.lines (Heap.lineAt S page (ln + 1)) = 0 := by
          by_contra hne; exact h2 hne
        by_cases h3 : (h.lineMetadata S c (ln + 1)).objectCount = 0
        · rw [if_pos h3]
          obtain ⟨ln', oc', h', he, hI', hle, hlt, hstop⟩ :=
            ih (ln + 1) oc h (hskip ln oc h hI h1 hfree h3) h1 (by omega)
          exact ⟨ln', oc', h', he, hI', by omega, hlt, hstop⟩
        · rw [if_neg h3]
          obtain ⟨ln', oc', h', he, hI', hle, hlt, hstop⟩ :=
            ih (ln + 1) _ _ (habsorb ln oc h hI h1 hfree h3) h1 (by omega)
          exact ⟨ln', oc', h', he, hI', by omega, hlt, hstop⟩
    · rw [if_neg h1]
      exact ⟨ln, oc, h, rfl, hI, le_rfl, hln, fun hlt => absurd hlt h1⟩

/-- An invariant of the scan that its rounds keep gives the postcondition that
its two exits establish, and the scan returns given one round of fuel for
every line left and one more. -/
theorem scanLines_induct (S : Sizes) (c page n : Nat)
    (I : Nat → Heap → BumpAllocator → BumpRangeCache → Prop)
    (Post : Heap × BumpAllocator × BumpRangeCache → Prop)
    (hskip : ∀ ln h a cache, I ln h a cache → ln < n →
      (h.lines (Heap.lineAt S page ln) ≠ 0 ∨ (h.lineMetadata S c ln).objectCount = 0) →
      I (ln + 1) h a cache)
    (hfull : ∀ ln h a cache, I ln h a cache → ln < n →
      h.lines (Heap.lineAt S page ln) = 0 → (h.lineMetadata S c ln).objectCount ≠ 0 →
      cache.size = cache.capacity →
      Post ({ h with m_smallPagesWithFreeLines :=
                (Function.update h.m_smallPagesWithFreeLines c
                  (h.m_smallPagesWithFreeLines c ++ [page])) }, a, cache))
    (hrun : ∀ ln h a cache ln' oc' h', I ln h a cache → ln < n →
      h.lines (Heap.lineAt S page ln) = 0 → (h.lineMetadata S c ln).objectCount ≠ 0 →
      cache.size ≠ cache.capacity →
      mergeLines S c page n n ln (h.lineMetadata S c ln).objectCount
        ((h.refLine (Heap.lineAt S page ln) (h.lineMetadata S c ln).objectCount).refPage page)
        = some (ln', oc', h') →
      I (ln' + 1) h'
        (if a.canAllocate then a
          else a.refill ⟨wadd (Heap.lineAt S page ln) (h.lineMetadata S c ln).startOffset, oc'⟩)
        (if a.canAllocate then
            cache.push ⟨wadd (Heap.lineAt S page ln) (h.lineMetadata S c ln).startOffset, oc'⟩
          else cache))
    (hend : ∀ ln h a cache, I ln h a cache → n ≤ ln →
      Post (h.setPage page { h.pages page with hasFreeLines := false }, a, cache))
    (fuel ln : Nat) (h : Heap) (a : BumpAllocator) (cache : BumpRangeCache)
    (hI : I ln h a cache) (hfuel : n + 1 - ln ≤ fuel) (hpos : 0 < fuel) :
    ∃ r, scanLines S c page n fuel ln h a cache = some r ∧ Post r := by
  induction fuel generalizing ln h a cache with
  | zero => omega
  | succ fuel ih =>
    simp only [scanLines]
    by_cases h1 : ln < n
    · rw [if_pos h1]
      by_cases h2 : h.lines (Heap.lineAt S page ln) ≠ 0
      · rw [if_pos h2]
        exact ih (ln + 1) h a cache (hskip ln h a cache hI h1 (Or.inl h2)) (by omega) (by omega)
      · rw [if_neg h2]
        have hfree : h.lines (Heap.lineAt S page ln) = 0 := by
          by_contra hne; exact h2 hne
        by_cases h3 : (h.lineMetadata S c ln).objectCount = 0
        · rw [if_pos h3]
          exact ih (ln + 1) h a cache (hskip ln h a cache hI h1 (Or.inr h3)) (by omega)
            (by omega)
        · rw [if_neg h3]
          by_cases h4 : cache.size = cache.capacity
          · rw [if_pos h4]
            exact ⟨_, rfl, hfull ln h a cache hI h1 hfree h3 h4⟩
          · rw [if_neg h4]
            obtain ⟨ln', oc', h', he, -, hle, hlt, -⟩ :=
              mergeLines_induct S c page n (fun _ _ _ => True) (fun _ _ _ _ _ _ _ => trivial)
                (fun _ _ _ _ _ _ _ => trivial) n ln (h.lineMetadata S c ln).objectCount
                ((h.refLine (Heap.lineAt S page ln)
                  (h.lineMetadata S c ln).objectCount).refPage page) trivial h1 (by omega)
            have hnext := hrun ln h a cache (ln' + 1) oc' h' hI h1 hfree h3 h4 he
            rw [he]
            simp only
            by_cases hca : a.canAllocate = true
            · rw [if_neg (by simp [hca])]
              rw [if_pos hca, if_pos hca] at hnext
              exact ih (ln' + 1 + 1) h' _ _ hnext (by omega) (by omega)
            · rw [if_pos (by simpa using hca)]
              rw [if_neg hca, if_neg hca] at hnext
              exact ih (ln' + 1 + 1) h' _ _ hnext (by omega) (by omega)
    · rw [if_neg h1]
      exact ⟨_, rfl, hend ln h a cache hI (by omega)⟩

theorem absorbLine_ge (S : Sizes) (c page n : Nat) (h : Heap) {L : Nat} (hL : n ≤ L) :
    absorbLine S c page n h L = h := by
  unfold absorbLine
  rw [if_neg (by omega)]

theorem absorbLines_ge (S : Sizes) (c page n : Nat) (h : Heap) {k : Nat} (hk : n ≤ k) :
    absorbLines S c page n h k = absorbLines S c page n h n := by
  induction k with
  | zero =>
    have : n = 0 := by omega
    rw [this]
  | succ k ih =>
    by_cases hkn : n = k + 1
    · rw [hkn]
    · show absorbLine S c page n (absorbLines S c page n h k) k = _
      rw [absorbLine_ge S c page n _ (by omega), ih (by omega)]

/-- What the visits to the lines `0, ..., k - 1` do to a heap: every absorbed
line has its metadata `objectCount` as reference count, the reference count of
the page has grown by the number of absorbed lines, and nothing else has
changed. -/
theorem absorbLines_spec (S : Sizes) (c page n : Nat) (hls : 0 < S.smallLineSize)
    (h : Heap) (k : Nat) :
    (∀ L, (absorbLines S c page n h k).lineMetadata S c L = h.lineMetadata S c L) ∧
    (∀ L, L < k → isAbsorbed S c page n h L →
      (absorbLines S c page n h k).lines (Heap.lineAt S page L)
        = (h.lineMetadata S c L).objectCount) ∧
    (∀ x, (∀ L, L < k → isAbsorbed S c page n h L → x ≠ Heap.lineAt S page L) →
      (absorbLines S c page n h k).lines x = h.lines x) ∧
    (absorbLines S c page n h k).pages = Function.update h.pages page
      { h.pages page with refCount := (h.pages page).refCount
          + ((Finset.range k).filter (fun L => isAbsorbed S c page n h L)).card } ∧
    (absorbLines S c page n h k).m_vmPageSizePhysical = h.m_vmPageSizePhysical ∧
    (absorbLines S c page n h k).m_smallLineMetadata = h.m_smallLineMetadata ∧
    (absorbLines S c page n h k).m_smallPagesWithFreeLines = h.m_smallPagesWithFreeLines ∧
    (absorbLines S c page n h k).m_smallPages = h.m_smallPages ∧
    (absorbLines S c page n h k).m_largeObjects = h.m_largeObjects ∧
    (absorbLines S c page n h k).m_isAllocatingPages = h.m_isAllocatingPages ∧
    (absorbLines S c page n h k).commitCalls = h.commitCalls ∧
    (absorbLines S c page n h k).scavengerRuns = h.scavengerRuns := by
  induction k with
  | zero =>
    refine ⟨fun _ => rfl, fun L hL => by omega, fun _ _ => rfl, ?_, rfl, rfl, rfl, rfl, rfl,
      rfl, rfl, rfl⟩
    simp [absorbLines]
  | succ k ih =>
    obtain ⟨imd, ia, io, ip, i1, i2, i3, i4, i5, i6, i7, i8⟩ := ih
    have hline : (absorbLines S c page n h k).lines (Heap.lineAt S page k)
        = h.lines (Heap.lineAt S page k) :=
      io _ (fun L hL _ => lineAt_ne S hls page (by omega))
    by_cases hk : isAbsorbed S c page n h k
    · have hcond : k < n ∧ (absorbLines S c page n h k).lines (Heap.lineAt S page k) = 0 ∧
          ((absorbLines S c page n h k).lineMetadata S c k).objectCount ≠ 0 := by
        rw [hline, imd k]; exact hk
      have hstep : absorbLines S c page n h (k + 1)
          = ((absorbLines S c page n h k).refLine (Heap.lineAt S page k)
              ((absorbLines S c page n h k).lineMetadata S c k).objectCount).refPage page := by
        show absorbLine S c page n (absorbLines S c page n h k) k = _
        unfold absorbLine
        rw [if_pos hcond]
      have hcard : ((Finset.range (k + 1)).filter (fun L => isAbsorbed S c page n h L)).card
          = ((Finset.range k).filter (fun L => isAbsorbed S c page n h L)).card + 1 := by
        rw [Finset.range_succ, Finset.filter_insert, if_pos hk,
          Finset.card_insert_of_not_mem (by simp)]
      refine ⟨?_, ?_, ?_, ?_, ?_, ?_, ?_, ?_, ?_, ?_, ?_, ?_⟩
      · intro L; rw [hstep]; exact imd L
      · intro L hL hLa
        rw [hstep]
        by_cases hLk : L = k
        · subst hLk
          simp [Heap.refLine, Heap.refPage, Heap.setPage, hcond.2.1, imd]
        · rw [lines_refLine_refPage_ne _ _ _ _ _ (lineAt_ne S hls page hLk)]
          exact ia L (by omega) hLa
      · intro x hx
        rw [hstep, lines_refLine_refPage_ne _ _ _ _ _ (hx k (by omega) hk)]
        exact io x (fun L hL hLa => hx L (by omega) hLa)
      · rw [hstep, hcard]
        simp only [Heap.refLine, Heap.refPage, Heap.setPage, ip, Function.update_same,
          Function.update_idem]
        rfl
      · rw [hstep]; exact i1
      · rw [hstep]; exact i2
      · rw [hstep]; exact i3
      · rw [hstep]; exact i4
      · rw [hstep]; exact i5
      · rw [hstep]; exact i6
      · rw [hstep]; exact i7
      · rw [hstep]; exact i8
    · have hcond : ¬(k < n ∧ (absorbLines S c page n h k).lines (Heap.lineAt S page k) = 0 ∧
          ((absorbLines S c page n h k).lineMetadata S c k).objectCount ≠ 0) := by
        rw [hline, imd k]; exact hk
      have hstep : absorbLines S c page n h (k + 1) = absorbLines S c page n h k := by
        show absorbLine S c page n (absorbLines S c page n h k) k = _
        unfold absorbLine
        rw [if_neg hcond]
      have hcard : ((Finset.range (k + 1)).filter (fun L => isAbsorbed S c page n h L)).card
          = ((Finset.range k).filter (fun L => isAbsorbed S c page n h L)).card := by
        rw [Finset.range_succ, Finset.filter_insert, if_neg hk]
      rw [hstep, hcard]
      refine ⟨imd, ?_, ?_, ip, i1, i2, i3, i4, i5, i6, i7, i8⟩
      · intro L hL hLa
        have hLk : L ≠ k := by rintro rfl; exact hk hLa
        exact ia L (by omega) hLa
      · intro x hx
        exact io x (fun L hL hLa => hx L (by omega) hLa)

/-- Whether the scan absorbs line `k` can be read off the heap at entry: the
visits to the lines before it leave its reference count and the table alone. -/
theorem isAbsorbed_absorbLines (S : Sizes) (c page n : Nat) (hls : 0 < S.smallLineSize)
    (h : Heap) (k : Nat) :
    isAbsorbed S c page n (absorbLines S c page n h k) k ↔ isAbsorbed S c page n h k := by
  obtain ⟨imd, -, io, -⟩ := absorbLines_spec S c page n hls h k
  have hline : (absorbLines S c page n h k).lines (Heap.lineAt S page k)
      = h.lines (Heap.lineAt S page k) :=
    io _ (fun L hL _ => lineAt_ne S hls page (by omega))
  unfold isAbsorbed
  rw [hline, imd k]

theorem absorbLines_succ_pos (S : Sizes) (c page n : Nat) (h : Heap) (k : Nat)
    (hk : isAbsorbed S c page n (absorbLines S c page n h k) k) :
    absorbLines S c page n h (k + 1)
      = ((absorbLines S c page n h k).refLine (Heap.lineAt S page k)
          ((absorbLines S c page n h k).lineMetadata S c k).objectCount).refPage page := by
  show absorbLine S c page n (absorbLines S c page n h k) k = _
  unfold absorbLine
  exact if_pos hk

theorem absorbLines_succ_neg (S : Sizes) (c page n : Nat) (h : Heap) (k : Nat)
    (hk : ¬isAbsorbed S c page n (absorbLines S c page n h k) k) :
    absorbLines S c page n h (k + 1) = absorbLines S c page n h k := by
  show absorbLine S c page n (absorbLines S c page n h k) k = _
  unfold absorbLine
  exact if_neg hk

theorem absorbedCount_pos (S : Sizes) (c page n : Nat) (h : Heap) {k : Nat}
    (hk : isAbsorbed S c page n h k) :
    absorbedCount S c page n h k = (h.lineMetadata S c k).objectCount := by
  unfold absorbedCount
  rw [if_pos hk]

theorem absorbedCount_neg (S : Sizes) (c page n : Nat) (h : Heap) {k : Nat}
    (hk : ¬isAbsorbed S c page n h k) : absorbedCount S c page n h k = 0 := by
  unfold absorbedCount
  rw [if_neg hk]

theorem absorbedCount_le (S : Sizes) (c page n : Nat) (h : Heap) (k : Nat) :
    absorbedCount S c page n h k ≤ (h.lineMetadata S c k).objectCount := by
  unfold absorbedCount
  split_ifs
  · exact le_rfl
  · exact Nat.zero_le _

/-- The reference counts added to the lines `a, ..., b - 1` stay below the sum
of all the object counts of the page. -/
theorem sum_absorbedCount_le (S : Sizes) (c page n : Nat) (h : Heap) (a b : Nat) :
    ∑ L in Finset.Ico a b, absorbedCount S c page n h L
      ≤ ∑ L in Finset.range n, (h.lineMetadata S c L).objectCount := by
  have h1 : ∑ L in Finset.Ico a b, absorbedCount S c page n h L
      = ∑ L in (Finset.Ico a b).filter (fun L => L < n), absorbedCount S c page n h L := by
    rw [Finset.sum_filter]
    apply Finset.sum_congr rfl
    intro L _
    split_ifs with hL
    · rfl
    · exact absorbedCount_neg S c page n h (fun hk => hL hk.1)
  rw [h1]
  calc ∑ L in (Finset.Ico a b).filter (fun L => L < n), absorbedCount S c page n h L
      ≤ ∑ L in (Finset.Ico a b).filter (fun L => L < n), (h.lineMetadata S c L).objectCount :=
        Finset.sum_le_sum (fun L _ => absorbedCount_le S c page n h L)
    _ ≤ ∑ L in Finset.range n, (h.lineMetadata S c L).objectCount := by
        apply Finset.sum_le_sum_of_subset
        intro L hL
        simp only [Finset.mem_filter] at hL
        exact Finset.mem_range.2 hL.2

theorem sum_absorbedCount_ge (S : Sizes) (c page n : Nat) (h : Heap) {k : Nat} (hk : n ≤ k) :
    ∑ L in Finset.range k, absorbedCount S c page n h L
      = ∑ L in Finset.range n, absorbedCount S c page n h L := by
  rw [← Finset.sum_range_add_sum_Ico _ hk]
  have : ∑ L in Finset.Ico n k, absorbedCount S c page n h L = 0 := by
    apply Finset.sum_eq_zero
    intro L hL
    rw [Finset.mem_Ico] at hL
    exact absorbedCount_neg S c page n h (fun hk => by have := hk.1; omega)
  omega

theorem card_absorbed_mono (S : Sizes) (c page n : Nat) (h : Heap) {a b : Nat} (hab : a ≤ b) :
    ((Finset.range a).filter (fun L => isAbsorbed S c page n h L)).card
      ≤ ((Finset.range b).filter (fun L => isAbsorbed S c page n h L)).card :=
  Finset.card_le_card (Finset.filter_subset_filter _ (Finset.range_mono hab))

theorem card_absorbed_succ (S : Sizes) (c page n : Nat) (h : Heap) {k : Nat}
    (hk : isAbsorbed S c page n h k) :
    ((Finset.range (k + 1)).filter (fun L => isAbsorbed S c page n h L)).card
      = ((Finset.range k).filter (fun L => isAbsorbed S c page n h L)).card + 1 := by
  rw [Finset.range_succ, Finset.filter_insert, if_pos hk,
    Finset.card_insert_of_not_mem (by simp)]

/-- The merge loop, entered after the visit to line `ln` with the count of the
run that began at line `a`, visits the lines up to some `ln'`: it returns
`ln' + 1` as the line it stopped at, a line the scan does not absorb, and the
count of the run is the sum of the reference counts added from line `a` on. -/
theorem mergeLines_absorbs (S : Sizes) (c page n : Nat) (hls : 0 < S.smallLineSize)
    (h : Heap)
    (hshort : ∑ L in Finset.range n, (h.lineMetadata S c L).objectCount < shortSize)
    (a ln : Nat) (hal : a ≤ ln) (hln : ln < n) (fuel : Nat) (hfuel : n - ln ≤ fuel) :
    ∃ ln', mergeLines S c page n fuel ln
        (∑ L in Finset.Ico a (ln + 1), absorbedCount S c page n h L)
        (absorbLines S c page n h (ln + 1))
      = some (ln' + 1, ∑ L in Finset.Ico a (ln' + 1), absorbedCount S c page n h L,
          absorbLines S c page n h (ln' + 1 + 1)) ∧
      ln ≤ ln' ∧ ln' < n ∧ ¬isAbsorbed S c page n h (ln' + 1) := by
  obtain ⟨ln', oc', h', he, ⟨-, hh', hoc'⟩, hle, hlt, hstop⟩ :=
    mergeLines_induct S c page n
      (fun l oc hh => a ≤ l ∧ hh = absorbLines S c page n h (l + 1) ∧
        oc = ∑ L in Finset.Ico a (l + 1), absorbedCount S c page n h L)
      (by
        rintro l oc hh ⟨hal', rfl, rfl⟩ hl hfree hzero
        have hno : ¬isAbsorbed S c page n (absorbLines S c page n h (l + 1)) (l + 1) :=
          fun hk => hk.2.2 hzero
        refine ⟨by omega, (absorbLines_succ_neg S c page n h (l + 1) hno).symm, ?_⟩
        rw [Finset.sum_Ico_succ_top (by omega : a ≤ l + 1),
          absorbedCount_neg S c page n h
            (fun hk => hno ((isAbsorbed_absorbLines S c page n hls h (l + 1)).2 hk))]
        rfl)
      (by
        rintro l oc hh ⟨hal', rfl, rfl⟩ hl hfree hne
        have hyes : isAbsorbed S c page n (absorbLines S c page n h (l + 1)) (l + 1) :=
          ⟨hl, hfree, hne⟩
        have hyes0 := (isAbsorbed_absorbLines S c page n hls h (l + 1)).1 hyes
        have hmd := (absorbLines_spec S c page n hls h (l + 1)).1 (l + 1)
        refine ⟨by omega, (absorbLines_succ_pos S c page n h (l + 1) hyes).symm, ?_⟩
        have hsum := Finset.sum_Ico_succ_top (by omega : a ≤ l + 1)
          (fun L => absorbedCount S c page n h L)
        have hle := sum_absorbedCount_le S c page n h a (l + 1 + 1)
        rw [hsum, absorbedCount_pos S c page n h hyes0] at hle
        rw [hsum, absorbedCount_pos S c page n h hyes0, hmd]
        exact Nat.mod_eq_of_lt (by omega))
      fuel ln _ _ ⟨hal, rfl, rfl⟩ hln hfuel
  subst hh' hoc'
  have hno : ¬isAbsorbed S c page n (absorbLines S c page n h (ln' + 1)) (ln' + 1) := by
    rintro ⟨h1, h2, -⟩
    exact hstop h1 h2
  refine ⟨ln', ?_, hle, hlt,
    fun hk => hno ((isAbsorbed_absorbLines S c page n hls h (ln' + 1)).2 hk)⟩
  rw [he, absorbLines_succ_neg S c page n h (ln' + 1) hno]

/-- The scan of a page as a whole, entered with an empty cache: it returns
after visiting the lines before some line `e`; the object counts of the ranges
it hands out add up to the reference counts it has added to the lines, and it
has pushed at most one range for each line it absorbed.  At the exit after a
full scan `e` is the line count and the `hasFreeLines` flag is cleared; at the
exit on a full cache line `e` is a line the scan would have absorbed, and the
page is linked at the tail of the list of its size class. -/
theorem scanLines_absorbs (S : Sizes) (c page n : Nat) (hls : 0 < S.smallLineSize)
    (h : Heap) (a₀ : BumpAllocator) (cache₀ : BumpRangeCache) (hempty : cache₀.ranges = [])
    (hshort : ∑ L in Finset.range n, (h.lineMetadata S c L).objectCount < shortSize)
    (fuel : Nat) (hfuel : n + 1 ≤ fuel) :
    ∃ r e, scanLines S c page n fuel 0 h a₀ cache₀ = some r ∧ e ≤ n ∧
      ((emittedRanges a₀ r).map (fun ρ => ρ.objectCount)).sum
        = ∑ L in Finset.range e, absorbedCount S c page n h L ∧
      r.2.2.size ≤ ((Finset.range e).filter (fun L => isAbsorbed S c page n h L)).card ∧
      r.2.2.capacity = cache₀.capacity ∧
      ((e = n ∧ r.1 = (absorbLines S c page n h n).setPage page
          { (absorbLines S c page n h n).pages page with hasFreeLines := false }) ∨
       (e < n ∧ isAbsorbed S c page n h e ∧ r.2.2.size = r.2.2.capacity ∧
        r.1 = { absorbLines S c page n h e with m_smallPagesWithFreeLines :=
                  (Function.update (absorbLines S c page n h e).m_smallPagesWithFreeLines c
                    ((absorbLines S c page n h e).m_smallPagesWithFreeLines c ++ [page])) })) := by
  have key := scanLines_induct S c page n
    (fun ln hh a cache => hh = absorbLines S c page n h ln ∧
      (a₀.canAllocate = true → a = a₀) ∧
      (if a₀.canAllocate = true then 0 else a.m_remaining)
          + (cache.ranges.map (fun ρ => ρ.objectCount)).sum
        = ∑ L in Finset.range ln, absorbedCount S c page n h L ∧
      cache.size ≤ ((Finset.range ln).filter (fun L => isAbsorbed S c page n h L)).card ∧
      cache.capacity = cache₀.capacity)
    (fun r => ∃ e, e ≤ n ∧
      (if a₀.canAllocate = true then 0 else r.2.1.m_remaining)
          + (r.2.2.ranges.map (fun ρ => ρ.objectCount)).sum
        = ∑ L in Finset.range e, absorbedCount S c page n h L ∧
      r.2.2.size ≤ ((Finset.range e).filter (fun L => isAbsorbed S c page n h L)).card ∧
      r.2.2.capacity = cache₀.capacity ∧
      ((e = n ∧ r.1 = (absorbLines S c page n h n).setPage page
          { (absorbLines S c page n h n).pages page with hasFreeLines := false }) ∨
       (e < n ∧ isAbsorbed S c page n h e ∧ r.2.2.size = r.2.2.capacity ∧
        r.1 = { absorbLines S c page n h e with m_smallPagesWithFreeLines :=
                  (Function.update (absorbLines S c page n h e).m_smallPagesWithFreeLines c
                    ((absorbLines S c page n h e).m_smallPagesWithFreeLines c ++ [page])) })))
    ?_ ?_ ?_ ?_ fuel 0 h a₀ cache₀ ?_ (by omega) (by omega)
  · obtain ⟨r, hr, e, he, hsum, hsize, hcap, hexit⟩ := key
    refine ⟨r, e, hr, he, ?_, hsize, hcap, hexit⟩
    rw [← hsum]
    unfold emittedRanges
    by_cases hc : a₀.canAllocate = true
    · rw [if_pos hc, if_pos hc]; simp
    · rw [if_neg hc, if_neg hc]; simp
  · rintro ln hh a cache ⟨rfl, ha₀, hE, hsz, hcap⟩ hln hskip
    have hno : ¬isAbsorbed S c page n (absorbLines S c page n h ln) ln := by
      rintro ⟨-, h2, h3⟩
      rcases hskip with h4 | h4
      · exact h4 h2
      · exact h3 h4
    have hno0 : ¬isAbsorbed S c page n h ln :=
      fun hk => hno ((isAbsorbed_absorbLines S c page n hls h ln).2 hk)
    refine ⟨(absorbLines_succ_neg S c page n h ln hno).symm, ha₀, ?_, ?_, hcap⟩
    · rw [Finset.sum_range_succ, absorbedCount_neg S c page n h hno0]
      exact hE
    · exact le_trans hsz (card_absorbed_mono S c page n h (Nat.le_succ ln))
  · rintro ln hh a cache ⟨rfl, ha₀, hE, hsz, hcap⟩ hln hfree hne hfull
    exact ⟨ln, by omega, hE, hsz, hcap, Or.inr
      ⟨hln, (isAbsorbed_absorbLines S c page n hls h ln).1 ⟨hln, hfree, hne⟩, hfull, rfl⟩⟩
  · rintro ln hh a cache lr oc' h' ⟨rfl, ha₀, hE, hsz, hcap⟩ hln hfree hne hroom he
    have hyes : isAbsorbed S c page n (absorbLines S c page n h ln) ln := ⟨hln, hfree, hne⟩
    have hyes0 := (isAbsorbed_absorbLines S c page n hls h ln).1 hyes
    have hmd := (absorbLines_spec S c page n hls h ln).1 ln
    obtain ⟨ln', hm, hle, hlt, hno⟩ :=
      mergeLines_absorbs S c page n hls h hshort ln ln le_rfl hln n (by omega)
    have h1 : ∑ L in Finset.Ico ln (ln + 1), absorbedCount S c page n h L
        = ((absorbLines S c page n h ln).lineMetadata S c ln).objectCount := by
      rw [Nat.Ico_succ_singleton, Finset.sum_singleton, absorbedCount_pos S c page n h hyes0,
        hmd]
    rw [h1, absorbLines_succ_pos S c page n h ln hyes, he] at hm
    simp only [Option.some.injEq, Prod.mk.injEq] at hm
    obtain ⟨rfl, rfl, rfl⟩ := hm
    have hG : ∑ L in Finset.range (ln' + 1 + 1), absorbedCount S c page n h L
        = ∑ L in Finset.range ln, absorbedCount S c page n h L
          + ∑ L in Finset.Ico ln (ln' + 1), absorbedCount S c page n h L := by
      rw [Finset.sum_range_succ, absorbedCount_neg S c page n h hno,
        ← Finset.sum_range_add_sum_Ico _ (by omega : ln ≤ ln' + 1)]
      rfl
    have hA : ((Finset.range ln).filter (fun L => isAbsorbed S c page n h L)).card + 1
        ≤ ((Finset.range (ln' + 1 + 1)).filter (fun L => isAbsorbed S c page n h L)).card := by
      rw [← card_absorbed_succ S c page n h hyes0]
      exact card_absorbed_mono S c page n h (by omega)
    by_cases hca : a.canAllocate = true
    · rw [if_pos hca, if_pos hca]
      refine ⟨rfl, ha₀, ?_, ?_, hcap⟩
      · rw [hG, ← hE]
        simp only [BumpRangeCache.push, List.map_append, List.sum_append, List.map_cons,
          List.map_nil, List.sum_cons, List.sum_nil]
        omega
      · simp only [BumpRangeCache.size, BumpRangeCache.push, List.length_append,
          List.length_singleton] at hsz ⊢
        omega
    · rw [if_neg hca, if_neg hca]
      have hc₀ : ¬a₀.canAllocate = true := fun hc => hca (by rw [ha₀ hc]; exact hc)
      have hrem : a.m_remaining = 0 := by
        simpa [BumpAllocator.canAllocate] using hca
      refine ⟨rfl, fun hc => absurd hc hc₀, ?_, ?_, hcap⟩
      · rw [hG, ← hE, if_neg hc₀, if_neg hc₀, hrem]
        simp only [BumpAllocator.refill]
        omega
      · exact le_trans hsz (card_absorbed_mono S c page n h (by omega))
  · rintro ln hh a cache ⟨rfl, ha₀, hE, hsz, hcap⟩ hln
    refine ⟨n, le_rfl, ?_, ?_, hcap, Or.inl ⟨rfl, ?_⟩⟩
    · rw [← sum_absorbedCount_ge S c page n h hln]; exact hE
    · refine le_trans hsz (le_of_eq ?_)
      congr 1
      ext L
      simp only [Finset.mem_filter, Finset.mem_range]
      constructor
      · rintro ⟨-, hk⟩; exact ⟨hk.1, hk⟩
      · rintro ⟨-, hk⟩; exact ⟨by have := hk.1; omega, hk⟩
    · rw [absorbLines_ge S c page n h hln]
  · refine ⟨rfl, fun _ => rfl, ?_, ?_, rfl⟩
    · rw [hempty]; simp
      intro hc
      simpa [BumpAllocator.canAllocate] using hc
    · simp [BumpRangeCache.size, hempty]

/-- A fold of steps that leave a projection of every page record alone leaves
it alone. -/
theorem foldl_pages_proj {α β : Type} (f : SmallPage → β) (step : Heap → α → Heap)
    (hstep : ∀ h i x, f ((step h i).pages x) = f (h.pages x)) (l : List α) (h : Heap) (x : Nat) :
    f ((l.foldl step h).pages x) = f (h.pages x) := by
  induction l generalizing h with
  | nil => rfl
  | cons i rest ih =>
    simp only [List.foldl_cons]
    rw [ih (step h i), hstep h i x]

theorem setPage_proj {β : Type} (f : SmallPage → β) (h : Heap) (p : Nat) (r : SmallPage)
    (hr : f r = f (h.pages p)) (x : Nat) : f ((h.setPage p r).pages x) = f (h.pages x) := by
  unfold Heap.setPage
  by_cases hx : x = p
  · subst hx; simp [hr]
  · simp [Function.update, hx]

theorem scavengeSmallPage_refCount (S : Sizes) (E : LargeEnv) (h : Heap) (x : Nat) :
    ((scavengeSmallPage S E h).pages x).refCount = (h.pages x).refCount := by
  unfold scavengeSmallPage
  lift_lets
  intro page h1 h2 s3 h3
  have e3 : (h3.pages x).refCount = (h2.pages x).refCount :=
    setPage_proj (fun p => p.refCount) h2 _ _ (by rfl) x
  have e2 : (h2.pages x).refCount = (h1.pages x).refCount :=
    foldl_pages_proj (fun p => p.refCount)
      (fun (h' : Heap) (i : Nat) =>
        h'.setPage (page + (i + 1) * S.smallPageSize)
          { h'.pages (page + (i + 1) * S.smallPageSize) with slide := 0 })
      (fun h' i x => setPage_proj (fun p => p.refCount) h' _ _ (by rfl) x) _ h1 x
  exact e3.trans e2

theorem scavengeSmallPagesLoop_refCount (S : Sizes) (E : LargeEnv) (fuel : Nat) (h : Heap)
    (x : Nat) :
    ((scavengeSmallPagesLoop S E fuel h).pages x).refCount = (h.pages x).refCount := by
  induction fuel generalizing h with
  | zero => rfl
  | succ fuel ih =>
    simp only [scavengeSmallPagesLoop]
    split_ifs
    · rfl
    · rw [ih (scavengeSmallPage S E h), scavengeSmallPage_refCount]

theorem splitAndAllocateAligned_pages (S : Sizes) (E : LargeEnv) (h : Heap)
    (o : LargeObject) (alignment size : Nat) :
    (splitAndAllocateAligned S E h o alignment size).2.pages = h.pages := by
  simp only [splitAndAllocateAligned]
  split_ifs <;> rfl

theorem allocateLargeAligned_refCount (S : Sizes) (E : LargeEnv) (h : Heap)
    (alignment size unalignedSize : Nat) (x : Nat) :
    ((allocateLargeAligned S E h alignment size unalignedSize).2.pages x).refCount
      = (h.pages x).refCount := by
  have hs := scavengeSmallPagesLoop_refCount S E h.m_smallPages.length h x
  simp only [allocateLargeAligned]
  rw [splitAndAllocateAligned_pages]
  split_ifs <;>
    first
    | rfl
    | exact hs

/-- The page `allocateSmallPage` hands over, and every other page, comes with
the page reference count it had. -/
theorem allocateSmallPage_refCount (S : Sizes) (E : LargeEnv) (h : Heap) (c : Nat) (x : Nat) :
    ((allocateSmallPage S E h c).2.pages x).refCount = (h.pages x).refCount := by
  unfold allocateSmallPage
  split_ifs
  · rfl
  · exact setPage_proj (fun p => p.refCount) _ _ _ (by rfl) x
  · lift_lets
    extract_lets unalignedSize r object h1 h2 s3 h3 page s4 h4 s5 h5 h6
    have hl := allocateLargeAligned_refCount S E h h.m_vmPageSizePhysical
      h.m_vmPageSizePhysical unalignedSize x
    have hf : ((h6.pages x).refCount) = (h5.pages x).refCount :=
      foldl_pages_proj (fun p => p.refCount)
        (fun (h : Heap) (i : Nat) =>
          h.setPage (page + (i + 1) * S.smallPageSize)
            { h.pages (page + (i + 1) * S.smallPageSize) with slide := i + 1 })
        (fun h' i x => setPage_proj (fun p => p.refCount) h' _ _ (by rfl) x) _ h5 x
    have e5 : (h5.pages x).refCount = (h4.pages x).refCount :=
      setPage_proj (fun p => p.refCount) h4 _ _ (by rfl) x
    have e4 : (h4.pages x).refCount = (h3.pages x).refCount :=
      setPage_proj (fun p => p.refCount) h3 _ _ (by rfl) x
    have e3 : (h3.pages x).refCount = (h2.pages x).refCount :=
      setPage_proj (fun p => p.refCount) h2 _ _ (by rfl) x
    have e2 : (h2.pages x).refCount = (r.2.pages x).refCount := rfl
    exact hf.trans (e5.trans (e4.trans (e3.trans (e2.trans hl))))

theorem isAbsorbed_congr (S : Sizes) (c page n : Nat) {h h' : Heap}
    (hl : h'.lines = h.lines) (hP : h'.m_vmPageSizePhysical = h.m_vmPageSizePhysical)
    (hmd : h'.m_smallLineMetadata = h.m_smallLineMetadata) (L : Nat) :
    isAbsorbed S c page n h' L ↔ isAbsorbed S c page n h L := by
  unfold isAbsorbed Heap.lineMetadata
  rw [hl, hP, hmd]

theorem absorbedCount_congr (S : Sizes) (c page n : Nat) {h h' : Heap}
    (hl : h'.lines = h.lines) (hP : h'.m_vmPageSizePhysical = h.m_vmPageSizePhysical)
    (hmd : h'.m_smallLineMetadata = h.m_smallLineMetadata) (L : Nat) :
    absorbedCount S c page n h' L = absorbedCount S c page n h L := by
  have hiff := isAbsorbed_congr S c page n hl hP hmd L
  have hcount : (h'.lineMetadata S c L).objectCount = (h.lineMetadata S c L).objectCount := by
    unfold Heap.lineMetadata
    rw [hP, hmd]
  by_cases hk : isAbsorbed S c page n h L
  · rw [absorbedCount_pos S c page n h hk, absorbedCount_pos S c page n h' (hiff.2 hk), hcount]
  · rw [absorbedCount_neg S c page n h hk,
      absorbedCount_neg S c page n h' (fun hk' => hk (hiff.1 hk'))]

theorem card_absorbed_congr (S : Sizes) (c page n : Nat) {h h' : Heap}
    (hl : h'.lines = h.lines) (hP : h'.m_vmPageSizePhysical = h.m_vmPageSizePhysical)
    (hmd : h'.m_smallLineMetadata = h.m_smallLineMetadata) (k : Nat) :
    ((Finset.range k).filter (fun L => isAbsorbed S c page n h' L)).card
      = ((Finset.range k).filter (fun L => isAbsorbed S c page n h L)).card := by
  congr 1
  exact Finset.filter_congr (fun L _ => isAbsorbed_congr S c page n hl hP hmd L)

/-- The reference count the visits to the lines `0, ..., k - 1` add to a line
of the page. -/
theorem absorbLines_delta (S : Sizes) (c page n : Nat) (hls : 0 < S.smallLineSize)
    (h : Heap) (k L : Nat) :
    (absorbLines S c page n h k).lines (Heap.lineAt S page L) - h.lines (Heap.lineAt S page L)
      = if L < k then absorbedCount S c page n h L else 0 := by
  obtain ⟨-, ia, io, -⟩ := absorbLines_spec S c page n hls h k
  by_cases hk : L < k ∧ isAbsorbed S c page n h L
  · rw [if_pos hk.1, ia L hk.1 hk.2, absorbedCount_pos S c page n h hk.2, hk.2.2.1]
    rfl
  · have hsame : (absorbLines S c page n h k).lines (Heap.lineAt S page L)
        = h.lines (Heap.lineAt S page L) := by
      apply io
      intro L' hL' hab
      apply lineAt_ne S hls page
      rintro rfl
      exact hk ⟨hL', hab⟩
    rw [hsame, Nat.sub_self]
    split_ifs with hL
    · exact (absorbedCount_neg S c page n h (fun hab => hk ⟨hL, hab⟩)).symm
    · rfl

theorem sum_absorbLines_delta (S : Sizes) (c page n : Nat) (hls : 0 < S.smallLineSize)
    (h : Heap) {k : Nat} (hk : k ≤ n) :
    ∑ L in Finset.range n,
        ((absorbLines S c page n h k).lines (Heap.lineAt S page L)
          - h.lines (Heap.lineAt S page L))
      = ∑ L in Finset.range k, absorbedCount S c page n h L := by
  rw [Finset.sum_congr rfl (fun L _ => absorbLines_delta S c page n hls h k L),
    ← Finset.sum_filter]
  congr 1
  ext L
  simp only [Finset.mem_filter, Finset.mem_range]
  omega

/-- C17: `allocateSmallBumpRanges`, entered with an empty cache on a page whose
object counts do not wrap an `unsigned short`, returns after visiting the lines
before some line `e` (the line count after a full scan, else the line at which
the cache was found full).  Each line absorbed into a run, one with reference
count zero and a non-zero metadata `objectCount`, ends with its `objectCount`
as reference count; the reference count of the page has grown by the number of
absorbed lines; the reference count of every other line is as it was; and the
object counts of the emitted bump ranges add up to the reference counts added
to the lines of the page. -/
theorem allocateSmallBumpRanges_refCounts (S : Sizes) (E : LargeEnv) (h : Heap) (c : Nat)
    (a : BumpAllocator) (cache : BumpRangeCache)
    (hls : 0 < S.smallLineSize) (hempty : cache.ranges = [])
    (hshort : ((List.range (h.m_vmPageSizePhysical / S.smallLineSize)).map
      (fun L => (h.lineMetadata S c L).objectCount)).sum < shortSize) :
    ∃ r e, allocateSmallBumpRanges S E h c a cache = some r ∧
      e ≤ h.m_vmPageSizePhysical / S.smallLineSize ∧
      (e = h.m_vmPageSizePhysical / S.smallLineSize ∨
        (isAbsorbed S c (allocateSmallPage S E h c).1
            (h.m_vmPageSizePhysical / S.smallLineSize) h e ∧
          r.2.2.size = r.2.2.capacity)) ∧
      (∀ L, L < e →
        isAbsorbed S c (allocateSmallPage S E h c).1
          (h.m_vmPageSizePhysical / S.smallLineSize) h L →
        r.1.lines (Heap.lineAt S (allocateSmallPage S E h c).1 L)
          = (h.lineMetadata S c L).objectCount) ∧
      (r.1.pages (allocateSmallPage S E h c).1).refCount
        = (h.pages (allocateSmallPage S E h c).1).refCount
          + ((Finset.range e).filter (fun L =>
              isAbsorbed S c (allocateSmallPage S E h c).1
                (h.m_vmPageSizePhysical / S.smallLineSize) h L)).card ∧
      (∀ x, (∀ L, L < e →
          isAbsorbed S c (allocateSmallPage S E h c).1
            (h.m_vmPageSizePhysical / S.smallLineSize) h L →
          x ≠ Heap.lineAt S (allocateSmallPage S E h c).1 L) →
        r.1.lines x = h.lines x) ∧
      ((emittedRanges a r).map (fun ρ => ρ.objectCount)).sum
        = ∑ L in Finset.range (h.m_vmPageSizePhysical / S.smallLineSize),
            (r.1.lines (Heap.lineAt S (allocateSmallPage S E h c).1 L)
              - h.lines (Heap.lineAt S (allocateSmallPage S E h c).1 L)) := by
  obtain ⟨hP, hmd⟩ := allocateSmallPage_tables S E h c
  have hl := allocateSmallPage_lines S E h c
  have hrc := allocateSmallPage_refCount S E h c (allocateSmallPage S E h c).1
  have hcount : ∀ L, ((allocateSmallPage S E h c).2.lineMetadata S c L).objectCount
      = (h.lineMetadata S c L).objectCount := by
    intro L
    unfold Heap.lineMetadata
    rw [hP, hmd]
  have hshort₀ : ∑ L in Finset.range (h.m_vmPageSizePhysical / S.smallLineSize),
      ((allocateSmallPage S E h c).2.lineMetadata S c L).objectCount < shortSize := by
    rw [Finset.sum_congr rfl (fun L _ => hcount L), Finset.range_eq_Ico, ← list_sum_range_eq]
    exact hshort
  obtain ⟨r, e, hr, he, hsum, -, -, hexit⟩ :=
    scanLines_absorbs S c (allocateSmallPage S E h c).1
      (h.m_vmPageSizePhysical / S.smallLineSize) hls (allocateSmallPage S E h c).2 a cache
      hempty hshort₀ (h.m_vmPageSizePhysical / S.smallLineSize + 1) le_rfl
  obtain ⟨-, ia, io, ip, -⟩ := absorbLines_spec S c (allocateSmallPage S E h c).1
    (h.m_vmPageSizePhysical / S.smallLineSize) hls (allocateSmallPage S E h c).2 e
  have hlines : r.1.lines = (absorbLines S c (allocateSmallPage S E h c).1
      (h.m_vmPageSizePhysical / S.smallLineSize) (allocateSmallPage S E h c).2 e).lines := by
    rcases hexit with ⟨rfl, hr1⟩ | ⟨-, -, -, hr1⟩
    · rw [hr1]; rfl
    · rw [hr1]
  have hpage : (r.1.pages (allocateSmallPage S E h c).1).refCount
      = ((absorbLines S c (allocateSmallPage S E h c).1
          (h.m_vmPageSizePhysical / S.smallLineSize) (allocateSmallPage S E h c).2 e).pages
            (allocateSmallPage S E h c).1).refCount := by
    rcases hexit with ⟨rfl, hr1⟩ | ⟨-, -, -, hr1⟩ <;> simp [hr1, Heap.setPage]
  refine ⟨r, e, ?_, he, ?_, ?_, ?_, ?_, ?_⟩
  · unfold allocateSmallBumpRanges
    simp only [hP]
    exact hr
  · rcases hexit with ⟨rfl, -⟩ | ⟨-, hab, hfull, -⟩
    · exact Or.inl rfl
    · exact Or.inr ⟨(isAbsorbed_congr S c _ _ hl hP hmd e).1 hab, hfull⟩
  · intro L hL hab
    rw [hlines, ia L hL ((isAbsorbed_congr S c _ _ hl hP hmd L).2 hab), hcount L]
  · rw [hpage, ip, ← card_absorbed_congr S c _ _ hl hP hmd e, ← hrc]
    simp
  · intro x hx
    rw [hlines, ← hl]
    exact io x (fun L hL hab => hx L hL ((isAbsorbed_congr S c _ _ hl hP hmd L).1 hab))
  · rw [hsum, hlines, ← hl, sum_absorbLines_delta S c _ _ hls _ he]

/-- C17 at a concrete input: an empty allocator of size class 2 and an empty
cache of three ranges, on the page at 8 MiB of which the lines 1, 2 and 5 hold
live objects. -/
theorem allocateSmallBumpRanges_refCounts_witness :
    ∃ r e, allocateSmallBumpRanges exampleSizes exampleLargeEnv exampleSmallHeap 2
        ⟨0, 24, 0⟩ ⟨[], 3⟩ = some r ∧
      e ≤ exampleSmallHeap.m_vmPageSizePhysical / exampleSizes.smallLineSize ∧
      (e = exampleSmallHeap.m_vmPageSizePhysical / exampleSizes.smallLineSize ∨
        (isAbsorbed exampleSizes 2 (allocateSmallPage exampleSizes exampleLargeEnv exampleSmallHeap 2).1
            (exampleSmallHeap.m_vmPageSizePhysical / exampleSizes.smallLineSize) exampleSmallHeap e ∧
          r.2.2.size = r.2.2.capacity)) ∧
      (∀ L, L < e →
        isAbsorbed exampleSizes 2 (allocateSmallPage exampleSizes exampleLargeEnv exampleSmallHeap 2).1
          (exampleSmallHeap.m_vmPageSizePhysical / exampleSizes.smallLineSize) exampleSmallHeap L →
        r.1.lines (Heap.lineAt exampleSizes (allocateSmallPage exampleSizes exampleLargeEnv exampleSmallHeap 2).1 L)
          = (exampleSmallHeap.lineMetadata exampleSizes 2 L).objectCount) ∧
      (r.1.pages (allocateSmallPage exampleSizes exampleLargeEnv exampleSmallHeap 2).1).refCount
        = (exampleSmallHeap.pages (allocateSmallPage exampleSizes exampleLargeEnv exampleSmallHeap 2).1).refCount
          + ((Finset.range e).filter (fun L =>
              isAbsorbed exampleSizes 2 (allocateSmallPage exampleSizes exampleLargeEnv exampleSmallHeap 2).1
                (exampleSmallHeap.m_vmPageSizePhysical / exampleSizes.smallLineSize) exampleSmallHeap L)).card ∧
      (∀ x, (∀ L, L < e →
          isAbsorbed exampleSizes 2 (allocateSmallPage exampleSizes exampleLargeEnv exampleSmallHeap 2).1
            (exampleSmallHeap.m_vmPageSizePhysical / exampleSizes.smallLineSize) exampleSmallHeap L →
          x ≠ Heap.lineAt exampleSizes (allocateSmallPage exampleSizes exampleLargeEnv exampleSmallHeap 2).1 L) →
        r.1.lines x = exampleSmallHeap.lines x) ∧
      ((emittedRanges ⟨0, 24, 0⟩ r).map (fun ρ => ρ.objectCount)).sum
        = ∑ L in Finset.range (exampleSmallHeap.m_vmPageSizePhysical / exampleSizes.smallLineSize),
            (r.1.lines (Heap.lineAt exampleSizes (allocateSmallPage exampleSizes exampleLargeEnv exampleSmallHeap 2).1 L)
              - exampleSmallHeap.lines (Heap.lineAt exampleSizes (allocateSmallPage exampleSizes exampleLargeEnv exampleSmallHeap 2).1 L)) :=
  allocateSmallBumpRanges_refCounts exampleSizes exampleLargeEnv exampleSmallHeap 2
    ⟨0, 24, 0⟩ ⟨[], 3⟩ (by decide) rfl (by decide)

/-! ## Which small pages are linked: C14 -/

/-- The merge loop, whatever the count of the run: entered after the visit to
line `ln`, it visits the lines up to some `ln'` and stops at `ln' + 1`, a line
the scan does not absorb. -/
theorem mergeLines_heap (S : Sizes) (c page n : Nat) (hls : 0 < S.smallLineSize)
    (h : Heap) (ln oc : Nat) (hln : ln < n) (fuel : Nat) (hfuel : n - ln ≤ fuel) :
    ∃ ln' oc', mergeLines S c page n fuel ln oc (absorbLines S c page n h (ln + 1))
      = some (ln' + 1, oc', absorbLines S c page n h (ln' + 1 + 1)) ∧
      ln ≤ ln' ∧ ln' < n ∧ ¬isAbsorbed S c page n h (ln' + 1) := by
  obtain ⟨ln', oc', h', he, hh', hle, hlt, hstop⟩ :=
    mergeLines_induct S c page n
      (fun l _ hh => hh = absorbLines S c page n h (l + 1))
      (by
        rintro l oc hh rfl hl hfree hzero
        exact (absorbLines_succ_neg S c page n h (l + 1) (fun hk => hk.2.2 hzero)).symm)
      (by
        rintro l oc hh rfl hl hfree hne
        exact (absorbLines_succ_pos S c page n h (l + 1) ⟨hl, hfree, hne⟩).symm)
      fuel ln oc _ rfl hln hfuel
  subst hh'
  have hno : ¬isAbsorbed S c page n (absorbLines S c page n h (ln' + 1)) (ln' + 1) := by
    rintro ⟨h1, h2, -⟩
    exact hstop h1 h2
  refine ⟨ln', oc', ?_, hle, hlt,
    fun hk => hno ((isAbsorbed_absorbLines S c page n hls h (ln' + 1)).2 hk)⟩
  rw [he, absorbLines_succ_neg S c page n h (ln' + 1) hno]

/-- The heap the scan of a page returns, whatever the counts: after a full
scan, the heap with every free line absorbed and the `hasFreeLines` flag of the
page cleared; on a full cache at line `e`, the heap with the free lines before
`e` absorbed and the page linked at the tail of the list of its size class.
The cache holds at most one range for each absorbed line. -/
theorem scanLines_heap (S : Sizes) (c page n : Nat) (hls : 0 < S.smallLineSize)
    (h : Heap) (a₀ : BumpAllocator) (cache₀ : BumpRangeCache) (hempty : cache₀.ranges = [])
    (fuel : Nat) (hfuel : n + 1 ≤ fuel) :
    ∃ r e, scanLines S c page n fuel 0 h a₀ cache₀ = some r ∧ e ≤ n ∧
      r.2.2.size ≤ ((Finset.range e).filter (fun L => isAbsorbed S c page n h L)).card ∧
      r.2.2.capacity = cache₀.capacity ∧
      ((e = n ∧ r.1 = (absorbLines S c page n h n).setPage page
          { (absorbLines S c page n h n).pages page with hasFreeLines := false }) ∨
       (e < n ∧ isAbsorbed S c page n h e ∧ r.2.2.size = r.2.2.capacity ∧
        r.1 = { absorbLines S c page n h e with m_smallPagesWithFreeLines :=
                  (Function.update (absorbLines S c page n h e).m_smallPagesWithFreeLines c
                    ((absorbLines S c page n h e).m_smallPagesWithFreeLines c ++ [page])) })) := by
  have key := scanLines_induct S c page n
    (fun ln hh _ cache => hh = absorbLines S c page n h ln ∧
      cache.size ≤ ((Finset.range ln).filter (fun L => isAbsorbed S c page n h L)).card ∧
      cache.capacity = cache₀.capacity)
    (fun r => ∃ e, e ≤ n ∧
      r.2.2.size ≤ ((Finset.range e).filter (fun L => isAbsorbed S c page n h L)).card ∧
      r.2.2.capacity = cache₀.capacity ∧
      ((e = n ∧ r.1 = (absorbLines S c page n h n).setPage page
          { (absorbLines S c page n h n).pages page with hasFreeLines := false }) ∨
       (e < n ∧ isAbsorbed S c page n h e ∧ r.2.2.size = r.2.2.capacity ∧
        r.1 = { absorbLines S c page n h e with m_smallPagesWithFreeLines :=
                  (Function.update (absorbLines S c page n h e).m_smallPagesWithFreeLines c
                    ((absorbLines S c page n h e).m_smallPagesWithFreeLines c ++ [page])) })))
    ?_ ?_ ?_ ?_ fuel 0 h a₀ cache₀ ?_ (by omega) (by omega)
  · obtain ⟨r, hr, e, he, hsize, hcap, hexit⟩ := key
    exact ⟨r, e, hr, he, hsize, hcap, hexit⟩
  · rintro ln hh a cache ⟨rfl, hsz, hcap⟩ hln hskip
    have hno : ¬isAbsorbed S c page n (absorbLines S c page n h ln) ln := by
      rintro ⟨-, h2, h3⟩
      rcases hskip with h4 | h4
      · exact h4 h2
      · exact h3 h4
    exact ⟨(absorbLines_succ_neg S c page n h ln hno).symm,
      le_trans hsz (card_absorbed_mono S c page n h (Nat.le_succ ln)), hcap⟩
  · rintro ln hh a cache ⟨rfl, hsz, hcap⟩ hln hfree hne hfull
    exact ⟨ln, by omega, hsz, hcap, Or.inr
      ⟨hln, (isAbsorbed_absorbLines S c page n hls h ln).1 ⟨hln, hfree, hne⟩, hfull, rfl⟩⟩
  · rintro ln hh a cache lr oc' h' ⟨rfl, hsz, hcap⟩ hln hfree hne hroom he
    have hyes : isAbsorbed S c page n (absorbLines S c page n h ln) ln := ⟨hln, hfree, hne⟩
    have hyes0 := (isAbsorbed_absorbLines S c page n hls h ln).1 hyes
    obtain ⟨ln', oc'', hm, hle, hlt, hno⟩ :=
      mergeLines_heap S c page n hls h ln
        ((absorbLines S c page n h ln).lineMetadata S c ln).objectCount hln n (by omega)
    rw [absorbLines_succ_pos S c page n h ln hyes, he] at hm
    simp only [Option.some.injEq, Prod.mk.injEq] at hm
    obtain ⟨rfl, rfl, rfl⟩ := hm
    have hA : ((Finset.range ln).filter (fun L => isAbsorbed S c page n h L)).card + 1
        ≤ ((Finset.range (ln' + 1 + 1)).filter (fun L => isAbsorbed S c page n h L)).card := by
      rw [← card_absorbed_succ S c page n h hyes0]
      exact card_absorbed_mono S c page n h (by omega)
    refine ⟨rfl, ?_, ?_⟩
    · split_ifs
      · simp only [BumpRangeCache.size, BumpRangeCache.push, List.length_append,
          List.length_singleton] at hsz ⊢
        omega
      · exact le_trans hsz (by omega)
    · split_ifs
      · exact hcap
      · exact hcap
  · rintro ln hh a cache ⟨rfl, hsz, hcap⟩ hln
    refine ⟨n, le_rfl, ?_, hcap, Or.inl ⟨rfl, ?_⟩⟩
    · refine le_trans hsz (le_of_eq ?_)
      congr 1
      ext L
      simp only [Finset.mem_filter, Finset.mem_range]
      constructor
      · rintro ⟨-, hk⟩; exact ⟨hk.1, hk⟩
      · rintro ⟨-, hk⟩; exact ⟨by have := hk.1; omega, hk⟩
    · rw [absorbLines_ge S c page n h hln]
  · exact ⟨rfl, by simp [BumpRangeCache.size, hempty], rfl⟩

theorem linkable_congr {p q : SmallPage} (hpq : p.linkFields = q.linkFields) (c : Nat) :
    p.linkable c ↔ q.linkable c := by
  unfold SmallPage.linkFields at hpq
  simp only [Prod.mk.injEq] at hpq
  obtain ⟨h1, h2, h3, h4⟩ := hpq
  unfold SmallPage.linkable
  rw [h1, h2, h3, h4]

theorem setPage_ne (h : Heap) (p : Nat) (r : SmallPage) {x : Nat} (hx : x ≠ p) :
    (h.setPage p r).pages x = h.pages x := by
  simp [Heap.setPage, Function.update, hx]

theorem setPage_same (h : Heap) (p : Nat) (r : SmallPage) : (h.setPage p r).pages p = r := by
  simp [Heap.setPage]

theorem splitAndAllocateAligned_freeLines (S : Sizes) (E : LargeEnv) (h : Heap)
    (o : LargeObject) (alignment size : Nat) :
    (splitAndAllocateAligned S E h o alignment size).2.m_smallPagesWithFreeLines
      = h.m_smallPagesWithFreeLines := by
  simp only [splitAndAllocateAligned]
  split_ifs <;> rfl

/-- With no page on the small-page free list the aligned large allocation
scavenges nothing: the page records and the lists of pages with free lines are
as before. -/
theorem allocateLargeAligned_small (S : Sizes) (E : LargeEnv) (h : Heap)
    (alignment size unalignedSize : Nat) (hnone : h.m_smallPages = []) :
    (allocateLargeAligned S E h alignment size unalignedSize).2.pages = h.pages ∧
    (allocateLargeAligned S E h alignment size unalignedSize).2.m_smallPagesWithFreeLines
      = h.m_smallPagesWithFreeLines := by
  have hs : scavengeSmallPages S E h = h := by
    simp [scavengeSmallPages, hnone, scavengeSmallPagesLoop]
  simp only [allocateLargeAligned]
  rw [splitAndAllocateAligned_pages, splitAndAllocateAligned_freeLines, hs]
  split_ifs <;> exact ⟨rfl, rfl⟩

/-- After the loop that sets the slides of the follower records of `page`, a
record either leads back to `page` or has the slide it had. -/
theorem followers_slide (S : Sizes) (page m : Nat) (h : Heap) (x : Nat) :
    x - (((List.range m).foldl (fun (h : Heap) (i : Nat) =>
        h.setPage (page + (i + 1) * S.smallPageSize)
          { h.pages (page + (i + 1) * S.smallPageSize) with slide := i + 1 }) h).pages x).slide
        * S.smallPageSize = page ∨
    (((List.range m).foldl (fun (h : Heap) (i : Nat) =>
        h.setPage (page + (i + 1) * S.smallPageSize)
          { h.pages (page + (i + 1) * S.smallPageSize) with slide := i + 1 }) h).pages x).slide
      = (h.pages x).slide := by
  induction m with
  | zero => right; rfl
  | succ m ih =>
    rw [List.range_succ, List.foldl_append]
    simp only [List.foldl_cons, List.foldl_nil]
    by_cases hx : x = page + (m + 1) * S.smallPageSize
    · left
      rw [hx, setPage_same]
      simp
    · rw [setPage_ne _ _ _ hx]
      exact ih

theorem foldl_freeLines {α : Type} (step : Heap → α → Heap)
    (hstep : ∀ h i, (step h i).m_smallPagesWithFreeLines = h.m_smallPagesWithFreeLines)
    (l : List α) (h : Heap) :
    (l.foldl step h).m_smallPagesWithFreeLines = h.m_smallPagesWithFreeLines := by
  induction l generalizing h with
  | nil => rfl
  | cons i rest ih =>
    simp only [List.foldl_cons]
    rw [ih (step h i), hstep h i]

/-- The page `allocateSmallPage` hands over and what the call does to the
records and the lists.  From a list that is not empty it unlinks the head and
changes no record.  Otherwise the lists are as before, the record of the page
has the size class asked for, and the fields that decide the linking of every
other page are as before. -/
theorem allocateSmallPage_link (S : Sizes) (E : LargeEnv) (h : Heap) (c : Nat) :
    (h.m_smallPagesWithFreeLines c ≠ [] →
      (allocateSmallPage S E h c).1 = (h.m_smallPagesWithFreeLines c).headD 0 ∧
      (allocateSmallPage S E h c).2.pages = h.pages ∧
      (allocateSmallPage S E h c).2.m_smallPagesWithFreeLines
        = Function.update h.m_smallPagesWithFreeLines c (h.m_smallPagesWithFreeLines c).tail) ∧
    (h.m_smallPagesWithFreeLines c = [] →
      (allocateSmallPage S E h c).2.m_smallPagesWithFreeLines = h.m_smallPagesWithFreeLines ∧
      ((allocateSmallPage S E h c).2.pages (allocateSmallPage S E h c).1).linkFields
        = (if h.m_smallPages = [] then ObjectType.Small
            else (h.pages (allocateSmallPage S E h c).1).objectType,
          c, (h.pages (allocateSmallPage S E h c).1).hasFreeLines,
          (h.pages (allocateSmallPage S E h c).1).refCount) ∧
      ∀ x, x ≠ (allocateSmallPage S E h c).1 →
        ((allocateSmallPage S E h c).2.pages x).linkFields = (h.pages x).linkFields) := by
  constructor
  · intro hne
    unfold allocateSmallPage
    rw [if_pos (by simpa [List.isEmpty_iff] using hne)]
    exact ⟨rfl, rfl, rfl⟩
  · intro hnil
    unfold allocateSmallPage
    rw [if_neg (by simp [hnil])]
    by_cases hsp : h.m_smallPages = []
    · rw [if_neg (by simp [hsp])]
      lift_lets
      extract_lets unalignedSize r object h1 h2 s3 h3 page s4 h4 s5 h5 h6
      have hrp : r.2.pages = h.pages :=
        (allocateLargeAligned_small S E h h.m_vmPageSizePhysical
          h.m_vmPageSizePhysical unalignedSize hsp).1
      have hrl : r.2.m_smallPagesWithFreeLines = h.m_smallPagesWithFreeLines :=
        (allocateLargeAligned_small S E h h.m_vmPageSizePhysical
          h.m_vmPageSizePhysical unalignedSize hsp).2
      clear_value r
      have hp3 : Heap.pageOf S h3 object = Heap.pageOf S h2 object := by
        unfold Heap.pageOf
        simp only [h3]
        rw [setPage_proj (fun p => p.slide) h2 _ _ (by rfl)]
      have hslide5 : ∀ x, (h5.pages x).slide = (h3.pages x).slide := by
        intro x
        have e5 : (h5.pages x).slide = (h4.pages x).slide :=
          setPage_proj (fun p => p.slide) h4 _ _ (by rfl) x
        have e4 : (h4.pages x).slide = (h3.pages x).slide :=
          setPage_proj (fun p => p.slide) h3 _ _ (by rfl) x
        exact e5.trans e4
      have hret : Heap.pageOf S h6 object = page := by
        rcases followers_slide S page ((h5.pages page).smallPageCount - 1) h5
          (object / S.smallPageSize * S.smallPageSize) with hf | hf
        · exact hf
        · show object / S.smallPageSize * S.smallPageSize
              - (h6.pages (object / S.smallPageSize * S.smallPageSize)).slide * S.smallPageSize
            = page
          rw [show (h6.pages (object / S.smallPageSize * S.smallPageSize)).slide
              = (h5.pages (object / S.smallPageSize * S.smallPageSize)).slide from hf, hslide5]
          rfl
      have hfold : ∀ x, (h6.pages x).linkFields = (h5.pages x).linkFields := fun x =>
        foldl_pages_proj (fun p => p.linkFields)
          (fun (h : Heap) (i : Nat) =>
            h.setPage (page + (i + 1) * S.smallPageSize)
              { h.pages (page + (i + 1) * S.smallPageSize) with slide := i + 1 })
          (fun h' i x => setPage_proj (fun p => p.linkFields) h' _ _ (by rfl) x) _ h5 x
      have hlists : h6.m_smallPagesWithFreeLines = h.m_smallPagesWithFreeLines := by
        have e6 : h6.m_smallPagesWithFreeLines = h5.m_smallPagesWithFreeLines :=
          foldl_freeLines
            (fun (h : Heap) (i : Nat) =>
              h.setPage (page + (i + 1) * S.smallPageSize)
                { h.pages (page + (i + 1) * S.smallPageSize) with slide := i + 1 })
            (fun _ _ => rfl) _ h5
        rw [e6]
        exact hrl
      show h6.m_smallPagesWithFreeLines = _ ∧
        (h6.pages (Heap.pageOf S h6 object)).linkFields
          = (if h.m_smallPages = [] then ObjectType.Small
              else (h.pages (Heap.pageOf S h6 object)).objectType,
            c, (h.pages (Heap.pageOf S h6 object)).hasFreeLines,
            (h.pages (Heap.pageOf S h6 object)).refCount) ∧
        ∀ x, x ≠ Heap.pageOf S h6 object → (h6.pages x).linkFields = (h.pages x).linkFields
      rw [hret]
      refine ⟨hlists, ?_, ?_⟩
      · have e3 : h3.pages page = { s3 with objectType := ObjectType.Small } := by
          show h3.pages (Heap.pageOf S h3 object) = _
          rw [hp3]
          exact setPage_same _ _ _
        have e2 : s3 = h.pages page := by
          show r.2.pages (Heap.pageOf S h2 object) = h.pages (Heap.pageOf S h3 object)
          rw [hrp, hp3]
        rw [hfold page, if_pos hsp]
        simp [SmallPage.linkFields, h5, s5, h4, s4, setPage_same, e3, e2]
      · intro x hx
        rw [hfold x]
        have e5 : h5.pages x = h4.pages x := setPage_ne h4 _ _ hx
        have e4 : h4.pages x = h3.pages x := setPage_ne h3 _ _ hx
        have e3 : h3.pages x = h2.pages x :=
          setPage_ne h2 _ _ (by rw [← hp3]; exact hx)
        have e2 : h2.pages x = h.pages x := by
          show r.2.pages x = _
          rw [hrp]
        rw [e5, e4, e3, e2]
    · rw [if_pos (by simpa [List.isEmpty_iff] using hsp)]
      refine ⟨rfl, by simp [SmallPage.linkFields, setPage_same, hsp], ?_⟩
      intro x hx
      simp only
      rw [setPage_ne _ _ _ hx]

/-- The exit of the scan after a full scan keeps the list invariant: the page
being scanned is linked nowhere and its flag is cleared. -/
theorem fullScan_linked (S : Sizes) (c page n : Nat) (hls : 0 < S.smallLineSize) (h : Heap)
    (k : Nat)
    (hnodup : ∀ c', (h.m_smallPagesWithFreeLines c').Nodup)
    (hout : ∀ c', page ∉ h.m_smallPagesWithFreeLines c')
    (hothers : ∀ c' x, x ≠ page →
      (x ∈ h.m_smallPagesWithFreeLines c' ↔ (h.pages x).linkable c')) :
    ((absorbLines S c page n h k).setPage page
      { (absorbLines S c page n h k).pages page with hasFreeLines := false }).freeLinesLinked := by
  obtain ⟨-, -, -, ip, -, -, il, -⟩ := absorbLines_spec S c page n hls h k
  refine ⟨fun c' => ?_, fun c' x => ?_⟩
  · show ((absorbLines S c page n h k).m_smallPagesWithFreeLines c').Nodup
    rw [il]; exact hnodup c'
  · show x ∈ (absorbLines S c page n h k).m_smallPagesWithFreeLines c' ↔ _
    rw [il]
    by_cases hx : x = page
    · subst hx
      rw [setPage_same]
      constructor
      · intro hmem; exact absurd hmem (hout c')
      · intro hl; exact absurd hl.2.2.1 (by simp)
    · rw [setPage_ne _ _ _ hx, ip, Function.update_noteq hx]
      exact hothers c' x hx

/-- The exit of the scan on a full cache keeps the list invariant when at least
one line has been absorbed: the page being scanned is linked in the list of
its class, with its flag set and a positive reference count. -/
theorem cacheFull_linked (S : Sizes) (c page n : Nat) (hls : 0 < S.smallLineSize) (h : Heap)
    (k : Nat)
    (hnodup : ∀ c', (h.m_smallPagesWithFreeLines c').Nodup)
    (hout : ∀ c', page ∉ h.m_smallPagesWithFreeLines c')
    (hothers : ∀ c' x, x ≠ page →
      (x ∈ h.m_smallPagesWithFreeLines c' ↔ (h.pages x).linkable c'))
    (hsmall : (h.pages page).objectType = .Small) (hclass : (h.pages page).sizeClass = c)
    (hflag : (h.pages page).hasFreeLines = true)
    (hpos : 0 < ((Finset.range k).filter (fun L => isAbsorbed S c page n h L)).card) :
    Heap.freeLinesLinked
      { absorbLines S c page n h k with m_smallPagesWithFreeLines :=
          (Function.update (absorbLines S c page n h k).m_smallPagesWithFreeLines c
            ((absorbLines S c page n h k).m_smallPagesWithFreeLines c ++ [page])) } := by
  obtain ⟨-, -, -, ip, -, -, il, -⟩ := absorbLines_spec S c page n hls h k
  refine ⟨fun c' => ?_, fun c' x => ?_⟩
  · show (Function.update (absorbLines S c page n h k).m_smallPagesWithFreeLines c
        ((absorbLines S c page n h k).m_smallPagesWithFreeLines c ++ [page]) c').Nodup
    rw [il]
    by_cases hc : c' = c
    · subst hc
      rw [Function.update_same]
      rw [List.nodup_append]
      refine ⟨hnodup c', List.nodup_singleton _, ?_⟩
      intro y hy hy'
      rw [List.mem_singleton] at hy'
      subst hy'
      exact hout c' hy
    · rw [Function.update_noteq hc]; exact hnodup c'
  · show x ∈ Function.update (absorbLines S c page n h k).m_smallPagesWithFreeLines c
        ((absorbLines S c page n h k).m_smallPagesWithFreeLines c ++ [page]) c'
      ↔ ((absorbLines S c page n h k).pages x).linkable c'
    rw [il, ip]
    by_cases hx : x = page
    · subst hx
      rw [Function.update_same]
      by_cases hc : c' = c
      · subst hc
        rw [Function.update_same]
        constructor
        · intro _; exact ⟨hsmall, hclass, hflag, by show 0 < _ + _; omega⟩
        · intro _; simp
      · rw [Function.update_noteq hc]
        constructor
        · intro hmem; exact absurd hmem (hout c')
        · intro hl; exact absurd (hclass.symm.trans hl.2.1).symm hc
    · rw [Function.update_noteq hx]
      by_cases hc : c' = c
      · subst hc
        rw [Function.update_same, List.mem_append, List.mem_singleton]
        constructor
        · rintro (hmem | hmem)
          · exact (hothers c' x hx).1 hmem
          · exact absurd hmem hx
        · intro hl; exact Or.inl ((hothers c' x hx).2 hl)
      · rw [Function.update_noteq hc]
        exact hothers c' x hx

/-- The state in which `allocateSmallPage` leaves a heap that satisfies the
list invariant: the page it hands over is linked nowhere, its record is that
of a `Small` page of the class asked for with the `hasFreeLines` flag set, and
every other page is linked as its record says. -/
theorem allocateSmallPage_linked (S : Sizes) (E : LargeEnv) (h : Heap) (c : Nat)
    (hinv : h.freeLinesLinked)
    (hfresh : h.m_smallPagesWithFreeLines c = [] →
      (h.pages (allocateSmallPage S E h c).1).hasFreeLines = true ∧
      (h.pages (allocateSmallPage S E h c).1).refCount = 0 ∧
      (h.m_smallPages ≠ [] → (h.pages (allocateSmallPage S E h c).1).objectType = .Small)) :
    (∀ c', ((allocateSmallPage S E h c).2.m_smallPagesWithFreeLines c').Nodup) ∧
    (∀ c', (allocateSmallPage S E h c).1 ∉ (allocateSmallPage S E h c).2.m_smallPagesWithFreeLines c') ∧
    (∀ c' x, x ≠ (allocateSmallPage S E h c).1 →
      (x ∈ (allocateSmallPage S E h c).2.m_smallPagesWithFreeLines c'
        ↔ ((allocateSmallPage S E h c).2.pages x).linkable c')) ∧
    ((allocateSmallPage S E h c).2.pages (allocateSmallPage S E h c).1).objectType = .Small ∧
    ((allocateSmallPage S E h c).2.pages (allocateSmallPage S E h c).1).sizeClass = c ∧
    ((allocateSmallPage S E h c).2.pages (allocateSmallPage S E h c).1).hasFreeLines = true := by
  obtain ⟨hA, hB⟩ := allocateSmallPage_link S E h c
  obtain ⟨hnd, hiff⟩ := hinv
  by_cases hl : h.m_smallPagesWithFreeLines c = []
  · obtain ⟨hlists, hpagef, hoth⟩ := hB hl
    obtain ⟨hf, hrc0, hty⟩ := hfresh hl
    unfold SmallPage.linkFields at hpagef
    simp only [Prod.mk.injEq] at hpagef
    obtain ⟨t1, t2, t3, -⟩ := hpagef
    rw [hlists]
    refine ⟨hnd, ?_, ?_, ?_, t2, t3.trans hf⟩
    · intro c' hmem
      have := ((hiff c' _).1 hmem).2.2.2
      omega
    · intro c' x hx
      rw [linkable_congr (hoth x hx)]
      exact hiff c' x
    · rw [t1]
      by_cases hsp : h.m_smallPages = []
      · rw [if_pos hsp]
      · rw [if_neg hsp]; exact hty hsp
  · obtain ⟨hpg, hpages, hlists⟩ := hA hl
    obtain ⟨y, tail, hcons⟩ := List.exists_cons_of_ne_nil hl
    have hy : (allocateSmallPage S E h c).1 = y := by rw [hpg, hcons]; rfl
    have hmem : y ∈ h.m_smallPagesWithFreeLines c := by rw [hcons]; simp
    have hlink := (hiff c y).1 hmem
    have hnd' := hnd c
    rw [hcons, List.nodup_cons] at hnd'
    rw [hlists, hpages, hy, hcons]
    refine ⟨?_, ?_, ?_, hlink.1, hlink.2.1, hlink.2.2.1⟩
    · intro c'
      by_cases hc : c' = c
      · subst hc; rw [Function.update_same]; exact hnd'.2
      · rw [Function.update_noteq hc]; exact hnd c'
    · intro c'
      by_cases hc : c' = c
      · subst hc; rw [Function.update_same]; exact hnd'.1
      · rw [Function.update_noteq hc]
        intro hmem'
        exact hc (((hiff c' y).1 hmem').2.1.symm.trans hlink.2.1)
    · intro c' x hx
      by_cases hc : c' = c
      · subst hc
        rw [Function.update_same, ← hiff c' x, hcons, List.mem_cons]
        simp [hx]
      · rw [Function.update_noteq hc]; exact hiff c' x

/-- The list invariant is kept by `allocateSmallBumpRanges`, which returns on
one of two exits: after a full scan the page it scanned has its flag cleared
and is linked nowhere; on a full cache the page is linked in the list of its
class with its flag still set. -/
theorem allocateSmallBumpRanges_linked (S : Sizes) (E : LargeEnv) (h : Heap) (c : Nat)
    (a : BumpAllocator) (cache : BumpRangeCache)
    (hls : 0 < S.smallLineSize) (hempty : cache.ranges = []) (hcap : 0 < cache.capacity)
    (hinv : h.freeLinesLinked)
    (hfresh : h.m_smallPagesWithFreeLines c = [] →
      (h.pages (allocateSmallPage S E h c).1).hasFreeLines = true ∧
      (h.pages (allocateSmallPage S E h c).1).refCount = 0 ∧
      (h.m_smallPages ≠ [] → (h.pages (allocateSmallPage S E h c).1).objectType = .Small)) :
    ∃ r, allocateSmallBumpRanges S E h c a cache = some r ∧ r.1.freeLinesLinked ∧
      (((r.1.pages (allocateSmallPage S E h c).1).hasFreeLines = false ∧
          ∀ c', (allocateSmallPage S E h c).1 ∉ r.1.m_smallPagesWithFreeLines c') ∨
        ((r.1.pages (allocateSmallPage S E h c).1).hasFreeLines = true ∧
          (allocateSmallPage S E h c).1 ∈ r.1.m_smallPagesWithFreeLines c ∧
          r.2.2.size = r.2.2.capacity)) := by
  obtain ⟨F1, F2, F3, F4, F5, F6⟩ := allocateSmallPage_linked S E h c hinv hfresh
  obtain ⟨r, e, hr, -, hsize, hcap', hexit⟩ :=
    scanLines_heap S c (allocateSmallPage S E h c).1
      ((allocateSmallPage S E h c).2.m_vmPageSizePhysical / S.smallLineSize) hls
      (allocateSmallPage S E h c).2 a cache hempty
      ((allocateSmallPage S E h c).2.m_vmPageSizePhysical / S.smallLineSize + 1) le_rfl
  refine ⟨r, hr, ?_⟩
  rcases hexit with ⟨-, hr1⟩ | ⟨-, -, hfull, hr1⟩
  · have hlinked := fullScan_linked S c (allocateSmallPage S E h c).1
      ((allocateSmallPage S E h c).2.m_vmPageSizePhysical / S.smallLineSize) hls
      (allocateSmallPage S E h c).2
      ((allocateSmallPage S E h c).2.m_vmPageSizePhysical / S.smallLineSize) F1 F2 F3
    rw [← hr1] at hlinked
    refine ⟨hlinked, Or.inl ⟨?_, ?_⟩⟩
    · rw [hr1, setPage_same]
    · intro c' hmem
      have := ((hlinked.2 c' _).1 hmem).2.2.1
      rw [hr1, setPage_same] at this
      simp at this
  · have hpos : 0 < ((Finset.range e).filter (fun L =>
        isAbsorbed S c (allocateSmallPage S E h c).1
          ((allocateSmallPage S E h c).2.m_vmPageSizePhysical / S.smallLineSize)
          (allocateSmallPage S E h c).2 L)).card := by
      have : r.2.2.size = cache.capacity := by rw [hfull, hcap']
      omega
    have hlinked := cacheFull_linked S c (allocateSmallPage S E h c).1
      ((allocateSmallPage S E h c).2.m_vmPageSizePhysical / S.smallLineSize) hls
      (allocateSmallPage S E h c).2 e F1 F2 F3 F4 F5 F6 hpos
    rw [← hr1] at hlinked
    have hmem : (allocateSmallPage S E h c).1 ∈ r.1.m_smallPagesWithFreeLines c := by
      rw [hr1]
      simp
    exact ⟨hlinked, Or.inr ⟨((hlinked.2 c _).1 hmem).2.2.1, hmem, hfull⟩⟩

theorem objectType_small {t : ObjectType} (ht : ¬t = .Large) : t = .Small := by
  cases t
  · rfl
  · exact absurd rfl ht

/-- `deallocateSmallLine` on a `Small` page without free lines: the reference
count goes down by one, the flag is set and the page is linked at the tail of
the list of its size class. -/
theorem deallocateSmallLine_link (S : Sizes) (E : LargeEnv) (h : Heap) (object : Nat)
    (htype : ¬(h.pages (Heap.pageOf S h object)).objectType = .Large)
    (hflag : (h.pages (Heap.pageOf S h object)).hasFreeLines = false) :
    deallocateSmallLine S E h object
      = { h with
          pages := Function.update h.pages (Heap.pageOf S h object)
            { h.pages (Heap.pageOf S h object) with
              refCount := (h.pages (Heap.pageOf S h object)).refCount - 1
              hasFreeLines := true }
          m_smallPagesWithFreeLines :=
            Function.update h.m_smallPagesWithFreeLines
              (h.pages (Heap.pageOf S h object)).sizeClass
              (h.m_smallPagesWithFreeLines (h.pages (Heap.pageOf S h object)).sizeClass
                ++ [Heap.pageOf S h object]) } := by
  unfold deallocateSmallLine
  simp [htype, hflag, Heap.setPage]

/-- `deallocateSmallLine` on a `Small` page with free lines that keeps a
reference: only the reference count changes. -/
theorem deallocateSmallLine_keep (S : Sizes) (E : LargeEnv) (h : Heap) (object : Nat)
    (htype : ¬(h.pages (Heap.pageOf S h object)).objectType = .Large)
    (hflag : (h.pages (Heap.pageOf S h object)).hasFreeLines = true)
    (hrc : (h.pages (Heap.pageOf S h object)).refCount - 1 ≠ 0) :
    deallocateSmallLine S E h object
      = { h with
          pages := Function.update h.pages (Heap.pageOf S h object)
            { h.pages (Heap.pageOf S h object) with
              refCount := (h.pages (Heap.pageOf S h object)).refCount - 1 } } := by
  unfold deallocateSmallLine
  simp [htype, hflag, hrc, Heap.setPage]

/-- `deallocateSmallLine` on a `Small` page with free lines whose last reference
goes: the page is unlinked from the list of its size class and pushed onto the
small-page free list, and the scavenger is signalled. -/
theorem deallocateSmallLine_free (S : Sizes) (E : LargeEnv) (h : Heap) (object : Nat)
    (htype : ¬(h.pages (Heap.pageOf S h object)).objectType = .Large)
    (hflag : (h.pages (Heap.pageOf S h object)).hasFreeLines = true)
    (hrc : (h.pages (Heap.pageOf S h object)).refCount - 1 = 0) :
    deallocateSmallLine S E h object
      = { h with
          pages := Function.update h.pages (Heap.pageOf S h object)
            { h.pages (Heap.pageOf S h object) with
              refCount := (h.pages (Heap.pageOf S h object)).refCount - 1 }
          m_smallPagesWithFreeLines :=
            Function.update h.m_smallPagesWithFreeLines
              (h.pages (Heap.pageOf S h object)).sizeClass
              ((h.m_smallPagesWithFreeLines
                (h.pages (Heap.pageOf S h object)).sizeClass).erase (Heap.pageOf S h object))
          m_smallPages := h.m_smallPages ++ [Heap.pageOf S h object]
          scavengerRuns := h.scavengerRuns + 1 } := by
  unfold deallocateSmallLine
  simp [htype, hflag, hrc, Heap.setPage]

/-- The list invariant is kept by `deallocateSmallLine` when its assertion
holds, that a `Small` page without free lines keeps a reference after the
decrement; such a page comes out with its flag set, linked in the list of its
size class. -/
theorem deallocateSmallLine_linked (S : Sizes) (E : LargeEnv) (h : Heap) (object : Nat)
    (hinv : h.freeLinesLinked)
    (hassert : (h.pages (Heap.pageOf S h object)).objectType = .Small →
      (h.pages (Heap.pageOf S h object)).hasFreeLines = false →
      (h.pages (Heap.pageOf S h object)).refCount - 1 ≠ 0) :
    (deallocateSmallLine S E h object).freeLinesLinked ∧
    ((h.pages (Heap.pageOf S h object)).objectType = .Small →
      (h.pages (Heap.pageOf S h object)).hasFreeLines = false →
      ((deallocateSmallLine S E h object).pages (Heap.pageOf S h object)).hasFreeLines = true ∧
      Heap.pageOf S h object ∈ (deallocateSmallLine S E h object).m_smallPagesWithFreeLines
        (h.pages (Heap.pageOf S h object)).sizeClass) := by
  obtain ⟨hnd, hiff⟩ := hinv
  by_cases htype : (h.pages (Heap.pageOf S h object)).objectType = .Large
  · have he : deallocateSmallLine S E h object
        = deallocateLarge E h (E.largeObjectAt h object) := by
      unfold deallocateSmallLine
      rw [if_pos htype]
    rw [he]
    refine ⟨⟨hnd, hiff⟩, ?_⟩
    intro hs
    rw [htype] at hs
    cases hs
  · have hsmall := objectType_small htype
    by_cases hflag : (h.pages (Heap.pageOf S h object)).hasFreeLines = true
    · refine ⟨?_, fun _ hf => by rw [hflag] at hf; cases hf⟩
      by_cases hrc : (h.pages (Heap.pageOf S h object)).refCount - 1 = 0
      · rw [deallocateSmallLine_free S E h object htype hflag hrc]
        refine ⟨fun c' => ?_, fun c' x => ?_⟩
        · show (Function.update h.m_smallPagesWithFreeLines _ _ c').Nodup
          by_cases hc : c' = (h.pages (Heap.pageOf S h object)).sizeClass
          · subst hc; rw [Function.update_same]; exact (hnd _).erase _
          · rw [Function.update_noteq hc]; exact hnd c'
        · show x ∈ Function.update h.m_smallPagesWithFreeLines _ _ c'
            ↔ (Function.update h.pages _ _ x).linkable c'
          by_cases hx : x = Heap.pageOf S h object
          · subst hx
            rw [Function.update_same]
            constructor
            · intro hmem
              exfalso
              by_cases hc : c' = (h.pages (Heap.pageOf S h object)).sizeClass
              · subst hc
                rw [Function.update_same] at hmem
                exact ((hnd _).mem_erase_iff.1 hmem).1 rfl
              · rw [Function.update_noteq hc] at hmem
                exact hc ((hiff c' _).1 hmem).2.1.symm
            · intro hl
              have : 0 < (h.pages (Heap.pageOf S h object)).refCount - 1 := hl.2.2.2
              omega
          · rw [Function.update_noteq hx, ← hiff c' x]
            by_cases hc : c' = (h.pages (Heap.pageOf S h object)).sizeClass
            · subst hc
              rw [Function.update_same]
              exact List.mem_erase_of_ne hx
            · rw [Function.update_noteq hc]
      · rw [deallocateSmallLine_keep S E h object htype hflag hrc]
        refine ⟨hnd, fun c' x => ?_⟩
        show x ∈ h.m_smallPagesWithFreeLines c' ↔ (Function.update h.pages _ _ x).linkable c'
        rw [hiff c' x]
        by_cases hx : x = Heap.pageOf S h object
        · subst hx
          rw [Function.update_same]
          constructor
          · intro hl; exact ⟨hl.1, hl.2.1, hl.2.2.1, Nat.pos_of_ne_zero hrc⟩
          · intro hl
            have : 0 < (h.pages (Heap.pageOf S h object)).refCount - 1 := hl.2.2.2
            exact ⟨hl.1, hl.2.1, hl.2.2.1, by omega⟩
        · rw [Function.update_noteq hx]
    · have hflag' : (h.pages (Heap.pageOf S h object)).hasFreeLines = false := by
        simpa using hflag
      have hrc := hassert hsmall hflag'
      have hout : ∀ c', Heap.pageOf S h object ∉ h.m_smallPagesWithFreeLines c' := by
        intro c' hmem
        exact hflag ((hiff c' _).1 hmem).2.2.1
      rw [deallocateSmallLine_link S E h object htype hflag']
      refine ⟨⟨fun c' => ?_, fun c' x => ?_⟩, fun _ _ => ⟨?_, ?_⟩⟩
      · show (Function.update h.m_smallPagesWithFreeLines _ _ c').Nodup
        by_cases hc : c' = (h.pages (Heap.pageOf S h object)).sizeClass
        · subst hc
          rw [Function.update_same, List.nodup_append]
          refine ⟨hnd _, List.nodup_singleton _, ?_⟩
          intro y hy hy'
          rw [List.mem_singleton] at hy'
          subst hy'
          exact hout _ hy
        · rw [Function.update_noteq hc]; exact hnd c'
      · show x ∈ Function.update h.m_smallPagesWithFreeLines _ _ c'
          ↔ (Function.update h.pages _ _ x).linkable c'
        by_cases hx : x = Heap.pageOf S h object
        · subst hx
          rw [Function.update_same]
          by_cases hc : c' = (h.pages (Heap.pageOf S h object)).sizeClass
          · subst hc
            rw [Function.update_same]
            constructor
            · intro _; exact ⟨hsmall, rfl, rfl, Nat.pos_of_ne_zero hrc⟩
            · intro _; simp
          · rw [Function.update_noteq hc]
            constructor
            · intro hmem; exact absurd hmem (hout c')
            · intro hl; exact absurd hl.2.1.symm hc
        · rw [Function.update_noteq hx, ← hiff c' x]
          by_cases hc : c' = (h.pages (Heap.pageOf S h object)).sizeClass
          · subst hc
            rw [Function.update_same, List.mem_append, List.mem_singleton]
            constructor
            · rintro (hmem | hmem)
              · exact hmem
              · exact absurd hmem hx
            · intro hmem; exact Or.inl hmem
          · rw [Function.update_noteq hc]
      · show (Function.update h.pages _ _ (Heap.pageOf S h object)).hasFreeLines = true
        rw [Function.update_same]
      · show _ ∈ Function.update h.m_smallPagesWithFreeLines _ _ _
        rw [Function.update_same]
        simp

/-- The list invariant holds of `exampleSmallHeap`. -/
theorem exampleSmallHeap_linked : exampleSmallHeap.freeLinesLinked := by
  refine ⟨fun c' => ?_, fun c' x => ?_⟩
  · show (if c' = 2 then [2 ^ 23] else []).Nodup
    split_ifs <;> simp
  · show x ∈ (if c' = 2 then [2 ^ 23] else [])
      ↔ (if x = 2 ^ 23 then (⟨3, 2, .Small, true, 1, 0⟩ : SmallPage)
          else ⟨0, 0, .Large, false, 0, 0⟩).linkable c'
    by_cases hx : x = 2 ^ 23
    · rw [if_pos hx]
      by_cases hc : c' = 2
      · rw [if_pos hc]
        simp [hx, hc, SmallPage.linkable]
      · rw [if_neg hc]
        simp [SmallPage.linkable]
        omega
    · rw [if_neg hx]
      have hx' : ¬x = 8388608 := by simpa using hx
      simp [SmallPage.linkable, hx']

/-- C14: the list invariant, that a page is linked in
`smallPagesWithFreeLines[sizeClass]` exactly when it is a `Small` page of that
class whose `hasFreeLines` flag is set and whose reference count is positive,
and that no page is linked twice, is kept by `allocateSmallBumpRanges` and by
`deallocateSmallLine`.  `allocateSmallBumpRanges` (entered with an empty cache
of positive capacity, and, when the list of the class is empty, obtaining a
page with the flag set and reference count zero) clears the flag and leaves
the page unlinked after a full scan, and links it with the flag still set on
the cache-full exit.  `deallocateSmallLine` (under its assertion that a page
without free lines keeps a reference) sets the flag and links the page when
the page had no free lines. -/
theorem freeLinesLinked_preserved (S : Sizes) (E : LargeEnv) (h : Heap) (c : Nat)
    (a : BumpAllocator) (cache : BumpRangeCache) (object : Nat)
    (hls : 0 < S.smallLineSize) (hempty : cache.ranges = []) (hcap : 0 < cache.capacity)
    (hinv : h.freeLinesLinked)
    (hfresh : h.m_smallPagesWithFreeLines c = [] →
      (h.pages (allocateSmallPage S E h c).1).hasFreeLines = true ∧
      (h.pages (allocateSmallPage S E h c).1).refCount = 0 ∧
      (h.m_smallPages ≠ [] → (h.pages (allocateSmallPage S E h c).1).objectType = .Small))
    (hassert : (h.pages (Heap.pageOf S h object)).objectType = .Small →
      (h.pages (Heap.pageOf S h object)).hasFreeLines = false →
      (h.pages (Heap.pageOf S h object)).refCount - 1 ≠ 0) :
    (∃ r, allocateSmallBumpRanges S E h c a cache = some r ∧ r.1.freeLinesLinked ∧
      (((r.1.pages (allocateSmallPage S E h c).1).hasFreeLines = false ∧
          ∀ c', (allocateSmallPage S E h c).1 ∉ r.1.m_smallPagesWithFreeLines c') ∨
        ((r.1.pages (allocateSmallPage S E h c).1).hasFreeLines = true ∧
          (allocateSmallPage S E h c).1 ∈ r.1.m_smallPagesWithFreeLines c ∧
          r.2.2.size = r.2.2.capacity))) ∧
    (deallocateSmallLine S E h object).freeLinesLinked ∧
    ((h.pages (Heap.pageOf S h object)).objectType = .Small →
      (h.pages (Heap.pageOf S h object)).hasFreeLines = false →
      ((deallocateSmallLine S E h object).pages (Heap.pageOf S h object)).hasFreeLines = true ∧
      Heap.pageOf S h object ∈ (deallocateSmallLine S E h object).m_smallPagesWithFreeLines
        (h.pages (Heap.pageOf S h object)).sizeClass) :=
  ⟨allocateSmallBumpRanges_linked S E h c a cache hls hempty hcap hinv hfresh,
    deallocateSmallLine_linked S E h object hinv hassert⟩

/-- C14 at a concrete input: a refill of size class 2 from `exampleSmallHeap`
and the release of a line of its page at 8 MiB. -/
theorem freeLinesLinked_preserved_witness :
    (∃ r, allocateSmallBumpRanges exampleSizes exampleLargeEnv exampleSmallHeap 2
        ⟨0, 24, 0⟩ ⟨[], 3⟩ = some r ∧ r.1.freeLinesLinked ∧
      (((r.1.pages (allocateSmallPage exampleSizes exampleLargeEnv exampleSmallHeap 2).1).hasFreeLines
            = false ∧
          ∀ c', (allocateSmallPage exampleSizes exampleLargeEnv exampleSmallHeap 2).1
            ∉ r.1.m_smallPagesWithFreeLines c') ∨
        ((r.1.pages (allocateSmallPage exampleSizes exampleLargeEnv exampleSmallHeap 2).1).hasFreeLines
            = true ∧
          (allocateSmallPage exampleSizes exampleLargeEnv exampleSmallHeap 2).1
            ∈ r.1.m_smallPagesWithFreeLines 2 ∧
          r.2.2.size = r.2.2.capacity))) ∧
    (deallocateSmallLine exampleSizes exampleLargeEnv exampleSmallHeap
      (2 ^ 23 + 264)).freeLinesLinked :=
  ⟨(freeLinesLinked_preserved exampleSizes exampleLargeEnv exampleSmallHeap 2 ⟨0, 24, 0⟩
      ⟨[], 3⟩ (2 ^ 23 + 264) (by decide) rfl (by decide) exampleSmallHeap_linked
      (fun hnil => absurd hnil (by decide)) (by decide)).1,
    (freeLinesLinked_preserved exampleSizes exampleLargeEnv exampleSmallHeap 2 ⟨0, 24, 0⟩
      ⟨[], 3⟩ (2 ^ 23 + 264) (by decide) rfl (by decide) exampleSmallHeap_linked
      (fun hnil => absurd hnil (by decide)) (by decide)).2.1⟩

/-! ## The large free map stays coalesced: C12 -/

theorem apart_symm {a b : LargeObject} (h : a.apart b) : b.apart a := Or.symm h

theorem scavengeSmallPage_eq (S : Sizes) (E : LargeEnv) (h : Heap) :
    scavengeSmallPage S E h = deallocateLarge E (scavengedHeap S h) (scavengedObject S E h) :=
  rfl

theorem foldl_largeObjects {α : Type} (step : Heap → α → Heap)
    (hstep : ∀ h i, (step h i).m_largeObjects = h.m_largeObjects)
    (l : List α) (h : Heap) :
    (l.foldl step h).m_largeObjects = h.m_largeObjects := by
  induction l generalizing h with
  | nil => rfl
  | cons i rest ih =>
    simp only [List.foldl_cons]
    rw [ih (step h i), hstep h i]

theorem scavengedHeap_largeObjects (S : Sizes) (h : Heap) :
    (scavengedHeap S h).m_largeObjects = h.m_largeObjects := by
  unfold scavengedHeap
  lift_lets
  intro page h1 h2 s3
  show h2.m_largeObjects = _
  exact foldl_largeObjects
    (fun (h' : Heap) (i : Nat) =>
      h'.setPage (page + (i + 1) * S.smallPageSize)
        { h'.pages (page + (i + 1) * S.smallPageSize) with slide := 0 })
    (fun _ _ => rfl) _ h1

/-- An object that no member of the free map touches merges with nothing. -/
theorem mergeNeighbours_alone (map : List LargeObject) (o : LargeObject)
    (hap : ∀ m ∈ map, m.apart o) :
    mergeNeighbours map o = (⟨o.begin, o.size, true, o.vmState⟩, map) := by
  have hprev : map.find? (fun m => m.«end» == o.begin) = none := by
    rw [List.find?_eq_none]
    intro m hm
    have := hap m hm
    unfold LargeObject.apart LargeObject.«end» at this
    unfold LargeObject.«end»
    simp only [beq_iff_eq]
    omega
  have hnext : map.find? (fun m => m.begin == o.«end») = none := by
    rw [List.find?_eq_none]
    intro m hm
    have := hap m hm
    unfold LargeObject.apart LargeObject.«end» at this
    unfold LargeObject.«end»
    simp only [beq_iff_eq]
    omega
  have hfilter : map.filter (fun m => !(m.«end» == o.begin) && !(m.begin == o.«end»)) = map := by
    rw [List.filter_eq_self]
    intro m hm
    have := hap m hm
    unfold LargeObject.apart LargeObject.«end» at this
    unfold LargeObject.«end»
    simp only [Bool.and_eq_true, Bool.not_eq_true', beq_eq_false_iff_ne, ne_eq]
    omega
  unfold mergeNeighbours
  simp only [hprev, hnext, hfilter, Option.map_none', Option.getD_none]
  unfold LargeObject.«end»
  simp

/-- The merge of an object that overlaps no member of a coalesced free map
leaves a coalesced free map once the merged object is inserted: the merged
object covers the object and is apart from every member that is left. -/
theorem mergeNeighbours_coalesced (map : List LargeObject) (o : LargeObject)
    (hinv : map.Pairwise LargeObject.apart) (hdis : ∀ m ∈ map, m.disjoint o) :
    ((mergeNeighbours map o).2 ++ [(mergeNeighbours map o).1]).Pairwise LargeObject.apart ∧
    (∀ m ∈ (mergeNeighbours map o).2, m ∈ map) := by
  have hall := hinv.forall (fun _ _ h => apart_symm h)
  have hbegin : ∀ m ∈ map, m.«end» < o.begin → m.«end» ≠ o.begin →
      m.«end» < (mergeNeighbours map o).1.begin := by
    intro m hm hlt _
    show m.«end» < ((map.find? (fun m => m.«end» == o.begin)).map LargeObject.begin).getD o.begin
    cases hf : map.find? (fun m => m.«end» == o.begin) with
    | none => exact hlt
    | some L =>
      have hL := List.mem_of_find?_eq_some hf
      have hLe : L.«end» = o.begin := by simpa using List.find?_some hf
      have hne : m ≠ L := by
        rintro rfl
        omega
      have := hall hm hL hne
      unfold LargeObject.apart at this
      simp only [Option.map_some', Option.getD_some]
      have hmb : m.begin ≤ m.«end» := by unfold LargeObject.«end»; omega
      omega
  have hend : ∀ m ∈ map, o.«end» < m.begin →
      (mergeNeighbours map o).1.«end» < m.begin := by
    intro m hm hlt
    have hle : (mergeNeighbours map o).1.begin ≤ o.begin := by
      show ((map.find? (fun m => m.«end» == o.begin)).map LargeObject.begin).getD o.begin ≤ _
      cases hf : map.find? (fun m => m.«end» == o.begin) with
      | none => exact le_rfl
      | some L =>
        have hLe : L.«end» = o.begin := by simpa using List.find?_some hf
        simp only [Option.map_some', Option.getD_some]
        unfold LargeObject.«end» at hLe
        omega
    have hstop : ((map.find? (fun m => m.begin == o.«end»)).map LargeObject.«end»).getD o.«end»
        < m.begin ∧
        o.«end» ≤ ((map.find? (fun m => m.begin == o.«end»)).map LargeObject.«end»).getD o.«end» := by
      cases hf : map.find? (fun m => m.begin == o.«end») with
      | none => exact ⟨hlt, le_rfl⟩
      | some R =>
        have hR := List.mem_of_find?_eq_some hf
        have hRb : R.begin = o.«end» := by simpa using List.find?_some hf
        have hne : m ≠ R := by
          rintro rfl
          omega
        have := hall hm hR hne
        unfold LargeObject.apart at this
        simp only [Option.map_some', Option.getD_some]
        have hmb : m.begin ≤ m.«end» := by unfold LargeObject.«end»; omega
        have hRe : R.begin ≤ R.«end» := by unfold LargeObject.«end»; omega
        omega
    have hob : o.begin ≤ o.«end» := by unfold LargeObject.«end»; omega
    show (mergeNeighbours map o).1.begin + (mergeNeighbours map o).1.size < m.begin
    have hsize : (mergeNeighbours map o).1.size
        = ((map.find? (fun m => m.begin == o.«end»)).map LargeObject.«end»).getD o.«end»
          - (mergeNeighbours map o).1.begin := rfl
    rw [hsize]
    omega
  refine ⟨?_, fun m hm => (List.mem_filter.1 hm).1⟩
  rw [List.pairwise_append]
  refine ⟨hinv.filter _, List.pairwise_singleton _ _, ?_⟩
  intro m hm x hx
  rw [List.mem_singleton] at hx
  subst hx
  obtain ⟨hmem, hcond⟩ := List.mem_filter.1 hm
  simp only [Bool.and_eq_true, Bool.not_eq_true', beq_eq_false_iff_ne, ne_eq] at hcond
  have hd := hdis m hmem
  unfold LargeObject.disjoint at hd
  rcases hd with hd | hd
  · left
    exact hbegin m hmem (by omega) hcond.1
  · right
    exact hend m hmem (by have := hcond.2; omega)

theorem mergeAndInsert_coalesced (E : LargeEnv) (h : Heap) (x : LargeObject)
    (hmerge : E.merge h x = mergeNeighbours h.m_largeObjects x)
    (hinv : h.largeCoalesced) (hdis : ∀ m ∈ h.m_largeObjects, m.disjoint x) :
    (h.mergeAndInsert E x).largeCoalesced := by
  show ((E.merge h x).2 ++ [(E.merge h x).1]).Pairwise LargeObject.apart
  rw [hmerge]
  exact (mergeNeighbours_coalesced h.m_largeObjects x hinv hdis).1

theorem mergeAndInsert_alone (E : LargeEnv) (h : Heap) (x : LargeObject)
    (hmerge : E.merge h x = mergeNeighbours h.m_largeObjects x)
    (hap : ∀ m ∈ h.m_largeObjects, m.apart x) :
    (h.mergeAndInsert E x).m_largeObjects
      = h.m_largeObjects ++ [⟨x.begin, x.size, true, x.vmState⟩] := by
  show (E.merge h x).2 ++ [(E.merge h x).1] = _
  rw [hmerge, mergeNeighbours_alone h.m_largeObjects x hap]

/-- `deallocateLarge` of an object that overlaps no member of the free map
keeps the free map coalesced. -/
theorem deallocateLarge_coalesced (E : LargeEnv) (h : Heap) (o : LargeObject)
    (hmerge : ∀ h o, E.merge h o = mergeNeighbours h.m_largeObjects o)
    (hinv : h.largeCoalesced) (hdis : ∀ m ∈ h.m_largeObjects, m.disjoint o) :
    (deallocateLarge E h o).largeCoalesced :=
  mergeAndInsert_coalesced E h (o.setFree true) (hmerge h _) hinv hdis

/-- `shrinkLarge` of an object that overlaps no member of the free map keeps
the free map coalesced. -/
theorem shrinkLarge_coalesced (E : LargeEnv) (h : Heap) (o : LargeObject) (newSize : Nat)
    (hmerge : ∀ h o, E.merge h o = mergeNeighbours h.m_largeObjects o)
    (hinv : h.largeCoalesced) (hdis : ∀ m ∈ h.m_largeObjects, m.disjoint o)
    (hle : newSize ≤ o.size) (hspace : o.«end» < wordSize) :
    (shrinkLarge E h o newSize).largeCoalesced := by
  apply deallocateLarge_coalesced E h _ hmerge hinv
  intro m hm
  have hd := hdis m hm
  unfold LargeObject.«end» at hspace
  have hsub : wsub o.size newSize = o.size - newSize := wsub_eq_sub (by omega) hle
  have hadd : wadd o.begin newSize = o.begin + newSize := by
    unfold wadd
    exact Nat.mod_eq_of_lt (by omega)
  unfold LargeObject.disjoint LargeObject.«end» at hd ⊢
  simp only [LargeObject.split, hsub, hadd]
  omega

/-- `scavengeSmallPage` keeps the free map coalesced when the page it hands
back overlaps no member of the free map. -/
theorem scavengeSmallPage_coalesced (S : Sizes) (E : LargeEnv) (h : Heap)
    (hmerge : ∀ h o, E.merge h o = mergeNeighbours h.m_largeObjects o)
    (hinv : h.largeCoalesced)
    (hdis : ∀ m ∈ h.m_largeObjects, m.disjoint (scavengedObject S E h)) :
    (scavengeSmallPage S E h).largeCoalesced := by
  rw [scavengeSmallPage_eq]
  have hmap := scavengedHeap_largeObjects S h
  apply deallocateLarge_coalesced E _ _ hmerge
  · unfold Heap.largeCoalesced
    rw [hmap]
    exact hinv
  · rw [hmap]
    exact hdis

/-- The loop of `scavengeSmallPages` keeps the free map coalesced when each
page it hands back overlaps no member of the free map at that point. -/
theorem scavengeSmallPagesLoop_coalesced (S : Sizes) (E : LargeEnv) (fuel : Nat) (h : Heap)
    (hmerge : ∀ h o, E.merge h o = mergeNeighbours h.m_largeObjects o)
    (hinv : h.largeCoalesced)
    (hsafe : ∀ k, k < fuel → ∀ m ∈ (scavengeSmallPagesLoop S E k h).m_largeObjects,
      m.disjoint (scavengedObject S E (scavengeSmallPagesLoop S E k h))) :
    (scavengeSmallPagesLoop S E fuel h).largeCoalesced := by
  induction fuel generalizing h with
  | zero => exact hinv
  | succ fuel ih =>
    simp only [scavengeSmallPagesLoop]
    by_cases hempty : h.m_smallPages.isEmpty = true
    · rw [if_pos hempty]; exact hinv
    · rw [if_neg hempty]
      apply ih (scavengeSmallPage S E h)
        (scavengeSmallPage_coalesced S E h hmerge hinv (hsafe 0 (by omega)))
      intro k hk
      have := hsafe (k + 1) (by omega)
      simp only [scavengeSmallPagesLoop, if_neg hempty] at this
      exact this

theorem apart_disjoint {a b : LargeObject} (h : a.apart b) : a.disjoint b := by
  unfold LargeObject.apart at h
  unfold LargeObject.disjoint
  omega

/-- A piece of an object is apart from whatever the object is apart from. -/
theorem apart_piece {m o x : LargeObject} (h : m.apart o) (hb : o.begin ≤ x.begin)
    (he : x.«end» ≤ o.«end») : m.apart x := by
  unfold LargeObject.apart at h ⊢
  omega

/-- The reinsertion of the head and of the tail that the aligned split leaves,
each merged with its neighbours, keeps the free map coalesced when both are
apart from every member and the head ends before the tail begins. -/
theorem insert_two_coalesced (E : LargeEnv) (h : Heap) (prev next : LargeObject)
    (hmerge : ∀ h o, E.merge h o = mergeNeighbours h.m_largeObjects o)
    (hinv : h.largeCoalesced)
    (hprev : prev.toBool = true → ∀ m ∈ h.m_largeObjects, m.apart prev)
    (hnext : next.toBool = true → ∀ m ∈ h.m_largeObjects, m.apart next)
    (hord : prev.toBool = true → next.toBool = true → prev.«end» ≤ next.begin) :
    (if next.toBool then
        (if prev.toBool then h.mergeAndInsert E prev else h).mergeAndInsert E next
      else (if prev.toBool then h.mergeAndInsert E prev else h)).largeCoalesced := by
  have h2inv : (if prev.toBool then h.mergeAndInsert E prev else h).largeCoalesced := by
    by_cases hp : prev.toBool = true
    · rw [if_pos hp]
      exact mergeAndInsert_coalesced E h prev (hmerge h prev) hinv
        (fun m hm => apart_disjoint (hprev hp m hm))
    · rw [if_neg hp]; exact hinv
  by_cases hn : next.toBool = true
  · rw [if_pos hn]
    apply mergeAndInsert_coalesced E _ next (hmerge _ next) h2inv
    intro m hm
    by_cases hp : prev.toBool = true
    · rw [if_pos hp, mergeAndInsert_alone E h prev (hmerge h prev) (hprev hp),
        List.mem_append, List.mem_singleton] at hm
      rcases hm with hm | hm
      · exact apart_disjoint (hnext hn m hm)
      · subst hm
        have := hord hp hn
        unfold LargeObject.disjoint
        left
        exact this
    · rw [if_neg hp] at hm
      exact apart_disjoint (hnext hn m hm)
  · rw [if_neg hn]; exact h2inv

/-- The split without alignment keeps the free map coalesced: the tail it
reinserts without merging lies inside the object, which is apart from every
member. -/
theorem splitAndAllocate_coalesced (S : Sizes) (h : Heap) (o : LargeObject) (size : Nat)
    (hinv : h.largeCoalesced) (hap : ∀ m ∈ h.m_largeObjects, m.apart o)
    (hle : size ≤ o.size) (hspace : o.«end» < wordSize) :
    (splitAndAllocate S h o size).2.largeCoalesced := by
  have hspace' := hspace
  unfold LargeObject.«end» at hspace'
  have hsub : wsub o.size size = o.size - size := wsub_eq_sub (by omega) hle
  have hadd : wadd o.begin size = o.begin + size := by
    unfold wadd
    exact Nat.mod_eq_of_lt (by omega)
  unfold splitAndAllocate
  simp only [hsub]
  by_cases hge : o.size - size ≥ S.largeMin
  · rw [if_pos hge]
    simp only [LargeObject.split, hadd, hsub]
    split_ifs
    · show (h.m_largeObjects ++ [_]).Pairwise LargeObject.apart
      rw [List.pairwise_append]
      refine ⟨hinv, List.pairwise_singleton _ _, ?_⟩
      intro m hm x hx
      rw [List.mem_singleton] at hx
      subst hx
      exact apart_piece (hap m hm) (by show o.begin ≤ o.begin + size; omega)
        (by unfold LargeObject.«end»; show o.begin + size + (o.size - size) ≤ _; omega)
    · exact hinv
  · rw [if_neg hge]
    rw [if_neg (by simp [LargeObject.toBool, LargeObject.null])]
    exact hinv

/-- The head and the tail that the aligned split leaves lie inside the object,
the head before the tail, when the prefix and the size fit the object. -/
theorem aligned_pieces (S : Sizes) (o : LargeObject) (alignment size : Nat)
    (hspace : o.«end» < wordSize)
    (hfit : test o.begin (wsub alignment 1) = true →
      wsub (roundUpToMultipleOf alignment (wadd o.begin S.largeMin)) o.begin + size ≤ o.size)
    (hle : size ≤ o.size) (prev rest next : LargeObject)
    (hpair₁ : (prev, rest) = if test o.begin (wsub alignment 1) then
        o.split (wsub (roundUpToMultipleOf alignment (wadd o.begin S.largeMin)) o.begin)
      else (LargeObject.null, o))
    (hnext : next = (if wsub rest.size size ≥ S.largeMin then rest.split size
      else (rest, LargeObject.null)).2) :
    (prev.toBool = true → o.begin ≤ prev.begin ∧ prev.«end» ≤ o.«end») ∧
    (next.toBool = true → o.begin ≤ next.begin ∧ next.«end» ≤ o.«end») ∧
    (prev.toBool = true → next.toBool = true → prev.«end» ≤ next.begin) := by
  have hspace' := hspace
  unfold LargeObject.«end» at hspace'
  by_cases ht : test o.begin (wsub alignment 1) = true
  · have hp := hfit ht
    rw [if_pos ht] at hpair₁
    generalize wsub (roundUpToMultipleOf alignment (wadd o.begin S.largeMin)) o.begin = p
      at hp hpair₁
    have hsub : wsub o.size p = o.size - p := wsub_eq_sub (by omega) (by omega)
    have hadd : wadd o.begin p = o.begin + p := by
      unfold wadd
      exact Nat.mod_eq_of_lt (by omega)
    simp only [LargeObject.split, hsub, hadd, Prod.mk.injEq] at hpair₁
    obtain ⟨rfl, rfl⟩ := hpair₁
    have hsub₂ : wsub (o.size - p) size = o.size - p - size := wsub_eq_sub (by omega) (by omega)
    have hadd₂ : wadd (o.begin + p) size = o.begin + p + size := by
      unfold wadd
      exact Nat.mod_eq_of_lt (by omega)
    simp only [hsub₂] at hnext
    by_cases hge : o.size - p - size ≥ S.largeMin
    · rw [if_pos hge] at hnext
      simp only [LargeObject.split, hsub₂, hadd₂] at hnext
      subst hnext
      unfold LargeObject.«end»
      simp only
      refine ⟨fun _ => ⟨le_rfl, by omega⟩, fun _ => ⟨by omega, by omega⟩, fun _ _ => by omega⟩
    · rw [if_neg hge] at hnext
      subst hnext
      unfold LargeObject.«end»
      simp only
      refine ⟨fun _ => ⟨le_rfl, by omega⟩, fun hn => ?_, fun _ hn => ?_⟩ <;>
        simp [LargeObject.toBool, LargeObject.null] at hn
  · rw [if_neg ht] at hpair₁
    simp only [Prod.mk.injEq] at hpair₁
    obtain ⟨rfl, rfl⟩ := hpair₁
    have hsub₂ : wsub rest.size size = rest.size - size := wsub_eq_sub (by omega) hle
    have hadd₂ : wadd rest.begin size = rest.begin + size := by
      unfold wadd
      exact Nat.mod_eq_of_lt (by omega)
    simp only [hsub₂] at hnext
    refine ⟨fun hp => by simp [LargeObject.toBool, LargeObject.null] at hp, ?_,
      fun hp => by simp [LargeObject.toBool, LargeObject.null] at hp⟩
    by_cases hge : rest.size - size ≥ S.largeMin
    · rw [if_pos hge] at hnext
      simp only [LargeObject.split, hsub₂, hadd₂] at hnext
      subst hnext
      unfold LargeObject.«end»
      simp only
      exact fun _ => ⟨by omega, by omega⟩
    · rw [if_neg hge] at hnext
      subst hnext
      intro hn
      simp [LargeObject.toBool, LargeObject.null] at hn

/-- The aligned split keeps the free map coalesced: the head and the tail it
reinserts are merged with their neighbours and lie inside the object, which is
apart from every member. -/
theorem splitAndAllocateAligned_coalesced (S : Sizes) (E : LargeEnv) (h : Heap)
    (o : LargeObject) (alignment size : Nat)
    (hmerge : ∀ h o, E.merge h o = mergeNeighbours h.m_largeObjects o)
    (hinv : h.largeCoalesced) (hap : ∀ m ∈ h.m_largeObjects, m.apart o)
    (hspace : o.«end» < wordSize)
    (hfit : test o.begin (wsub alignment 1) = true →
      wsub (roundUpToMultipleOf alignment (wadd o.begin S.largeMin)) o.begin + size ≤ o.size)
    (hle : size ≤ o.size) :
    (splitAndAllocateAligned S E h o alignment size).2.largeCoalesced := by
  unfold splitAndAllocateAligned
  lift_lets
  intro alignmentMask prefixSize pair₁ prev rest pair₂ allocated next allocated' h₁ h₂ h₃
  obtain ⟨hp, hn, hord⟩ := aligned_pieces S o alignment size hspace hfit hle prev rest next
    rfl rfl
  exact insert_two_coalesced E h₁ prev next hmerge hinv
    (fun hpb m hm => apart_piece (hap m hm) (hp hpb).1 (hp hpb).2)
    (fun hnb m hm => apart_piece (hap m hm) (hn hnb).1 (hn hnb).2) hord

/-- What is left of a coalesced free map once a member is taken out is
coalesced, and apart from the member. -/
theorem take_apart (map l₁ l₂ : List LargeObject) (o : LargeObject)
    (hinv : map.Pairwise LargeObject.apart) (hmap : map = l₁ ++ o :: l₂) :
    (l₁ ++ l₂).Pairwise LargeObject.apart ∧ ∀ m ∈ l₁ ++ l₂, m.apart o := by
  subst hmap
  rw [List.pairwise_append, List.pairwise_cons] at hinv
  obtain ⟨h1, ⟨ho, h2⟩, h12⟩ := hinv
  constructor
  · rw [List.pairwise_append]
    exact ⟨h1, h2, fun a ha b hb => h12 a ha b (List.mem_cons_of_mem _ hb)⟩
  · intro m hm
    rw [List.mem_append] at hm
    rcases hm with hm | hm
    · exact h12 m hm o (List.mem_cons_self _ _)
    · exact apart_symm (ho m hm)

/-- The object a large allocation obtains, from the free map or else from the
VM heap, is apart from every member of the free map that is left, which is
coalesced. -/
theorem obtained_apart (h₁ : Heap) (t : LargeObject × List LargeObject)
    (fresh o : LargeObject) (hinv : h₁.largeCoalesced)
    (ho : o = if t.1.toBool then t.1 else fresh)
    (htake : t.1.toBool = true →
      ∃ l₁ l₂, h₁.m_largeObjects = l₁ ++ t.1 :: l₂ ∧ t.2 = l₁ ++ l₂)
    (hfresh : t.1.toBool = false →
      t.2 = h₁.m_largeObjects ∧ ∀ m ∈ h₁.m_largeObjects, m.apart o) :
    t.2.Pairwise LargeObject.apart ∧ ∀ m ∈ t.2, m.apart o := by
  by_cases ht : t.1.toBool = true
  · obtain ⟨l₁, l₂, hmap, hrest⟩ := htake ht
    rw [if_pos ht] at ho
    rw [hrest, ho]
    exact take_apart h₁.m_largeObjects l₁ l₂ t.1 hinv hmap
  · have ht' : t.1.toBool = false := by simpa using ht
    obtain ⟨hrest, hap⟩ := hfresh ht'
    rw [hrest]
    exact ⟨hinv, hap⟩

theorem scavenged_coalesced (S : Sizes) (E : LargeEnv) (h : Heap) (size : Nat)
    (hmerge : ∀ h o, E.merge h o = mergeNeighbours h.m_largeObjects o)
    (hinv : h.largeCoalesced)
    (hsafe : size ≤ h.m_vmPageSizePhysical → ∀ k, k < h.m_smallPages.length →
      ∀ m ∈ (scavengeSmallPagesLoop S E k h).m_largeObjects,
        m.disjoint (scavengedObject S E (scavengeSmallPagesLoop S E k h))) :
    (if size ≤ h.m_vmPageSizePhysical then scavengeSmallPages S E h else h).largeCoalesced := by
  split_ifs with hs
  · exact scavengeSmallPagesLoop_coalesced S E _ h hmerge hinv (hsafe hs)
  · exact hinv

/-- `allocateLarge(size)` keeps the free map coalesced. -/
theorem allocateLarge_coalesced (S : Sizes) (E : LargeEnv) (h : Heap) (size : Nat)
    (h₁ : Heap) (o₁ : LargeObject)
    (hmerge : ∀ h o, E.merge h o = mergeNeighbours h.m_largeObjects o)
    (hinv : h.largeCoalesced)
    (hsafe : size ≤ h.m_vmPageSizePhysical → ∀ k, k < h.m_smallPages.length →
      ∀ m ∈ (scavengeSmallPagesLoop S E k h).m_largeObjects,
        m.disjoint (scavengedObject S E (scavengeSmallPagesLoop S E k h)))
    (hh₁ : h₁ = if size ≤ h.m_vmPageSizePhysical then scavengeSmallPages S E h else h)
    (ho₁ : o₁ = if (E.takeSize h₁ size).1.toBool then (E.takeSize h₁ size).1
      else E.allocateLargeObjectSize { h₁ with m_largeObjects := (E.takeSize h₁ size).2 } size)
    (htake : (E.takeSize h₁ size).1.toBool = true →
      ∃ l₁ l₂, h₁.m_largeObjects = l₁ ++ (E.takeSize h₁ size).1 :: l₂ ∧
        (E.takeSize h₁ size).2 = l₁ ++ l₂)
    (hfresh : (E.takeSize h₁ size).1.toBool = false →
      (E.takeSize h₁ size).2 = h₁.m_largeObjects ∧ ∀ m ∈ h₁.m_largeObjects, m.apart o₁)
    (hle : size ≤ o₁.size) (hspace : o₁.«end» < wordSize) :
    (allocateLarge S E h size).2.largeCoalesced := by
  have hinv₁ : h₁.largeCoalesced := by
    rw [hh₁]; exact scavenged_coalesced S E h size hmerge hinv hsafe
  obtain ⟨hrest, hap⟩ := obtained_apart h₁ (E.takeSize h₁ size) _ o₁ hinv₁ ho₁ htake hfresh
  subst hh₁ ho₁
  unfold allocateLarge
  lift_lets
  intro h₁ taken o map o' committed r
  show (splitAndAllocate S committed.2 committed.1 size).2.largeCoalesced
  by_cases hv : o'.vmState.hasVirtual = true
  · have hc : committed = (o'.setVMState .Physical,
        { map with m_isAllocatingPages := true,
                   commitCalls := map.commitCalls ++ [(o'.begin, o'.size)] }) := if_pos hv
    rw [hc]
    exact splitAndAllocate_coalesced S _ _ size hrest hap hle hspace
  · have hc : committed = (o', map) := if_neg hv
    rw [hc]
    exact splitAndAllocate_coalesced S _ _ size hrest hap hle hspace

/-- `allocateLarge(alignment, size, unalignedSize)` keeps the free map
coalesced. -/
theorem allocateLargeAligned_coalesced (S : Sizes) (E : LargeEnv) (h : Heap)
    (alignment size unalignedSize : Nat) (h₂ : Heap) (o₂ : LargeObject)
    (hmerge : ∀ h o, E.merge h o = mergeNeighbours h.m_largeObjects o)
    (hinv : h.largeCoalesced)
    (hsafe : size ≤ h.m_vmPageSizePhysical → ∀ k, k < h.m_smallPages.length →
      ∀ m ∈ (scavengeSmallPagesLoop S E k h).m_largeObjects,
        m.disjoint (scavengedObject S E (scavengeSmallPagesLoop S E k h)))
    (hh₂ : h₂ = if size ≤ h.m_vmPageSizePhysical then scavengeSmallPages S E h else h)
    (ho₂ : o₂ = if (E.take h₂ alignment size unalignedSize).1.toBool
      then (E.take h₂ alignment size unalignedSize).1
      else E.allocateLargeObject
        { h₂ with m_largeObjects := (E.take h₂ alignment size unalignedSize).2 }
        alignment size unalignedSize)
    (htake : (E.take h₂ alignment size unalignedSize).1.toBool = true →
      ∃ l₁ l₂, h₂.m_largeObjects = l₁ ++ (E.take h₂ alignment size unalignedSize).1 :: l₂ ∧
        (E.take h₂ alignment size unalignedSize).2 = l₁ ++ l₂)
    (hfresh : (E.take h₂ alignment size unalignedSize).1.toBool = false →
      (E.take h₂ alignment size unalignedSize).2 = h₂.m_largeObjects ∧
      ∀ m ∈ h₂.m_largeObjects, m.apart o₂)
    (hspace : o₂.«end» < wordSize)
    (hfit : test o₂.begin (wsub alignment 1) = true →
      wsub (roundUpToMultipleOf alignment (wadd o₂.begin S.largeMin)) o₂.begin + size
        ≤ o₂.size)
    (hle : size ≤ o₂.size) :
    (allocateLargeAligned S E h alignment size unalignedSize).2.largeCoalesced := by
  have hinv₂ : h₂.largeCoalesced := by
    rw [hh₂]; exact scavenged_coalesced S E h size hmerge hinv hsafe
  obtain ⟨hrest, hap⟩ := obtained_apart h₂ (E.take h₂ alignment size unalignedSize) _ o₂
    hinv₂ ho₂ htake hfresh
  subst hh₂ ho₂
  unfold allocateLargeAligned
  lift_lets
  intro h₂ taken o map o' committed r
  show (splitAndAllocateAligned S E committed.2 committed.1 alignment size).2.largeCoalesced
  by_cases hv : o'.vmState.hasVirtual = true
  · have hc : committed = (o'.setVMState .Physical,
        { map with m_isAllocatingPages := true,
                   commitCalls := map.commitCalls ++ [(o'.begin, o'.size)] }) := if_pos hv
    rw [hc]
    exact splitAndAllocateAligned_coalesced S E _ _ alignment size hmerge hrest hap hspace
      hfit hle
  · have hc : committed = (o', map) := if_neg hv
    rw [hc]
    exact splitAndAllocateAligned_coalesced S E _ _ alignment size hmerge hrest hap hspace
      hfit hle

/-- In a coalesced free map no two members share a boundary. -/
theorem largeCoalesced_boundary (h : Heap) (hinv : h.largeCoalesced) (a b : LargeObject)
    (ha : a ∈ h.m_largeObjects) (hb : b ∈ h.m_largeObjects) (hab : a ≠ b) :
    a.«end» ≠ b.begin := by
  have := hinv.forall (fun _ _ h => apart_symm h) ha hb hab
  unfold LargeObject.apart at this
  have hbe : b.begin ≤ b.«end» := by unfold LargeObject.«end»; omega
  have hae : a.begin ≤ a.«end» := by unfold LargeObject.«end»; omega
  omega

/-- C12: the predicate that no two members of the large free map overlap or
share a boundary is kept by both variants of `allocateLarge`, by
`deallocateLarge`, by `shrinkLarge` and by `scavengeSmallPage`, for a
`LargeObject::merge()` that coalesces an object with its free neighbours.  The
free map hands out one of its members, or nothing; an object fresh from the VM
heap is apart from every member; the object obtained holds the request; and an
object or page handed back overlaps no member.  The tail that the split without
alignment reinserts without merging touches no member.  In a free map that
satisfies the predicate no two members share a boundary. -/
theorem largeCoalesced_preserved (S : Sizes) (E : LargeEnv) (h : Heap)
    (alignment size unalignedSize newSize : Nat) (h₁ : Heap) (o₁ o₂ o : LargeObject)
    (hmerge : ∀ h o, E.merge h o = mergeNeighbours h.m_largeObjects o)
    (hinv : h.largeCoalesced)
    (hsafe : size ≤ h.m_vmPageSizePhysical → ∀ k, k < h.m_smallPages.length →
      ∀ m ∈ (scavengeSmallPagesLoop S E k h).m_largeObjects,
        m.disjoint (scavengedObject S E (scavengeSmallPagesLoop S E k h)))
    (hh₁ : h₁ = if size ≤ h.m_vmPageSizePhysical then scavengeSmallPages S E h else h)
    (ho₁ : o₁ = if (E.takeSize h₁ size).1.toBool then (E.takeSize h₁ size).1
      else E.allocateLargeObjectSize { h₁ with m_largeObjects := (E.takeSize h₁ size).2 } size)
    (htake₁ : (E.takeSize h₁ size).1.toBool = true →
      ∃ l₁ l₂, h₁.m_largeObjects = l₁ ++ (E.takeSize h₁ size).1 :: l₂ ∧
        (E.takeSize h₁ size).2 = l₁ ++ l₂)
    (hfresh₁ : (E.takeSize h₁ size).1.toBool = false →
      (E.takeSize h₁ size).2 = h₁.m_largeObjects ∧ ∀ m ∈ h₁.m_largeObjects, m.apart o₁)
    (hle₁ : size ≤ o₁.size) (hspace₁ : o₁.«end» < wordSize)
    (ho₂ : o₂ = if (E.take h₁ alignment size unalignedSize).1.toBool
      then (E.take h₁ alignment size unalignedSize).1
      else E.allocateLargeObject
        { h₁ with m_largeObjects := (E.take h₁ alignment size unalignedSize).2 }
        alignment size unalignedSize)
    (htake₂ : (E.take h₁ alignment size unalignedSize).1.toBool = true →
      ∃ l₁ l₂, h₁.m_largeObjects = l₁ ++ (E.take h₁ alignment size unalignedSize).1 :: l₂ ∧
        (E.take h₁ alignment size unalignedSize).2 = l₁ ++ l₂)
    (hfresh₂ : (E.take h₁ alignment size unalignedSize).1.toBool = false →
      (E.take h₁ alignment size unalignedSize).2 = h₁.m_largeObjects ∧
      ∀ m ∈ h₁.m_largeObjects, m.apart o₂)
    (hspace₂ : o₂.«end» < wordSize)
    (hfit₂ : test o₂.begin (wsub alignment 1) = true →
      wsub (roundUpToMultipleOf alignment (wadd o₂.begin S.largeMin)) o₂.begin + size
        ≤ o₂.size)
    (hle₂ : size ≤ o₂.size)
    (hdis : ∀ m ∈ h.m_largeObjects, m.disjoint o)
    (hnew : newSize ≤ o.size) (hspace : o.«end» < wordSize)
    (hpage : ∀ m ∈ h.m_largeObjects, m.disjoint (scavengedObject S E h)) :
    (allocateLarge S E h size).2.largeCoalesced ∧
    (allocateLargeAligned S E h alignment size unalignedSize).2.largeCoalesced ∧
    (deallocateLarge E h o).largeCoalesced ∧
    (shrinkLarge E h o newSize).largeCoalesced ∧
    (scavengeSmallPage S E h).largeCoalesced ∧
    ∀ h' : Heap, h'.largeCoalesced → ∀ a ∈ h'.m_largeObjects, ∀ b ∈ h'.m_largeObjects,
      a ≠ b → a.«end» ≠ b.begin :=
  ⟨allocateLarge_coalesced S E h size h₁ o₁ hmerge hinv hsafe hh₁ ho₁ htake₁ hfresh₁ hle₁
      hspace₁,
    allocateLargeAligned_coalesced S E h alignment size unalignedSize h₁ o₂ hmerge hinv hsafe
      hh₁ ho₂ htake₂ hfresh₂ hspace₂ hfit₂ hle₂,
    deallocateLarge_coalesced E h o hmerge hinv hdis,
    shrinkLarge_coalesced E h o newSize hmerge hinv hdis hnew hspace,
    scavengeSmallPage_coalesced S E h hmerge hinv hpage,
    fun h' hinv' a ha b hb hab => largeCoalesced_boundary h' hinv' a b ha hb hab⟩

/-- C12 at a concrete input: on `exampleFreeHeap`, allocations of one page
(which scavenge the page at 16 MiB first and then take the member at
`6 * chunkSize`), and the release and the shrinking of the object that begins
where that member ends. -/
theorem largeCoalesced_preserved_witness :
    (allocateLarge exampleSizes exampleMergeEnv exampleFreeHeap 4096).2.largeCoalesced ∧
    (allocateLargeAligned exampleSizes exampleMergeEnv exampleFreeHeap 4096 4096
      9152).2.largeCoalesced ∧
    (deallocateLarge exampleMergeEnv exampleFreeHeap
      ⟨3 * 2 ^ 22 + 2 ^ 20, 4096, false, .Physical⟩).largeCoalesced ∧
    (shrinkLarge exampleMergeEnv exampleFreeHeap
      ⟨3 * 2 ^ 22 + 2 ^ 20, 4096, false, .Physical⟩ 1024).largeCoalesced ∧
    (scavengeSmallPage exampleSizes exampleMergeEnv exampleFreeHeap).largeCoalesced := by
  obtain ⟨h1, h2, h3, h4, h5, -⟩ :=
    largeCoalesced_preserved exampleSizes exampleMergeEnv exampleFreeHeap 4096 4096 9152 1024
      _ _ _ ⟨3 * 2 ^ 22 + 2 ^ 20, 4096, false, .Physical⟩
      (fun _ _ => rfl) (by decide)
      (by
        intro _ k hk
        have hk0 : k = 0 := by
          have : k < 1 := hk
          omega
        subst hk0
        decide)
      rfl rfl
      (fun _ => ⟨[], [⟨5 * 2 ^ 22, 2 ^ 20, true, .Physical⟩,
        ⟨2 ^ 24, 4096, true, .Physical⟩], by decide, by decide⟩)
      (fun hf => absurd hf (by decide)) (by decide) (by decide)
      rfl
      (fun _ => ⟨[], [⟨5 * 2 ^ 22, 2 ^ 20, true, .Physical⟩,
        ⟨2 ^ 24, 4096, true, .Physical⟩], by decide, by decide⟩)
      (fun hf => absurd hf (by decide)) (by decide)
      (fun ht => absurd ht (by decide)) (by decide)
      (by decide) (by decide) (by decide) (by decide)
  exact ⟨h1, h2, h3, h4, h5⟩

/-- The release of the object that begins where the first member of the free
map of `exampleFreeHeap` ends: the two are coalesced into one member. -/
theorem deallocateLarge_coalesces_example :
    (deallocateLarge exampleMergeEnv exampleFreeHeap
      ⟨3 * 2 ^ 22 + 2 ^ 20, 4096, false, .Physical⟩).m_largeObjects
      = [⟨5 * 2 ^ 22, 2 ^ 20, true, .Physical⟩,
          ⟨3 * 2 ^ 22, 2 ^ 20 + 4096, true, .Physical⟩] := by
  decide

/-! ## C21 -/

/-- The split without alignment takes one reference on the line in which the
allocated object begins and touches no other line. -/
theorem splitAndAllocate_lines (S : Sizes) (h : Heap) (o : LargeObject) (size : Nat) :
    (splitAndAllocate S h o size).2.lines
      = Function.update h.lines (Heap.lineOf S (splitAndAllocate S h o size).1.begin)
          (h.lines (Heap.lineOf S (splitAndAllocate S h o size).1.begin) + 1) := by
  simp only [splitAndAllocate]
  split_ifs <;> rfl

theorem splitAndAllocate_isFree (S : Sizes) (h : Heap) (o : LargeObject) (size : Nat) :
    (splitAndAllocate S h o size).1.isFree = false := by
  simp only [splitAndAllocate]
  split_ifs <;> rfl

theorem splitAndAllocateAligned_isFree (S : Sizes) (E : LargeEnv) (h : Heap)
    (o : LargeObject) (alignment size : Nat) :
    (splitAndAllocateAligned S E h o alignment size).1.isFree = false := by
  simp only [splitAndAllocateAligned]
  split_ifs <;> rfl

/-- C21: in both variants of the large `Heap::splitAndAllocate` the object
returned is marked non-free, the reference count of the line that holds its
begin address is one more than before the call, and the reference count of
every other line is what it was. -/
theorem splitAndAllocate_line_ref (S : Sizes) (E : LargeEnv) (h : Heap) (o : LargeObject)
    (alignment size : Nat) :
    ((splitAndAllocate S h o size).1.isFree = false ∧
      (splitAndAllocate S h o size).2.lines (Heap.lineOf S (splitAndAllocate S h o size).1.begin)
        = h.lines (Heap.lineOf S (splitAndAllocate S h o size).1.begin) + 1 ∧
      ∀ line, line ≠ Heap.lineOf S (splitAndAllocate S h o size).1.begin →
        (splitAndAllocate S h o size).2.lines line = h.lines line) ∧
    ((splitAndAllocateAligned S E h o alignment size).1.isFree = false ∧
      (splitAndAllocateAligned S E h o alignment size).2.lines
          (Heap.lineOf S (splitAndAllocateAligned S E h o alignment size).1.begin)
        = h.lines (Heap.lineOf S (splitAndAllocateAligned S E h o alignment size).1.begin) + 1 ∧
      ∀ line, line ≠ Heap.lineOf S (splitAndAllocateAligned S E h o alignment size).1.begin →
        (splitAndAllocateAligned S E h o alignment size).2.lines line = h.lines line) := by
  refine ⟨⟨splitAndAllocate_isFree S h o size, ?_, ?_⟩,
    ⟨splitAndAllocateAligned_isFree S E h o alignment size, ?_, ?_⟩⟩
  · rw [splitAndAllocate_lines, Function.update_same]
  · intro line hne
    rw [splitAndAllocate_lines, Function.update_noteq hne]
  · rw [splitAndAllocateAligned_lines, Function.update_same]
  · intro line hne
    rw [splitAndAllocateAligned_lines, Function.update_noteq hne]

/-! ## C22: the pieces of the extra-large split -/

theorem roundUpToMultipleOf_lt_add {d x : Nat} (hd : 0 < d) (hx : x + (d - 1) < wordSize) :
    roundUpToMultipleOf d x < x + d := by
  unfold roundUpToMultipleOf
  rw [Nat.mod_eq_of_lt hx]
  have h1 := Nat.div_mul_le_self (x + (d - 1)) d
  omega

/-- Rounding up gives the least multiple that is not below the argument. -/
theorem roundUpToMultipleOf_le_of_dvd {d x y : Nat} (hd : 0 < d)
    (hx : x + (d - 1) < wordSize) (hy : d ∣ y) (hxy : x ≤ y) :
    roundUpToMultipleOf d x ≤ y := by
  unfold roundUpToMultipleOf
  rw [Nat.mod_eq_of_lt hx]
  obtain ⟨q, rfl⟩ := hy
  have h1 : (x + (d - 1)) / d ≤ q := by
    apply Nat.le_of_lt_succ
    apply Nat.div_lt_of_lt_mul
    have : d * q + d = d * (q + 1) := by ring
    rw [← this]
    omega
  calc (x + (d - 1)) / d * d ≤ q * d := Nat.mul_le_mul_right d h1
    _ = d * q := Nat.mul_comm _ _

/-- An address below the top of the address space that is a multiple of a power
of two leaves room for that power of two. -/
theorem aligned_add_le_wordSize {m a : Nat} (hm : m < 64) (ha : a % 2 ^ m = 0)
    (haw : a < wordSize) : a + 2 ^ m ≤ wordSize := by
  have hw : wordSize = 2 ^ m * 2 ^ (64 - m) := by
    unfold wordSize
    rw [← pow_add]
    congr 1
    omega
  obtain ⟨q, rfl⟩ := Nat.dvd_of_mod_eq_zero ha
  rw [hw] at haw ⊢
  have hq : q < 2 ^ (64 - m) := Nat.lt_of_mul_lt_mul_left haw
  have : 2 ^ m * q + 2 ^ m = 2 ^ m * (q + 1) := by ring
  rw [this]
  exact Nat.mul_le_mul_left _ hq

theorem test_two_pow_true {m x : Nat} (hm : m < 64) (h : test x (wsub (2 ^ m) 1) = true) :
    x % 2 ^ m ≠ 0 := by
  rw [wsub_one_two_pow hm] at h
  unfold test at h
  simpa [Nat.and_pow_two_sub_one_eq_mod] using h

theorem wadd_eq_add {a b : Nat} (h : a + b < wordSize) : wadd a b = a + b := by
  unfold wadd
  exact Nat.mod_eq_of_lt h

/-- The three ranges that the extra-large split registers besides the
allocation, as the source computes them. -/
theorem splitAndAllocateXLarge_registered (xa : Nat) (h : XLargeHeap) (r : XLargeRange)
    (alignment size : Nat) (p₁ p₂ : XLargeRange × XLargeRange)
    (hp₁ : p₁ = if test r.begin (wsub alignment 1) then
        r.split (wsub (roundUpToMultipleOf alignment r.begin) r.begin)
      else (XLargeRange.null, r))
    (hp₂ : p₂ = if wsub p₁.2.size size ≥ xa then
        p₁.2.split (roundUpToMultipleOf xa size)
      else (p₁.2, XLargeRange.null)) :
    ∃ c : AddAllocated,
      (splitAndAllocateXLarge xa h r alignment size).2.addAllocatedCalls
        = h.addAllocatedCalls ++ [c] ∧
      c.allocated.1 = (splitAndAllocateXLarge xa h r alignment size).1 ∧
      c.prev = p₁.1 ∧
      c.allocated.1.begin = p₂.1.begin ∧
      c.allocated.2 = (p₂.1.split (roundUpToMultipleOf h.m_vmPageSizePhysical size)).2 ∧
      c.next = p₂.2 := by
  subst hp₂
  subst hp₁
  simp only [splitAndAllocateXLarge]
  split_ifs <;> exact ⟨_, rfl, rfl, rfl, rfl, rfl, rfl⟩

/-- The arithmetic of the extra-large split: the four pieces tile the range. -/
theorem xLarge_pieces (xa P m : Nat) (hm : m < 64) (hP : 0 < P) (hxa : 0 < xa) (hdvd : P ∣ xa)
    (r : XLargeRange) (size a : Nat)
    (hspace : r.begin + r.size < wordSize)
    (ha : a % 2 ^ m = 0) (hra : r.begin ≤ a)
    (hround : size + (P - 1) < wordSize)
    (hfit : a + roundUpToMultipleOf P size ≤ r.begin + r.size)
    (p₁ p₂ : XLargeRange × XLargeRange)
    (hp₁ : p₁ = if test r.begin (wsub (2 ^ m) 1) then
        r.split (wsub (roundUpToMultipleOf (2 ^ m) r.begin) r.begin)
      else (XLargeRange.null, r))
    (hp₂ : p₂ = if wsub p₁.2.size size ≥ xa then
        p₁.2.split (roundUpToMultipleOf xa size)
      else (p₁.2, XLargeRange.null)) :
    p₂.1.begin % 2 ^ m = 0 ∧ r.begin ≤ p₂.1.begin ∧
    (∀ b, b % 2 ^ m = 0 → r.begin ≤ b → p₂.1.begin ≤ b) ∧
    p₁.1.size = p₂.1.begin - r.begin ∧
    (p₁.1.size ≠ 0 → p₁.1.begin = r.begin) ∧
    (p₂.1.split (roundUpToMultipleOf P size)).2.begin
      = p₂.1.begin + roundUpToMultipleOf P size ∧
    (p₂.2.size ≠ 0 → p₂.2.begin = (p₂.1.split (roundUpToMultipleOf P size)).2.begin
      + (p₂.1.split (roundUpToMultipleOf P size)).2.size) ∧
    p₁.1.size + roundUpToMultipleOf P size
      + (p₂.1.split (roundUpToMultipleOf P size)).2.size + p₂.2.size = r.size ∧
    (p₂.1.split (roundUpToMultipleOf P size)).2.size < xa := by
  have hpow : 0 < 2 ^ m := Nat.pow_pos (by norm_num)
  have hsz : size ≤ roundUpToMultipleOf P size := roundUpToMultipleOf_ge hP hround
  have haw : a < wordSize := by omega
  have hatop := aligned_add_le_wordSize hm ha haw
  have hbw : r.begin + (2 ^ m - 1) < wordSize := by omega
  -- the first step
  have h1 : p₁.2.begin % 2 ^ m = 0 ∧ r.begin ≤ p₁.2.begin ∧
      (∀ b, b % 2 ^ m = 0 → r.begin ≤ b → p₁.2.begin ≤ b) ∧
      p₁.1.size = p₁.2.begin - r.begin ∧ (p₁.1.size ≠ 0 → p₁.1.begin = r.begin) ∧
      p₁.2.begin + p₁.2.size = r.begin + r.size := by
    by_cases ht : test r.begin (wsub (2 ^ m) 1) = true
    · rw [if_pos ht] at hp₁
      have hge := roundUpToMultipleOf_ge hpow hbw
      have hle : ∀ b, b % 2 ^ m = 0 → r.begin ≤ b → roundUpToMultipleOf (2 ^ m) r.begin ≤ b :=
        fun b hb hrb => roundUpToMultipleOf_le_of_dvd hpow hbw (Nat.dvd_of_mod_eq_zero hb) hrb
      have hlea := hle a ha hra
      have hpre : wsub (roundUpToMultipleOf (2 ^ m) r.begin) r.begin
          = roundUpToMultipleOf (2 ^ m) r.begin - r.begin :=
        wsub_eq_sub (roundUpToMultipleOf_lt _ _) hge
      have hb2 : p₁.2.begin = roundUpToMultipleOf (2 ^ m) r.begin := by
        rw [hp₁]
        simp only [XLargeRange.split, XLargeRange.end]
        rw [hpre, wadd_eq_add (by omega)]
        omega
      have hs2 : p₁.2.size = r.size - (roundUpToMultipleOf (2 ^ m) r.begin - r.begin) := by
        rw [hp₁]
        simp only [XLargeRange.split]
        rw [hpre, wsub_eq_sub (by omega) (by omega)]
      have hs1 : p₁.1.size = roundUpToMultipleOf (2 ^ m) r.begin - r.begin := by
        rw [hp₁]
        simp only [XLargeRange.split]
        rw [hpre]
      have hb1 : p₁.1.begin = r.begin := by
        rw [hp₁]
        simp only [XLargeRange.split]
      rw [hb2, hs2, hs1]
      exact ⟨roundUpToMultipleOf_mod _ _, hge, hle, rfl, fun _ => hb1, by omega⟩
    · rw [if_neg ht] at hp₁
      have hmod := test_two_pow_false hm (by simpa using ht)
      rw [hp₁]
      refine ⟨hmod, le_refl _, fun b _ hb => hb, ?_, ?_, rfl⟩
      · simp [XLargeRange.null]
      · intro hne
        exact absurd (by simp [XLargeRange.null]) hne
  obtain ⟨h1a, h1b, h1c, h1d, h1e, h1f⟩ := h1
  have h1a' := h1c a ha hra
  have hfit1 : roundUpToMultipleOf P size ≤ p₁.2.size := by omega
  have hsub : wsub p₁.2.size size = p₁.2.size - size :=
    wsub_eq_sub (by omega) (by omega)
  rw [hsub] at hp₂
  by_cases hx : p₁.2.size - size ≥ xa
  · rw [if_pos hx] at hp₂
    have hxw : size + (xa - 1) < wordSize := by omega
    have hA1 := roundUpToMultipleOf_ge hxa hxw
    have hA2 := roundUpToMultipleOf_lt_add hxa hxw
    have hA3 : roundUpToMultipleOf P size ≤ roundUpToMultipleOf xa size :=
      roundUpToMultipleOf_le_of_dvd hP hround
        (dvd_trans hdvd (Nat.dvd_of_mod_eq_zero (roundUpToMultipleOf_mod _ _))) hA1
    rw [hp₂]
    simp only [XLargeRange.split, XLargeRange.end]
    rw [wadd_eq_add (by omega), wadd_eq_add (by omega),
      wsub_eq_sub (by omega) (by omega), wsub_eq_sub (by omega) (by omega)]
    refine ⟨h1a, h1b, h1c, h1d, h1e, rfl, fun _ => by omega, by omega, by omega⟩
  · rw [if_neg hx] at hp₂
    rw [hp₂]
    simp only [XLargeRange.split, XLargeRange.end, XLargeRange.null]
    rw [wadd_eq_add (by omega), wsub_eq_sub (by omega) (by omega)]
    refine ⟨h1a, h1b, h1c, h1d, h1e, rfl, fun hne => absurd rfl hne, by omega, by omega⟩

/-- C22: when the range `r` holds an aligned address followed by at least
`roundUpToMultipleOf(physicalPageSize, size)` bytes, the extra-large
`Heap::splitAndAllocate` registers one entry whose pieces `prev`,
`allocated.first`, `allocated.second`, `next` tile `r`: the allocation begins
at the least aligned address of `r`, `prev` is what lies before it, every
non-empty piece begins where the one before ends, the sizes sum to `r.size`,
and `allocated.second` is smaller than `xLargeAlignment`.  The physical page
size divides `xLargeAlignment`, and `r` ends below the top of the address
space. -/
theorem splitAndAllocateXLarge_partition (xa m : Nat) (hm : m < 64) (h : XLargeHeap)
    (hP : 0 < h.m_vmPageSizePhysical) (hxa : 0 < xa) (hdvd : h.m_vmPageSizePhysical ∣ xa)
    (r : XLargeRange) (size a : Nat)
    (hspace : r.begin + r.size < wordSize)
    (ha : a % 2 ^ m = 0) (hra : r.begin ≤ a)
    (hround : size + (h.m_vmPageSizePhysical - 1) < wordSize)
    (hfit : a + roundUpToMultipleOf h.m_vmPageSizePhysical size ≤ r.begin + r.size) :
    ∃ c : AddAllocated,
      (splitAndAllocateXLarge xa h r (2 ^ m) size).2.addAllocatedCalls
        = h.addAllocatedCalls ++ [c] ∧
      c.allocated.1 = (splitAndAllocateXLarge xa h r (2 ^ m) size).1 ∧
      c.allocated.1.begin % 2 ^ m = 0 ∧ r.begin ≤ c.allocated.1.begin ∧
      (∀ b, b % 2 ^ m = 0 → r.begin ≤ b → c.allocated.1.begin ≤ b) ∧
      c.prev.size = c.allocated.1.begin - r.begin ∧
      (c.prev.size ≠ 0 → c.prev.begin = r.begin) ∧
      c.allocated.1.size = roundUpToMultipleOf h.m_vmPageSizePhysical size ∧
      c.allocated.2.begin = c.allocated.1.begin + c.allocated.1.size ∧
      (c.next.size ≠ 0 → c.next.begin = c.allocated.2.begin + c.allocated.2.size) ∧
      c.prev.size + c.allocated.1.size + c.allocated.2.size + c.next.size = r.size ∧
      c.allocated.2.size < xa := by
  obtain ⟨c, hc, hfirst, hprev, hbegin, hsecond, hnext⟩ :=
    splitAndAllocateXLarge_registered xa h r (2 ^ m) size _ _ rfl rfl
  obtain ⟨k1, k2, k3, k4, k5, k6, k7, k8, k9⟩ :=
    xLarge_pieces xa h.m_vmPageSizePhysical m hm hP hxa hdvd r size a hspace ha hra hround hfit
      _ _ rfl rfl
  have hsize : c.allocated.1.size = roundUpToMultipleOf h.m_vmPageSizePhysical size := by
    rw [hfirst]
    exact splitAndAllocateXLarge_size _ _ _ _ _
  refine ⟨c, hc, hfirst, ?_, ?_, ?_, ?_, ?_, hsize, ?_, ?_, ?_, ?_⟩
  · rw [hbegin]; exact k1
  · rw [hbegin]; exact k2
  · rw [hbegin]; exact k3
  · rw [hprev, hbegin]; exact k4
  · rw [hprev]; exact k5
  · rw [hsecond, hbegin, hsize]; exact k6
  · rw [hnext, hsecond]; exact k7
  · rw [hprev, hsize, hsecond, hnext]; exact k8
  · rw [hsecond]; exact k9

theorem splitAndAllocateXLarge_partition_witness :
    (splitAndAllocateXLarge (2 ^ 21) exampleXLargeHeap ⟨2 ^ 21 + 4096, 2 ^ 23, .Virtual⟩
      (2 ^ 21) (2 ^ 21 + 1)).2.addAllocatedCalls
      = exampleXLargeHeap.addAllocatedCalls ++
        [⟨⟨2 ^ 21 + 4096, 2 ^ 21 - 4096, .Virtual⟩,
          (⟨2 ^ 22, 2 ^ 21 + 4096, .Physical⟩, ⟨2 ^ 22 + 2 ^ 21 + 4096, 2 ^ 21 - 4096, .Virtual⟩),
          ⟨2 ^ 23, 2 ^ 21 + 4096, .Virtual⟩⟩] ∧
    ∃ c : AddAllocated,
      (splitAndAllocateXLarge (2 ^ 21) exampleXLargeHeap ⟨2 ^ 21 + 4096, 2 ^ 23, .Virtual⟩
        (2 ^ 21) (2 ^ 21 + 1)).2.addAllocatedCalls
        = exampleXLargeHeap.addAllocatedCalls ++ [c] ∧
      c.allocated.1 = (splitAndAllocateXLarge (2 ^ 21) exampleXLargeHeap
        ⟨2 ^ 21 + 4096, 2 ^ 23, .Virtual⟩ (2 ^ 21) (2 ^ 21 + 1)).1 ∧
      c.allocated.1.begin % 2 ^ 21 = 0 ∧ 2 ^ 21 + 4096 ≤ c.allocated.1.begin ∧
      (∀ b, b % 2 ^ 21 = 0 → 2 ^ 21 + 4096 ≤ b → c.allocated.1.begin ≤ b) ∧
      c.prev.size = c.allocated.1.begin - (2 ^ 21 + 4096) ∧
      (c.prev.size ≠ 0 → c.prev.begin = 2 ^ 21 + 4096) ∧
      c.allocated.1.size = roundUpToMultipleOf exampleXLargeHeap.m_vmPageSizePhysical
        (2 ^ 21 + 1) ∧
      c.allocated.2.begin = c.allocated.1.begin + c.allocated.1.size ∧
      (c.next.size ≠ 0 → c.next.begin = c.allocated.2.begin + c.allocated.2.size) ∧
      c.prev.size + c.allocated.1.size + c.allocated.2.size + c.next.size = 2 ^ 23 ∧
      c.allocated.2.size < 2 ^ 21 :=
  ⟨by decide,
    splitAndAllocateXLarge_partition (2 ^ 21) 21 (by decide) exampleXLargeHeap (by decide)
      (by decide) (by decide) ⟨2 ^ 21 + 4096, 2 ^ 23, .Virtual⟩ (2 ^ 21 + 1) (2 ^ 22)
      (by decide) (by decide) (by decide) (by decide) (by decide)⟩

/-! ## C23 -/

theorem splitAndAllocateXLarge_scavengerRuns (xa : Nat) (h : XLargeHeap) (range : XLargeRange)
    (alignment size : Nat) :
    (splitAndAllocateXLarge xa h range alignment size).2.scavengerRuns = h.scavengerRuns := by
  simp only [splitAndAllocateXLarge]
  split_ifs <;> rfl

/-- C23: for an allocated extra-large object (its begin is a multiple of
`xLargeAlignment` and is the begin of the entry that `takeAllocated` returns
for it) and `newSize < object.size`: when `object.size - newSize` is below the
physical page size `Heap::shrinkXLarge` returns the heap unchanged and never
calls `takeAllocated`; otherwise it calls `takeAllocated` once, on the begin
of the object, registers one allocation that begins at the same address with
size `roundUpToMultipleOf(physicalPageSize, newSize)`, and signals the
scavenger once. -/
theorem shrinkXLarge_spec (k : Nat) (hk : k < 64) (takeAllocated : Nat → XLargeRange)
    (h : XLargeHeap) (objectBegin objectSize newSize : Nat)
    (hsize : objectSize < wordSize) (hnew : newSize < objectSize)
    (hentry : (takeAllocated objectBegin).begin = objectBegin)
    (haligned : objectBegin % 2 ^ k = 0) :
    (objectSize - newSize < h.m_vmPageSizePhysical →
      shrinkXLarge (2 ^ k) takeAllocated h objectBegin objectSize newSize = (h, [])) ∧
    (¬ objectSize - newSize < h.m_vmPageSizePhysical →
      (shrinkXLarge (2 ^ k) takeAllocated h objectBegin objectSize newSize).2 = [objectBegin] ∧
      (shrinkXLarge (2 ^ k) takeAllocated h objectBegin objectSize newSize).1.scavengerRuns
        = h.scavengerRuns + 1 ∧
      ∃ c : AddAllocated,
        (shrinkXLarge (2 ^ k) takeAllocated h objectBegin objectSize newSize).1.addAllocatedCalls
          = h.addAllocatedCalls ++ [c] ∧
        c.allocated.1.begin = objectBegin ∧
        c.allocated.1.size = roundUpToMultipleOf h.m_vmPageSizePhysical newSize) := by
  have hsub : wsub objectSize newSize = objectSize - newSize :=
    wsub_eq_sub hsize (Nat.le_of_lt hnew)
  constructor
  · intro hlt
    unfold shrinkXLarge
    rw [hsub, if_pos hlt]
  · intro hge
    unfold shrinkXLarge
    rw [hsub, if_neg hge]
    obtain ⟨c, hc, hfirst⟩ :=
      splitAndAllocateXLarge_calls (2 ^ k) h (takeAllocated objectBegin) (2 ^ k) newSize
    refine ⟨rfl, ?_, c, hc, ?_, ?_⟩
    · exact congrArg (· + 1) (splitAndAllocateXLarge_scavengerRuns _ _ _ _ _)
    · rw [hfirst, splitAndAllocateXLarge_begin]
      by_cases ht : test (takeAllocated objectBegin).begin (wsub (2 ^ k) 1) = true
      · rw [hentry] at ht
        exact absurd haligned (test_two_pow_true hk ht)
      · rw [if_neg ht, hentry]
    · rw [hfirst, splitAndAllocateXLarge_size]

theorem shrinkXLarge_spec_witness :
    shrinkXLarge (2 ^ 21) (fun b => ⟨b, 2 ^ 22, .Physical⟩) exampleXLargeHeap
        (2 ^ 22) (2 ^ 22) (2 ^ 20 + 1)
      = (⟨4096, false,
          [⟨XLargeRange.null, (⟨2 ^ 22, 2 ^ 20 + 4096, .Physical⟩,
              ⟨2 ^ 22 + 2 ^ 20 + 4096, 2 ^ 20 - 4096, .Physical⟩),
            ⟨2 ^ 22 + 2 ^ 21, 2 ^ 21, .Physical⟩⟩], [], 1⟩, [2 ^ 22]) ∧
    ((2 ^ 22 - (2 ^ 20 + 1) < exampleXLargeHeap.m_vmPageSizePhysical →
      shrinkXLarge (2 ^ 21) (fun b => ⟨b, 2 ^ 22, .Physical⟩) exampleXLargeHeap
        (2 ^ 22) (2 ^ 22) (2 ^ 20 + 1) = (exampleXLargeHeap, [])) ∧
    (¬ 2 ^ 22 - (2 ^ 20 + 1) < exampleXLargeHeap.m_vmPageSizePhysical →
      (shrinkXLarge (2 ^ 21) (fun b => ⟨b, 2 ^ 22, .Physical⟩) exampleXLargeHeap
        (2 ^ 22) (2 ^ 22) (2 ^ 20 + 1)).2 = [2 ^ 22] ∧
      (shrinkXLarge (2 ^ 21) (fun b => ⟨b, 2 ^ 22, .Physical⟩) exampleXLargeHeap
        (2 ^ 22) (2 ^ 22) (2 ^ 20 + 1)).1.scavengerRuns
        = exampleXLargeHeap.scavengerRuns + 1 ∧
      ∃ c : AddAllocated,
        (shrinkXLarge (2 ^ 21) (fun b => ⟨b, 2 ^ 22, .Physical⟩) exampleXLargeHeap
          (2 ^ 22) (2 ^ 22) (2 ^ 20 + 1)).1.addAllocatedCalls
          = exampleXLargeHeap.addAllocatedCalls ++ [c] ∧
        c.allocated.1.begin = 2 ^ 22 ∧
        c.allocated.1.size
          = roundUpToMultipleOf exampleXLargeHeap.m_vmPageSizePhysical (2 ^ 20 + 1))) :=
  ⟨by decide,
    shrinkXLarge_spec 21 (by decide) (fun b => ⟨b, 2 ^ 22, .Physical⟩) exampleXLargeHeap
      (2 ^ 22) (2 ^ 22) (2 ^ 20 + 1) (by decide) (by decide) rfl (by decide)⟩

/-! ## C24: scavenging the small pages -/

theorem deallocateLarge_smallPages (E : LargeEnv) (h : Heap) (o : LargeObject) :
    (deallocateLarge E h o).m_smallPages = h.m_smallPages := rfl

theorem deallocateLarge_pages (E : LargeEnv) (h : Heap) (o : LargeObject) :
    (deallocateLarge E h o).pages = h.pages := rfl

theorem deallocateLarge_scavengerRuns (E : LargeEnv) (h : Heap) (o : LargeObject) :
    (deallocateLarge E h o).scavengerRuns = h.scavengerRuns + 1 := rfl

theorem foldl_smallPages {α : Type} (step : Heap → α → Heap)
    (hstep : ∀ h i, (step h i).m_smallPages = h.m_smallPages ∧
      (step h i).scavengerRuns = h.scavengerRuns)
    (l : List α) (h : Heap) :
    (l.foldl step h).m_smallPages = h.m_smallPages ∧
    (l.foldl step h).scavengerRuns = h.scavengerRuns := by
  induction l generalizing h with
  | nil => exact ⟨rfl, rfl⟩
  | cons i rest ih =>
    simp only [List.foldl_cons]
    rw [(ih (step h i)).1, (ih (step h i)).2]
    exact hstep h i

theorem scavengedHeap_smallPages (S : Sizes) (h : Heap) :
    (scavengedHeap S h).m_smallPages = h.m_smallPages.dropLast ∧
    (scavengedHeap S h).scavengerRuns = h.scavengerRuns := by
  unfold scavengedHeap
  lift_lets
  intro page h1 h2 s3
  show h2.m_smallPages = _ ∧ h2.scavengerRuns = _
  exact foldl_smallPages
    (fun (h' : Heap) (i : Nat) =>
      h'.setPage (page + (i + 1) * S.smallPageSize)
        { h'.pages (page + (i + 1) * S.smallPageSize) with slide := 0 })
    (fun _ _ => ⟨rfl, rfl⟩) _ h1

/-- A property of the page records that every write of a fold keeps. -/
theorem foldl_pages_pred {α : Type} (P : SmallPage → Prop) (step : Heap → α → Heap)
    (hstep : ∀ h i x, P (h.pages x) → P ((step h i).pages x)) (l : List α) (h : Heap) (x : Nat)
    (hx : P (h.pages x)) : P ((l.foldl step h).pages x) := by
  induction l generalizing h with
  | nil => exact hx
  | cons i rest ih =>
    simp only [List.foldl_cons]
    exact ih (step h i) (hstep h i x hx)

theorem setPage_pred (P : SmallPage → Prop) (h : Heap) (p : Nat) (r : SmallPage)
    (hr : P (h.pages p) → P r) (x : Nat) (hx : P (h.pages x)) : P ((h.setPage p r).pages x) := by
  by_cases hxp : x = p
  · subst hxp
    rw [setPage_same]
    exact hr hx
  · rw [setPage_ne _ _ _ hxp]
    exact hx

/-- A round of the scavenger only resets slides and types: a property of a
record that holds whenever the slide is set to zero or the type to `Large`
survives the round. -/
theorem scavengedHeap_pred (P : SmallPage → Prop)
    (hslide : ∀ r : SmallPage, P r → P { r with slide := 0 })
    (htype : ∀ r : SmallPage, P r → P { r with objectType := .Large })
    (S : Sizes) (h : Heap) (x : Nat) (hx : P (h.pages x)) :
    P ((scavengedHeap S h).pages x) := by
  unfold scavengedHeap
  lift_lets
  intro page h1 h2 s3
  have e2 : P (h2.pages x) :=
    foldl_pages_pred P
      (fun (h' : Heap) (i : Nat) =>
        h'.setPage (page + (i + 1) * S.smallPageSize)
          { h'.pages (page + (i + 1) * S.smallPageSize) with slide := 0 })
      (fun h' i x hx' => setPage_pred P h' _ _ (hslide _) x hx') _ h1 x hx
  exact setPage_pred P h2 page _ (htype s3) x e2

theorem followers_reset (S : Sizes) (page m : Nat) (h : Heap) (j : Nat) (hj : j < m) :
    (((List.range m).foldl (fun (h : Heap) (i : Nat) =>
        h.setPage (page + (i + 1) * S.smallPageSize)
          { h.pages (page + (i + 1) * S.smallPageSize) with slide := 0 }) h).pages
            (page + (j + 1) * S.smallPageSize)).slide = 0 := by
  induction m with
  | zero => omega
  | succ m ih =>
    rw [List.range_succ, List.foldl_append]
    simp only [List.foldl_cons, List.foldl_nil]
    by_cases hx : page + (j + 1) * S.smallPageSize = page + (m + 1) * S.smallPageSize
    · rw [hx, setPage_same]
    · rw [setPage_ne _ _ _ hx]
      have hjm : j ≠ m := fun e => hx (by rw [e])
      exact ih (by omega)

/-- What one round of the scavenger does to the page it pops. -/
theorem scavengedHeap_popped (S : Sizes) (h : Heap) :
    ((scavengedHeap S h).pages (h.m_smallPages.getLastD 0)).objectType = .Large ∧
    ∀ i, 1 ≤ i → i < (h.pages (h.m_smallPages.getLastD 0)).smallPageCount →
      ((scavengedHeap S h).pages (h.m_smallPages.getLastD 0 + i * S.smallPageSize)).slide = 0 := by
  unfold scavengedHeap
  lift_lets
  intro page h1 h2 s3
  constructor
  · rw [setPage_same]
  · intro i hi1 hi2
    have e3 := setPage_proj (fun p => p.slide) h2 page { s3 with objectType := .Large }
      (by rfl) (page + i * S.smallPageSize)
    refine Eq.trans e3 ?_
    have hi : i = (i - 1) + 1 := by omega
    have hi3 : i < (h.pages page).smallPageCount := hi2
    rw [hi]
    exact followers_reset S page _ h1 (i - 1) (by
      show i - 1 < (h.pages page).smallPageCount - 1
      clear_value page
      omega)

theorem scavengeSmallPage_smallPages (S : Sizes) (E : LargeEnv) (h : Heap) :
    (scavengeSmallPage S E h).m_smallPages = h.m_smallPages.dropLast ∧
    (scavengeSmallPage S E h).scavengerRuns = h.scavengerRuns + 1 := by
  rw [scavengeSmallPage_eq, deallocateLarge_smallPages, deallocateLarge_scavengerRuns,
    (scavengedHeap_smallPages S h).1, (scavengedHeap_smallPages S h).2]
  exact ⟨rfl, rfl⟩

theorem scavengeSmallPage_pred (P : SmallPage → Prop)
    (hslide : ∀ r : SmallPage, P r → P { r with slide := 0 })
    (htype : ∀ r : SmallPage, P r → P { r with objectType := .Large })
    (S : Sizes) (E : LargeEnv) (h : Heap) (x : Nat) (hx : P (h.pages x)) :
    P ((scavengeSmallPage S E h).pages x) := by
  rw [scavengeSmallPage_eq, deallocateLarge_pages]
  exact scavengedHeap_pred P hslide htype S h x hx

theorem scavengeSmallPagesLoop_pred (P : SmallPage → Prop)
    (hslide : ∀ r : SmallPage, P r → P { r with slide := 0 })
    (htype : ∀ r : SmallPage, P r → P { r with objectType := .Large })
    (S : Sizes) (E : LargeEnv) (fuel : Nat) (h : Heap) (x : Nat) (hx : P (h.pages x)) :
    P ((scavengeSmallPagesLoop S E fuel h).pages x) := by
  induction fuel generalizing h with
  | zero => exact hx
  | succ fuel ih =>
    simp only [scavengeSmallPagesLoop]
    split_ifs
    · exact hx
    · exact ih _ (scavengeSmallPage_pred P hslide htype S E h x hx)

/-- With the length of the list as fuel the loop of `scavengeSmallPages` is
that many rounds of `scavengeSmallPage`. -/
theorem scavengeSmallPagesLoop_iterate (S : Sizes) (E : LargeEnv) (fuel : Nat) (h : Heap)
    (hfuel : h.m_smallPages.length ≤ fuel) :
    scavengeSmallPagesLoop S E fuel h = (scavengeSmallPage S E)^[h.m_smallPages.length] h := by
  induction fuel generalizing h with
  | zero =>
    have h0 : h.m_smallPages.length = 0 := by omega
    rw [h0]
    rfl
  | succ fuel ih =>
    simp only [scavengeSmallPagesLoop]
    by_cases he : h.m_smallPages.isEmpty = true
    · rw [if_pos he]
      have h0 : h.m_smallPages = [] := List.isEmpty_iff.1 he
      rw [h0]
      rfl
    · rw [if_neg he]
      have hne : h.m_smallPages ≠ [] := fun e => he (List.isEmpty_iff.2 e)
      have hpos : 0 < h.m_smallPages.length := List.length_pos.2 hne
      have hlen : (scavengeSmallPage S E h).m_smallPages.length = h.m_smallPages.length - 1 := by
        rw [(scavengeSmallPage_smallPages S E h).1, List.length_dropLast]
      rw [ih _ (by omega), hlen]
      have hs : h.m_smallPages.length = (h.m_smallPages.length - 1) + 1 := by omega
      conv_rhs => rw [hs, Function.iterate_succ_apply]

/-- After `j` rounds the list holds its first `length - j` pages: the rounds pop
the pages one by one from the tail. -/
theorem scavengeSmallPage_rounds (S : Sizes) (E : LargeEnv) (h : Heap) (j : Nat) :
    ((scavengeSmallPage S E)^[j] h).m_smallPages
      = h.m_smallPages.take (h.m_smallPages.length - j) ∧
    ((scavengeSmallPage S E)^[j] h).scavengerRuns = h.scavengerRuns + j := by
  induction j with
  | zero => simp
  | succ j ih =>
    rw [Function.iterate_succ_apply', (scavengeSmallPage_smallPages S E _).1,
      (scavengeSmallPage_smallPages S E _).2, ih.1, ih.2, List.dropLast_eq_take,
      List.take_take, List.length_take]
    refine ⟨?_, by omega⟩
    congr 1
    omega

/-- The records of the pages on the list after the loop of `scavengeSmallPages`. -/
theorem scavengeSmallPagesLoop_popped (S : Sizes) (E : LargeEnv) (fuel : Nat) (h : Heap)
    (hfuel : h.m_smallPages.length ≤ fuel) (p : Nat) (hp : p ∈ h.m_smallPages) :
    ((scavengeSmallPagesLoop S E fuel h).pages p).objectType = .Large ∧
    ∀ i, 1 ≤ i → i < (h.pages p).smallPageCount →
      ((scavengeSmallPagesLoop S E fuel h).pages (p + i * S.smallPageSize)).slide = 0 := by
  induction fuel generalizing h with
  | zero =>
    have h0 : h.m_smallPages = [] := List.length_eq_zero.1 (by omega)
    rw [h0] at hp
    exact absurd hp (List.not_mem_nil _)
  | succ fuel ih =>
    simp only [scavengeSmallPagesLoop]
    by_cases he : h.m_smallPages.isEmpty = true
    · have h0 : h.m_smallPages = [] := List.isEmpty_iff.1 he
      rw [h0] at hp
      exact absurd hp (List.not_mem_nil _)
    · rw [if_neg he]
      have hne : h.m_smallPages ≠ [] := fun e => he (List.isEmpty_iff.2 e)
      obtain ⟨front, last, hl⟩ : ∃ front last, h.m_smallPages = front ++ [last] := by
        rcases List.eq_nil_or_concat h.m_smallPages with e | ⟨front, last, e⟩
        · exact absurd e hne
        · exact ⟨front, last, by simpa using e⟩
      have hlast : h.m_smallPages.getLastD 0 = last := by rw [hl]; simp
      have hdrop : (scavengeSmallPage S E h).m_smallPages = front := by
        rw [(scavengeSmallPage_smallPages S E h).1, hl]; simp
      have hcount : ∀ x, ((scavengeSmallPage S E h).pages x).smallPageCount
          = (h.pages x).smallPageCount := by
        intro x
        exact scavengeSmallPage_pred (fun r => r.smallPageCount = (h.pages x).smallPageCount)
          (fun _ hr => hr) (fun _ hr => hr) S E h x rfl
      rw [hl, List.mem_append, List.mem_singleton] at hp
      rcases hp with hp | hp
      · have := ih (scavengeSmallPage S E h)
          (by rw [hdrop]; rw [hl] at hfuel; simp at hfuel; omega) (by rw [hdrop]; exact hp)
        rw [hcount] at this
        exact this
      · subst hp
        have hround := scavengedHeap_popped S h
        rw [hlast] at hround
        have hround' : ((scavengeSmallPage S E h).pages p).objectType = .Large ∧
            ∀ i, 1 ≤ i → i < (h.pages p).smallPageCount →
              ((scavengeSmallPage S E h).pages (p + i * S.smallPageSize)).slide = 0 := by
          rw [scavengeSmallPage_eq, deallocateLarge_pages]
          exact hround
        refine ⟨?_, fun i hi1 hi2 => ?_⟩
        · exact scavengeSmallPagesLoop_pred (fun r => r.objectType = .Large)
            (fun _ hr => hr) (fun _ _ => rfl) S E fuel _ p hround'.1
        · exact scavengeSmallPagesLoop_pred (fun r => r.slide = 0)
            (fun _ _ => rfl) (fun _ hr => hr) S E fuel _ _ (hround'.2 i hi1 hi2)

/-- C24: `Heap::scavengeSmallPages` ends with the list `m_smallPages` empty,
after as many rounds of `scavengeSmallPage` as the list had pages; the rounds
pop the pages one by one from the tail, every round hands the page it popped,
reverted, over to `deallocateLarge`, which signals the scavenger once, so each
page is handed over exactly once; in the end every page that was on the list
has the type `Large` and the slides of its follower records 1 ..
smallPageCount-1 are 0; and `deallocateLarge` leaves the list as it is. -/
theorem scavengeSmallPages_spec (S : Sizes) (E : LargeEnv) (h : Heap) :
    (scavengeSmallPages S E h).m_smallPages = [] ∧
    scavengeSmallPages S E h = (scavengeSmallPage S E)^[h.m_smallPages.length] h ∧
    (∀ j, ((scavengeSmallPage S E)^[j] h).m_smallPages
      = h.m_smallPages.take (h.m_smallPages.length - j)) ∧
    (∀ g : Heap, scavengeSmallPage S E g
        = deallocateLarge E (scavengedHeap S g) (scavengedObject S E g) ∧
      (scavengedHeap S g).m_smallPages = g.m_smallPages.dropLast ∧
      ((scavengedHeap S g).pages (g.m_smallPages.getLastD 0)).objectType = .Large ∧
      ∀ i, 1 ≤ i → i < (g.pages (g.m_smallPages.getLastD 0)).smallPageCount →
        ((scavengedHeap S g).pages (g.m_smallPages.getLastD 0 + i * S.smallPageSize)).slide
          = 0) ∧
    (scavengeSmallPages S E h).scavengerRuns = h.scavengerRuns + h.m_smallPages.length ∧
    (∀ p ∈ h.m_smallPages,
      ((scavengeSmallPages S E h).pages p).objectType = .Large ∧
      ∀ i, 1 ≤ i → i < (h.pages p).smallPageCount →
        ((scavengeSmallPages S E h).pages (p + i * S.smallPageSize)).slide = 0) ∧
    (∀ (g : Heap) (o : LargeObject), (deallocateLarge E g o).m_smallPages = g.m_smallPages) := by
  have hit := scavengeSmallPagesLoop_iterate S E h.m_smallPages.length h (le_refl _)
  have hr := scavengeSmallPage_rounds S E h h.m_smallPages.length
  refine ⟨?_, hit, fun j => (scavengeSmallPage_rounds S E h j).1, fun g => ?_, ?_, ?_,
    fun _ _ => rfl⟩
  · unfold scavengeSmallPages
    rw [hit, hr.1]
    simp
  · exact ⟨rfl, (scavengedHeap_smallPages S g).1, scavengedHeap_popped S g⟩
  · unfold scavengeSmallPages
    rw [hit, hr.2]
  · intro p hp
    exact scavengeSmallPagesLoop_popped S E _ h (le_refl _) p hp

/-! ## C25: the aligned split does not wrap -/

theorem splitAndAllocateAligned_size (S : Sizes) (E : LargeEnv) (h : Heap) (o : LargeObject)
    (alignment size : Nat) (p : LargeObject × LargeObject)
    (hp : p = if test o.begin (wsub alignment 1) then
        o.split (wsub (roundUpToMultipleOf alignment (wadd o.begin S.largeMin)) o.begin)
      else (LargeObject.null, o)) :
    (splitAndAllocateAligned S E h o alignment size).1.size
      = if wsub p.2.size size ≥ S.largeMin then size else p.2.size := by
  subst hp
  simp only [splitAndAllocateAligned]
  split_ifs <;> rfl

/-- The distance from a multiple of `a` up to the next multiple of `d`, for `a`
a divisor of `d`, is at most `d - a`. -/
theorem roundUpToMultipleOf_sub_le {a d x : Nat} (hd : 0 < d) (had : a ∣ d) (hax : a ∣ x)
    (hx : x + (d - 1) < wordSize) : roundUpToMultipleOf d x + a ≤ x + d := by
  have hge := roundUpToMultipleOf_ge hd hx
  have hlt := roundUpToMultipleOf_lt_add hd hx
  have hR : a ∣ roundUpToMultipleOf d x :=
    dvd_trans had (Nat.dvd_of_mod_eq_zero (roundUpToMultipleOf_mod _ _))
  generalize roundUpToMultipleOf d x = R at hge hlt hR
  obtain ⟨t, rfl⟩ := had
  obtain ⟨q, rfl⟩ := hax
  obtain ⟨r, rfl⟩ := hR
  have h1 : a * r < a * (q + t) := by rw [Nat.mul_add]; exact hlt
  have h2 : r < q + t := Nat.lt_of_mul_lt_mul_left h1
  have h3 : a * (r + 1) ≤ a * (q + t) := Nat.mul_le_mul_left a h2
  rw [Nat.mul_add, Nat.mul_add, Nat.mul_one] at h3
  exact h3

/-- C25: in the aligned large `Heap::splitAndAllocate`, for an object `o` whose
begin is a multiple of `largeAlignment` and whose size is at least
`size + largeMin + alignment - largeAlignment`, with `largeMin` and the
alignment multiples of `largeAlignment` and the rounding of
`o.begin + largeMin` inside the machine word: a head that is split off has at
least `largeMin` bytes and leaves the rest of `o`; the remainder has at
least `size` bytes, so `largeObject.size() - size` is the true difference;
and the object returned has at least `size` bytes and lies in the remainder. -/
theorem splitAndAllocateAligned_no_wrap (S : Sizes) (E : LargeEnv) (h : Heap) (o : LargeObject)
    (alignment size : Nat) (prev rest : LargeObject)
    (halign : 0 < alignment) (hdvd : S.largeAlignment ∣ alignment)
    (hmin : S.largeAlignment ∣ S.largeMin) (hbegin : S.largeAlignment ∣ o.begin)
    (hsize : size + S.largeMin + alignment - S.largeAlignment ≤ o.size)
    (hword : o.size < wordSize)
    (hround : o.begin + S.largeMin + (alignment - 1) < wordSize)
    (hpair : (prev, rest) = if test o.begin (wsub alignment 1) then
        o.split (wsub (roundUpToMultipleOf alignment (wadd o.begin S.largeMin)) o.begin)
      else (LargeObject.null, o)) :
    (test o.begin (wsub alignment 1) = true →
      S.largeMin ≤ prev.size ∧ prev.size + rest.size = o.size) ∧
    size ≤ rest.size ∧
    wsub rest.size size = rest.size - size ∧
    size ≤ (splitAndAllocateAligned S E h o alignment size).1.size ∧
    (splitAndAllocateAligned S E h o alignment size).1.size ≤ rest.size := by
  have hLA : S.largeAlignment ≤ alignment := Nat.le_of_dvd halign hdvd
  have hadd : wadd o.begin S.largeMin = o.begin + S.largeMin := wadd_eq_add (by omega)
  have hge := roundUpToMultipleOf_ge halign hround
  have hle := roundUpToMultipleOf_sub_le halign hdvd (Nat.dvd_add hbegin hmin) hround
  have hpre : wsub (roundUpToMultipleOf alignment (o.begin + S.largeMin)) o.begin
      = roundUpToMultipleOf alignment (o.begin + S.largeMin) - o.begin :=
    wsub_eq_sub (roundUpToMultipleOf_lt _ _) (by omega)
  have hrest : (test o.begin (wsub alignment 1) = true →
      S.largeMin ≤ prev.size ∧ prev.size + rest.size = o.size) ∧ size ≤ rest.size := by
    by_cases ht : test o.begin (wsub alignment 1) = true
    · rw [if_pos ht, hadd, hpre] at hpair
      simp only [LargeObject.split, Prod.mk.injEq] at hpair
      obtain ⟨rfl, rfl⟩ := hpair
      show (_ → S.largeMin ≤ roundUpToMultipleOf alignment (o.begin + S.largeMin) - o.begin ∧
        roundUpToMultipleOf alignment (o.begin + S.largeMin) - o.begin
          + wsub o.size (roundUpToMultipleOf alignment (o.begin + S.largeMin) - o.begin)
          = o.size) ∧
        size ≤ wsub o.size (roundUpToMultipleOf alignment (o.begin + S.largeMin) - o.begin)
      rw [wsub_eq_sub hword (by omega)]
      exact ⟨fun _ => ⟨by omega, by omega⟩, by omega⟩
    · rw [if_neg ht] at hpair
      simp only [Prod.mk.injEq] at hpair
      obtain ⟨rfl, rfl⟩ := hpair
      exact ⟨fun h' => absurd h' ht, by omega⟩
  have hrs : rest.size < wordSize := by
    by_cases ht : test o.begin (wsub alignment 1) = true
    · have := (hrest.1 ht).2
      omega
    · rw [if_neg ht] at hpair
      simp only [Prod.mk.injEq] at hpair
      rw [hpair.2]
      exact hword
  have hsub : wsub rest.size size = rest.size - size := wsub_eq_sub hrs hrest.2
  have hres := splitAndAllocateAligned_size S E h o alignment size (prev, rest) hpair
  refine ⟨hrest.1, hrest.2, hsub, ?_, ?_⟩
  · rw [hres]
    split_ifs
    · exact le_refl _
    · exact hrest.2
  · rw [hres]
    split_ifs
    · exact hrest.2
    · exact le_refl _

theorem splitAndAllocateAligned_no_wrap_witness :
    (test (2 ^ 23 + 64) (wsub 4096 1) = true →
      exampleSizes.largeMin ≤ 4032 ∧ 4032 + (2 ^ 20 - 4032) = 2 ^ 20) ∧
    4096 ≤ 2 ^ 20 - 4032 ∧
    wsub (2 ^ 20 - 4032) 4096 = 2 ^ 20 - 4032 - 4096 ∧
    4096 ≤ (splitAndAllocateAligned exampleSizes exampleLargeEnv exampleHeap
      ⟨2 ^ 23 + 64, 2 ^ 20, true, .Physical⟩ 4096 4096).1.size ∧
    (splitAndAllocateAligned exampleSizes exampleLargeEnv exampleHeap
      ⟨2 ^ 23 + 64, 2 ^ 20, true, .Physical⟩ 4096 4096).1.size ≤ 2 ^ 20 - 4032 :=
  splitAndAllocateAligned_no_wrap exampleSizes exampleLargeEnv exampleHeap
    ⟨2 ^ 23 + 64, 2 ^ 20, true, .Physical⟩ 4096 4096
    ⟨2 ^ 23 + 64, 4032, true, .Physical⟩ ⟨2 ^ 23 + 4096, 2 ^ 20 - 4032, true, .Physical⟩
    (by decide) (by decide) (by decide) (by decide) (by decide) (by decide) (by decide)
    (by decide)

/-! ## C26: a page without free lines keeps a reference -/

/-- A full scan leaves the page without free lines: the scan of the lines
`0, ..., n - 1`, followed by clearing the flag, on a page that holds one page
reference for every referenced line. -/
theorem fullScan_noFreeLines (S : Sizes) (c page : Nat) (hls : 0 < S.smallLineSize) (h : Heap)
    (hcounted : (h.pages page).refCount
      = ((Finset.range (h.m_vmPageSizePhysical / S.smallLineSize)).filter
          (fun L => h.lines (Heap.lineAt S page L) ≠ 0)).card) :
    ((absorbLines S c page (h.m_vmPageSizePhysical / S.smallLineSize) h
        (h.m_vmPageSizePhysical / S.smallLineSize)).setPage page
      { (absorbLines S c page (h.m_vmPageSizePhysical / S.smallLineSize) h
          (h.m_vmPageSizePhysical / S.smallLineSize)).pages page with
        hasFreeLines := false }).noFreeLines S c page := by
  obtain ⟨imd, ia, io, ip, i1, -⟩ :=
    absorbLines_spec S c page (h.m_vmPageSizePhysical / S.smallLineSize) hls h
      (h.m_vmPageSizePhysical / S.smallLineSize)
  generalize hA : absorbLines S c page (h.m_vmPageSizePhysical / S.smallLineSize) h
      (h.m_vmPageSizePhysical / S.smallLineSize) = A at imd ia io ip i1
  have hline : ∀ L, L < h.m_vmPageSizePhysical / S.smallLineSize →
      (A.lines (Heap.lineAt S page L) ≠ 0 ↔
        (h.lines (Heap.lineAt S page L) ≠ 0 ∨
          isAbsorbed S c page (h.m_vmPageSizePhysical / S.smallLineSize) h L)) := by
    intro L hL
    by_cases hab : isAbsorbed S c page (h.m_vmPageSizePhysical / S.smallLineSize) h L
    · rw [ia L hL hab]
      exact ⟨fun _ => Or.inr hab, fun _ => hab.2.2⟩
    · have hsame : A.lines (Heap.lineAt S page L) = h.lines (Heap.lineAt S page L) :=
        io _ (fun L' _ hab' => lineAt_ne S hls page (fun e => hab (e ▸ hab')))
      rw [hsame]
      exact ⟨fun hne => Or.inl hne, fun hor => hor.resolve_right hab⟩
  refine ⟨?_, ?_, ?_⟩
  · rw [setPage_same]
  · rw [setPage_same]
    show (A.pages page).refCount
      = ((Finset.range (A.m_vmPageSizePhysical / S.smallLineSize)).filter
          (fun L => A.lines (Heap.lineAt S page L) ≠ 0)).card
    rw [ip, Function.update_same, i1]
    show (h.pages page).refCount + _ = _
    have hset : (Finset.range (h.m_vmPageSizePhysical / S.smallLineSize)).filter
          (fun L => A.lines (Heap.lineAt S page L) ≠ 0)
        = (Finset.range (h.m_vmPageSizePhysical / S.smallLineSize)).filter
            (fun L => h.lines (Heap.lineAt S page L) ≠ 0)
          ∪ (Finset.range (h.m_vmPageSizePhysical / S.smallLineSize)).filter
            (fun L => isAbsorbed S c page (h.m_vmPageSizePhysical / S.smallLineSize) h L) := by
      ext L
      simp only [Finset.mem_filter, Finset.mem_union, Finset.mem_range]
      constructor
      · rintro ⟨hL, hne⟩
        rcases (hline L hL).1 hne with h1 | h1
        · exact Or.inl ⟨hL, h1⟩
        · exact Or.inr ⟨hL, h1⟩
      · rintro (⟨hL, h1⟩ | ⟨hL, h1⟩)
        · exact ⟨hL, (hline L hL).2 (Or.inl h1)⟩
        · exact ⟨hL, (hline L hL).2 (Or.inr h1)⟩
    have hdisj : Disjoint
        ((Finset.range (h.m_vmPageSizePhysical / S.smallLineSize)).filter
          (fun L => h.lines (Heap.lineAt S page L) ≠ 0))
        ((Finset.range (h.m_vmPageSizePhysical / S.smallLineSize)).filter
          (fun L => isAbsorbed S c page (h.m_vmPageSizePhysical / S.smallLineSize) h L)) := by
      rw [Finset.disjoint_filter]
      intro L _ hne hab
      exact hne hab.2.1
    rw [hset, Finset.card_union_of_disjoint hdisj, hcounted]
  · intro L hL hcount
    have hL' : L < h.m_vmPageSizePhysical / S.smallLineSize := by
      have : (A.setPage page { A.pages page with hasFreeLines := false }).m_vmPageSizePhysical
          = h.m_vmPageSizePhysical := i1
      rw [this] at hL
      exact hL
    have hcount' : (h.lineMetadata S c L).objectCount ≠ 0 := by
      rw [← imd L]
      exact hcount
    show A.lines (Heap.lineAt S page L) ≠ 0
    rw [hline L hL']
    by_cases hz : h.lines (Heap.lineAt S page L) = 0
    · exact Or.inr ⟨hL', hz, hcount'⟩
    · exact Or.inl hz

/-- A page without free lines holds at least as many page references as the
size class has lines in which an object begins. -/
theorem noFreeLines_refCount_ge (S : Sizes) (h : Heap) (c page : Nat)
    (hfull : h.noFreeLines S c page) : h.objectLines S c ≤ (h.pages page).refCount := by
  obtain ⟨-, hcounted, hlines⟩ := hfull
  rw [hcounted]
  unfold Heap.objectLines
  apply Finset.card_le_card
  intro L hL
  simp only [Finset.mem_filter, Finset.mem_range] at hL ⊢
  exact ⟨hL.1, hlines L hL.1 hL.2⟩

/-- C26: the assertion `BASSERT(page->refCount(lock))` of
`Heap::deallocateSmallLine` holds.  A call of `allocateSmallBumpRanges` that
returns with room in the cache has scanned the whole page and leaves it
without free lines: flag clear, one page reference for every referenced line,
and every line in which an object of the class begins referenced.  When such a
`Small` page then loses a line, and the size class has at least two lines with
a non-zero `objectCount`, `deallocateSmallLine` takes the branch of the
assertion (it sets the flag and links the page) and the reference count after
the decrement is positive. -/
theorem deallocateSmallLine_refCount_pos (S : Sizes) (E : LargeEnv)
    (hls : 0 < S.smallLineSize) :
    (∀ (h : Heap) (c : Nat) (a : BumpAllocator) (cache : BumpRangeCache),
      cache.ranges = [] →
      (h.pages (allocateSmallPage S E h c).1).refCount
        = ((Finset.range (h.m_vmPageSizePhysical / S.smallLineSize)).filter
            (fun L => h.lines (Heap.lineAt S (allocateSmallPage S E h c).1 L) ≠ 0)).card →
      ∃ r, allocateSmallBumpRanges S E h c a cache = some r ∧
        (r.2.2.size < r.2.2.capacity →
          r.1.noFreeLines S c (allocateSmallPage S E h c).1)) ∧
    (∀ (g : Heap) (c object : Nat),
      (g.pages (Heap.pageOf S g object)).objectType = .Small →
      g.noFreeLines S c (Heap.pageOf S g object) →
      2 ≤ g.objectLines S c →
      ((deallocateSmallLine S E (g.derefLine (Heap.lineOf S object)) object).pages
          (Heap.pageOf S g object)).refCount
        = (g.pages (Heap.pageOf S g object)).refCount - 1 ∧
      0 < ((deallocateSmallLine S E (g.derefLine (Heap.lineOf S object)) object).pages
          (Heap.pageOf S g object)).refCount ∧
      ((deallocateSmallLine S E (g.derefLine (Heap.lineOf S object)) object).pages
          (Heap.pageOf S g object)).hasFreeLines = true ∧
      Heap.pageOf S g object ∈
        (deallocateSmallLine S E (g.derefLine (Heap.lineOf S object)) object).m_smallPagesWithFreeLines
          (g.pages (Heap.pageOf S g object)).sizeClass) := by
  constructor
  · intro h c a cache hempty hcounted
    obtain ⟨hP, hT⟩ := allocateSmallPage_tables S E h c
    have hL := allocateSmallPage_lines S E h c
    have hrc := allocateSmallPage_refCount S E h c (allocateSmallPage S E h c).1
    have hcounted' : ((allocateSmallPage S E h c).2.pages (allocateSmallPage S E h c).1).refCount
        = ((Finset.range ((allocateSmallPage S E h c).2.m_vmPageSizePhysical
              / S.smallLineSize)).filter
            (fun L => (allocateSmallPage S E h c).2.lines
              (Heap.lineAt S (allocateSmallPage S E h c).1 L) ≠ 0)).card := by
      rw [hrc, hP, hL]
      exact hcounted
    have hfull := fullScan_noFreeLines S c (allocateSmallPage S E h c).1 hls
      (allocateSmallPage S E h c).2 hcounted'
    obtain ⟨r, e, hr, -, -, -, hexit⟩ :=
      scanLines_heap S c (allocateSmallPage S E h c).1
        ((allocateSmallPage S E h c).2.m_vmPageSizePhysical / S.smallLineSize) hls
        (allocateSmallPage S E h c).2 a cache hempty
        ((allocateSmallPage S E h c).2.m_vmPageSizePhysical / S.smallLineSize + 1) le_rfl
    refine ⟨r, hr, fun hroom => ?_⟩
    rcases hexit with ⟨-, hr1⟩ | ⟨-, -, hsz, -⟩
    · rw [hr1]
      exact hfull
    · omega
  · intro g c object hsmall hfull htwo
    have hge := noFreeLines_refCount_ge S g c _ hfull
    have htype : ¬((g.derefLine (Heap.lineOf S object)).pages
        (Heap.pageOf S (g.derefLine (Heap.lineOf S object)) object)).objectType = .Large := by
      show ¬(g.pages (Heap.pageOf S g object)).objectType = .Large
      rw [hsmall]
      exact fun e => ObjectType.noConfusion e
    have hflag : ((g.derefLine (Heap.lineOf S object)).pages
        (Heap.pageOf S (g.derefLine (Heap.lineOf S object)) object)).hasFreeLines = false :=
      hfull.1
    have heq := deallocateSmallLine_link S E _ object htype hflag
    have hrec : (deallocateSmallLine S E (g.derefLine (Heap.lineOf S object)) object).pages
          (Heap.pageOf S g object)
        = { g.pages (Heap.pageOf S g object) with
            refCount := (g.pages (Heap.pageOf S g object)).refCount - 1
            hasFreeLines := true } := by
      rw [heq]
      exact Function.update_same (Heap.pageOf S g object) _ g.pages
    have hlist : (deallocateSmallLine S E (g.derefLine (Heap.lineOf S object))
          object).m_smallPagesWithFreeLines (g.pages (Heap.pageOf S g object)).sizeClass
        = g.m_smallPagesWithFreeLines (g.pages (Heap.pageOf S g object)).sizeClass
          ++ [Heap.pageOf S g object] := by
      rw [heq]
      exact Function.update_same (g.pages (Heap.pageOf S g object)).sizeClass _
        g.m_smallPagesWithFreeLines
    rw [hrec, hlist]
    refine ⟨rfl, ?_, rfl, by simp⟩
    show 0 < (g.pages (Heap.pageOf S g object)).refCount - 1
    omega

/-- C26 at concrete inputs: the refill of size class 2 from the page at 8 MiB
with room for three ranges in the cache, and the release of the line of the
second object of a page full of objects of that class. -/
theorem deallocateSmallLine_refCount_pos_witness :
    (∃ r, allocateSmallBumpRanges exampleSizes exampleLargeEnv exampleSmallHeap 2
        ⟨0, 24, 0⟩ ⟨[], 3⟩ = some r ∧
      (r.2.2.size < r.2.2.capacity →
        r.1.noFreeLines exampleSizes 2
          (allocateSmallPage exampleSizes exampleLargeEnv exampleSmallHeap 2).1)) ∧
    (((deallocateSmallLine exampleSizes exampleLargeEnv
          (exampleFullHeap.derefLine (Heap.lineOf exampleSizes (2 ^ 23 + 24))) (2 ^ 23 + 24)).pages
          (Heap.pageOf exampleSizes exampleFullHeap (2 ^ 23 + 24))).refCount
        = (exampleFullHeap.pages (Heap.pageOf exampleSizes exampleFullHeap (2 ^ 23 + 24))).refCount
          - 1 ∧
      0 < ((deallocateSmallLine exampleSizes exampleLargeEnv
          (exampleFullHeap.derefLine (Heap.lineOf exampleSizes (2 ^ 23 + 24))) (2 ^ 23 + 24)).pages
          (Heap.pageOf exampleSizes exampleFullHeap (2 ^ 23 + 24))).refCount ∧
      ((deallocateSmallLine exampleSizes exampleLargeEnv
          (exampleFullHeap.derefLine (Heap.lineOf exampleSizes (2 ^ 23 + 24))) (2 ^ 23 + 24)).pages
          (Heap.pageOf exampleSizes exampleFullHeap (2 ^ 23 + 24))).hasFreeLines = true ∧
      Heap.pageOf exampleSizes exampleFullHeap (2 ^ 23 + 24) ∈
        (deallocateSmallLine exampleSizes exampleLargeEnv
          (exampleFullHeap.derefLine (Heap.lineOf exampleSizes (2 ^ 23 + 24)))
          (2 ^ 23 + 24)).m_smallPagesWithFreeLines
          (exampleFullHeap.pages (Heap.pageOf exampleSizes exampleFullHeap (2 ^ 23 + 24))).sizeClass) :=
  ⟨(deallocateSmallLine_refCount_pos exampleSizes exampleLargeEnv (by decide)).1
      exampleSmallHeap 2 ⟨0, 24, 0⟩ ⟨[], 3⟩ rfl (by decide),
    (deallocateSmallLine_refCount_pos exampleSizes exampleLargeEnv (by decide)).2
      exampleFullHeap 2 (2 ^ 23 + 24) (by decide) (by decide) (by decide)⟩

/-- The refill of the example leaves room in the cache, and the page at 8 MiB
holds sixteen references afterwards, one for each of its lines. -/
theorem allocateSmallBumpRanges_full_example :
    ((allocateSmallBumpRanges exampleSizes exampleLargeEnv exampleSmallHeap 2
        ⟨0, 24, 0⟩ ⟨[], 3⟩).map (fun r => (r.2.2.size, (r.1.pages (2 ^ 23)).refCount,
          (r.1.pages (2 ^ 23)).hasFreeLines))) = some (2, 16, false) := by
  decide

/-! ## C27: the loop of `initializeLineMetadata` is safe -/

/-- The loop leaves the table that its writes give, and its final `line` is the
line of the last write. -/
theorem lineMetadataLoop_writes (S : Sizes) (P s base : Nat) (fuel object line : Nat)
    (table : List LineMetadata) (r : Nat × Nat × List LineMetadata)
    (hrun : lineMetadataLoop S P s base fuel object line table = some r) :
    r.2.2 = writeLineMetadata base table (lineMetadataWrites S P s fuel object) ∧
    r.2.1 = (((lineMetadataWrites S P s fuel object).getLast?).map (fun w => w.1)).getD line := by
  induction fuel generalizing object line table with
  | zero => simp [lineMetadataLoop] at hrun
  | succ fuel ih =>
    simp only [lineMetadataLoop] at hrun
    simp only [lineMetadataWrites]
    by_cases hlt : object < P
    · rw [if_pos hlt] at hrun
      rw [if_pos hlt]
      obtain ⟨h1, h2⟩ := ih _ _ _ hrun
      refine ⟨h1, ?_⟩
      rw [h2]
      cases hw : lineMetadataWrites S P s fuel
        (object + (divideRoundingUp (S.smallLineSize - object % S.smallLineSize) s).1 * s) with
      | nil => simp
      | cons w ws =>
        rw [List.getLast?_cons_cons, List.getLast?_eq_getLast _ (List.cons_ne_nil w ws)]
        rfl
    · rw [if_neg hlt] at hrun
      rw [if_neg hlt]
      obtain rfl := Option.some.inj hrun
      exact ⟨rfl, rfl⟩

/-- Every write of the loop goes to a line of the page and computes an object
count between one and the line size. -/
theorem lineMetadataWrites_bounds (S : Sizes) (P s : Nat) (hs : 0 < s)
    (hls : 0 < S.smallLineSize) (hdiv : S.smallLineSize ∣ P) (fuel object : Nat) :
    ∀ w ∈ lineMetadataWrites S P s fuel object,
      w.1 < P / S.smallLineSize ∧ w.2.1 < S.smallLineSize ∧
      1 ≤ w.2.2 ∧ w.2.2 ≤ S.smallLineSize := by
  induction fuel generalizing object with
  | zero => intro w hw; simp [lineMetadataWrites] at hw
  | succ fuel ih =>
    intro w hw
    simp only [lineMetadataWrites] at hw
    by_cases hlt : object < P
    · rw [if_pos hlt] at hw
      rcases List.mem_cons.1 hw with rfl | hw'
      · have hml := Nat.mod_lt object hls
        have hd := divideRoundingUp_spec hs
          (show 0 < S.smallLineSize - object % S.smallLineSize by omega)
        have hline : object / S.smallLineSize < P / S.smallLineSize := by
          obtain ⟨q, hq⟩ := hdiv
          rw [hq, Nat.mul_div_cancel_left _ hls]
          exact Nat.div_lt_of_lt_mul (by rw [← hq]; exact hlt)
        exact ⟨hline, hml, hd.2.2.1, le_trans hd.2.2.2 (Nat.sub_le _ _)⟩
      · exact ih _ w hw'
    · rw [if_neg hlt] at hw
      exact absurd hw (List.not_mem_nil _)

/-- C27: for a size class with object size `s > 0` and a page size that is a
multiple of `smallLineSize`, with lines shorter than 65536 bytes and a table
grown to `sizeClassCount * smallLineCount` entries: the loop of
`Heap::initializeLineMetadata` returns within `P + 1` rounds, the table it leaves
is the one its writes give, every write goes to a `line` below
`P / smallLineSize`, inside the class's slice of the table, with an
`objectCount` that is at least 1 and below 65536, and when the final `object`
exceeds the page the entry of the final `line` has a non-zero `objectCount`. -/
theorem lineMetadataLoop_safe (S : Sizes) (P c : Nat) (table : List LineMetadata)
    (hs : 0 < S.objectSize c) (hls : 0 < S.smallLineSize) (hdiv : S.smallLineSize ∣ P)
    (hshort : S.smallLineSize < shortSize) (hc : c < S.sizeClassCount)
    (hlen : S.sizeClassCount * (P / S.smallLineSize) ≤ table.length) :
    ∃ object line table',
      lineMetadataLoop S P (S.objectSize c) (c * (P / S.smallLineSize)) (P + 1) 0 0 table
        = some (object, line, table') ∧
      table' = writeLineMetadata (c * (P / S.smallLineSize)) table
        (lineMetadataWrites S P (S.objectSize c) (P + 1) 0) ∧
      (∀ w ∈ lineMetadataWrites S P (S.objectSize c) (P + 1) 0,
        w.1 < P / S.smallLineSize ∧
        c * (P / S.smallLineSize) + w.1 < (c + 1) * (P / S.smallLineSize) ∧
        c * (P / S.smallLineSize) + w.1 < table.length ∧
        1 ≤ w.2.2 ∧ w.2.2 < shortSize) ∧
      (object > P →
        (table'.getD (c * (P / S.smallLineSize) + line) ⟨0, 0⟩).objectCount ≠ 0) ∧
      ∃ t, initializeSizeClass S P table c = some t := by
  obtain ⟨⟨object, line, table'⟩, hr⟩ :=
    lineMetadataLoop_some S P (S.objectSize c) (c * (P / S.smallLineSize)) hs hls
      (P + 1) 0 0 table (by omega) (by omega)
  have hslice : (c + 1) * (P / S.smallLineSize) ≤ table.length :=
    le_trans (Nat.mul_le_mul_right _ (by omega)) hlen
  have hslice' : c * (P / S.smallLineSize) + P / S.smallLineSize
      = (c + 1) * (P / S.smallLineSize) := by
    rw [Nat.add_mul, Nat.one_mul]
  refine ⟨object, line, table', hr, (lineMetadataLoop_writes S P _ _ _ _ _ _ _ hr).1, ?_, ?_,
    initializeSizeClass_some S P c hs hls table⟩
  · intro w hw
    obtain ⟨h1, -, h3, h4⟩ := lineMetadataWrites_bounds S P _ hs hls hdiv _ _ w hw
    exact ⟨h1, by omega, by omega, h3, by omega⟩
  · intro hgt
    obtain ⟨m', -, hobj', -, -, hlast, hE1, -⟩ :=
      lineMetadataLoop_spec S P (S.objectSize c) (c * (P / S.smallLineSize)) hs hls hdiv hshort
        _ 0 0 table 0 (by rw [firstObject_zero S hs, Nat.zero_mul]) (by simp)
        (by omega) object line table' hr
    rcases hlast with ⟨hm0, -⟩ | ⟨hline, -, -, -, hcnt⟩
    · rw [hm0, firstObject_zero S hs, Nat.zero_mul] at hobj'
      omega
    · rw [hE1 line (Nat.zero_le _) (by omega) hcnt]
      show firstObject S (S.objectSize c) (line + 1) - firstObject S (S.objectSize c) line ≠ 0
      omega

theorem lineMetadataLoop_safe_witness :
    ∃ object line table',
      lineMetadataLoop exampleSizes 4096 (exampleSizes.objectSize 2)
          (2 * (4096 / exampleSizes.smallLineSize)) (4096 + 1) 0 0
          (List.replicate 64 ⟨0, 0⟩) = some (object, line, table') ∧
      table' = writeLineMetadata (2 * (4096 / exampleSizes.smallLineSize))
        (List.replicate 64 ⟨0, 0⟩)
        (lineMetadataWrites exampleSizes 4096 (exampleSizes.objectSize 2) (4096 + 1) 0) ∧
      (∀ w ∈ lineMetadataWrites exampleSizes 4096 (exampleSizes.objectSize 2) (4096 + 1) 0,
        w.1 < 4096 / exampleSizes.smallLineSize ∧
        2 * (4096 / exampleSizes.smallLineSize) + w.1
          < (2 + 1) * (4096 / exampleSizes.smallLineSize) ∧
        2 * (4096 / exampleSizes.smallLineSize) + w.1 < (List.replicate 64
          (⟨0, 0⟩ : LineMetadata)).length ∧
        1 ≤ w.2.2 ∧ w.2.2 < shortSize) ∧
      (object > 4096 →
        (table'.getD (2 * (4096 / exampleSizes.smallLineSize) + line) ⟨0, 0⟩).objectCount ≠ 0) ∧
      ∃ t, initializeSizeClass exampleSizes 4096 (List.replicate 64 ⟨0, 0⟩) 2 = some t :=
  lineMetadataLoop_safe exampleSizes 4096 2 (List.replicate 64 ⟨0, 0⟩)
    (by decide) (by decide) (by decide) (by decide) (by decide) (by decide)

/-- The loop of the example for objects of 24 bytes ends at byte 4104, past the
page, on line 15, whose entry counts eleven objects before the decrement. -/
theorem lineMetadataLoop_example :
    (lineMetadataLoop exampleSizes 4096 24 32 (4096 + 1) 0 0 (List.replicate 64 ⟨0, 0⟩)).map
      (fun r => (r.1, r.2.1, (r.2.2.getD (32 + 15) ⟨0, 0⟩).objectCount))
      = some (4104, 15, 11) := by
  decide

/-! ## C28: the split of a fresh reservation -/

/-- The extra-large split of a range that begins at an aligned address and
whose size is the request rounded up to `xLargeAlignment`. -/
theorem splitAndAllocateXLarge_fresh (xa m : Nat) (hm : m < 64) (h : XLargeHeap)
    (hP : 0 < h.m_vmPageSizePhysical) (hxa : 0 < xa) (hdvd : h.m_vmPageSizePhysical ∣ xa)
    (begin size : Nat) (vm : VMState)
    (haligned : begin % 2 ^ m = 0)
    (hround : size + (xa - 1) < wordSize)
    (hspace : begin + roundUpToMultipleOf xa size ≤ wordSize) :
    ∃ c : AddAllocated,
      (splitAndAllocateXLarge xa h ⟨begin, roundUpToMultipleOf xa size, vm⟩ (2 ^ m)
          size).2.addAllocatedCalls = h.addAllocatedCalls ++ [c] ∧
      c.allocated.1 = (splitAndAllocateXLarge xa h ⟨begin, roundUpToMultipleOf xa size, vm⟩
          (2 ^ m) size).1 ∧
      c.prev = XLargeRange.null ∧ c.next = XLargeRange.null ∧
      wsub (roundUpToMultipleOf xa size) size = roundUpToMultipleOf xa size - size ∧
      size ≤ roundUpToMultipleOf xa size ∧
      roundUpToMultipleOf h.m_vmPageSizePhysical size ≤ roundUpToMultipleOf xa size ∧
      c.allocated.1.begin = begin ∧
      c.allocated.1.size = roundUpToMultipleOf h.m_vmPageSizePhysical size ∧
      c.allocated.1.size + c.allocated.2.size = roundUpToMultipleOf xa size ∧
      (c.allocated.2.size ≠ 0 → c.allocated.2.begin = begin + c.allocated.1.size) := by
  have hPle : h.m_vmPageSizePhysical ≤ xa := Nat.le_of_dvd hxa hdvd
  have hA1 := roundUpToMultipleOf_ge hxa hround
  have hA2 := roundUpToMultipleOf_lt_add hxa hround
  have hroundP : size + (h.m_vmPageSizePhysical - 1) < wordSize := by omega
  have hN : roundUpToMultipleOf h.m_vmPageSizePhysical size ≤ roundUpToMultipleOf xa size :=
    roundUpToMultipleOf_le_of_dvd hP hroundP
      (dvd_trans hdvd (Nat.dvd_of_mod_eq_zero (roundUpToMultipleOf_mod _ _))) hA1
  have hAw := roundUpToMultipleOf_lt xa size
  have hsub : wsub (roundUpToMultipleOf xa size) size = roundUpToMultipleOf xa size - size :=
    wsub_eq_sub hAw hA1
  obtain ⟨c, hc, hfirst, hprev, hbegin, hsecond, hnext⟩ :=
    splitAndAllocateXLarge_registered xa h ⟨begin, roundUpToMultipleOf xa size, vm⟩ (2 ^ m)
      size _ _ rfl rfl
  have ht : ¬test begin (wsub (2 ^ m) 1) = true := fun ht => test_two_pow_true hm ht haligned
  have hx : ¬roundUpToMultipleOf xa size - size ≥ xa := by omega
  simp only [if_neg ht, hsub, if_neg hx] at hprev hbegin hsecond hnext
  have hsize : c.allocated.1.size = roundUpToMultipleOf h.m_vmPageSizePhysical size := by
    rw [hfirst]
    exact splitAndAllocateXLarge_size _ _ _ _ _
  have hsz2 : c.allocated.2.size
      = roundUpToMultipleOf xa size - roundUpToMultipleOf h.m_vmPageSizePhysical size := by
    rw [hsecond]
    simp only [XLargeRange.split]
    exact wsub_eq_sub hAw hN
  refine ⟨c, hc, hfirst, hprev, hnext, hsub, hA1, hN, hbegin, hsize, ?_, ?_⟩
  · rw [hsize, hsz2]
    omega
  · intro hne
    rw [hsz2] at hne
    rw [hsecond, hsize]
    simp only [XLargeRange.split, XLargeRange.end]
    exact wadd_eq_add (by omega)

/-- C28: when `takeFree` finds nothing and `tryVMAllocate` answers with a
non-null address aligned to the rounded alignment, `tryAllocateXLarge`
registers one entry for the fresh reservation of
`roundUpToMultipleOf<xLargeAlignment>(size)` bytes in which `prev` and `next`
are null, the allocation begins at the reserved address and has
`roundUpToMultipleOf(physicalPageSize, size)` bytes, which is at most the
reserved size, and the allocation and the fragment paired with it cover the
reservation exactly; `range.size() - size` is the true difference.  Here `size`
is the request raised to the physical page size, `xLargeAlignment` is a
multiple of the physical page size, the rounding of the size stays inside the
machine word and the reservation inside the address space. -/
theorem tryAllocateXLarge_fresh (k j : Nat) (hk : k < 64) (hj : j < 64)
    (takeFree : Nat → Nat → XLargeRange) (tryVMAllocate : Nat → Nat → Nat)
    (h : XLargeHeap) (size : Nat)
    (hP : 0 < h.m_vmPageSizePhysical) (hdvd : h.m_vmPageSizePhysical ∣ 2 ^ k)
    (hfree : (takeFree (roundUpToMultipleOf (2 ^ k) (2 ^ j))
      (max h.m_vmPageSizePhysical size)).toBool = false)
    (hvm : tryVMAllocate (roundUpToMultipleOf (2 ^ k) (2 ^ j))
      (roundUpToMultipleOf (2 ^ k) (max h.m_vmPageSizePhysical size)) ≠ 0)
    (haligned : tryVMAllocate (roundUpToMultipleOf (2 ^ k) (2 ^ j))
      (roundUpToMultipleOf (2 ^ k) (max h.m_vmPageSizePhysical size))
        % roundUpToMultipleOf (2 ^ k) (2 ^ j) = 0)
    (hround : max h.m_vmPageSizePhysical size + (2 ^ k - 1) < wordSize)
    (hspace : tryVMAllocate (roundUpToMultipleOf (2 ^ k) (2 ^ j))
        (roundUpToMultipleOf (2 ^ k) (max h.m_vmPageSizePhysical size))
      + roundUpToMultipleOf (2 ^ k) (max h.m_vmPageSizePhysical size) ≤ wordSize) :
    ∃ c : AddAllocated,
      (tryAllocateXLarge (2 ^ k) takeFree tryVMAllocate h (2 ^ j) size).2.addAllocatedCalls
        = h.addAllocatedCalls ++ [c] ∧
      c.allocated.1.begin = (tryAllocateXLarge (2 ^ k) takeFree tryVMAllocate h (2 ^ j) size).1 ∧
      c.prev = XLargeRange.null ∧ c.next = XLargeRange.null ∧
      wsub (roundUpToMultipleOf (2 ^ k) (max h.m_vmPageSizePhysical size))
          (max h.m_vmPageSizePhysical size)
        = roundUpToMultipleOf (2 ^ k) (max h.m_vmPageSizePhysical size)
          - max h.m_vmPageSizePhysical size ∧
      max h.m_vmPageSizePhysical size
        ≤ roundUpToMultipleOf (2 ^ k) (max h.m_vmPageSizePhysical size) ∧
      roundUpToMultipleOf h.m_vmPageSizePhysical (max h.m_vmPageSizePhysical size)
        ≤ roundUpToMultipleOf (2 ^ k) (max h.m_vmPageSizePhysical size) ∧
      c.allocated.1.begin = tryVMAllocate (roundUpToMultipleOf (2 ^ k) (2 ^ j))
        (roundUpToMultipleOf (2 ^ k) (max h.m_vmPageSizePhysical size)) ∧
      c.allocated.1.size
        = roundUpToMultipleOf h.m_vmPageSizePhysical (max h.m_vmPageSizePhysical size) ∧
      c.allocated.1.size + c.allocated.2.size
        = roundUpToMultipleOf (2 ^ k) (max h.m_vmPageSizePhysical size) ∧
      (c.allocated.2.size ≠ 0 →
        c.allocated.2.begin = c.allocated.1.begin + c.allocated.1.size) := by
  have hm : max j k < 64 := max_lt hj hk
  have hxa : 0 < 2 ^ k := Nat.pow_pos (by norm_num)
  rw [roundUpToMultipleOf_two_pow hk hj] at hfree hvm haligned hspace ⊢
  generalize hb : tryVMAllocate (2 ^ max j k)
    (roundUpToMultipleOf (2 ^ k) (max h.m_vmPageSizePhysical size)) = begin
    at hvm haligned hspace ⊢
  have htry : tryAllocateXLarge (2 ^ k) takeFree tryVMAllocate h (2 ^ j) size
      = ((splitAndAllocateXLarge (2 ^ k) { h with m_isAllocatingPages := true }
            ⟨begin, roundUpToMultipleOf (2 ^ k) (max h.m_vmPageSizePhysical size), .Virtual⟩
            (2 ^ max j k) (max h.m_vmPageSizePhysical size)).1.begin,
          (splitAndAllocateXLarge (2 ^ k) { h with m_isAllocatingPages := true }
            ⟨begin, roundUpToMultipleOf (2 ^ k) (max h.m_vmPageSizePhysical size), .Virtual⟩
            (2 ^ max j k) (max h.m_vmPageSizePhysical size)).2) := by
    simp only [tryAllocateXLarge, roundUpToMultipleOf_two_pow hk hj, hb]
    rw [if_neg (by rw [hfree]; exact Bool.false_ne_true), if_neg hvm]
  obtain ⟨c, hc, hfirst, hprev, hnext, hsub, hge, hN, hbegin, hsize, hsum, hsecond⟩ :=
    splitAndAllocateXLarge_fresh (2 ^ k) (max j k) hm { h with m_isAllocatingPages := true }
      hP hxa hdvd begin (max h.m_vmPageSizePhysical size) .Virtual haligned hround hspace
  refine ⟨c, ?_, ?_, hprev, hnext, hsub, hge, hN, hbegin, hsize, hsum, ?_⟩
  · rw [htry]
    exact hc
  · rw [htry, hfirst]
  · intro hne
    rw [hbegin]
    exact hsecond hne

theorem tryAllocateXLarge_fresh_witness :
    ∃ c : AddAllocated,
      (tryAllocateXLarge (2 ^ 21) emptyTakeFree exampleVMAllocate exampleXLargeHeap (2 ^ 3)
        (5 * 2 ^ 20 + 1)).2.addAllocatedCalls = exampleXLargeHeap.addAllocatedCalls ++ [c] ∧
      c.allocated.1.begin = (tryAllocateXLarge (2 ^ 21) emptyTakeFree exampleVMAllocate
        exampleXLargeHeap (2 ^ 3) (5 * 2 ^ 20 + 1)).1 ∧
      c.prev = XLargeRange.null ∧ c.next = XLargeRange.null ∧
      wsub (roundUpToMultipleOf (2 ^ 21)
          (max exampleXLargeHeap.m_vmPageSizePhysical (5 * 2 ^ 20 + 1)))
          (max exampleXLargeHeap.m_vmPageSizePhysical (5 * 2 ^ 20 + 1))
        = roundUpToMultipleOf (2 ^ 21)
            (max exampleXLargeHeap.m_vmPageSizePhysical (5 * 2 ^ 20 + 1))
          - max exampleXLargeHeap.m_vmPageSizePhysical (5 * 2 ^ 20 + 1) ∧
      max exampleXLargeHeap.m_vmPageSizePhysical (5 * 2 ^ 20 + 1)
        ≤ roundUpToMultipleOf (2 ^ 21)
            (max exampleXLargeHeap.m_vmPageSizePhysical (5 * 2 ^ 20 + 1)) ∧
      roundUpToMultipleOf exampleXLargeHeap.m_vmPageSizePhysical
          (max exampleXLargeHeap.m_vmPageSizePhysical (5 * 2 ^ 20 + 1))
        ≤ roundUpToMultipleOf (2 ^ 21)
            (max exampleXLargeHeap.m_vmPageSizePhysical (5 * 2 ^ 20 + 1)) ∧
      c.allocated.1.begin = exampleVMAllocate (roundUpToMultipleOf (2 ^ 21) (2 ^ 3))
        (roundUpToMultipleOf (2 ^ 21)
          (max exampleXLargeHeap.m_vmPageSizePhysical (5 * 2 ^ 20 + 1))) ∧
      c.allocated.1.size = roundUpToMultipleOf exampleXLargeHeap.m_vmPageSizePhysical
        (max exampleXLargeHeap.m_vmPageSizePhysical (5 * 2 ^ 20 + 1)) ∧
      c.allocated.1.size + c.allocated.2.size = roundUpToMultipleOf (2 ^ 21)
        (max exampleXLargeHeap.m_vmPageSizePhysical (5 * 2 ^ 20 + 1)) ∧
      (c.allocated.2.size ≠ 0 →
        c.allocated.2.begin = c.allocated.1.begin + c.allocated.1.size) :=
  tryAllocateXLarge_fresh 21 3 (by decide) (by decide) emptyTakeFree exampleVMAllocate
    exampleXLargeHeap (5 * 2 ^ 20 + 1) (by decide) (by decide) (by decide) (by decide)
    (by decide) (by decide) (by decide)

/-- The entry that the fresh reservation of the example registers: 6 MiB
reserved at 6 MiB, of which 5 MiB and a page are allocated. -/
theorem tryAllocateXLarge_fresh_example :
    (tryAllocateXLarge (2 ^ 21) emptyTakeFree exampleVMAllocate exampleXLargeHeap (2 ^ 3)
      (5 * 2 ^ 20 + 1)).2.addAllocatedCalls
      = [⟨XLargeRange.null,
          (⟨3 * 2 ^ 21, 5 * 2 ^ 20 + 4096, .Physical⟩,
            ⟨3 * 2 ^ 21 + 5 * 2 ^ 20 + 4096, 2 ^ 20 - 4096, .Virtual⟩),
          XLargeRange.null⟩] := by
  decide

/-! ## C29: a linked page has a free line -/

theorem hasFreeLine_congr (S : Sizes) {h g : Heap} (c page : Nat)
    (hP : g.m_vmPageSizePhysical = h.m_vmPageSizePhysical)
    (hT : g.m_smallLineMetadata = h.m_smallLineMetadata)
    (hlines : ∀ L, L < h.m_vmPageSizePhysical / S.smallLineSize →
      h.lines (Heap.lineAt S page L) = 0 → g.lines (Heap.lineAt S page L) = 0)
    (hfree : h.hasFreeLine S c page) : g.hasFreeLine S c page := by
  obtain ⟨L, hL, hz, hcount⟩ := hfree
  refine ⟨L, by rw [hP]; exact hL, hlines L hL hz, ?_⟩
  unfold Heap.lineMetadata at hcount ⊢
  rw [hP, hT]
  exact hcount

/-- `deallocateSmallLine` keeps every linked page with a free line: it changes
no line, and the page it links is the page of the object, whose line has just
dropped to reference count zero. -/
theorem deallocateSmallLine_available (S : Sizes) (E : LargeEnv) (g : Heap) (object : Nat)
    (hinv : g.freeLinesAvailable S)
    (hzero : g.lines (Heap.lineOf S object) = 0)
    (hheld : (g.pages (Heap.pageOf S g object)).objectType = .Small →
      ∃ L, L < g.m_vmPageSizePhysical / S.smallLineSize ∧
        Heap.lineOf S object = Heap.lineAt S (Heap.pageOf S g object) L ∧
        (g.lineMetadata S (g.pages (Heap.pageOf S g object)).sizeClass L).objectCount ≠ 0) :
    (deallocateSmallLine S E g object).freeLinesAvailable S := by
  have hpage : ¬(g.pages (Heap.pageOf S g object)).objectType = .Large →
      g.hasFreeLine S (g.pages (Heap.pageOf S g object)).sizeClass
        (Heap.pageOf S g object) := by
    intro hsmall
    obtain ⟨L, hL, hline, hcount⟩ := hheld (objectType_small hsmall)
    exact ⟨L, hL, by rw [← hline]; exact hzero, hcount⟩
  intro c q hq
  by_cases htype : (g.pages (Heap.pageOf S g object)).objectType = .Large
  · have he : deallocateSmallLine S E g object
        = deallocateLarge E g (E.largeObjectAt g object) := by
      unfold deallocateSmallLine
      rw [if_pos htype]
    rw [he] at hq ⊢
    exact hasFreeLine_congr S c q rfl rfl (fun _ _ hz => hz) (hinv c q hq)
  · by_cases hflag : (g.pages (Heap.pageOf S g object)).hasFreeLines = false
    · have he := deallocateSmallLine_link S E g object htype hflag
      rw [he] at hq ⊢
      have hq' : q ∈ Function.update g.m_smallPagesWithFreeLines
          (g.pages (Heap.pageOf S g object)).sizeClass
          (g.m_smallPagesWithFreeLines (g.pages (Heap.pageOf S g object)).sizeClass
            ++ [Heap.pageOf S g object]) c := hq
      have hold : g.hasFreeLine S c q := by
        by_cases hc : c = (g.pages (Heap.pageOf S g object)).sizeClass
        · subst hc
          rw [Function.update_same, List.mem_append, List.mem_singleton] at hq'
          rcases hq' with hq' | rfl
          · exact hinv _ q hq'
          · exact hpage htype
        · rw [Function.update_noteq hc] at hq'
          exact hinv c q hq'
      exact hasFreeLine_congr S c q rfl rfl (fun _ _ hz => hz) hold
    · have hflag' : (g.pages (Heap.pageOf S g object)).hasFreeLines = true := by
        simpa using hflag
      by_cases hrc : (g.pages (Heap.pageOf S g object)).refCount - 1 = 0
      · have he := deallocateSmallLine_free S E g object htype hflag' hrc
        rw [he] at hq ⊢
        have hq' : q ∈ Function.update g.m_smallPagesWithFreeLines
            (g.pages (Heap.pageOf S g object)).sizeClass
            ((g.m_smallPagesWithFreeLines
              (g.pages (Heap.pageOf S g object)).sizeClass).erase (Heap.pageOf S g object))
            c := hq
        have hold : g.hasFreeLine S c q := by
          by_cases hc : c = (g.pages (Heap.pageOf S g object)).sizeClass
          · subst hc
            rw [Function.update_same] at hq'
            exact hinv _ q (List.mem_of_mem_erase hq')
          · rw [Function.update_noteq hc] at hq'
            exact hinv c q hq'
        exact hasFreeLine_congr S c q rfl rfl (fun _ _ hz => hz) hold
      · have he := deallocateSmallLine_keep S E g object htype hflag' hrc
        rw [he] at hq ⊢
        exact hasFreeLine_congr S c q rfl rfl (fun _ _ hz => hz) (hinv c q hq)

/-- The pages linked after `allocateSmallPage` were linked before it. -/
theorem allocateSmallPage_lists_subset (S : Sizes) (E : LargeEnv) (h : Heap) (c : Nat)
    (c' q : Nat) (hq : q ∈ (allocateSmallPage S E h c).2.m_smallPagesWithFreeLines c') :
    q ∈ h.m_smallPagesWithFreeLines c' := by
  obtain ⟨hA, hB⟩ := allocateSmallPage_link S E h c
  by_cases hl : h.m_smallPagesWithFreeLines c = []
  · rw [(hB hl).1] at hq
    exact hq
  · rw [(hA hl).2.2] at hq
    by_cases hc : c' = c
    · subst hc
      rw [Function.update_same] at hq
      exact List.mem_of_mem_tail hq
    · rw [Function.update_noteq hc] at hq
      exact hq

/-- `allocateSmallBumpRanges` keeps every linked page with a free line: the scan
touches the lines of the page it scans only, and on a full cache it links that
page at a line it has found free. -/
theorem allocateSmallBumpRanges_available (S : Sizes) (E : LargeEnv) (h : Heap) (c : Nat)
    (a : BumpAllocator) (cache : BumpRangeCache)
    (hls : 0 < S.smallLineSize) (hempty : cache.ranges = [])
    (hout : ∀ c', (allocateSmallPage S E h c).1
      ∉ (allocateSmallPage S E h c).2.m_smallPagesWithFreeLines c')
    (hsep : ∀ c' q, q ∈ h.m_smallPagesWithFreeLines c' → q ≠ (allocateSmallPage S E h c).1 →
      ∀ L L', L < h.m_vmPageSizePhysical / S.smallLineSize →
        L' < h.m_vmPageSizePhysical / S.smallLineSize →
        Heap.lineAt S q L' ≠ Heap.lineAt S (allocateSmallPage S E h c).1 L)
    (hinv : h.freeLinesAvailable S) :
    ∃ r, allocateSmallBumpRanges S E h c a cache = some r ∧ r.1.freeLinesAvailable S := by
  obtain ⟨hP, hT⟩ := allocateSmallPage_tables S E h c
  have hL := allocateSmallPage_lines S E h c
  generalize hpg : (allocateSmallPage S E h c).1 = page at hout hsep
  obtain ⟨r, e, hr, he, -, -, hexit⟩ :=
    scanLines_heap S c page
      ((allocateSmallPage S E h c).2.m_vmPageSizePhysical / S.smallLineSize) hls
      (allocateSmallPage S E h c).2 a cache hempty
      ((allocateSmallPage S E h c).2.m_vmPageSizePhysical / S.smallLineSize + 1) le_rfl
  have hr' : allocateSmallBumpRanges S E h c a cache = some r := by
    simp only [allocateSmallBumpRanges, hpg]
    exact hr
  refine ⟨r, hr', ?_⟩
  -- the pages linked before the scan keep their free lines through it
  have hothers : ∀ k c' q, q ∈ (allocateSmallPage S E h c).2.m_smallPagesWithFreeLines c' →
      (absorbLines S c page
        ((allocateSmallPage S E h c).2.m_vmPageSizePhysical / S.smallLineSize)
        (allocateSmallPage S E h c).2 k).hasFreeLine S c' q := by
    intro k c' q hq
    obtain ⟨-, -, io, -, i1, i2, -⟩ := absorbLines_spec S c page
      ((allocateSmallPage S E h c).2.m_vmPageSizePhysical / S.smallLineSize) hls
      (allocateSmallPage S E h c).2 k
    have hne : q ≠ page := fun e => hout c' (e ▸ hq)
    have hq0 := allocateSmallPage_lists_subset S E h c c' q hq
    refine hasFreeLine_congr S c' q (i1.trans hP) (i2.trans hT) ?_ (hinv c' q hq0)
    intro L' hL' hz
    rw [io _ (fun L _ hab => hsep c' q hq0 hne L L' (by rw [← hP]; exact hab.1) hL'), hL]
    exact hz
  rcases hexit with ⟨-, hr1⟩ | ⟨helt, hab, -, hr1⟩
  · intro c' q hq
    rw [hr1] at hq ⊢
    obtain ⟨-, -, -, -, -, -, il, -⟩ := absorbLines_spec S c page
      ((allocateSmallPage S E h c).2.m_vmPageSizePhysical / S.smallLineSize) hls
      (allocateSmallPage S E h c).2
      ((allocateSmallPage S E h c).2.m_vmPageSizePhysical / S.smallLineSize)
    have hq' : q ∈ (allocateSmallPage S E h c).2.m_smallPagesWithFreeLines c' := by
      rw [← il]; exact hq
    exact hasFreeLine_congr S c' q rfl rfl (fun _ _ hz => hz) (hothers _ c' q hq')
  · intro c' q hq
    rw [hr1] at hq ⊢
    obtain ⟨imd, -, io, -, i1, i2, il, -⟩ := absorbLines_spec S c page
      ((allocateSmallPage S E h c).2.m_vmPageSizePhysical / S.smallLineSize) hls
      (allocateSmallPage S E h c).2 e
    have hq' : q ∈ Function.update (allocateSmallPage S E h c).2.m_smallPagesWithFreeLines c
        ((allocateSmallPage S E h c).2.m_smallPagesWithFreeLines c ++ [page]) c' := by
      rw [← il]; exact hq
    have hold : (absorbLines S c page
        ((allocateSmallPage S E h c).2.m_vmPageSizePhysical / S.smallLineSize)
        (allocateSmallPage S E h c).2 e).hasFreeLine S c' q := by
      have hscanned : (absorbLines S c page
          ((allocateSmallPage S E h c).2.m_vmPageSizePhysical / S.smallLineSize)
          (allocateSmallPage S E h c).2 e).hasFreeLine S c page := by
        refine ⟨e, by rw [i1]; exact helt, ?_, ?_⟩
        · rw [io _ (fun L hL _ => lineAt_ne S hls page (by omega))]
          exact hab.2.1
        · rw [imd e]
          exact hab.2.2
      by_cases hc : c' = c
      · subst hc
        rw [Function.update_same, List.mem_append, List.mem_singleton] at hq'
        rcases hq' with hq' | rfl
        · exact hothers e _ q hq'
        · exact hscanned
      · rw [Function.update_noteq hc] at hq'
        exact hothers e c' q hq'
    exact hasFreeLine_congr S c' q rfl rfl (fun _ _ hz => hz) hold

/-- A page taken from the list of its size class yields objects: on either exit
the object counts of the ranges handed out add up to a positive number. -/
theorem allocateSmallBumpRanges_yields (S : Sizes) (E : LargeEnv) (h : Heap) (c : Nat)
    (a : BumpAllocator) (cache : BumpRangeCache)
    (hls : 0 < S.smallLineSize) (hempty : cache.ranges = []) (hcap : 0 < cache.capacity)
    (hlinked : h.m_smallPagesWithFreeLines c ≠ [])
    (hinv : h.freeLinesAvailable S)
    (hshort : ((List.range (h.m_vmPageSizePhysical / S.smallLineSize)).map
      (fun L => (h.lineMetadata S c L).objectCount)).sum < shortSize) :
    ∃ r, allocateSmallBumpRanges S E h c a cache = some r ∧
      (allocateSmallPage S E h c).1 = (h.m_smallPagesWithFreeLines c).headD 0 ∧
      0 < ((emittedRanges a r).map (fun ρ => ρ.objectCount)).sum := by
  obtain ⟨hP, hmd⟩ := allocateSmallPage_tables S E h c
  have hl := allocateSmallPage_lines S E h c
  have hhead := ((allocateSmallPage_link S E h c).1 hlinked).1
  have hmem : (allocateSmallPage S E h c).1 ∈ h.m_smallPagesWithFreeLines c := by
    rw [hhead]
    obtain ⟨y, tail, hcons⟩ := List.exists_cons_of_ne_nil hlinked
    rw [hcons]
    simp
  obtain ⟨L0, hL0, hz0, hc0⟩ := hinv c _ hmem
  have hcount : ∀ L, ((allocateSmallPage S E h c).2.lineMetadata S c L).objectCount
      = (h.lineMetadata S c L).objectCount := by
    intro L
    unfold Heap.lineMetadata
    rw [hP, hmd]
  have hshort₀ : ∑ L in Finset.range (h.m_vmPageSizePhysical / S.smallLineSize),
      ((allocateSmallPage S E h c).2.lineMetadata S c L).objectCount < shortSize := by
    rw [Finset.sum_congr rfl (fun L _ => hcount L), Finset.range_eq_Ico, ← list_sum_range_eq]
    exact hshort
  have hab0 : isAbsorbed S c (allocateSmallPage S E h c).1
      (h.m_vmPageSizePhysical / S.smallLineSize) (allocateSmallPage S E h c).2 L0 :=
    ⟨hL0, by rw [hl]; exact hz0, by rw [hcount]; exact hc0⟩
  obtain ⟨r, e, hr, he, hsum, hsize, hcap', hexit⟩ :=
    scanLines_absorbs S c (allocateSmallPage S E h c).1
      (h.m_vmPageSizePhysical / S.smallLineSize) hls (allocateSmallPage S E h c).2 a cache
      hempty hshort₀ (h.m_vmPageSizePhysical / S.smallLineSize + 1) le_rfl
  have hr' : allocateSmallBumpRanges S E h c a cache = some r := by
    simp only [allocateSmallBumpRanges, hP]
    exact hr
  refine ⟨r, hr', hhead, ?_⟩
  rw [hsum]
  -- some line before the exit has been absorbed
  have hsome : ∃ L, L < e ∧ isAbsorbed S c (allocateSmallPage S E h c).1
      (h.m_vmPageSizePhysical / S.smallLineSize) (allocateSmallPage S E h c).2 L := by
    rcases hexit with ⟨hen, -⟩ | ⟨-, -, hfull, -⟩
    · exact ⟨L0, by omega, hab0⟩
    · have hpos : 0 < ((Finset.range e).filter (fun L =>
          isAbsorbed S c (allocateSmallPage S E h c).1
            (h.m_vmPageSizePhysical / S.smallLineSize)
            (allocateSmallPage S E h c).2 L)).card := by
        have : r.2.2.size = cache.capacity := by rw [hfull, hcap']
        omega
      obtain ⟨L, hL⟩ := Finset.card_pos.1 hpos
      rw [Finset.mem_filter, Finset.mem_range] at hL
      exact ⟨L, hL.1, hL.2⟩
  obtain ⟨L, hLe, hab⟩ := hsome
  have hterm : 0 < absorbedCount S c (allocateSmallPage S E h c).1
      (h.m_vmPageSizePhysical / S.smallLineSize) (allocateSmallPage S E h c).2 L := by
    rw [absorbedCount_pos S c _ _ _ hab]
    exact Nat.pos_of_ne_zero hab.2.2
  have hle : absorbedCount S c (allocateSmallPage S E h c).1
        (h.m_vmPageSizePhysical / S.smallLineSize) (allocateSmallPage S E h c).2 L
      ≤ ∑ L in Finset.range e, absorbedCount S c (allocateSmallPage S E h c).1
          (h.m_vmPageSizePhysical / S.smallLineSize) (allocateSmallPage S E h c).2 L :=
    Finset.single_le_sum (fun _ _ => Nat.zero_le _) (Finset.mem_range.2 hLe)
  exact lt_of_lt_of_le hterm hle

theorem exampleSmallHeap_available : exampleSmallHeap.freeLinesAvailable exampleSizes := by
  intro c page hp
  by_cases hc : c = 2
  · subst hc
    have hpage : page = 2 ^ 23 := by simpa [exampleSmallHeap] using hp
    subst hpage
    decide
  · simp [exampleSmallHeap, hc] at hp

/-- C29: every page linked in `m_smallPagesWithFreeLines[c]` has a line with
reference count zero whose metadata `objectCount` for class `c` is non-zero.
`allocateSmallBumpRanges` keeps this (distinct pages share no line, and the
lists are as `freeLinesLinked` says): it changes lines of the page it scans
only, and on a full cache links that page at a line it found free.
`deallocateSmallLine` keeps it: it changes no line and links the page of an
object whose line, one that holds objects of the class of the page, has
reference count zero.  Hence a call of `allocateSmallBumpRanges` that takes
its page from the list (cache empty, of positive capacity, object counts not
wrapping an `unsigned short`) hands out ranges with at least one object. -/
theorem freeLinesAvailable_preserved (S : Sizes) (E : LargeEnv) (hls : 0 < S.smallLineSize) :
    (∀ (h : Heap) (c : Nat) (a : BumpAllocator) (cache : BumpRangeCache),
      cache.ranges = [] → h.freeLinesLinked →
      (h.m_smallPagesWithFreeLines c = [] →
        (h.pages (allocateSmallPage S E h c).1).hasFreeLines = true ∧
        (h.pages (allocateSmallPage S E h c).1).refCount = 0 ∧
        (h.m_smallPages ≠ [] → (h.pages (allocateSmallPage S E h c).1).objectType = .Small)) →
      (∀ c' q, q ∈ h.m_smallPagesWithFreeLines c' → q ≠ (allocateSmallPage S E h c).1 →
        ∀ L L', L < h.m_vmPageSizePhysical / S.smallLineSize →
          L' < h.m_vmPageSizePhysical / S.smallLineSize →
          Heap.lineAt S q L' ≠ Heap.lineAt S (allocateSmallPage S E h c).1 L) →
      h.freeLinesAvailable S →
      ∃ r, allocateSmallBumpRanges S E h c a cache = some r ∧ r.1.freeLinesAvailable S) ∧
    (∀ (g : Heap) (object : Nat),
      g.freeLinesAvailable S →
      g.lines (Heap.lineOf S object) = 0 →
      ((g.pages (Heap.pageOf S g object)).objectType = .Small →
        ∃ L, L < g.m_vmPageSizePhysical / S.smallLineSize ∧
          Heap.lineOf S object = Heap.lineAt S (Heap.pageOf S g object) L ∧
          (g.lineMetadata S (g.pages (Heap.pageOf S g object)).sizeClass L).objectCount ≠ 0) →
      (deallocateSmallLine S E g object).freeLinesAvailable S) ∧
    (∀ (h : Heap) (c : Nat) (a : BumpAllocator) (cache : BumpRangeCache),
      cache.ranges = [] → 0 < cache.capacity →
      h.m_smallPagesWithFreeLines c ≠ [] →
      h.freeLinesAvailable S →
      ((List.range (h.m_vmPageSizePhysical / S.smallLineSize)).map
        (fun L => (h.lineMetadata S c L).objectCount)).sum < shortSize →
      ∃ r, allocateSmallBumpRanges S E h c a cache = some r ∧
        (allocateSmallPage S E h c).1 = (h.m_smallPagesWithFreeLines c).headD 0 ∧
        0 < ((emittedRanges a r).map (fun ρ => ρ.objectCount)).sum) := by
  refine ⟨?_, ?_, ?_⟩
  · intro h c a cache hempty hlinked hfresh hsep hinv
    obtain ⟨-, hout, -⟩ := allocateSmallPage_linked S E h c hlinked hfresh
    exact allocateSmallBumpRanges_available S E h c a cache hls hempty hout hsep hinv
  · intro g object hinv hzero hheld
    exact deallocateSmallLine_available S E g object hinv hzero hheld
  · intro h c a cache hempty hcap hne hinv hshort
    exact allocateSmallBumpRanges_yields S E h c a cache hls hempty hcap hne hinv hshort

/-- C29 at concrete inputs: the refill of size class 2 from the page at 8 MiB,
the release of the line of the first object of a page full of objects of that
class, and the objects that the refill hands out. -/
theorem freeLinesAvailable_preserved_witness :
    (∃ r, allocateSmallBumpRanges exampleSizes exampleLargeEnv exampleSmallHeap 2
        ⟨0, 24, 0⟩ ⟨[], 3⟩ = some r ∧ r.1.freeLinesAvailable exampleSizes) ∧
    (deallocateSmallLine exampleSizes exampleLargeEnv
      (exampleFullHeap.derefLine (Heap.lineOf exampleSizes (2 ^ 23))) (2 ^ 23)).freeLinesAvailable
        exampleSizes ∧
    (∃ r, allocateSmallBumpRanges exampleSizes exampleLargeEnv exampleSmallHeap 2
        ⟨0, 24, 0⟩ ⟨[], 3⟩ = some r ∧
      (allocateSmallPage exampleSizes exampleLargeEnv exampleSmallHeap 2).1
        = (exampleSmallHeap.m_smallPagesWithFreeLines 2).headD 0 ∧
      0 < ((emittedRanges ⟨0, 24, 0⟩ r).map (fun ρ => ρ.objectCount)).sum) :=
  ⟨(freeLinesAvailable_preserved exampleSizes exampleLargeEnv (by decide)).1
      exampleSmallHeap 2 ⟨0, 24, 0⟩ ⟨[], 3⟩ rfl exampleSmallHeap_linked
      (fun hnil => absurd hnil (by decide))
      (fun c' q hq hne => absurd (by
        by_cases hc : c' = 2
        · subst hc
          simpa [exampleSmallHeap, allocateSmallPage] using hq
        · simp [exampleSmallHeap, hc] at hq) hne)
      exampleSmallHeap_available,
    (freeLinesAvailable_preserved exampleSizes exampleLargeEnv (by decide)).2.1
      (exampleFullHeap.derefLine (Heap.lineOf exampleSizes (2 ^ 23))) (2 ^ 23)
      (fun c page hp => absurd hp (List.not_mem_nil page))
      (by decide)
      (fun _ => ⟨0, by decide, by decide, by decide⟩),
    (freeLinesAvailable_preserved exampleSizes exampleLargeEnv (by decide)).2.2
      exampleSmallHeap 2 ⟨0, 24, 0⟩ ⟨[], 3⟩ rfl (by decide) (by decide)
      exampleSmallHeap_available (by decide)⟩

/-! ## C30: the fresh small page -/

theorem followers_set (S : Sizes) (hsps : 0 < S.smallPageSize) (page m : Nat) (h : Heap)
    (j : Nat) (hj : j < m) :
    (((List.range m).foldl (fun (h : Heap) (i : Nat) =>
        h.setPage (page + (i + 1) * S.smallPageSize)
          { h.pages (page + (i + 1) * S.smallPageSize) with slide := i + 1 }) h).pages
            (page + (j + 1) * S.smallPageSize)).slide = j + 1 := by
  induction m with
  | zero => omega
  | succ m ih =>
    rw [List.range_succ, List.foldl_append]
    simp only [List.foldl_cons, List.foldl_nil]
    by_cases hx : page + (j + 1) * S.smallPageSize = page + (m + 1) * S.smallPageSize
    · have hjm : j + 1 = m + 1 :=
        Nat.eq_of_mul_eq_mul_right hsps (Nat.add_left_cancel hx)
      rw [hx, setPage_same, hjm]
    · rw [setPage_ne _ _ _ hx]
      have hjm : j ≠ m := fun e => hx (by rw [e])
      exact ih (by omega)

/-- The record of the page that the fresh-page branch of `allocateSmallPage`
returns, and the records of its followers. -/
theorem allocateSmallPage_fresh_records (S : Sizes) (E : LargeEnv) (h : Heap) (c : Nat)
    (hnil : h.m_smallPagesWithFreeLines c = []) (hsp : h.m_smallPages = []) :
    ((allocateSmallPage S E h c).2.pages (allocateSmallPage S E h c).1).sizeClass = c ∧
    ((allocateSmallPage S E h c).2.pages (allocateSmallPage S E h c).1).objectType = .Small ∧
    ((allocateSmallPage S E h c).2.pages (allocateSmallPage S E h c).1).smallPageCount
      = h.m_vmPageSizePhysical / S.smallPageSize ∧
    ∀ i, 1 ≤ i → i < h.m_vmPageSizePhysical / S.smallPageSize →
      ((allocateSmallPage S E h c).2.pages
        ((allocateSmallPage S E h c).1 + i * S.smallPageSize)).slide = i := by
  unfold allocateSmallPage
  rw [if_neg (by simp [hnil]), if_neg (by simp [hsp])]
  lift_lets
  extract_lets unalignedSize r object h1 h2 s3 h3 page s4 h4 s5 h5 h6
  have hrP : r.2.m_vmPageSizePhysical = h.m_vmPageSizePhysical :=
    (allocateLargeAligned_tables S E h h.m_vmPageSizePhysical h.m_vmPageSizePhysical
      unalignedSize).1
  clear_value r
  have hp3 : Heap.pageOf S h3 object = Heap.pageOf S h2 object := by
    unfold Heap.pageOf
    simp only [h3]
    rw [setPage_proj (fun p => p.slide) h2 _ _ (by rfl)]
  have hslide5 : ∀ x, (h5.pages x).slide = (h3.pages x).slide := by
    intro x
    have e5 : (h5.pages x).slide = (h4.pages x).slide :=
      setPage_proj (fun p => p.slide) h4 _ _ (by rfl) x
    have e4 : (h4.pages x).slide = (h3.pages x).slide :=
      setPage_proj (fun p => p.slide) h3 _ _ (by rfl) x
    exact e5.trans e4
  have hret : Heap.pageOf S h6 object = page := by
    rcases followers_slide S page ((h5.pages page).smallPageCount - 1) h5
      (object / S.smallPageSize * S.smallPageSize) with hf | hf
    · exact hf
    · show object / S.smallPageSize * S.smallPageSize
          - (h6.pages (object / S.smallPageSize * S.smallPageSize)).slide * S.smallPageSize
        = page
      rw [show (h6.pages (object / S.smallPageSize * S.smallPageSize)).slide
          = (h5.pages (object / S.smallPageSize * S.smallPageSize)).slide from hf, hslide5]
      rfl
  have hfold : ∀ x, ((h6.pages x).sizeClass, (h6.pages x).objectType,
      (h6.pages x).smallPageCount)
        = ((h5.pages x).sizeClass, (h5.pages x).objectType, (h5.pages x).smallPageCount) :=
    fun x =>
      foldl_pages_proj (fun p => (p.sizeClass, p.objectType, p.smallPageCount))
        (fun (h : Heap) (i : Nat) =>
          h.setPage (page + (i + 1) * S.smallPageSize)
            { h.pages (page + (i + 1) * S.smallPageSize) with slide := i + 1 })
        (fun h' i x => setPage_proj (fun p => (p.sizeClass, p.objectType, p.smallPageCount))
          h' _ _ (by rfl) x) _ h5 x
  have e3 : h3.pages page = { s3 with objectType := ObjectType.Small } := by
    show h3.pages (Heap.pageOf S h3 object) = _
    rw [hp3]
    exact setPage_same _ _ _
  have e5 : h5.pages page
      = { s5 with smallPageCount := h4.m_vmPageSizePhysical / S.smallPageSize } :=
    setPage_same _ _ _
  have e4 : s5 = { s4 with sizeClass := c } := setPage_same _ _ _
  have hP4 : h4.m_vmPageSizePhysical = h.m_vmPageSizePhysical := hrP
  have hcount5 : (h5.pages page).smallPageCount = h.m_vmPageSizePhysical / S.smallPageSize := by
    rw [e5, hP4]
  show (h6.pages (Heap.pageOf S h6 object)).sizeClass = c ∧
    (h6.pages (Heap.pageOf S h6 object)).objectType = .Small ∧
    (h6.pages (Heap.pageOf S h6 object)).smallPageCount
      = h.m_vmPageSizePhysical / S.smallPageSize ∧
    ∀ i, 1 ≤ i → i < h.m_vmPageSizePhysical / S.smallPageSize →
      (h6.pages (Heap.pageOf S h6 object + i * S.smallPageSize)).slide = i
  rw [hret]
  have hf := hfold page
  simp only [Prod.mk.injEq] at hf
  obtain ⟨f1, f2, f3⟩ := hf
  refine ⟨?_, ?_, ?_, ?_⟩
  · rw [f1, e5, e4]
  · rw [f2, e5, e4]
    show s4.objectType = .Small
    show (h3.pages page).objectType = .Small
    rw [e3]
  · rw [f3, hcount5]
  · intro i hi1 hi2
    have hsps : 0 < S.smallPageSize := by
      rcases Nat.eq_zero_or_pos S.smallPageSize with h0 | h0
      · rw [h0, Nat.div_zero] at hi2
        omega
      · exact h0
    have hi : i = (i - 1) + 1 := by omega
    rw [hi]
    exact followers_set S hsps page _ h5 (i - 1) (by rw [hcount5]; omega)

/-- C30: in the fresh-page branch of `Heap::allocateSmallPage` (no page with
free lines of the class and no page on the small-page free list) the large
allocation takes one reference on the line of the object it returns and
changes no other line, and the `deref` of that line cancels it: every line
reference count is as before the call, so the first line of the page is back at
its value before the allocation, zero when it was zero.  The record of the page
returned has the size class asked for, the type `Small` and
`smallPageCount = physicalPageSize / smallPageSize`, and the record of
follower `i` carries the slide `i`, for every `1 <= i < smallPageCount`. -/
theorem allocateSmallPage_fresh (S : Sizes) (E : LargeEnv) (h : Heap) (c : Nat)
    (hnil : h.m_smallPagesWithFreeLines c = []) (hsp : h.m_smallPages = []) :
    (allocateLargeAligned S E h h.m_vmPageSizePhysical h.m_vmPageSizePhysical
        (wadd (wsub (wadd S.largeMin h.m_vmPageSizePhysical) S.largeAlignment)
          h.m_vmPageSizePhysical)).2.lines
      = Function.update h.lines
          (Heap.lineOf S (allocateLargeAligned S E h h.m_vmPageSizePhysical
            h.m_vmPageSizePhysical
            (wadd (wsub (wadd S.largeMin h.m_vmPageSizePhysical) S.largeAlignment)
              h.m_vmPageSizePhysical)).1)
          (h.lines (Heap.lineOf S (allocateLargeAligned S E h h.m_vmPageSizePhysical
            h.m_vmPageSizePhysical
            (wadd (wsub (wadd S.largeMin h.m_vmPageSizePhysical) S.largeAlignment)
              h.m_vmPageSizePhysical)).1) + 1) ∧
    (allocateSmallPage S E h c).2.lines
      = ((allocateLargeAligned S E h h.m_vmPageSizePhysical h.m_vmPageSizePhysical
          (wadd (wsub (wadd S.largeMin h.m_vmPageSizePhysical) S.largeAlignment)
            h.m_vmPageSizePhysical)).2.derefLine
        (Heap.lineOf S (allocateLargeAligned S E h h.m_vmPageSizePhysical
          h.m_vmPageSizePhysical
          (wadd (wsub (wadd S.largeMin h.m_vmPageSizePhysical) S.largeAlignment)
            h.m_vmPageSizePhysical)).1)).lines ∧
    (allocateSmallPage S E h c).2.lines = h.lines ∧
    (allocateSmallPage S E h c).2.lines (Heap.lineAt S (allocateSmallPage S E h c).1 0)
      = h.lines (Heap.lineAt S (allocateSmallPage S E h c).1 0) ∧
    (h.lines (Heap.lineAt S (allocateSmallPage S E h c).1 0) = 0 →
      (allocateSmallPage S E h c).2.lines (Heap.lineAt S (allocateSmallPage S E h c).1 0) = 0) ∧
    ((allocateSmallPage S E h c).2.pages (allocateSmallPage S E h c).1).sizeClass = c ∧
    ((allocateSmallPage S E h c).2.pages (allocateSmallPage S E h c).1).objectType = .Small ∧
    ((allocateSmallPage S E h c).2.pages (allocateSmallPage S E h c).1).smallPageCount
      = h.m_vmPageSizePhysical / S.smallPageSize ∧
    ∀ i, 1 ≤ i → i < h.m_vmPageSizePhysical / S.smallPageSize →
      ((allocateSmallPage S E h c).2.pages
        ((allocateSmallPage S E h c).1 + i * S.smallPageSize)).slide = i := by
  have hl := allocateLargeAligned_lines S E h h.m_vmPageSizePhysical h.m_vmPageSizePhysical
    (wadd (wsub (wadd S.largeMin h.m_vmPageSizePhysical) S.largeAlignment)
      h.m_vmPageSizePhysical)
  have hlines := allocateSmallPage_lines S E h c
  obtain ⟨r1, r2, r3, r4⟩ := allocateSmallPage_fresh_records S E h c hnil hsp
  refine ⟨hl, ?_, hlines, by rw [hlines], fun hz => by rw [hlines]; exact hz, r1, r2, r3, r4⟩
  rw [hlines]
  unfold Heap.derefLine
  show h.lines = Function.update _ _ _
  rw [hl]
  funext x
  by_cases hx : x = Heap.lineOf S (allocateLargeAligned S E h h.m_vmPageSizePhysical
      h.m_vmPageSizePhysical
      (wadd (wsub (wadd S.largeMin h.m_vmPageSizePhysical) S.largeAlignment)
        h.m_vmPageSizePhysical)).1
  · rw [hx]
    simp
  · simp [Function.update, hx]

/-- C30 at a concrete input: a fresh page of 16 KiB for size class 2, at
8 MiB + 16 KiB, with three followers. -/
theorem allocateSmallPage_fresh_witness :
    ((allocateSmallPage exampleSizes exampleLargeEnv exampleBigPageHeap 2).1 = 2 ^ 23 + 16384 ∧
      ((allocateSmallPage exampleSizes exampleLargeEnv exampleBigPageHeap 2).2.pages
        (2 ^ 23 + 16384 + 2 * 4096)).slide = 2) ∧
    ((allocateSmallPage exampleSizes exampleLargeEnv exampleBigPageHeap 2).2.lines
        = exampleBigPageHeap.lines ∧
      ((allocateSmallPage exampleSizes exampleLargeEnv exampleBigPageHeap 2).2.pages
        (allocateSmallPage exampleSizes exampleLargeEnv exampleBigPageHeap 2).1).sizeClass = 2 ∧
      ((allocateSmallPage exampleSizes exampleLargeEnv exampleBigPageHeap 2).2.pages
        (allocateSmallPage exampleSizes exampleLargeEnv exampleBigPageHeap 2).1).objectType
          = .Small ∧
      ((allocateSmallPage exampleSizes exampleLargeEnv exampleBigPageHeap 2).2.pages
        (allocateSmallPage exampleSizes exampleLargeEnv exampleBigPageHeap 2).1).smallPageCount
          = exampleBigPageHeap.m_vmPageSizePhysical / exampleSizes.smallPageSize ∧
      ∀ i, 1 ≤ i → i < exampleBigPageHeap.m_vmPageSizePhysical / exampleSizes.smallPageSize →
        ((allocateSmallPage exampleSizes exampleLargeEnv exampleBigPageHeap 2).2.pages
          ((allocateSmallPage exampleSizes exampleLargeEnv exampleBigPageHeap 2).1
            + i * exampleSizes.smallPageSize)).slide = i) :=
  ⟨by decide,
    (allocateSmallPage_fresh exampleSizes exampleLargeEnv exampleBigPageHeap 2 rfl rfl).2.2.1,
    (allocateSmallPage_fresh exampleSizes exampleLargeEnv exampleBigPageHeap 2 rfl rfl).2.2.2.2.2⟩

/-! ## C13: a small page that loses its last reference -/

/-- The reference count that `deallocateSmallLine` leaves in the record of a
`Small` page is the count at entry less one, on each of its three paths. -/
theorem deallocateSmallLine_refCount (S : Sizes) (E : LargeEnv) (h : Heap) (object : Nat)
    (htype : ¬(h.pages (Heap.pageOf S h object)).objectType = .Large) :
    ((deallocateSmallLine S E h object).pages (Heap.pageOf S h object)).refCount
      = (h.pages (Heap.pageOf S h object)).refCount - 1 := by
  by_cases hflag : (h.pages (Heap.pageOf S h object)).hasFreeLines = false
  · rw [deallocateSmallLine_link S E h object htype hflag]
    show (Function.update h.pages (Heap.pageOf S h object) _ (Heap.pageOf S h object)).refCount = _
    rw [Function.update_same]
  · have hflag' : (h.pages (Heap.pageOf S h object)).hasFreeLines = true := by
      simpa using hflag
    by_cases hrc : (h.pages (Heap.pageOf S h object)).refCount - 1 = 0
    · rw [deallocateSmallLine_free S E h object htype hflag' hrc]
      show (Function.update h.pages (Heap.pageOf S h object) _
        (Heap.pageOf S h object)).refCount = _
      rw [Function.update_same]
    · rw [deallocateSmallLine_keep S E h object htype hflag' hrc]
      show (Function.update h.pages (Heap.pageOf S h object) _
        (Heap.pageOf S h object)).refCount = _
      rw [Function.update_same]

/-- C13: for a page of type `Small` that holds a reference when
`Heap::deallocateSmallLine` is entered, under the assertion
`BASSERT(page->refCount(lock))` of the function (a page without free lines
keeps a reference after the decrement): if the reference count of the page is
zero after the decrement, then the page is removed from
`smallPagesWithFreeLines[sizeClass]`, pushed onto `smallPages`, and the
scavenger is signalled once.  The page is then a `Small` page with reference
count zero that is on the small-page free list, and it is in the list of its
size class no more when that list held it at most once. -/
theorem deallocateSmallLine_refCount_zero (S : Sizes) (E : LargeEnv) (h : Heap) (object : Nat)
    (hsmall : (h.pages (Heap.pageOf S h object)).objectType = .Small)
    (_hheld : 0 < (h.pages (Heap.pageOf S h object)).refCount)
    (hassert : (h.pages (Heap.pageOf S h object)).hasFreeLines = false →
      (h.pages (Heap.pageOf S h object)).refCount - 1 ≠ 0)
    (hzero : ((deallocateSmallLine S E h object).pages (Heap.pageOf S h object)).refCount = 0) :
    (deallocateSmallLine S E h object).m_smallPagesWithFreeLines
        (h.pages (Heap.pageOf S h object)).sizeClass
      = (h.m_smallPagesWithFreeLines (h.pages (Heap.pageOf S h object)).sizeClass).erase
          (Heap.pageOf S h object) ∧
    (deallocateSmallLine S E h object).m_smallPages
      = h.m_smallPages ++ [Heap.pageOf S h object] ∧
    (deallocateSmallLine S E h object).scavengerRuns = h.scavengerRuns + 1 ∧
    ((deallocateSmallLine S E h object).pages (Heap.pageOf S h object)).objectType = .Small ∧
    Heap.pageOf S h object ∈ (deallocateSmallLine S E h object).m_smallPages ∧
    ((h.m_smallPagesWithFreeLines (h.pages (Heap.pageOf S h object)).sizeClass).Nodup →
      Heap.pageOf S h object ∉ (deallocateSmallLine S E h object).m_smallPagesWithFreeLines
        (h.pages (Heap.pageOf S h object)).sizeClass) := by
  have htype : ¬(h.pages (Heap.pageOf S h object)).objectType = .Large := by
    rw [hsmall]
    exact fun e => ObjectType.noConfusion e
  have hrc : (h.pages (Heap.pageOf S h object)).refCount - 1 = 0 := by
    rw [← deallocateSmallLine_refCount S E h object htype]
    exact hzero
  have hflag : (h.pages (Heap.pageOf S h object)).hasFreeLines = true := by
    rcases Bool.eq_false_or_eq_true (h.pages (Heap.pageOf S h object)).hasFreeLines with hf | hf
    · exact hf
    · exact absurd hrc (hassert hf)
  have heq := deallocateSmallLine_free S E h object htype hflag hrc
  have hlist : (deallocateSmallLine S E h object).m_smallPagesWithFreeLines
        (h.pages (Heap.pageOf S h object)).sizeClass
      = (h.m_smallPagesWithFreeLines (h.pages (Heap.pageOf S h object)).sizeClass).erase
          (Heap.pageOf S h object) := by
    rw [heq]
    exact Function.update_same (h.pages (Heap.pageOf S h object)).sizeClass _
      h.m_smallPagesWithFreeLines
  have hpages : (deallocateSmallLine S E h object).m_smallPages
      = h.m_smallPages ++ [Heap.pageOf S h object] := by
    rw [heq]
  have hrec : (deallocateSmallLine S E h object).pages (Heap.pageOf S h object)
      = { h.pages (Heap.pageOf S h object) with
          refCount := (h.pages (Heap.pageOf S h object)).refCount - 1 } := by
    rw [heq]
    exact Function.update_same (Heap.pageOf S h object) _ h.pages
  refine ⟨hlist, hpages, by rw [heq], ?_, ?_, ?_⟩
  · rw [hrec]
    exact hsmall
  · rw [hpages]
    simp
  · intro hnd
    rw [hlist]
    exact fun hmem => (List.Nodup.mem_erase_iff hnd).1 hmem |>.1 rfl

/-- C13 at a concrete input: the page at 8 MiB of `exampleSmallHeap` once its
reference count has come down to one. -/
theorem deallocateSmallLine_refCount_zero_witness :
    (deallocateSmallLine exampleSizes exampleLargeEnv
        (exampleSmallHeap.setPage (2 ^ 23) ⟨1, 2, .Small, true, 1, 0⟩)
          (2 ^ 23 + 264)).m_smallPagesWithFreeLines 2 = [] ∧
    (deallocateSmallLine exampleSizes exampleLargeEnv
        (exampleSmallHeap.setPage (2 ^ 23) ⟨1, 2, .Small, true, 1, 0⟩)
          (2 ^ 23 + 264)).m_smallPages = [2 ^ 23] ∧
    (deallocateSmallLine exampleSizes exampleLargeEnv
        (exampleSmallHeap.setPage (2 ^ 23) ⟨1, 2, .Small, true, 1, 0⟩)
          (2 ^ 23 + 264)).scavengerRuns = 1 ∧
    ((deallocateSmallLine exampleSizes exampleLargeEnv
        (exampleSmallHeap.setPage (2 ^ 23) ⟨1, 2, .Small, true, 1, 0⟩) (2 ^ 23 + 264)).pages
          (2 ^ 23)).objectType = .Small ∧
    2 ^ 23 ∈ (deallocateSmallLine exampleSizes exampleLargeEnv
        (exampleSmallHeap.setPage (2 ^ 23) ⟨1, 2, .Small, true, 1, 0⟩)
          (2 ^ 23 + 264)).m_smallPages ∧
    (([2 ^ 23] : List Nat).Nodup →
      2 ^ 23 ∉ (deallocateSmallLine exampleSizes exampleLargeEnv
        (exampleSmallHeap.setPage (2 ^ 23) ⟨1, 2, .Small, true, 1, 0⟩)
          (2 ^ 23 + 264)).m_smallPagesWithFreeLines 2) :=
  deallocateSmallLine_refCount_zero exampleSizes exampleLargeEnv
    (exampleSmallHeap.setPage (2 ^ 23) ⟨1, 2, .Small, true, 1, 0⟩) (2 ^ 23 + 264)
    (by decide) (by decide) (by decide) (by decide)

/-- The assertion `BASSERT(page->refCount(lock))` needs a size class with more
than one line in which an object begins.  With objects of 3 KiB on 4 KiB pages
a refill takes the page at 8 MiB from the small-page free list and hands out
its one object: the page is left with one reference and its `hasFreeLines`
flag clear.  When that object is freed, `deallocateSmallLine` runs on the path
for pages without free lines with the reference count at zero after the
decrement, the state that the assertion rules out: the page gets its flag set
and is linked into `smallPagesWithFreeLines[0]`. -/
theorem deallocateSmallLine_single_line_example :
    (allocateSmallBumpRanges exampleWideSizes exampleLargeEnv exampleWideHeap 0 ⟨0, 3072, 0⟩
        ⟨[], 3⟩).map (fun r => (r.1.pages (2 ^ 23), r.1.lines (2 ^ 23), r.1.m_smallPages,
          r.2.1.m_ptr, r.2.1.m_remaining))
      = some (⟨1, 0, .Small, false, 1, 0⟩, 1, [], 2 ^ 23, 1) ∧
    (allocateSmallBumpRanges exampleWideSizes exampleLargeEnv exampleWideHeap 0 ⟨0, 3072, 0⟩
        ⟨[], 3⟩).map (fun r =>
          ((deallocateSmallLine exampleWideSizes exampleLargeEnv
              (r.1.derefLine (Heap.lineOf exampleWideSizes (2 ^ 23))) (2 ^ 23)).pages (2 ^ 23),
            (deallocateSmallLine exampleWideSizes exampleLargeEnv
              (r.1.derefLine (Heap.lineOf exampleWideSizes (2 ^ 23)))
                (2 ^ 23)).m_smallPagesWithFreeLines 0,
            (deallocateSmallLine exampleWideSizes exampleLargeEnv
              (r.1.derefLine (Heap.lineOf exampleWideSizes (2 ^ 23))) (2 ^ 23)).m_smallPages,
            (deallocateSmallLine exampleWideSizes exampleLargeEnv
              (r.1.derefLine (Heap.lineOf exampleWideSizes (2 ^ 23))) (2 ^ 23)).scavengerRuns))
      = some (⟨0, 0, .Small, true, 1, 0⟩, [2 ^ 23], [], 0) := by
  decide

end bmalloc
